import Mathlib

/-!
# Volcano scheduler: the proportion plugin over a shallow embedding

The development follows `pkg/scheduler/plugins/proportion/proportion.go` and the
vendored `helpers.go`.  Go maps are association lists (the list order is the order
in which the map is visited), `float64` quantities are exact rationals, `int32`
arithmetic wraps explicitly, and a nil dereference makes the embedded function
return `none`.
-/

set_option autoImplicit false

/-! ## Go maps as association lists -/

/-- Read of a Go map: the first binding of the key, if any. -/
def mapGet {K V : Type} [DecidableEq K] : List (K × V) → K → Option V
  | [], _ => none
  | (k, v) :: m, x => if x = k then some v else mapGet m x

/-- Write of a Go map: replaces the binding of the key or adds one. -/
def mapSet {K V : Type} [DecidableEq K] : List (K × V) → K → V → List (K × V)
  | [], x, v => [(x, v)]
  | (k, w) :: m, x, v => if x = k then (k, v) :: m else (k, w) :: mapSet m x v

/-- Value of a scalar map at a name; a name the map lacks reads as zero, as in Go. -/
def scalarGet : List (String × ℚ) → String → ℚ
  | [], _ => 0
  | (k, v) :: m, x => if x = k then v else scalarGet m x

/-- Names bound by a scalar map. -/
def scalarKeys (m : List (String × ℚ)) : List String := m.map Prod.fst

/-- The scalar map that binds exactly the names `ks`, each to `f` of it.  A Go map has
no order of its own; the bindings are kept sorted by name, once each. -/
def scalarBuild (ks : List String) (f : String → ℚ) : List (String × ℚ) :=
  (ks.toFinset.sort (· ≤ ·)).map fun k => (k, f k)

/-- Equality of two Go maps as `reflect.DeepEqual` sees it: same names, same values. -/
def scalarEq (a b : List (String × ℚ)) : Bool :=
  (scalarKeys a).all (fun k => decide (k ∈ scalarKeys b) && decide (scalarGet a k = scalarGet b k)) &&
  (scalarKeys b).all (fun k => decide (k ∈ scalarKeys a))

/-- Wrap-around of Go `int32` arithmetic. -/
def int32 (x : Int) : Int := (x + 2147483648) % 4294967296 - 2147483648

namespace api

/-- Task, job and queue identifiers (`types.UID` strings). -/
abbrev TaskID := String

/-- Identifier of a job. -/
abbrev JobID := String

/-- Identifier of a queue. -/
abbrev QueueID := String

/-- Modelled from the spec: `v1.ResourceName` is not under src/. The names a Resource
knows: milli-CPU, memory, and the named scalar resources (§3 Resource). -/
inductive ResourceName where
  | cpu
  | memory
  | scalar (name : String)
deriving DecidableEq, Repr

/-- Modelled from the spec: `v1.ResourceList` is not under src/. A list of named
quantities, here already in the unit the Resource keeps (milli-CPU, bytes, milli-units). -/
abbrev ResourceList := List (ResourceName × ℚ)

/-- Modelled from the spec: `api.Resource` (resource_info.go) is not under src/.
§3: a vector with milli-CPU, memory-bytes and a mapping from scalar-resource-name to a
real.  The field names are those proportion.go, namespace_info.go and helpers.go use;
the map may be nil (`none`), which helpers.Min tests. -/
structure Resource where
  MilliCPU : ℚ
  Memory : ℚ
  ScalarResources : Option (List (String × ℚ))
deriving DecidableEq, Repr

/-- Modelled from the spec: `api.DimensionDefaultValue` with its two constants
`api.Zero` and `api.Infinity` is not under src/; §3 and §4.3 read it as the tolerance
mode of the all-dimension comparisons. -/
inductive DimensionDefaultValue where
  | Zero
  | Infinity
deriving DecidableEq, Repr

namespace Resource

/-- The scalar bindings of a resource, empty for a nil map. -/
def scalars (r : Resource) : List (String × ℚ) := r.ScalarResources.getD []

/-- Modelled from the spec: `Resource.Get` is not under src/. The value of one
dimension; a scalar the resource does not name reads as zero. -/
def Get (r : Resource) : ResourceName → ℚ
  | .cpu => r.MilliCPU
  | .memory => r.Memory
  | .scalar n => scalarGet r.scalars n

/-- Modelled from the spec: `Resource.ResourceNames` is not under src/. The dimensions
of the vector: cpu, memory, then the scalar names. -/
def ResourceNames (r : Resource) : List ResourceName :=
  .cpu :: .memory :: (scalarKeys r.scalars).dedup.map ResourceName.scalar

/-- Modelled from the spec: `Resource.Clone` is not under src/. Values are immutable
here, so the copy is the value itself. -/
def Clone (r : Resource) : Resource := r

/-- Modelled from the spec: `Resource.Add` is not under src/. §3 "add": the
dimension-wise sum; the scalar map is touched only when `rr` binds a scalar. -/
def Add (r rr : Resource) : Resource :=
  { MilliCPU := r.MilliCPU + rr.MilliCPU
    Memory := r.Memory + rr.Memory
    ScalarResources :=
      if rr.scalars.isEmpty then r.ScalarResources
      else some (scalarBuild (scalarKeys r.scalars ++ scalarKeys rr.scalars)
        fun k => scalarGet r.scalars k + scalarGet rr.scalars k) }

/-- Modelled from the spec: `Resource.Sub` is not under src/. §3 "subtract": the
dimension-wise difference.  The spec leaves what happens on under-flow to the caller
(saturate or signal); the difference itself is what both agree on when no dimension
under-flows, and it is what is kept here. -/
def Sub (r rr : Resource) : Resource :=
  { MilliCPU := r.MilliCPU - rr.MilliCPU
    Memory := r.Memory - rr.Memory
    ScalarResources :=
      if rr.scalars.isEmpty then r.ScalarResources
      else some (scalarBuild (scalarKeys r.scalars ++ scalarKeys rr.scalars)
        fun k => scalarGet r.scalars k - scalarGet rr.scalars k) }

/-- Modelled from the spec: `Resource.Multi` is not under src/. §3 "multiply by a
scalar". -/
def Multi (r : Resource) (ratio : ℚ) : Resource :=
  { MilliCPU := r.MilliCPU * ratio
    Memory := r.Memory * ratio
    ScalarResources := r.ScalarResources.map fun m =>
      scalarBuild (scalarKeys m) fun k => scalarGet m k * ratio }

/-- Modelled from the spec: `Resource.LessEqualInAllDimension` is not under src/.
§3 "per-dimension comparisons parameterized by a tolerance mode": `r ≤ rr` in every
dimension.  The quantities are exact, so there is no rounding for the epsilon of the
Infinity mode to absorb and both modes compare exactly. -/
def LessEqualInAllDimension (r rr : Resource) (_defaultValue : DimensionDefaultValue) : Bool :=
  decide (r.MilliCPU ≤ rr.MilliCPU) && decide (r.Memory ≤ rr.Memory) &&
  (scalarKeys r.scalars ++ scalarKeys rr.scalars).all
    fun k => decide (scalarGet r.scalars k ≤ scalarGet rr.scalars k)

/-- Modelled from the spec: `Resource.LessInAllDimension` is not under src/. The
strict per-dimension comparison of §3: `r < rr` in every dimension. -/
def LessInAllDimension (r rr : Resource) (_defaultValue : DimensionDefaultValue) : Bool :=
  decide (r.MilliCPU < rr.MilliCPU) && decide (r.Memory < rr.Memory) &&
  (scalarKeys r.scalars ++ scalarKeys rr.scalars).all
    fun k => decide (scalarGet r.scalars k < scalarGet rr.scalars k)

/-- Modelled from the spec: `Resource.MinDimensionResource` is not under src/. §4.3:
"for each dimension d where b_d > 0, take min(a_d, b_d); otherwise keep a_d". -/
def MinDimensionResource (r rr : Resource) : Resource :=
  { MilliCPU := if 0 < rr.MilliCPU then min r.MilliCPU rr.MilliCPU else r.MilliCPU
    Memory := if 0 < rr.Memory then min r.Memory rr.Memory else r.Memory
    ScalarResources := r.ScalarResources.map fun m =>
      scalarBuild (scalarKeys m) fun k =>
        if 0 < scalarGet rr.scalars k then min (scalarGet m k) (scalarGet rr.scalars k)
        else scalarGet m k }

/-- Modelled from the spec: `Resource.Diff` is not under src/. §3 "dimension-wise diff
yielding (increase, decrease) pair": what `r` has above `rr`, and what it has below. -/
def Diff (r rr : Resource) : Resource × Resource :=
  let ks := scalarKeys r.scalars ++ scalarKeys rr.scalars
  ({ MilliCPU := if rr.MilliCPU < r.MilliCPU then r.MilliCPU - rr.MilliCPU else 0
     Memory := if rr.Memory < r.Memory then r.Memory - rr.Memory else 0
     ScalarResources :=
       if ks.isEmpty then none
       else some (scalarBuild ks fun k =>
         if scalarGet rr.scalars k < scalarGet r.scalars k
         then scalarGet r.scalars k - scalarGet rr.scalars k else 0) },
   { MilliCPU := if r.MilliCPU < rr.MilliCPU then rr.MilliCPU - r.MilliCPU else 0
     Memory := if r.Memory < rr.Memory then rr.Memory - r.Memory else 0
     ScalarResources :=
       if ks.isEmpty then none
       else some (scalarBuild ks fun k =>
         if scalarGet r.scalars k < scalarGet rr.scalars k
         then scalarGet rr.scalars k - scalarGet r.scalars k else 0) })

/-- Modelled from the spec: `Resource.IsEmpty` is not under src/. §3 "emptiness (all
dimensions ≤ zero)". -/
def IsEmpty (r : Resource) : Bool :=
  decide (r.MilliCPU ≤ 0) && decide (r.Memory ≤ 0) &&
  r.scalars.all fun kv => decide (scalarGet r.scalars kv.1 ≤ 0)

/-- The comparison `reflect.DeepEqual` makes of two resources: the two numbers, and the
scalar maps, where a nil map equals only a nil map. -/
def DeepEqual (a b : Resource) : Bool :=
  decide (a.MilliCPU = b.MilliCPU) && decide (a.Memory = b.Memory) &&
  match a.ScalarResources, b.ScalarResources with
  | none, none => true
  | some x, some y => scalarEq x y
  | _, _ => false

end Resource

/-- Modelled from the spec: `api.EmptyResource` is not under src/. The zero vector,
with a nil scalar map. -/
def EmptyResource : Resource := { MilliCPU := 0, Memory := 0, ScalarResources := none }

/-- The scalar entries of a resource list, in the order of the list. -/
def scalarEntries : ResourceList → List (String × ℚ)
  | [] => []
  | (.scalar n, v) :: rl => (n, v) :: scalarEntries rl
  | (_, _) :: rl => scalarEntries rl

/-- Modelled from the spec: `api.NewResource` is not under src/. The Resource of a
resource list: cpu and memory go to the two fields, every other name to the scalar
map, which stays nil when the list names no scalar. -/
def NewResource (rl : ResourceList) : Resource :=
  { MilliCPU := (mapGet rl .cpu).getD 0
    Memory := (mapGet rl .memory).getD 0
    ScalarResources :=
      if (scalarEntries rl).isEmpty then none
      else some (scalarBuild (scalarKeys (scalarEntries rl)) (scalarGet (scalarEntries rl))) }

end api

namespace helpers

open api

/-- Embedding of `helpers.Min`: the minimum of the two numbers; the scalar map is nil
when either map is nil, and otherwise binds the names of `l`, each to the minimum of
its value in `l` and its value (zero when absent) in `r`. -/
def Min (l r : Resource) : Resource :=
  { MilliCPU := min l.MilliCPU r.MilliCPU
    Memory := min l.Memory r.Memory
    ScalarResources :=
      match l.ScalarResources, r.ScalarResources with
      | some lm, some rm =>
          some (scalarBuild (scalarKeys lm) fun k => min (scalarGet lm k) (scalarGet rm k))
      | _, _ => none }

/-- Embedding of `helpers.Share`. -/
def Share (l r : ℚ) : ℚ :=
  if r = 0 then (if l = 0 then 0 else 1) else l / r

end helpers

namespace api

/-- Modelled from the spec: `api.TaskStatus` is not under src/. The closed set of §3. -/
inductive TaskStatus where
  | Pending
  | Allocated
  | Pipelined
  | Binding
  | Bound
  | Running
  | Releasing
  | Succeeded
  | Failed
  | Unknown
deriving DecidableEq, Repr

/-- Modelled from the spec: `api.AllocatedStatus` is not under src/. §3: the statuses
that consume node capacity are Allocated, Pipelined, Binding, Bound, Running and
Releasing. -/
def AllocatedStatus : TaskStatus → Bool
  | .Allocated | .Pipelined | .Binding | .Bound | .Running | .Releasing => true
  | _ => false

/-- Embedding of `TaskInfo` (job_info.go), without the pod it was built from. -/
structure TaskInfo where
  UID : TaskID
  Job : JobID
  Name : String
  Namespace : String
  Resreq : Resource
  NodeName : String
  Status : TaskStatus
  Priority : Int
deriving DecidableEq, Repr

/-- Embedding of `tasksMap` (job_info.go): tasks by their UID. -/
abbrev tasksMap := List (TaskID × TaskInfo)

/-- Modelled from the spec: the phase of a pod group (`scheduling.PodGroupPhase`) is
not under src/; `Inqueue` is the phase proportion.go tests. -/
inductive PodGroupPhase where
  | Pending
  | Running
  | Unknown
  | Inqueue
deriving DecidableEq, Repr

/-- Modelled from the spec: the pod group (gang descriptor) is not under src/. The two
fields proportion.go reads: `Status.Phase` and the nullable `Spec.MinResources`. -/
structure PodGroup where
  Phase : PodGroupPhase
  MinResources : Option ResourceList
deriving DecidableEq, Repr

/-- Embedding of `JobInfo` (job_info.go) with the pod group proportion.go reads. -/
structure JobInfo where
  UID : JobID
  Name : String
  Namespace : String
  Queue : QueueID
  Priority : Int
  MinAvailable : Int
  TaskStatusIndex : List (TaskStatus × tasksMap)
  Tasks : tasksMap
  Allocated : Resource
  TotalRequest : Resource
  PodGroup : Option PodGroup
deriving DecidableEq, Repr

/-- Modelled from the spec: `JobInfo.GetMinResources` is not under src/. The Resource
of the pod group's MinResources, empty when the pod group has none; `none` for a job
without pod group (nil dereference). -/
def JobInfo.GetMinResources (ji : JobInfo) : Option Resource :=
  match ji.PodGroup with
  | none => none
  | some pg =>
    match pg.MinResources with
    | none => some EmptyResource
    | some rl => some (NewResource rl)

/-- Modelled from the spec: `api.QueueInfo` is not under src/. The fields proportion.go
reads: UID, Name, the `int32` Weight and `Queue.Spec.Capability`. -/
structure QueueInfo where
  UID : QueueID
  Name : String
  Weight : Int
  Capability : ResourceList
deriving DecidableEq, Repr

end api

namespace util

/-- Modelled from the spec: the admission votes of `plugins/util` are not under src/;
§4.2 names them Permit, Reject and Abstain. -/
inductive Vote where
  | Permit
  | Abstain
  | Reject
deriving DecidableEq, Repr

end util

namespace framework

open api

/-- Modelled from the spec: `framework.Session` is not under src/. The three fields
proportion.go reads. -/
structure Session where
  Jobs : List (JobID × JobInfo)
  Queues : List (QueueID × QueueInfo)
  TotalResource : Resource
deriving Repr

end framework

namespace proportion

open api framework

/-- Embedding of `queueAttr`. A nil capability is `none`. -/
structure queueAttr where
  queueID : QueueID
  name : String
  weight : Int
  share : ℚ
  deserved : Resource
  allocated : Resource
  request : Resource
  inqueue : Resource
  capability : Option Resource
deriving DecidableEq, Repr

/-- Embedding of `proportionPlugin`; a nil pointer or nil map is `none`. -/
structure proportionPlugin where
  totalResource : Option Resource
  queueOpts : Option (List (QueueID × queueAttr))
deriving DecidableEq, Repr

/-- Embedding of `New`. -/
def New : proportionPlugin :=
  { totalResource := some EmptyResource, queueOpts := some [] }

/-- Embedding of `updateShare`. -/
def updateShare (attr : queueAttr) : queueAttr :=
  { attr with
    share := attr.deserved.ResourceNames.foldl
      (fun res rn =>
        let share := helpers.Share (attr.allocated.Get rn) (attr.deserved.Get rn)
        if share > res then share else res) 0 }

/-- Sum of the requests of the tasks of one status bucket, added to `r`. -/
def addTasks (tasks : tasksMap) (r : Resource) : Resource :=
  tasks.foldl (fun acc kv => acc.Add kv.2.Resreq) r

/-- The body of the loop of OnSessionOpen over `job.TaskStatusIndex` for one status
bucket (lines 100-109). -/
def accountBucket (attr : queueAttr) (bucket : TaskStatus × tasksMap) : queueAttr :=
  if AllocatedStatus bucket.1 then
    { attr with allocated := addTasks bucket.2 attr.allocated,
                request := addTasks bucket.2 attr.request }
  else if bucket.1 = TaskStatus.Pending then
    { attr with request := addTasks bucket.2 attr.request }
  else attr

/-- The loop of OnSessionOpen over `job.TaskStatusIndex` (lines 99-110). -/
def accountJob (attr : queueAttr) (job : JobInfo) : queueAttr :=
  job.TaskStatusIndex.foldl accountBucket attr

/-- The attributes OnSessionOpen creates for a queue seen for the first time
(lines 80-92). -/
def newAttr (queue : QueueInfo) : queueAttr :=
  { queueID := queue.UID
    name := queue.Name
    weight := queue.Weight
    share := 0
    deserved := EmptyResource
    allocated := EmptyResource
    request := EmptyResource
    inqueue := EmptyResource
    capability := if queue.Capability.length ≠ 0 then some (NewResource queue.Capability) else none }

/-- One pass of the loop of OnSessionOpen over `ssn.Jobs` (lines 76-115); `none` when a
nil pointer is dereferenced (unknown queue, job without pod group). -/
def openJob (ssn : Session) (opts : List (QueueID × queueAttr)) (job : JobInfo) :
    Option (List (QueueID × queueAttr)) :=
  (match mapGet opts job.Queue with
    | some _ => some opts
    | none => (mapGet ssn.Queues job.Queue).map fun queue => mapSet opts job.Queue (newAttr queue)).bind
  fun opts =>
  (mapGet opts job.Queue).bind fun attr =>
  job.PodGroup.bind fun pg =>
  job.GetMinResources.map fun minRes =>
  let attr := accountJob attr job
  let attr := if pg.Phase = PodGroupPhase.Inqueue then { attr with inqueue := attr.inqueue.Add minRes } else attr
  mapSet opts job.Queue attr

/-- The whole loop over `ssn.Jobs`. -/
def buildAttrs (ssn : Session) : List (JobID × JobInfo) → List (QueueID × queueAttr) →
    Option (List (QueueID × queueAttr))
  | [], opts => some opts
  | (_, job) :: jobs, opts => (openJob ssn opts job).bind (buildAttrs ssn jobs)

/-- The total weight of the queues that are not met (lines 132-138), in `int32`. -/
def totalWeight (meet : List QueueID) (opts : List (QueueID × queueAttr)) : Int :=
  opts.foldl (fun acc kv => if kv.2.queueID ∈ meet then acc else int32 (acc + kv.2.weight)) 0

/-- The state of the water-filling loop. -/
structure fillState where
  opts : List (QueueID × queueAttr)
  meet : List QueueID
  remaining : Resource
deriving Repr

/-- The state of one pass over the queues: the attributes rewritten so far, the met
set, and the two accumulators. -/
structure passState where
  done : List (QueueID × queueAttr)
  meet : List QueueID
  increasedDeserved : Resource
  decreasedDeserved : Resource
deriving Repr

/-- The new deserved of a queue and whether the queue is met (lines 159-174). -/
def fillQueue (remaining : Resource) (totalWeight : Int) (attr : queueAttr) : queueAttr × Bool :=
  let deserved := attr.deserved.Add (remaining.Clone.Multi ((attr.weight : ℚ) / (totalWeight : ℚ)))
  match attr.capability with
  | some capability =>
    if !deserved.LessEqualInAllDimension capability DimensionDefaultValue.Infinity then
      ({ attr with deserved := helpers.Min (helpers.Min deserved capability) attr.request }, true)
    else if attr.request.LessEqualInAllDimension deserved DimensionDefaultValue.Zero then
      ({ attr with deserved := helpers.Min deserved attr.request }, true)
    else
      ({ attr with deserved := deserved.MinDimensionResource attr.request }, false)
  | none =>
    if attr.request.LessEqualInAllDimension deserved DimensionDefaultValue.Zero then
      ({ attr with deserved := helpers.Min deserved attr.request }, true)
    else
      ({ attr with deserved := deserved.MinDimensionResource attr.request }, false)

/-- The body of the inner loop for one queue (lines 152-186). -/
def passQueue (remaining : Resource) (totalWeight : Int) (st : passState)
    (kv : QueueID × queueAttr) : passState :=
  if kv.2.queueID ∈ st.meet then { st with done := st.done ++ [kv] }
  else
    let res := fillQueue remaining totalWeight kv.2
    let attr := updateShare res.1
    let diff := attr.deserved.Diff kv.2.deserved
    { done := st.done ++ [(kv.1, attr)]
      meet := if res.2 then st.meet ++ [attr.queueID] else st.meet
      increasedDeserved := st.increasedDeserved.Add diff.1
      decreasedDeserved := st.decreasedDeserved.Add diff.2 }

/-- One round of the water-filling loop after the weight test (lines 146-188). -/
def fillRound (totalWeight : Int) (s : fillState) : fillState :=
  let st := s.opts.foldl (passQueue s.remaining totalWeight)
    { done := [], meet := s.meet, increasedDeserved := EmptyResource, decreasedDeserved := EmptyResource }
  { opts := st.done
    meet := st.meet
    remaining := (s.remaining.Sub st.increasedDeserved).Add st.decreasedDeserved }

/-- The water-filling loop (lines 131-194), run for at most `fuel` rounds: `none` when
the rounds run out before the loop breaks. -/
def waterFill : Nat → fillState → Option fillState
  | 0, _ => none
  | fuel + 1, s =>
    let w := totalWeight s.meet s.opts
    if w = 0 then some s
    else
      let s' := fillRound w s
      if s'.remaining.IsEmpty || s'.remaining.DeepEqual s.remaining then some s'
      else waterFill fuel s'

/-- The water-filling loop (lines 131-194) followed for at most `rounds` rounds: the
state in which the loop breaks, when it breaks within them, and otherwise the state at
the end of round `rounds`. -/
def waterFillRounds : Nat → fillState → fillState
  | 0, s => s
  | rounds + 1, s =>
    let w := totalWeight s.meet s.opts
    if w = 0 then s
    else
      let s' := fillRound w s
      if s'.remaining.IsEmpty || s'.remaining.DeepEqual s.remaining then s'
      else waterFillRounds rounds s'

/-- Embedding of `OnSessionOpen` up to the end of the water-filling loop (lines
70-194); the callbacks it registers are the functions below.  `none` when the code
panics on a nil pointer or nil map, or when `fuel` rounds do not end the loop. -/
def OnSessionOpen (fuel : Nat) (pp : proportionPlugin) (ssn : Session) : Option proportionPlugin :=
  pp.totalResource.bind fun total0 =>
  let total := total0.Add ssn.TotalResource
  (match pp.queueOpts, ssn.Jobs with
    | none, [] => some none
    | none, _ :: _ => none
    | some opts, jobs => (buildAttrs ssn jobs opts).map some).bind fun built =>
  (waterFill fuel { opts := built.getD [], meet := [], remaining := total.Clone }).map
    fun (s : fillState) =>
      ({ totalResource := some total, queueOpts := built.map fun _ => s.opts } : proportionPlugin)

/-- `OnSessionOpen` (lines 70-194) with the water-filling loop followed for at most
`rounds` rounds: the plugin state when the loop breaks within them, and otherwise the
state at the end of round `rounds`.  `none` only when the code panics on a nil pointer or
nil map. -/
def OnSessionOpenRounds (rounds : Nat) (pp : proportionPlugin) (ssn : Session) :
    Option proportionPlugin :=
  pp.totalResource.bind fun total0 =>
  let total := total0.Add ssn.TotalResource
  (match pp.queueOpts, ssn.Jobs with
    | none, [] => some none
    | none, _ :: _ => none
    | some opts, jobs => (buildAttrs ssn jobs opts).map some).map
    fun (built : Option (List (QueueID × queueAttr))) =>
      let s := waterFillRounds rounds
        { opts := built.getD [], meet := [], remaining := total.Clone }
      ({ totalResource := some total, queueOpts := built.map fun _ => s.opts } : proportionPlugin)

/-- Embedding of `OnSessionClose`. -/
def OnSessionClose (_pp : proportionPlugin) : proportionPlugin :=
  { totalResource := none, queueOpts := none }

/-- The state of the loop of ReclaimableFn: the victims so far and the running
allocation of every queue met so far (lines 212-213). -/
structure reclaimState where
  victims : List TaskInfo
  allocations : List (QueueID × Resource)
deriving DecidableEq, Repr

/-- The running allocation of a queue in the loop of ReclaimableFn: the entry of
`allocations`, or the queue's allocated when the queue has not been met yet. -/
def runningAllocation (st : reclaimState) (queue : QueueID) (attr : queueAttr) : Resource :=
  match mapGet st.allocations queue with
  | some allocated => allocated
  | none => attr.allocated.Clone

/-- The body of the loop of ReclaimableFn for one reclaimee (lines 215-233); `none`
when the reclaimee's job or the job's queue attributes are missing (nil dereference). -/
def reclaimStep (pp : proportionPlugin) (ssn : Session) (st : reclaimState)
    (reclaimee : TaskInfo) : Option reclaimState :=
  (mapGet ssn.Jobs reclaimee.Job).bind fun job =>
  (mapGet (pp.queueOpts.getD []) job.Queue).map fun attr =>
  let allocated := runningAllocation st job.Queue attr
  let allocations := mapSet st.allocations job.Queue allocated
  if allocated.LessInAllDimension reclaimee.Resreq DimensionDefaultValue.Zero then
    { st with allocations := allocations }
  else if !allocated.LessEqualInAllDimension attr.deserved DimensionDefaultValue.Zero then
    { victims := st.victims ++ [reclaimee]
      allocations := mapSet allocations job.Queue (allocated.Sub reclaimee.Resreq) }
  else
    { st with allocations := allocations }

/-- The loop of ReclaimableFn over the reclaimees. -/
def reclaimLoop (pp : proportionPlugin) (ssn : Session) :
    List TaskInfo → reclaimState → Option reclaimState
  | [], st => some st
  | reclaimee :: rest, st => (reclaimStep pp ssn st reclaimee).bind (reclaimLoop pp ssn rest)

/-- Embedding of the ReclaimableFn that OnSessionOpen registers (lines 211-236). -/
def ReclaimableFn (pp : proportionPlugin) (ssn : Session) (_reclaimer : TaskInfo)
    (reclaimees : List TaskInfo) : Option (List TaskInfo × util.Vote) :=
  (reclaimLoop pp ssn reclaimees { victims := [], allocations := [] }).map
    fun st => (st.victims, util.Vote.Permit)

/-- Embedding of the OverusedFn that OnSessionOpen registers (lines 238-250); `none`
when the queue has no attributes (nil dereference). -/
def OverusedFn (pp : proportionPlugin) (queue : QueueInfo) : Option Bool :=
  (mapGet (pp.queueOpts.getD []) queue.UID).map fun attr =>
    !attr.allocated.LessEqualInAllDimension attr.deserved DimensionDefaultValue.Zero

/-- Embedding of the JobEnqueueableFn that OnSessionOpen registers (lines 252-276): the
vote and the plugin state after the call; `none` on a nil dereference (queue not in the
session, job without pod group, queue without attributes). -/
def JobEnqueueableFn (pp : proportionPlugin) (ssn : Session) (job : JobInfo) :
    Option (util.Vote × proportionPlugin) :=
  (mapGet ssn.Queues job.Queue).bind fun queue =>
  if queue.Capability.length = 0 then some (util.Vote.Permit, pp)
  else
    job.PodGroup.bind fun pg =>
    if pg.MinResources = none then some (util.Vote.Permit, pp)
    else
      job.GetMinResources.bind fun minReq =>
      (mapGet (pp.queueOpts.getD []) job.Queue).map fun attr =>
      let inqueue := ((minReq.Add attr.allocated).Add attr.inqueue).LessEqualInAllDimension
        (NewResource queue.Capability) DimensionDefaultValue.Infinity
      if inqueue then
        (util.Vote.Permit,
          { pp with queueOpts := some (mapSet (pp.queueOpts.getD []) job.Queue
              { attr with inqueue := attr.inqueue.Add minReq }) })
      else (util.Vote.Reject, pp)

end proportion

namespace proportion

open api framework

/-! ## Concrete sessions used by the scenarios and the counterexamples -/

/-- A pending task with a cpu and memory request and no scalar. -/
def exTask (uid job : String) (cpu mem : ℚ) (status : TaskStatus) : TaskInfo :=
  { UID := uid, Job := job, Name := uid, Namespace := "default",
    Resreq := { MilliCPU := cpu, Memory := mem, ScalarResources := none },
    NodeName := "", Status := status, Priority := 1 }

/-- A job of one queue whose tasks all sit in the bucket of `status`. -/
def exJob (uid queue : String) (status : TaskStatus) (tasks : List TaskInfo)
    (minResources : Option ResourceList) : JobInfo :=
  { UID := uid, Name := uid, Namespace := "default", Queue := queue, Priority := 0,
    MinAvailable := 1,
    TaskStatusIndex := [(status, tasks.map fun t => (t.UID, t))],
    Tasks := tasks.map fun t => (t.UID, t),
    Allocated := EmptyResource, TotalRequest := EmptyResource,
    PodGroup := some { Phase := PodGroupPhase.Pending, MinResources := minResources } }

/-- Scenario S3: the queue with capability {2000m, 4Gi}. -/
def s3Queue : QueueInfo :=
  { UID := "q", Name := "q", Weight := 1,
    Capability := [(ResourceName.cpu, 2000), (ResourceName.memory, 4294967296)] }

/-- Scenario S3: the job with MinResources {600m, 1Gi}. -/
def s3Job : JobInfo :=
  exJob "j" "q" TaskStatus.Pending []
    (some [(ResourceName.cpu, 600), (ResourceName.memory, 1073741824)])

/-- Scenario S3: the session. -/
def s3Session : Session :=
  { Jobs := [("j", s3Job)], Queues := [("q", s3Queue)],
    TotalResource := { MilliCPU := 4000, Memory := 8589934592, ScalarResources := none } }

/-- Scenario S3: the plugin state, A_q = {1500m, 3Gi} and I_q = 0. -/
def s3Plugin : proportionPlugin :=
  { totalResource := some s3Session.TotalResource
    queueOpts := some [("q",
      { queueID := "q", name := "q", weight := 1, share := 0,
        deserved := { MilliCPU := 4000, Memory := 8589934592, ScalarResources := none },
        allocated := { MilliCPU := 1500, Memory := 3221225472, ScalarResources := none },
        request := { MilliCPU := 1500, Memory := 3221225472, ScalarResources := none },
        inqueue := EmptyResource,
        capability := some (NewResource s3Queue.Capability) })] }

/-- A job that asks for {600m, 1Gi} in a queue whose capability is zero. -/
def zeroCapSession : Session :=
  { Jobs := [("j", s3Job)],
    Queues := [("q", { s3Queue with Capability := [(ResourceName.cpu, 0), (ResourceName.memory, 0)] })],
    TotalResource := { MilliCPU := 4000, Memory := 8589934592, ScalarResources := none } }

/-- A reclaimee of 500m/500 in a queue that holds 1000m/1000 and deserves 900m/900. -/
def reclaimTask : TaskInfo := exTask "t" "j" 500 500 TaskStatus.Running

/-- The session of `reclaimTask`. -/
def reclaimSession : Session :=
  { Jobs := [("j", exJob "j" "q" TaskStatus.Running [reclaimTask] none)],
    Queues := [("q", { UID := "q", Name := "q", Weight := 1, Capability := [] })],
    TotalResource := { MilliCPU := 900, Memory := 900, ScalarResources := none } }

/-- The attributes of the queue of `reclaimTask`. -/
def reclaimAttr : queueAttr :=
  { queueID := "q", name := "q", weight := 1, share := 10 / 9,
    deserved := { MilliCPU := 900, Memory := 900, ScalarResources := none },
    allocated := { MilliCPU := 1000, Memory := 1000, ScalarResources := none },
    request := { MilliCPU := 1000, Memory := 1000, ScalarResources := none },
    inqueue := EmptyResource, capability := none }

/-- The plugin state of `reclaimTask`. -/
def reclaimPlugin : proportionPlugin :=
  { totalResource := some reclaimSession.TotalResource, queueOpts := some [("q", reclaimAttr)] }

end proportion

namespace proportion

open api framework

/-! ## Notions used to state the properties of the water-filling loop -/

/-- Sum over the queues of deserved, in one dimension. -/
def sumDeserved (rn : ResourceName) (opts : List (QueueID × queueAttr)) : ℚ :=
  (opts.map fun kv => kv.2.deserved.Get rn).sum

/-- Sum of the weights of the queues that are not met, as an unbounded integer. -/
def unmetWeight (meet : List QueueID) (opts : List (QueueID × queueAttr)) : Int :=
  ((opts.filter fun kv => decide (kv.2.queueID ∉ meet)).map fun kv => kv.2.weight).sum

/-- What the water-filling loop never changes of a queue's attributes: everything but
deserved and share. -/
def sameFrame (a b : queueAttr) : Prop :=
  b.queueID = a.queueID ∧ b.name = a.name ∧ b.weight = a.weight ∧ b.allocated = a.allocated ∧
  b.request = a.request ∧ b.inqueue = a.inqueue ∧ b.capability = a.capability

/-- What one pass makes of one queue: the queue keeps its key and either stays as it is,
or was not met when the round began and gets the attributes `fillQueue` computes. -/
def passRel (remaining : Resource) (totalWeight : Int) (meet : List QueueID)
    (kv kv' : QueueID × queueAttr) : Prop :=
  kv'.1 = kv.1 ∧
  (kv'.2 = kv.2 ∨
    (kv.2.queueID ∉ meet ∧ kv'.2 = updateShare (fillQueue remaining totalWeight kv.2).1))

/-- The resource a queue's deserved has when `fillQueue` starts to cap it (line 160). -/
def raised (remaining : Resource) (totalWeight : Int) (attr : queueAttr) : Resource :=
  attr.deserved.Add (remaining.Clone.Multi ((attr.weight : ℚ) / (totalWeight : ℚ)))

end proportion

namespace proportion

open api framework

/-- Sum, in one dimension, of the requests of the tasks of a job whose status bucket
satisfies `p`. -/
def jobSum (p : TaskStatus → Bool) (rn : ResourceName) (job : JobInfo) : ℚ :=
  (job.TaskStatusIndex.map fun b =>
    if p b.1 = true then (b.2.map fun t => t.2.Resreq.Get rn).sum else 0).sum

/-- Sum, in one dimension, over the jobs of queue `q`, of the requests of their tasks
whose status bucket satisfies `p`. -/
def queueSum (p : TaskStatus → Bool) (rn : ResourceName) (jobs : List (JobID × JobInfo))
    (q : QueueID) : ℚ :=
  (jobs.map fun kv => if kv.2.Queue = q then jobSum p rn kv.2 else 0).sum

end proportion

namespace proportion

open api framework

/-- What a pass makes of a queue it does not skip. -/
def passOne (remaining : Resource) (totalWeight : Int) (kv : QueueID × queueAttr) :
    QueueID × queueAttr :=
  (kv.1, updateShare (fillQueue remaining totalWeight kv.2).1)

/-- What a pass makes of a queue, skipped when it was met at the start of the round. -/
def passAll (remaining : Resource) (totalWeight : Int) (meet : List QueueID)
    (kv : QueueID × queueAttr) : QueueID × queueAttr :=
  if kv.2.queueID ∈ meet then kv else passOne remaining totalWeight kv

/-- The increase and the decrease of deserved of a queue that a pass does not skip. -/
def diffOne (remaining : Resource) (totalWeight : Int) (kv : QueueID × queueAttr) :
    Resource × Resource :=
  (passOne remaining totalWeight kv).2.deserved.Diff kv.2.deserved

/-- The queues a pass does not skip when no two queues share an identifier. -/
def unmet (meet : List QueueID) (opts : List (QueueID × queueAttr)) :
    List (QueueID × queueAttr) :=
  opts.filter fun kv => decide (kv.2.queueID ∉ meet)

end proportion

namespace proportion

open api framework

/-- The water-filling loop when each `range` over the queue map visits it in an order of
its own: `visit (2 * n + 1)` orders the loop that sums the weights and `visit (2 * n)`
the loop that computes deserved, in the round with `n` rounds of fuel left. -/
def waterFillVisit (visit : Nat → List (QueueID × queueAttr) → List (QueueID × queueAttr)) :
    Nat → fillState → Option fillState
  | 0, _ => none
  | fuel + 1, s =>
    let w := totalWeight s.meet (visit (2 * fuel + 1) s.opts)
    if w = 0 then some s
    else
      let s' := fillRound w { s with opts := visit (2 * fuel) s.opts }
      if s'.remaining.IsEmpty || s'.remaining.DeepEqual s.remaining then some s'
      else waterFillVisit visit fuel s'

end proportion

namespace proportion

open api framework

/-- Scenario S1: total {4000m, 8Gi}, queues q1 (weight 1) and q2 (weight 3) without
capability, each with one pending job that asks for at least the total. -/
def s1Session : Session :=
  { Jobs := [("j1", exJob "j1" "q1" TaskStatus.Pending
                [exTask "t1" "j1" 4000 8589934592 TaskStatus.Pending] none),
             ("j2", exJob "j2" "q2" TaskStatus.Pending
                [exTask "t2" "j2" 5000 8589934592 TaskStatus.Pending] none)],
    Queues := [("q1", { UID := "q1", Name := "q1", Weight := 1, Capability := [] }),
               ("q2", { UID := "q2", Name := "q2", Weight := 3, Capability := [] })],
    TotalResource := { MilliCPU := 4000, Memory := 8589934592, ScalarResources := none } }

/-- Scenario S2: as S1, but q1 asks for {500m, 1Gi} only. -/
def s2Session : Session :=
  { s1Session with
    Jobs := [("j1", exJob "j1" "q1" TaskStatus.Pending
                [exTask "t1" "j1" 500 1073741824 TaskStatus.Pending] none),
             ("j2", exJob "j2" "q2" TaskStatus.Pending
                [exTask "t2" "j2" 5000 8589934592 TaskStatus.Pending] none)] }

/-- As S1, but q1 has capability {500m, 1Gi}, q2 runs its task, and a third queue q0
has weight 0 and one running task of {100m, 1Mi}. -/
def capSession : Session :=
  { Jobs := [("j1", exJob "j1" "q1" TaskStatus.Pending
                [exTask "t1" "j1" 4000 8589934592 TaskStatus.Pending] none),
             ("j2", exJob "j2" "q2" TaskStatus.Running
                [exTask "t2" "j2" 5000 8589934592 TaskStatus.Running] none),
             ("j0", exJob "j0" "q0" TaskStatus.Running
                [exTask "t0" "j0" 100 1048576 TaskStatus.Running] none)],
    Queues := [("q1", { UID := "q1", Name := "q1", Weight := 1,
                        Capability := [(ResourceName.cpu, 500), (ResourceName.memory, 1073741824)] }),
               ("q2", { UID := "q2", Name := "q2", Weight := 3, Capability := [] }),
               ("q0", { UID := "q0", Name := "q0", Weight := 0, Capability := [] })],
    TotalResource := { MilliCPU := 4000, Memory := 8589934592, ScalarResources := none } }

end proportion

namespace proportion

open api framework

/-- A resource with a cpu and a memory value and no scalar. -/
def exRes (cpu mem : ℚ) : Resource := { MilliCPU := cpu, Memory := mem, ScalarResources := none }

/-- Attributes of a queue named like its id, with an empty inqueue. -/
def exAttr (q : String) (weight : Int) (share : ℚ) (deserved allocated request : Resource)
    (capability : Option Resource) : queueAttr :=
  { queueID := q, name := q, weight := weight, share := share, deserved := deserved,
    allocated := allocated, request := request, inqueue := EmptyResource,
    capability := capability }

/-- The plugin state OnSessionOpen leaves for `capSession`. -/
def capResult : proportionPlugin :=
  { totalResource := some (exRes 4000 8589934592)
    queueOpts := some
      [("q1", exAttr "q1" 1 0 (exRes 500 1073741824) (exRes 0 0) (exRes 4000 8589934592)
          (some (exRes 500 1073741824))),
       ("q2", exAttr "q2" 3 (10 / 7) (exRes 3500 7516192768) (exRes 5000 8589934592)
          (exRes 5000 8589934592) none),
       ("q0", exAttr "q0" 0 1 (exRes 0 0) (exRes 100 1048576) (exRes 100 1048576) none)] }

/-- A session on which the loop halves the remaining resource in every round: total
{4000m, 8000}, two queues of weight 1 whose pending tasks ask for {10000m, 100} and
{100m, 10000}, and a queue of weight 0 with one running task of {100m, 1Mi}. -/
def halvingSession : Session :=
  { Jobs := [("j1", exJob "j1" "q1" TaskStatus.Pending
                [exTask "t1" "j1" 10000 100 TaskStatus.Pending] none),
             ("j2", exJob "j2" "q2" TaskStatus.Pending
                [exTask "t2" "j2" 100 10000 TaskStatus.Pending] none),
             ("j0", exJob "j0" "q0" TaskStatus.Running
                [exTask "t0" "j0" 100 1048576 TaskStatus.Running] none)],
    Queues := [("q1", { UID := "q1", Name := "q1", Weight := 1, Capability := [] }),
               ("q2", { UID := "q2", Name := "q2", Weight := 1, Capability := [] }),
               ("q0", { UID := "q0", Name := "q0", Weight := 0, Capability := [] })],
    TotalResource := { MilliCPU := 4000, Memory := 8000, ScalarResources := none } }

/-- The plugin state of `halvingSession` at the end of the third round of the loop, which
leaves {475m, 975} of the total. -/
def halvingResult : proportionPlugin :=
  { totalResource := some (exRes 4000 8000)
    queueOpts := some
      [("q1", exAttr "q1" 1 0 (exRes 3425 100) (exRes 0 0) (exRes 10000 100) none),
       ("q2", exAttr "q2" 1 0 (exRes 100 6925) (exRes 0 0) (exRes 100 10000) none),
       ("q0", exAttr "q0" 0 1 (exRes 0 0) (exRes 100 1048576) (exRes 100 1048576) none)] }

/-- The plugin state OnSessionOpen leaves for scenario S1. -/
def s1Result : proportionPlugin :=
  { totalResource := some (exRes 4000 8589934592)
    queueOpts := some
      [("q1", exAttr "q1" 1 0 (exRes 1000 2147483648) (exRes 0 0) (exRes 4000 8589934592) none),
       ("q2", exAttr "q2" 3 0 (exRes 3000 6442450944) (exRes 0 0) (exRes 5000 8589934592) none)] }

/-- The plugin state OnSessionOpen leaves for scenario S2. -/
def s2Result : proportionPlugin :=
  { totalResource := some (exRes 4000 8589934592)
    queueOpts := some
      [("q1", exAttr "q1" 1 0 (exRes 500 1073741824) (exRes 0 0) (exRes 500 1073741824) none),
       ("q2", exAttr "q2" 3 0 (exRes 3500 7516192768) (exRes 0 0) (exRes 5000 8589934592) none)] }

end proportion

namespace proportion

open api framework

/-- The attributes the aggregation of OnSessionOpen builds for `capSession`. -/
def capAttrs : List (QueueID × queueAttr) :=
  [("q1", exAttr "q1" 1 0 EmptyResource EmptyResource (exRes 4000 8589934592)
      (some (exRes 500 1073741824))),
   ("q2", exAttr "q2" 3 0 EmptyResource (exRes 5000 8589934592) (exRes 5000 8589934592) none),
   ("q0", exAttr "q0" 0 0 EmptyResource (exRes 100 1048576) (exRes 100 1048576) none)]

end proportion

namespace proportion

open api framework

/-- The attributes the aggregation of OnSessionOpen builds for scenario S1. -/
def s1Attrs : List (QueueID × queueAttr) :=
  [("q1", exAttr "q1" 1 0 EmptyResource EmptyResource (exRes 4000 8589934592) none),
   ("q2", exAttr "q2" 3 0 EmptyResource EmptyResource (exRes 5000 8589934592) none)]

/-- The attributes the aggregation of OnSessionOpen builds for scenario S2. -/
def s2Attrs : List (QueueID × queueAttr) :=
  [("q1", exAttr "q1" 1 0 EmptyResource EmptyResource (exRes 500 1073741824) none),
   ("q2", exAttr "q2" 3 0 EmptyResource EmptyResource (exRes 5000 8589934592) none)]

end proportion
/-! # Jobs and their tasks (`pkg/scheduler/api/job_info.go`) -/

/-- Delete of a key of a Go map. -/
def mapErase {K V : Type} [DecidableEq K] (m : List (K × V)) (k : K) : List (K × V) :=
  m.filter fun kv => decide (kv.1 ≠ k)

namespace api

/-- Modelled from the spec: `v1.Pod` and `utils.GetController` are not under src/. The
pod as getJobID reads it: its namespace, its annotations, and the controller reference
`utils.GetController` returns for it. -/
structure Pod where
  Namespace : String
  Annotations : List (String × String)
  Controller : String
deriving DecidableEq, Repr

/-- Modelled from the spec: the constant `arbcorev1.GroupNameAnnotationKey` is not under
src/; event_handlers_test.go writes the annotation under this key. -/
def GroupNameAnnotationKey : String := "scheduling.k8s.io/group-name"

/-- Embedding of `getJobID`. -/
def getJobID (pod : Pod) : JobID :=
  if pod.Annotations.length ≠ 0 then
    match mapGet pod.Annotations GroupNameAnnotationKey with
    | some gn => if gn ≠ "" then pod.Namespace ++ "/" ++ gn else pod.Controller
    | none => pod.Controller
  else pod.Controller

/-- Embedding of `TaskInfo.Clone`. -/
def TaskInfo.Clone (ti : TaskInfo) : TaskInfo :=
  { UID := ti.UID, Job := ti.Job, Name := ti.Name, Namespace := ti.Namespace,
    NodeName := ti.NodeName, Status := ti.Status, Priority := ti.Priority,
    Resreq := ti.Resreq.Clone }

/-- Embedding of `NewJobInfo`. -/
def NewJobInfo (uid : JobID) : JobInfo :=
  { UID := uid, Name := "", Namespace := "", Queue := "", Priority := 0, MinAvailable := 0,
    TaskStatusIndex := [], Tasks := [], Allocated := EmptyResource,
    TotalRequest := EmptyResource, PodGroup := none }

/-- Embedding of `JobInfo.addTaskIndex`: the bucket of the task's status, created when
it is missing, gets the task under its UID. -/
def JobInfo.addTaskIndex (ji : JobInfo) (ti : TaskInfo) : JobInfo :=
  let tasks := (mapGet ji.TaskStatusIndex ti.Status).getD []
  { ji with TaskStatusIndex := mapSet ji.TaskStatusIndex ti.Status (mapSet tasks ti.UID ti) }

/-- Embedding of `JobInfo.AddTaskInfo`. -/
def JobInfo.AddTaskInfo (ji : JobInfo) (ti : TaskInfo) : JobInfo :=
  let ji := { ji with Tasks := mapSet ji.Tasks ti.UID ti }
  let ji := ji.addTaskIndex ti
  let ji := { ji with TotalRequest := ji.TotalRequest.Add ti.Resreq }
  if AllocatedStatus ti.Status then { ji with Allocated := ji.Allocated.Add ti.Resreq } else ji

/-- Embedding of `JobInfo.deleteTaskIndex`. -/
def JobInfo.deleteTaskIndex (ji : JobInfo) (ti : TaskInfo) : JobInfo :=
  match mapGet ji.TaskStatusIndex ti.Status with
  | some tasks =>
    let tasks := mapErase tasks ti.UID
    if tasks.length = 0 then { ji with TaskStatusIndex := mapErase ji.TaskStatusIndex ti.Status }
    else { ji with TaskStatusIndex := mapSet ji.TaskStatusIndex ti.Status tasks }
  | none => ji

/-- Embedding of `JobInfo.DeleteTaskInfo`: the job after the call and the error it
returns, if any. -/
def JobInfo.DeleteTaskInfo (ji : JobInfo) (ti : TaskInfo) : JobInfo × Option String :=
  match mapGet ji.Tasks ti.UID with
  | some task =>
    let ji := { ji with TotalRequest := ji.TotalRequest.Sub task.Resreq }
    let ji := if AllocatedStatus task.Status
      then { ji with Allocated := ji.Allocated.Sub task.Resreq } else ji
    let ji := { ji with Tasks := mapErase ji.Tasks task.UID }
    (ji.deleteTaskIndex task, none)
  | none =>
    (ji, some ("failed to find task <" ++ ti.Namespace ++ "/" ++ ti.Name ++ "> in job <" ++
      ji.Namespace ++ "/" ++ ji.Name ++ ">"))

/-- Modelled from the spec: `validateStatusUpdate` is not under src/. §3: "Status
transitions obey a validation table (terminal statuses Succeeded/Failed are absorbing;
transitions from Running → Pending are rejected)"; S6 names the error. -/
def validateStatusUpdate (oldStatus newStatus : TaskStatus) : Option String :=
  if (oldStatus = TaskStatus.Succeeded ∨ oldStatus = TaskStatus.Failed) ∧ newStatus ≠ oldStatus
  then some "InvalidStatusTransition"
  else if oldStatus = TaskStatus.Running ∧ newStatus = TaskStatus.Pending
  then some "InvalidStatusTransition"
  else none

/-- Embedding of `JobInfo.UpdateTaskStatus`: the job and the task after the call, and
the error it returns, if any.  The error of DeleteTaskInfo is dropped, as in the code. -/
def JobInfo.UpdateTaskStatus (ji : JobInfo) (task : TaskInfo) (status : TaskStatus) :
    JobInfo × TaskInfo × Option String :=
  match validateStatusUpdate task.Status status with
  | some err => (ji, task, some err)
  | none =>
    let ji := (ji.DeleteTaskInfo task).1
    let task := { task with Status := status }
    (ji.AddTaskInfo task, task, none)

/-- Embedding of `JobInfo.Clone`, without the node selector, the creation time and the
disruption budget.  Priority is not among the fields the code copies. -/
def JobInfo.Clone (ji : JobInfo) : JobInfo :=
  let info : JobInfo :=
    { UID := ji.UID, Name := ji.Name, Namespace := ji.Namespace, Queue := ji.Queue,
      Priority := 0, MinAvailable := ji.MinAvailable,
      Allocated := ji.Allocated.Clone, TotalRequest := ji.TotalRequest.Clone,
      PodGroup := ji.PodGroup, TaskStatusIndex := [], Tasks := [] }
  ji.Tasks.foldl (fun info kv => info.AddTaskInfo kv.2.Clone) info

/-! ## Notions used to state the invariants of a job -/

/-- Sum, in one dimension, of the requests of the tasks whose status satisfies `p`. -/
def taskSum (p : TaskStatus → Bool) (rn : ResourceName) (tasks : tasksMap) : ℚ :=
  (tasks.map fun kv => if p kv.2.Status = true then kv.2.Resreq.Get rn else 0).sum

/-- The totals invariant of a job, dimension by dimension. -/
def totalsInv (ji : JobInfo) : Prop :=
  ∀ rn, ji.TotalRequest.Get rn = taskSum (fun _ => true) rn ji.Tasks ∧
    ji.Allocated.Get rn = taskSum AllocatedStatus rn ji.Tasks

/-- `Tasks` is a map keyed by the UID of its tasks: no UID twice, every task under its
own UID. -/
def tasksKeyed (ji : JobInfo) : Prop :=
  (ji.Tasks.map Prod.fst).Nodup ∧ ∀ kv ∈ ji.Tasks, kv.2.UID = kv.1

/-- `TaskStatusIndex` is a map of maps: no status twice, no UID twice in a bucket. -/
def indexKeyed (ji : JobInfo) : Prop :=
  (ji.TaskStatusIndex.map Prod.fst).Nodup ∧
  ∀ b ∈ ji.TaskStatusIndex, (b.2.map Prod.fst).Nodup

/-- The buckets partition the tasks: every task of `Tasks` is in the bucket of its
status, and whatever a bucket holds is a task of `Tasks` with the status of the bucket. -/
def bucketsPartition (ji : JobInfo) : Prop :=
  (∀ uid t, mapGet ji.Tasks uid = some t →
    ∃ b, mapGet ji.TaskStatusIndex t.Status = some b ∧ mapGet b uid = some t) ∧
  (∀ b ∈ ji.TaskStatusIndex, ∀ kv ∈ b.2, mapGet ji.Tasks kv.1 = some kv.2 ∧ kv.2.Status = b.1)

end api

namespace proportion

open api framework

/-- Embedding of the AllocateFunc of the event handler (lines 280-290): the plugin after
the call; `none` on a nil dereference (job not in the session, queue without
attributes). -/
def AllocateFunc (pp : proportionPlugin) (ssn : Session) (task : TaskInfo) :
    Option proportionPlugin :=
  (mapGet ssn.Jobs task.Job).bind fun job =>
  (mapGet (pp.queueOpts.getD []) job.Queue).map fun attr =>
  let attr := updateShare { attr with allocated := attr.allocated.Add task.Resreq }
  { pp with queueOpts := some (mapSet (pp.queueOpts.getD []) job.Queue attr) }

/-- Embedding of the DeallocateFunc of the event handler (lines 291-301). -/
def DeallocateFunc (pp : proportionPlugin) (ssn : Session) (task : TaskInfo) :
    Option proportionPlugin :=
  (mapGet ssn.Jobs task.Job).bind fun job =>
  (mapGet (pp.queueOpts.getD []) job.Queue).map fun attr =>
  let attr := updateShare { attr with allocated := attr.allocated.Sub task.Resreq }
  { pp with queueOpts := some (mapSet (pp.queueOpts.getD []) job.Queue attr) }

end proportion

namespace proportion

open api framework

/-- A session whose only job has finished: one Succeeded task of {1000m, 1000}. -/
def doneSession : Session :=
  { Jobs := [("j", exJob "j" "q" TaskStatus.Succeeded
                [exTask "t" "j" 1000 1000 TaskStatus.Succeeded] none)],
    Queues := [("q", { UID := "q", Name := "q", Weight := 1, Capability := [] })],
    TotalResource := { MilliCPU := 4000, Memory := 4000, ScalarResources := none } }

/-- A session whose only queue has weight 0 and holds one running task of {500m, 500}. -/
def idleSession : Session :=
  { Jobs := [("j", exJob "j" "q" TaskStatus.Running [reclaimTask] none)],
    Queues := [("q", { UID := "q", Name := "q", Weight := 0, Capability := [] })],
    TotalResource := { MilliCPU := 900, Memory := 900, ScalarResources := none } }

/-- The attributes of the queue of `idleSession` with a share. -/
def idleAttr (share : ℚ) : queueAttr :=
  { queueID := "q", name := "q", weight := 0, share := share,
    deserved := EmptyResource,
    allocated := { MilliCPU := 500, Memory := 500, ScalarResources := none },
    request := { MilliCPU := 500, Memory := 500, ScalarResources := none },
    inqueue := EmptyResource, capability := none }

/-- The plugin state of `idleSession` in which the queue has the given share. -/
def idlePlugin (share : ℚ) : proportionPlugin :=
  { totalResource := some idleSession.TotalResource, queueOpts := some [("q", idleAttr share)] }

end proportion

namespace api

/-- A running task of {1000m, 1000} of job "j". -/
def exRunning : TaskInfo :=
  { UID := "t", Job := "j", Name := "t", Namespace := "default",
    Resreq := { MilliCPU := 1000, Memory := 1000, ScalarResources := none },
    NodeName := "n", Status := TaskStatus.Running, Priority := 1 }

/-- The job "j" with the task `exRunning` added to it once. -/
def exJobOne : JobInfo := (NewJobInfo "j").AddTaskInfo exRunning

end api

namespace api

/-- The task `exRunning` seen again as Pending. -/
def exPendingAgain : TaskInfo := { exRunning with Status := TaskStatus.Pending }

end api

namespace api

/-- A second running task of job "j", of {500m, 500}. -/
def exRunningTwo : TaskInfo :=
  { UID := "t2", Job := "j", Name := "t2", Namespace := "default",
    Resreq := { MilliCPU := 500, Memory := 500, ScalarResources := none },
    NodeName := "n", Status := TaskStatus.Running, Priority := 1 }

/-- The pod of event_handlers_test.go: namespace test, group-name annotation j1. -/
def exPod : Pod :=
  { Namespace := "test", Annotations := [("scheduling.k8s.io/group-name", "j1")],
    Controller := "owner" }

end api

namespace proportion

open api framework

/-- What the loop of ReclaimableFn keeps true: every victim so far is a task of a queue
whose allocated is not <= its deserved in all dimensions, and the running allocation of
a queue whose allocated is <= its deserved is still that allocated. -/
def reclaimInv (pp : proportionPlugin) (ssn : Session) (st : reclaimState) : Prop :=
  (∀ v ∈ st.victims, ∃ job attr, mapGet ssn.Jobs v.Job = some job ∧
    mapGet (pp.queueOpts.getD []) job.Queue = some attr ∧
    attr.allocated.LessEqualInAllDimension attr.deserved DimensionDefaultValue.Zero = false) ∧
  (∀ q attr a, mapGet (pp.queueOpts.getD []) q = some attr →
    attr.allocated.LessEqualInAllDimension attr.deserved DimensionDefaultValue.Zero = true →
    mapGet st.allocations q = some a → a = attr.allocated)

end proportion

/-! # The tdm plugin (`pkg/scheduler/plugins/tdm/tdm.go`)

Instants are nanoseconds since the Unix epoch, in a location without daylight-saving
shifts whose days start at the multiples of 86400 seconds.  The functions of the Go
library the plugin calls (`strings.TrimSpace`, `strings.Split`, `time.Parse`,
`strconv.Atoi`, `intstr.Parse`, `intstr.GetValueFromIntOrPercent`) are written out as
the library defines them.  A slice taken out of range makes the embedded function return
`none`. -/

namespace tdm

open api

/-- The white space of `unicode.IsSpace`. -/
def isSpace (c : Char) : Bool :=
  let n := c.toNat
  (9 ≤ n && n ≤ 13) || n = 32 || n = 133 || n = 160 || n = 5760 || (8192 ≤ n && n ≤ 8202) ||
  n = 8232 || n = 8233 || n = 8239 || n = 8287 || n = 12288

/-- The Go library's `strings.TrimSpace`. -/
def trimSpace (s : List Char) : List Char :=
  ((s.dropWhile isSpace).reverse.dropWhile isSpace).reverse

/-- The Go library's `strings.Split(s, "-")`. -/
def splitDash : List Char → List (List Char)
  | [] => [[]]
  | c :: cs =>
    match splitDash cs with
    | [] => [[c]]
    | p :: ps => if c.toNat = 45 then [] :: p :: ps else (c :: p) :: ps

/-- The value of a decimal digit. -/
def digit (c : Char) : Option Nat :=
  if 48 ≤ c.toNat ∧ c.toNat ≤ 57 then some (c.toNat - 48) else none

/-- The Go library's `time.Parse` for the layout "15:04" (`revocableZoneLayout`): an
hour of one or two digits below 24, a colon, a minute of two digits below 60, and nothing
else; the hour and the minute. -/
def parseClock (s : List Char) : Option (Nat × Nat) :=
  let hour : Option (Nat × List Char) :=
    match s with
    | [] => none
    | [c1] => (digit c1).map fun d => (d, [])
    | c1 :: c2 :: rest =>
      match digit c1, digit c2 with
      | some d1, some d2 => some (d1 * 10 + d2, rest)
      | some d1, none => some (d1, c2 :: rest)
      | none, _ => none
  match hour with
  | some (h, [colon, c1, c2]) =>
    match digit c1, digit c2 with
    | some d1, some d2 =>
      if colon.toNat = 58 ∧ h < 24 ∧ d1 * 10 + d2 < 60 then some (h, d1 * 10 + d2) else none
    | _, _ => none
  | _ => none

/-- Seconds in a nanosecond count: `Time.Unix`. -/
def Unix (t : Int) : Int := t / 1000000000

/-- The day an instant falls on: days since the epoch. -/
def dayOf (t : Int) : Int := Unix t / 86400

/-- The instant `time.Date` gives for a day and a clock time with zero seconds. -/
def dateOf (day : Int) (clock : Nat × Nat) : Int :=
  (day * 86400 + (clock.1 : Int) * 3600 + (clock.2 : Int) * 60) * 1000000000

/-- Embedding of `tdmPlugin`: the window of every zone and the evict period, in
nanoseconds. -/
structure tdmPlugin where
  revocableZone : List (String × String)
  evictPeriod : Int
deriving DecidableEq, Repr

/-- Embedding of `parseRevocableZone`, with the clock it reads as `now`: the start and
the end of the window, or the error. -/
def parseRevocableZone (rzRaw : String) (now : Int) : Except String (Int × Int) :=
  match splitDash (trimSpace rzRaw.data) with
  | [v1, v2] =>
    match parseClock v1 with
    | none => Except.error ("parsing time " ++ String.mk v1)
    | some t1 =>
      match parseClock v2 with
      | none => Except.error ("parsing time " ++ String.mk v2)
      | some t2 =>
        let start := dateOf (dayOf now) t1
        if t2.1 * 60 + t2.2 ≤ t1.1 * 60 + t1.2 then Except.ok (start, dateOf (dayOf now + 1) t2)
        else Except.ok (start, dateOf (dayOf now) t2)
  | _ => Except.error ("revocable zone " ++ rzRaw ++ " format error")

/-- Embedding of `tdmPlugin.availableRevocableZone`: the error, `none` for nil.  `now` is
the clock the function reads, `parseNow` the clock parseRevocableZone reads after it. -/
def availableRevocableZone (bp : tdmPlugin) (rz : String) (now parseNow : Int) : Option String :=
  match mapGet bp.revocableZone rz with
  | none => some ("revocable zone " ++ rz ++ " not support")
  | some rzRaw =>
    match parseRevocableZone rzRaw parseNow with
    | Except.error err => some err
    | Except.ok (start, finish) =>
      if Unix now < Unix start ∨ Unix now > Unix finish then
        some ("current time beyond revocable zone " ++ rz ++ ":" ++ rzRaw)
      else none

/-- Modelled from the spec: the revision of `api.TaskInfo` that tdm.go reads is not
under src/ (job_info.go there has no `Preemptable`). The fields tdm.go reads. -/
structure TaskInfo where
  UID : TaskID
  Job : JobID
  Name : String
  Namespace : String
  NodeName : String
  Status : TaskStatus
  Preemptable : Bool
deriving DecidableEq, Repr

/-- Modelled from the spec: `api.NodeInfo` is not under src/. §3: identity, current task
set, revocable-zone label (empty for a node that is not revocable). -/
structure NodeInfo where
  Name : String
  RevocableZone : String
  Tasks : List (TaskID × TaskInfo)
deriving DecidableEq, Repr

/-- Modelled from the spec: `api.DisruptionBudget` is not under src/. §4.4: the per-job
budget, both entries integer-or-percent strings, empty when unset. -/
structure DisruptionBudget where
  MinAvailable : String
  MaxUnavilable : String
deriving DecidableEq, Repr

/-- Modelled from the spec: the revision of `api.JobInfo` that tdm.go reads is not under
src/ (job_info.go there has no `Budget`). The fields tdm.go reads. -/
structure JobInfo where
  UID : JobID
  Name : String
  Namespace : String
  TaskStatusIndex : List (TaskStatus × List (TaskID × TaskInfo))
  Tasks : List (TaskID × TaskInfo)
  Budget : DisruptionBudget
  Preemptable : Bool
deriving DecidableEq, Repr

/-- Modelled from the spec: `framework.Session` is not under src/. The maps tdm.go
reads. -/
structure Session where
  Jobs : List (JobID × JobInfo)
  Nodes : List (String × NodeInfo)
  RevocableNodes : List (String × NodeInfo)
deriving DecidableEq, Repr

/-- Embedding of `predicateFn` (lines 148-166): the error, `none` for nil. -/
def predicateFn (bp : tdmPlugin) (now parseNow : Int) (task : TaskInfo) (node : NodeInfo) :
    Option String :=
  if node.RevocableZone = "" then none
  else
    match availableRevocableZone bp node.RevocableZone now parseNow with
    | some err => some ("plugin tdm predicates " ++ err)
    | none =>
      if !task.Preemptable then
        some ("plugin tdm predicates task " ++ task.Namespace ++ "/" ++ task.Name ++
          " is not preemptable task, skip to schedule to node " ++ node.Name)
      else none

/-- The value of a string of decimal digits; `none` for the empty string or a character
that is not a digit. -/
def digitsValue : List Char → Option Nat
  | [] => none
  | cs => cs.foldl (fun acc c => acc.bind fun a => (digit c).map fun d => a * 10 + d) (some 0)

/-- The Go library's `strconv.Atoi`: an optional sign and decimal digits, within
int64. -/
def Atoi (s : List Char) : Option Int :=
  let value : Option Int :=
    match s with
    | [] => none
    | c :: rest =>
      if c.toNat = 45 then (digitsValue rest).map fun n => -(n : Int)
      else if c.toNat = 43 then (digitsValue rest).map fun n => (n : Int)
      else (digitsValue s).map fun n => (n : Int)
  value.bind fun v =>
    if -9223372036854775808 ≤ v ∧ v ≤ 9223372036854775807 then some v else none

/-- Embedding of `tdmPlugin.parseIntStr`.  `intstr.Parse` gives an int32 when Atoi reads
the input, and a string otherwise; for a string `intstr.GetValueFromIntOrPercent` drops
every percent sign, reads the rest with Atoi and rounds that percentage of `taskNum` up,
and fails when Atoi fails, which leaves the result at 0. -/
def parseIntStr (input : String) (taskNum : Int) : Int :=
  match Atoi input.data with
  | some i => int32 i
  | none =>
    match Atoi (input.data.filter fun c => decide (c.toNat ≠ 37)) with
    | some v => -((-(v * taskNum)) / 100)
    | none => 0

/-- The constant `defaultPodEvictNum`. -/
def defaultPodEvictNum : Int := 1

/-- Embedding of `tdmPlugin.getMaxPodEvictNum`. -/
def getMaxPodEvictNum (job : JobInfo) : Int :=
  let jobRunningTaskNum : Int := ((mapGet job.TaskStatusIndex TaskStatus.Running).getD []).length
  if job.Budget.MaxUnavilable ≠ "" then parseIntStr job.Budget.MaxUnavilable job.Tasks.length
  else if job.Budget.MinAvailable ≠ "" ∧
      jobRunningTaskNum ≥ parseIntStr job.Budget.MinAvailable job.Tasks.length then
    jobRunningTaskNum - parseIntStr job.Budget.MinAvailable job.Tasks.length
  else defaultPodEvictNum

/-- Embedding of `tdmPlugin.maxVictims`; `none` when the slice bound is negative. -/
def maxVictims (job : JobInfo) (victims : List TaskInfo) : Option (List TaskInfo) :=
  let targetNum := min (getMaxPodEvictNum job) (victims.length : Int)
  if targetNum < 0 then none else some (victims.take targetNum.toNat)

/-- The statement `tasksMap[task.Job] = append(tasksMap[task.Job], task)`. -/
def groupAdd (tasksMap : List (JobID × List TaskInfo)) (task : TaskInfo) :
    List (JobID × List TaskInfo) :=
  mapSet tasksMap task.Job ((mapGet tasksMap task.Job).getD [] ++ [task])

/-- The first loop of preemptableFn (lines 201-216): the preemptees that are
preemptable, Running and on a known node without revocable zone, by job. -/
def preemptableTasks (ssn : Session) (preemptees : List TaskInfo) : List (JobID × List TaskInfo) :=
  preemptees.foldl (fun tasksMap task =>
    if !task.Preemptable || task.Status ≠ TaskStatus.Running then tasksMap
    else
      match mapGet ssn.Nodes task.NodeName with
      | none => tasksMap
      | some node => if node.RevocableZone ≠ "" then tasksMap else groupAdd tasksMap task) []

/-- The body of the second loop of preemptableFn for one job (lines 219-227). -/
def preemptStep (ssn : Session) (victims : List TaskInfo) (entry : JobID × List TaskInfo) :
    Option (List TaskInfo) :=
  match mapGet ssn.Jobs entry.1 with
  | none => some victims
  | some job =>
    let maxPodEvictNum := getMaxPodEvictNum job
    if maxPodEvictNum ≥ (entry.2.length : Int) then some (victims ++ entry.2)
    else if maxPodEvictNum < 0 then none
    else some (victims ++ entry.2.take maxPodEvictNum.toNat)

/-- A loop over a map whose body may fail. -/
def foldlOpt {α β : Type} (f : β → α → Option β) : List α → β → Option β
  | [], b => some b
  | a :: l, b => (f b a).bind (foldlOpt f l)

/-- Embedding of `preemptableFn` (lines 192-233). -/
def preemptableFn (ssn : Session) (preemptor : TaskInfo) (preemptees : List TaskInfo) :
    Option (List TaskInfo) :=
  if preemptor.Preemptable then some []
  else foldlOpt (preemptStep ssn) (preemptableTasks ssn preemptees) []

/-- Embedding of `tdmPlugin.revocableNodePreemptableTask`. -/
def revocableNodePreemptableTask (rz : String) (ssn : Session) : List (JobID × List TaskInfo) :=
  ssn.RevocableNodes.foldl (fun tasksMap kv =>
    if kv.2.RevocableZone ≠ rz then tasksMap
    else kv.2.Tasks.foldl (fun tasksMap t =>
      if t.2.Preemptable && t.2.Status = TaskStatus.Running then groupAdd tasksMap t.2
      else tasksMap) tasksMap) []

/-- The body of the inner loop of victimsFn for one job (lines 251-255). -/
def victimStep (ssn : Session) (victims : List TaskInfo) (entry : JobID × List TaskInfo) :
    Option (List TaskInfo) :=
  match mapGet ssn.Jobs entry.1 with
  | none => some victims
  | some job => (maxVictims job entry.2).map fun vs => victims ++ vs

/-- The body of the loop of victimsFn for one zone (lines 246-257). -/
def zoneStep (bp : tdmPlugin) (ssn : Session) (now : Int) (victims : List TaskInfo)
    (zone : String × String) : Option (List TaskInfo) :=
  match availableRevocableZone bp zone.1 now now with
  | some _ => foldlOpt (victimStep ssn) (revocableNodePreemptableTask zone.1 ssn) victims
  | none => some victims

/-- Embedding of `victimsFn` (lines 235-263): the victims and the value of the package
variable `lastEvictAt` after the call.  The clock readings of one call are one instant
`now`. -/
def victimsFn (bp : tdmPlugin) (ssn : Session) (lastEvictAt now : Int) :
    Option (List TaskInfo × Int) :=
  if lastEvictAt + bp.evictPeriod > now then some ([], lastEvictAt)
  else (foldlOpt (zoneStep bp ssn now) bp.revocableZone []).map fun victims => (victims, now)

end tdm

namespace tdm

open api

/-! ## Concrete plugins and sessions used by the scenarios -/

/-- The instant of a clock time on a day, in nanoseconds. -/
def clockAt (day hour minute second : Int) : Int :=
  (day * 86400 + hour * 3600 + minute * 60 + second) * 1000000000

/-- Scenario S5: the zone rz1 is 10:00-12:00 and the evict period one minute. -/
def s5Plugin : tdmPlugin :=
  { revocableZone := [("rz1", "10:00-12:00")], evictPeriod := 60000000000 }

/-- A plugin with a window over midnight and a window whose ends coincide. -/
def nightPlugin : tdmPlugin :=
  { revocableZone := [("night", "22:00-06:00"), ("full", "10:00-10:00")],
    evictPeriod := 60000000000 }

/-- A running task of job "j" on a node. -/
def zoneTask (uid node : String) (preemptable : Bool) : TaskInfo :=
  { UID := uid, Job := "j", Name := uid, Namespace := "default", NodeName := node,
    Status := TaskStatus.Running, Preemptable := preemptable }

/-- A job "j" with the given tasks, all Running, and a budget. -/
def zoneJob (tasks : List TaskInfo) (minAvailable maxUnavailable : String) : JobInfo :=
  { UID := "j", Name := "j", Namespace := "default",
    TaskStatusIndex := [(TaskStatus.Running, tasks.map fun t => (t.UID, t))],
    Tasks := tasks.map fun t => (t.UID, t),
    Budget := { MinAvailable := minAvailable, MaxUnavilable := maxUnavailable },
    Preemptable := true }

/-- Scenario S5: one Running preemptable task on the node n1 of zone rz1. -/
def s5Session : Session :=
  { Jobs := [("j", zoneJob [zoneTask "t1" "n1" true] "" "")],
    Nodes := [("n1", { Name := "n1", RevocableZone := "rz1",
                       Tasks := [("t1", zoneTask "t1" "n1" true)] })],
    RevocableNodes := [("n1", { Name := "n1", RevocableZone := "rz1",
                                Tasks := [("t1", zoneTask "t1" "n1" true)] })] }

/-- Two zones, 10:00-12:00 and 10:00-11:00. -/
def twoZonePlugin : tdmPlugin :=
  { revocableZone := [("rz1", "10:00-12:00"), ("rz2", "10:00-11:00")],
    evictPeriod := 60000000000 }

/-- A job with one Running preemptable task on a node of each of the two zones. -/
def twoZoneSession : Session :=
  { Jobs := [("j", zoneJob [zoneTask "t1" "n1" true, zoneTask "t2" "n2" true] "" "")],
    Nodes := [],
    RevocableNodes :=
      [("n1", { Name := "n1", RevocableZone := "rz1", Tasks := [("t1", zoneTask "t1" "n1" true)] }),
       ("n2", { Name := "n2", RevocableZone := "rz2", Tasks := [("t2", zoneTask "t2" "n2" true)] })] }

/-- Two Running preemptable tasks of job "j" on the node n0, which has no revocable zone,
and a job budget. -/
def plainSession (minAvailable maxUnavailable : String) : Session :=
  { Jobs := [("j", zoneJob [zoneTask "t1" "n0" true, zoneTask "t2" "n0" true]
                minAvailable maxUnavailable)],
    Nodes := [("n0", { Name := "n0", RevocableZone := "",
                       Tasks := [("t1", zoneTask "t1" "n0" true), ("t2", zoneTask "t2" "n0" true)] })],
    RevocableNodes := [] }

/-- A job of two tasks, one of them Running, that wants two available. -/
def belowFloorJob : JobInfo :=
  { UID := "j", Name := "j", Namespace := "default",
    TaskStatusIndex := [(TaskStatus.Running, [("t1", zoneTask "t1" "n1" true)]),
                        (TaskStatus.Pending,
                          [("t2", { zoneTask "t2" "" true with Status := TaskStatus.Pending })])],
    Tasks := [("t1", zoneTask "t1" "n1" true),
              ("t2", { zoneTask "t2" "" true with Status := TaskStatus.Pending })],
    Budget := { MinAvailable := "2", MaxUnavilable := "" },
    Preemptable := true }

end tdm

namespace tdm

/-- The zero value of `time.Time`, which the package variable `lastEvictAt` starts
with: the first of January of year 1. -/
def zeroTime : Int := -62135596800 * 1000000000

end tdm

namespace tdm

/-! ## Notions used to state the bounds on the victims -/

/-- The number of tasks of a job in a list of tasks. -/
def countJob (jobID : api.JobID) (tasks : List TaskInfo) : Nat :=
  (tasks.filter fun t => decide (t.Job = jobID)).length

/-- A map from jobs to tasks is grouped: no job twice, and every task under its own job
and with the property `P`. -/
def grouped (P : TaskInfo → Prop) (tasksMap : List (api.JobID × List TaskInfo)) : Prop :=
  (tasksMap.map Prod.fst).Nodup ∧ ∀ e ∈ tasksMap, ∀ t ∈ e.2, t.Job = e.1 ∧ P t

end tdm

namespace tdm

/-- What one step of a victim loop adds: tasks of the entry, within the budget of the
entry's job. -/
def stepAdds (ssn : Session)
    (f : List TaskInfo → api.JobID × List TaskInfo → Option (List TaskInfo)) : Prop :=
  ∀ acc e acc', f acc e = some acc' → ∃ added, acc' = acc ++ added ∧
    (∀ v ∈ added, v ∈ e.2) ∧
    ∀ job, mapGet ssn.Jobs e.1 = some job → (added.length : Int) ≤ getMaxPodEvictNum job

/-- What the scan of victimsFn asks of a victim: preemptable, Running, and among the
tasks of a revocable node whose zone gets an error at the instant `now`. -/
def scanVictim (bp : tdmPlugin) (ssn : Session) (now : Int) (v : TaskInfo) : Prop :=
  v.Preemptable = true ∧ v.Status = api.TaskStatus.Running ∧
  ∃ kv ∈ ssn.RevocableNodes, (∃ e ∈ kv.2.Tasks, e.2 = v) ∧
    availableRevocableZone bp kv.2.RevocableZone now now ≠ none

end tdm

/-! # Namespaces and resource quotas (`pkg/scheduler/api/namespace_info.go`,
`pkg/scheduler/plugins/resourcequota/resourcequota.go`)

A quantity is an exact rational in base units; `Quantity.Value` and
`Quantity.MilliValue` round up to an integer as the library does.  The heap
`cache.Heap` of client-go is the map of its items by key, and its Pop takes an item the
less function puts before every other, here the first of the heaviest. -/

namespace api

/-- The library's `Quantity.Value`: the quantity rounded up to an integer. -/
def Value (q : ℚ) : Int := ⌈q⌉

/-- The library's `Quantity.MilliValue`: a thousand times the quantity, rounded up. -/
def MilliValue (q : ℚ) : Int := ⌈q * 1000⌉

/-- Modelled from the spec: `v1.ResourceQuotaStatus` is not under src/. §3: the hard
limits and the current use of a resource-quota record, by resource name. -/
structure ResourceQuotaStatus where
  Hard : List (String × ℚ)
  Used : List (String × ℚ)
deriving DecidableEq, Repr

/-- Modelled from the spec: `v1.ResourceQuota` is not under src/. The fields
namespace_info.go reads: the name, `Spec.Hard` and the status. -/
structure ResourceQuota where
  Name : String
  Hard : List (String × ℚ)
  Status : ResourceQuotaStatus
deriving DecidableEq, Repr

/-- The constant `NamespaceWeightKey`. -/
def NamespaceWeightKey : String := "volcano.sh/namespace.weight"

/-- The constant `DefaultNamespaceWeight`. -/
def DefaultNamespaceWeight : Int := 1

/-- Embedding of `NamespaceInfo`. -/
structure NamespaceInfo where
  Name : String
  Weight : Int
  RQStatus : List (String × ResourceQuotaStatus)
  RQToResource : Resource
deriving DecidableEq, Repr

/-- Embedding of `NamespaceInfo.GetWeight`; the receiver may be nil. -/
def NamespaceInfo.GetWeight (n : Option NamespaceInfo) : Int :=
  match n with
  | none => DefaultNamespaceWeight
  | some n => if n.Weight = 0 then DefaultNamespaceWeight else n.Weight

/-- Embedding of `NamespaceInfo.GetResource`; the receiver may be nil. -/
def NamespaceInfo.GetResource (n : Option NamespaceInfo) : Resource :=
  match n with
  | none => EmptyResource
  | some n => n.RQToResource

/-- Embedding of `quotaItem`. -/
structure quotaItem where
  name : String
  weight : Int
deriving DecidableEq, Repr

/-- Embedding of `NamespaceCollection`; the heap `quotaWeight` holds its items by their
key, the name. -/
structure NamespaceCollection where
  Name : String
  quotaWeight : List (String × quotaItem)
  RQStatus : List (String × ResourceQuotaStatus)
  RQToResource : Resource
deriving DecidableEq, Repr

/-- Embedding of `NamespaceCollection.updateWeight`: the heap's Update adds the item or
replaces the item of the same key. -/
def NamespaceCollection.updateWeight (n : NamespaceCollection) (q : quotaItem) :
    NamespaceCollection :=
  { n with quotaWeight := mapSet n.quotaWeight q.name q }

/-- Embedding of `NamespaceCollection.deleteWeight`: the heap's Delete removes the item
of the same key. -/
def NamespaceCollection.deleteWeight (n : NamespaceCollection) (q : quotaItem) :
    NamespaceCollection :=
  { n with quotaWeight := mapErase n.quotaWeight q.name }

/-- Embedding of `NewNamespaceCollection`. -/
def NewNamespaceCollection (name : String) : NamespaceCollection :=
  NamespaceCollection.updateWeight
    { Name := name, quotaWeight := [], RQStatus := [], RQToResource := EmptyResource }
    { name := NamespaceWeightKey, weight := DefaultNamespaceWeight }

/-- Embedding of `itemFromQuota`. -/
def itemFromQuota (quota : ResourceQuota) : quotaItem :=
  { name := quota.Name
    weight := match mapGet quota.Hard NamespaceWeightKey with
      | some quotaWeight => Value quotaWeight
      | none => DefaultNamespaceWeight }

/-- The library's `strings.TrimPrefix(name, "requests.")`. -/
def TrimRequests (name : String) : String :=
  match name.data with
  | 'r' :: 'e' :: 'q' :: 'u' :: 'e' :: 's' :: 't' :: 's' :: '.' :: rest => String.mk rest
  | _ => name

/-- The hard entries of all quotas in the order the two loops of
convertResourceQuotaToResource visit them, each with its value less the used value of
the same name (lines 184-186). -/
def quotaEntries (rQstatus : List (String × ResourceQuotaStatus)) : List (String × ℚ) :=
  rQstatus.flatMap fun kv =>
    kv.2.Hard.map fun e => (e.1, e.2 - (mapGet kv.2.Used e.1).getD 0)

/-- The body of the loops of convertResourceQuotaToResource for one hard entry (lines
186-207): the resource so far and the names set so far.  `isScalar` stands for the
library's `v1helper.IsScalarResourceName`. -/
def convertStep (isScalar : String → Bool) (st : Resource × List String) (e : String × ℚ) :
    Resource × List String :=
  let sName := TrimRequests e.1
  if sName = "cpu" then
    if st.1.MilliCPU > (MilliValue e.2 : ℚ) ∨ sName ∉ st.2 then
      ({ st.1 with MilliCPU := (MilliValue e.2 : ℚ) }, sName :: st.2)
    else st
  else if sName = "memory" then
    if st.1.Memory > (Value e.2 : ℚ) ∨ sName ∉ st.2 then
      ({ st.1 with Memory := (Value e.2 : ℚ) }, sName :: st.2)
    else st
  else if isScalar sName then
    if scalarGet st.1.scalars sName > (MilliValue e.2 : ℚ) ∨ sName ∉ st.2 then
      ({ st.1 with ScalarResources := some (mapSet st.1.scalars sName (MilliValue e.2 : ℚ)) },
        sName :: st.2)
    else st
  else st

/-- Embedding of `NamespaceCollection.convertResourceQuotaToResource`. -/
def convertResourceQuotaToResource (isScalar : String → Bool)
    (rQstatus : List (String × ResourceQuotaStatus)) : Resource :=
  ((quotaEntries rQstatus).foldl (convertStep isScalar)
    ({ EmptyResource with ScalarResources := some [] }, [])).1

/-- Embedding of `NamespaceCollection.Update`. -/
def NamespaceCollection.Update (isScalar : String → Bool) (n : NamespaceCollection)
    (quota : ResourceQuota) : NamespaceCollection :=
  let n := n.updateWeight (itemFromQuota quota)
  let n := { n with RQStatus := mapSet n.RQStatus quota.Name quota.Status }
  { n with RQToResource := convertResourceQuotaToResource isScalar n.RQStatus }

/-- Embedding of `NamespaceCollection.Delete`. -/
def NamespaceCollection.Delete (isScalar : String → Bool) (n : NamespaceCollection)
    (quota : ResourceQuota) : NamespaceCollection :=
  let n := n.deleteWeight (itemFromQuota quota)
  let n := { n with RQStatus := mapErase n.RQStatus quota.Name }
  if n.RQStatus.length = 0 then { n with RQToResource := EmptyResource }
  else { n with RQToResource := convertResourceQuotaToResource isScalar n.RQStatus }

/-- The heap's Pop: an item no other item is heavier than, here the first such, and the
heap without it; `none` for the empty heap, on which Pop blocks. -/
def heapPop (h : List (String × quotaItem)) : Option (quotaItem × List (String × quotaItem)) :=
  match h with
  | [] => none
  | x :: xs =>
    let item := xs.foldl (fun best y => if y.2.weight > best.weight then y.2 else best) x.2
    some (item, mapErase h item.name)

/-- Embedding of `NamespaceCollection.Snapshot`: the namespace info and the collection
after the call; `none` when Pop blocks. -/
def NamespaceCollection.Snapshot (n : NamespaceCollection) :
    Option (NamespaceInfo × NamespaceCollection) :=
  (heapPop n.quotaWeight).map fun popped =>
    ({ Name := n.Name, Weight := popped.1.weight, RQStatus := n.RQStatus,
       RQToResource := n.RQToResource },
     { n with quotaWeight := mapSet popped.2 popped.1.name popped.1 })

/-! ## Notions used to state the properties of a namespace collection -/

/-- A call of Update or of Delete. -/
inductive QuotaOp where
  | update (quota : ResourceQuota)
  | delete (quota : ResourceQuota)
deriving DecidableEq, Repr

/-- The quota of a call. -/
def QuotaOp.quota : QuotaOp → ResourceQuota
  | .update q => q
  | .delete q => q

/-- The collection after a sequence of calls. -/
def applyOps (isScalar : String → Bool) (ops : List QuotaOp) (n : NamespaceCollection) :
    NamespaceCollection :=
  ops.foldl (fun n op =>
    match op with
    | .update q => n.Update isScalar q
    | .delete q => n.Delete isScalar q) n

/-- The weight of a quota in the words of the spec (§3 and the configuration table): the
hard entry `volcano.sh/namespace.weight` of the quota, read as an integer (a quantity
that is not one counts as the next integer), overrides the default weight of 1. -/
def declaredWeight (quota : ResourceQuota) : Int :=
  match quota.Hard.find? fun e => decide (e.1 = "volcano.sh/namespace.weight") with
  | some e => ⌈e.2⌉
  | none => 1

/-- The quotas registered after a sequence of calls, by name, each with the weight it
declared when it was last updated. -/
def registered (ops : List QuotaOp) : List (String × Int) :=
  ops.foldl (fun m op =>
    match op with
    | .update q => mapSet m q.Name (declaredWeight q)
    | .delete q => mapErase m q.Name) []

/-- The largest of 1 and the given weights. -/
def maxWeight (ws : List Int) : Int := ws.foldl max 1

/-- The dimension a hard entry bounds: cpu, memory or a scalar, by its name without a
leading "requests."; none for any other name. -/
def dimensionOf (isScalar : String → Bool) (name : String) : Option ResourceName :=
  if TrimRequests name = "cpu" then some ResourceName.cpu
  else if TrimRequests name = "memory" then some ResourceName.memory
  else if isScalar (TrimRequests name) then some (ResourceName.scalar (TrimRequests name))
  else none

/-- The value a quantity has in a dimension: milli-units for cpu and scalars, units for
memory. -/
def dimensionValue (d : ResourceName) (q : ℚ) : ℚ :=
  match d with
  | .memory => (Value q : ℚ)
  | _ => (MilliValue q : ℚ)

/-- The values hard - used of the entries that bound the dimension `d`. -/
def dimensionValues (isScalar : String → Bool) (d : ResourceName) (entries : List (String × ℚ)) :
    List ℚ :=
  entries.filterMap fun e =>
    if dimensionOf isScalar e.1 = some d then some (dimensionValue d e.2) else none

/-- `x` is the least of the values, or 0 when there is none. -/
def leastOf (x : ℚ) (values : List ℚ) : Prop :=
  (values = [] ∧ x = 0) ∨ (x ∈ values ∧ ∀ y ∈ values, x ≤ y)

end api

namespace resourcequota

open api

/-- The library's `quota.ResourceNames`. -/
def ResourceNames (resources : List (String × ℚ)) : List String := resources.map Prod.fst

/-- The library's `quota.Mask`: the entries whose name is among `names`. -/
def Mask (resources : List (String × ℚ)) (names : List String) : List (String × ℚ) :=
  resources.filter fun e => decide (e.1 ∈ names)

/-- The library's `quota.Add`: the entries of `a`, each plus the entry of `b` of the same
name if there is one, then the entries of `b` whose name `a` lacks. -/
def Add (a b : List (String × ℚ)) : List (String × ℚ) :=
  (a.map fun e => (e.1, e.2 + (mapGet b e.1).getD 0)) ++
  b.filter fun e => decide (e.1 ∉ a.map Prod.fst)

/-- The library's `quota.LessThanOrEqual`: whether no entry of `a` is above the entry of
`b` of the same name, and the names where one is. -/
def LessThanOrEqual (a b : List (String × ℚ)) : Bool × List String :=
  let exceeded := (b.filter fun e =>
    match mapGet a e.1 with
    | some other => decide (other > e.2)
    | none => false).map Prod.fst
  (exceeded.isEmpty, exceeded)

/-- Modelled from the spec: the pod group of the revision resourcequota.go reads is not
under src/. §4.5: the gang descriptor with its nullable `MinQuotas`. -/
structure PodGroup where
  MinQuotas : Option (List (String × ℚ))
deriving DecidableEq, Repr

/-- Modelled from the spec: the revision of `api.JobInfo` that resourcequota.go reads is
not under src/. The fields it reads: the namespace, the name, the pod group (nil for a
job without one). -/
structure JobInfo where
  Name : String
  Namespace : String
  PodGroup : Option PodGroup
deriving DecidableEq, Repr

/-- Modelled from the spec: `framework.Session` is not under src/. The map
resourcequota.go reads, from a namespace name to a pointer to its info. -/
structure Session where
  NamespaceInfo : List (String × NamespaceInfo)
deriving DecidableEq, Repr

/-- The test the loop of JobEnqueueableFn makes of one resource quota (lines 48-53):
whether the quota allows the request. -/
def quotaAllows (resourcesRequests : List (String × ℚ)) (resourceQuota : ResourceQuotaStatus) :
    Bool :=
  let hardResources := ResourceNames resourceQuota.Hard
  let requestedUsage := Mask resourcesRequests hardResources
  let newUsage := Add resourceQuota.Used requestedUsage
  let maskedNewUsage := Mask newUsage (ResourceNames requestedUsage)
  (LessThanOrEqual maskedNewUsage resourceQuota.Hard).1

/-- Embedding of the JobEnqueueableFn that OnSessionOpen registers (lines 37-68): the
vote; `none` on a nil dereference (job without pod group, namespace without info). -/
def JobEnqueueableFn (ssn : Session) (job : JobInfo) : Option util.Vote :=
  job.PodGroup.bind fun pg =>
  match pg.MinQuotas with
  | none => some util.Vote.Permit
  | some resourcesRequests =>
    (mapGet ssn.NamespaceInfo job.Namespace).map fun info =>
      if info.RQStatus.all fun kv => quotaAllows resourcesRequests kv.2 then util.Vote.Permit
      else util.Vote.Reject

end resourcequota

namespace api

/-! ## Concrete quotas used by the scenarios -/

/-- A quota of weight 3 that bounds cpu by 4 with 1 used and memory by 1000 with 200
used. -/
def exQuotaHeavy : ResourceQuota :=
  { Name := "heavy"
    Hard := [("volcano.sh/namespace.weight", 3), ("cpu", 4), ("memory", 1000)]
    Status := { Hard := [("cpu", 4), ("memory", 1000)], Used := [("cpu", 1), ("memory", 200)] } }

/-- The quota "heavy" once its weight entry has been lowered to 2. -/
def exQuotaLighter : ResourceQuota :=
  { exQuotaHeavy with
    Hard := [("volcano.sh/namespace.weight", 2), ("cpu", 4), ("memory", 1000)] }

/-- A quota without weight entry that bounds requests.cpu by 2 with 1/2 used. -/
def exQuotaPlain : ResourceQuota :=
  { Name := "plain"
    Hard := [("requests.cpu", 2)]
    Status := { Hard := [("requests.cpu", 2)], Used := [("requests.cpu", 1 / 2)] } }

end api

namespace api

/-- What the loops of convertResourceQuotaToResource keep true of the resource and the
names set so far, once the entries `done` are behind: the name of a dimension is set
exactly when an entry bounded the dimension, and the resource holds in every dimension
the least of the values met. -/
def convertInv (isScalar : String → Bool) (st : Resource × List String)
    (done : List (String × ℚ)) : Prop :=
  (∀ name d, dimensionOf isScalar name = some d →
    (TrimRequests name ∈ st.2 ↔ dimensionValues isScalar d done ≠ [])) ∧
  ∀ d, leastOf (st.1.Get d) (dimensionValues isScalar d done)

end api

namespace resourcequota

open api

/-- A job of namespace "ns" whose gang asks for 4 cpu. -/
def quotaJob : JobInfo :=
  { Name := "j", Namespace := "ns", PodGroup := some { MinQuotas := some [("cpu", 4)] } }

/-- A session in which "ns" has the quota that bounds cpu by 4 with 1 used. -/
def quotaSession : Session :=
  { NamespaceInfo := [("ns",
      { Name := "ns", Weight := 3, RQStatus := [("heavy", exQuotaHeavy.Status)],
        RQToResource := EmptyResource })] }

/-- A session without any namespace info. -/
def emptySession : Session := { NamespaceInfo := [] }

end resourcequota

/-! # The states of a job (`pkg/controllers/job/state`)

`KillJob` and `SyncJob` are not under src/: a call of one of them is kept as the call
itself, with the pod retention it names and the status mutation it is given. -/

namespace state

/-- Modelled from the spec: `vkv1.JobPhase` is not under src/. §4.6: the phases of a
job. -/
inductive JobPhase where
  | Pending
  | Aborting
  | Aborted
  | Running
  | Restarting
  | Completing
  | Completed
  | Terminating
  | Terminated
  | Inqueue
  | Failed
deriving DecidableEq, Repr

/-- Modelled from the spec: `vkv1.Action` is not under src/. §4.6: the actions a state
responds to; `other` is any action the handlers have no case for besides Sync. -/
inductive Action where
  | SyncJobAction
  | RestartJobAction
  | AbortJobAction
  | CompleteJobAction
  | TerminateJobAction
  | other (name : String)
deriving DecidableEq, Repr

/-- Modelled from the spec: `vkv1.JobStatus` is not under src/. The phase and the `int32`
counters the handlers read and write. -/
structure JobStatus where
  Phase : JobPhase
  Pending : Int
  Running : Int
  Succeeded : Int
  Failed : Int
  Terminating : Int
  RetryCount : Int
deriving DecidableEq, Repr

/-- Modelled from the spec: the pod retention policies (`PodRetainPhaseNone`,
`PodRetainPhaseSoft`) are not under src/. §4.6 names them None, Soft and Hard. -/
inductive PodRetainPhase where
  | PodRetainPhaseNone
  | PodRetainPhaseSoft
  | PodRetainPhaseHard
deriving DecidableEq, Repr

/-- Modelled from the spec: `UpdateJobPhase` is not under src/. It sets the phase of the
status. -/
def UpdateJobPhase (status : JobStatus) (phase : JobPhase) : JobStatus :=
  { status with Phase := phase }

/-- What Execute returns: the call of KillJob, with the pod retention when the call
names one, or of SyncJob, each with its status mutation. -/
inductive Call where
  | KillJob (retain : Option PodRetainPhase) (fn : JobStatus → JobStatus)
  | SyncJob (fn : JobStatus → JobStatus)

/-- The status mutation of a call. -/
def Call.fn : Call → JobStatus → JobStatus
  | .KillJob _ fn => fn
  | .SyncJob fn => fn

/-- Whether the call kills the job. -/
def Call.kills : Call → Bool
  | .KillJob _ _ => true
  | .SyncJob _ => false

/-- The pod retention a call of KillJob names. -/
def Call.retain : Call → Option PodRetainPhase
  | .KillJob retain _ => retain
  | .SyncJob _ => none

/-- Embedding of `runningState.Execute`; `totalTasks` is `TotalTasks(ps.job.Job)`, which
is not under src/. -/
def runningState.Execute (totalTasks : Int) (action : Action) : Call :=
  match action with
  | .RestartJobAction =>
    Call.KillJob none fun status =>
      if status.Terminating ≠ 0 then
        { status with RetryCount := int32 (status.RetryCount + 1), Phase := JobPhase.Restarting }
      else { status with Phase := JobPhase.Running }
  | .AbortJobAction =>
    Call.KillJob none fun status =>
      if status.Terminating ≠ 0 then { status with Phase := JobPhase.Aborting }
      else { status with Phase := JobPhase.Running }
  | .TerminateJobAction =>
    Call.KillJob none fun status =>
      if status.Terminating ≠ 0 then { status with Phase := JobPhase.Terminating }
      else { status with Phase := JobPhase.Running }
  | .CompleteJobAction =>
    Call.KillJob none fun status =>
      if status.Terminating ≠ 0 then { status with Phase := JobPhase.Completing }
      else { status with Phase := JobPhase.Completed }
  | _ =>
    Call.SyncJob fun status =>
      if int32 (status.Succeeded + status.Failed) = totalTasks then
        { status with Phase := JobPhase.Completed }
      else { status with Phase := JobPhase.Running }

/-- Embedding of `inqueueState.Execute`; `minAvailable` is `ps.job.Job.Spec.MinAvailable`. -/
def inqueueState.Execute (minAvailable : Int) (action : Action) : Call :=
  match action with
  | .RestartJobAction =>
    Call.KillJob (some PodRetainPhase.PodRetainPhaseNone) fun status =>
      let status := UpdateJobPhase status JobPhase.Restarting
      { status with RetryCount := int32 (status.RetryCount + 1) }
  | .AbortJobAction =>
    Call.KillJob (some PodRetainPhase.PodRetainPhaseSoft) fun status =>
      UpdateJobPhase status JobPhase.Aborting
  | .CompleteJobAction =>
    Call.KillJob (some PodRetainPhase.PodRetainPhaseSoft) fun status =>
      UpdateJobPhase status JobPhase.Completing
  | .TerminateJobAction =>
    Call.KillJob (some PodRetainPhase.PodRetainPhaseSoft) fun status =>
      UpdateJobPhase status JobPhase.Terminating
  | _ =>
    Call.SyncJob fun status =>
      if minAvailable ≤ int32 (int32 (status.Running + status.Succeeded) + status.Failed) then
        UpdateJobPhase status JobPhase.Running
      else status

/-- Embedding of `completingState.Execute`. -/
def completingState.Execute (_action : Action) : Call :=
  Call.KillJob (some PodRetainPhase.PodRetainPhaseSoft) fun status =>
    if status.Terminating ≠ 0 ∨ status.Pending ≠ 0 ∨ status.Running ≠ 0 then status
    else UpdateJobPhase status JobPhase.Completed

/-- A running job with three tasks, all Running, and `terminating` pods on their way
out (scenario S4). -/
def s4Status (terminating : Int) : JobStatus :=
  { Phase := JobPhase.Running, Pending := 0, Running := 3, Succeeded := 0, Failed := 0,
    Terminating := terminating, RetryCount := 0 }

end state


/-! ## Scalar maps -/

theorem scalarGet_eq_zero_of_not_mem (m : List (String × ℚ)) (k : String)
    (h : k ∉ scalarKeys m) : scalarGet m k = 0 := by
  induction m with
  | nil => rfl
  | cons kv m ih =>
    obtain ⟨a, v⟩ := kv
    simp only [scalarKeys, List.map_cons, List.mem_cons, not_or] at h
    simp only [scalarGet, if_neg h.1]
    exact ih h.2

theorem scalarGet_map_pair (ks : List String) (f : String → ℚ) (k : String) :
    scalarGet (ks.map fun a => (a, f a)) k = if k ∈ ks then f k else 0 := by
  induction ks with
  | nil => simp [scalarGet]
  | cons a ks ih =>
    by_cases h : k = a
    · subst h; simp [scalarGet]
    · simp [scalarGet, h, ih]

theorem scalarGet_build (ks : List String) (f : String → ℚ) (k : String) :
    scalarGet (scalarBuild ks f) k = if k ∈ ks then f k else 0 := by
  unfold scalarBuild
  rw [scalarGet_map_pair]
  simp [Finset.mem_sort, List.mem_toFinset]

theorem scalarKeys_build (ks : List String) (f : String → ℚ) :
    scalarKeys (scalarBuild ks f) = ks.toFinset.sort (· ≤ ·) := by
  simp [scalarKeys, scalarBuild, Function.comp_def]

theorem mem_scalarKeys_build (ks : List String) (f : String → ℚ) (k : String) :
    k ∈ scalarKeys (scalarBuild ks f) ↔ k ∈ ks := by
  rw [scalarKeys_build]; simp

theorem scalarBuild_congr (ks ks' : List String) (f f' : String → ℚ)
    (hk : ∀ k, k ∈ ks ↔ k ∈ ks') (hf : ∀ k, k ∈ ks → f k = f' k) :
    scalarBuild ks f = scalarBuild ks' f' := by
  have hset : ks.toFinset = ks'.toFinset := by
    ext k; simp [hk k]
  unfold scalarBuild
  rw [← hset]
  apply List.map_congr_left
  intro k hkmem
  have : k ∈ ks := by simpa using hkmem
  rw [hf k this]

theorem scalarBuild_eq_nil_iff (ks : List String) (f : String → ℚ) :
    scalarBuild ks f = [] ↔ ks = [] := by
  constructor
  · intro h
    cases ks with
    | nil => rfl
    | cons a ks =>
      have : a ∈ scalarKeys (scalarBuild (a :: ks) f) := (mem_scalarKeys_build _ _ _).2 (by simp)
      rw [h] at this
      simp [scalarKeys] at this
  · intro h; subst h; simp [scalarBuild]

namespace api.Resource

/-! ## Dimension-wise reading of the Resource operations -/

theorem Get_EmptyResource (rn : ResourceName) : EmptyResource.Get rn = 0 := by
  cases rn <;> simp [EmptyResource, Get, scalars, scalarGet]

theorem scalars_nil_of_isEmpty (r : Resource) (h : r.scalars.isEmpty = true) (k : String) :
    scalarGet r.scalars k = 0 := by
  have : r.scalars = [] := by simpa using h
  rw [this]; rfl

theorem Get_Add (r rr : Resource) (rn : ResourceName) :
    (r.Add rr).Get rn = r.Get rn + rr.Get rn := by
  cases rn with
  | cpu => rfl
  | memory => rfl
  | scalar k =>
    simp only [Get, Add, scalars]
    by_cases h : rr.scalars.isEmpty = true
    · have h0 := scalars_nil_of_isEmpty rr h k
      simp only [scalars] at h h0
      simp [h, h0]
    · simp only [scalars] at h
      simp only [h, Bool.false_eq_true, if_false, Option.getD_some, scalarGet_build, List.mem_append]
      split
      · rfl
      · rename_i hk
        simp only [not_or] at hk
        rw [scalarGet_eq_zero_of_not_mem _ _ hk.1, scalarGet_eq_zero_of_not_mem _ _ hk.2]; simp

theorem Get_Sub (r rr : Resource) (rn : ResourceName) :
    (r.Sub rr).Get rn = r.Get rn - rr.Get rn := by
  cases rn with
  | cpu => rfl
  | memory => rfl
  | scalar k =>
    simp only [Get, Sub, scalars]
    by_cases h : rr.scalars.isEmpty = true
    · have h0 := scalars_nil_of_isEmpty rr h k
      simp only [scalars] at h h0
      simp [h, h0]
    · simp only [scalars] at h
      simp only [h, Bool.false_eq_true, if_false, Option.getD_some, scalarGet_build, List.mem_append]
      split
      · rfl
      · rename_i hk
        simp only [not_or] at hk
        rw [scalarGet_eq_zero_of_not_mem _ _ hk.1, scalarGet_eq_zero_of_not_mem _ _ hk.2]; simp

theorem Get_Multi (r : Resource) (c : ℚ) (rn : ResourceName) :
    (r.Multi c).Get rn = r.Get rn * c := by
  cases rn with
  | cpu => rfl
  | memory => rfl
  | scalar k =>
    simp only [Get, Multi, scalars]
    cases hm : r.ScalarResources with
    | none => simp [scalarGet]
    | some m =>
      simp only [Option.map_some', Option.getD_some, scalarGet_build]
      split
      · rfl
      · rename_i hk
        rw [scalarGet_eq_zero_of_not_mem _ _ hk]; simp

theorem Get_Clone (r : Resource) (rn : ResourceName) : r.Clone.Get rn = r.Get rn := rfl

theorem Get_MinDimensionResource (r rr : Resource) (rn : ResourceName) :
    (r.MinDimensionResource rr).Get rn =
      if 0 < rr.Get rn then min (r.Get rn) (rr.Get rn) else r.Get rn := by
  cases rn with
  | cpu => rfl
  | memory => rfl
  | scalar k =>
    simp only [Get, MinDimensionResource, scalars]
    cases hm : r.ScalarResources with
    | none =>
      simp only [Option.map_none', Option.getD_none, scalarGet]
      split
      · rename_i h; rw [min_eq_left (le_of_lt h)]
      · rfl
    | some m =>
      simp only [Option.map_some', Option.getD_some, scalarGet_build]
      by_cases hk : k ∈ scalarKeys m
      · simp [hk]
      · rw [if_neg hk, scalarGet_eq_zero_of_not_mem _ _ hk]
        split
        · rename_i h; rw [min_eq_left (le_of_lt h)]
        · rfl

theorem Get_Diff_fst (r rr : Resource) (rn : ResourceName) :
    (r.Diff rr).1.Get rn = if rr.Get rn < r.Get rn then r.Get rn - rr.Get rn else 0 := by
  cases rn with
  | cpu => rfl
  | memory => rfl
  | scalar k =>
    simp only [Get, Diff]
    by_cases h : (scalarKeys r.scalars ++ scalarKeys rr.scalars).isEmpty = true
    · have h' : scalarKeys r.scalars ++ scalarKeys rr.scalars = [] := by simpa using h
      have h1 : scalarKeys r.scalars = [] := (List.append_eq_nil.1 h').1
      have h2 : scalarKeys rr.scalars = [] := (List.append_eq_nil.1 h').2
      have e1 : scalarGet r.scalars k = 0 := scalarGet_eq_zero_of_not_mem _ _ (by simp [h1])
      have e2 : scalarGet rr.scalars k = 0 := scalarGet_eq_zero_of_not_mem _ _ (by simp [h2])
      simp [scalars, h1, h2, e1, e2, scalarGet] at *
    · simp only [h, Bool.false_eq_true, if_false]
      simp only [scalars, Option.getD_some, scalarGet_build, List.mem_append]
      split
      · rfl
      · rename_i hk
        simp only [not_or] at hk
        have e1 := scalarGet_eq_zero_of_not_mem _ _ hk.1
        have e2 := scalarGet_eq_zero_of_not_mem _ _ hk.2
        simp only [scalars] at e1 e2
        simp [e1, e2]

end api.Resource

namespace api.Resource

theorem Get_Diff_snd (r rr : Resource) (rn : ResourceName) :
    (r.Diff rr).2.Get rn = if r.Get rn < rr.Get rn then rr.Get rn - r.Get rn else 0 := by
  cases rn with
  | cpu => rfl
  | memory => rfl
  | scalar k =>
    simp only [Get, Diff]
    by_cases h : (scalarKeys r.scalars ++ scalarKeys rr.scalars).isEmpty = true
    · have h' : scalarKeys r.scalars ++ scalarKeys rr.scalars = [] := by simpa using h
      have h1 : scalarKeys r.scalars = [] := (List.append_eq_nil.1 h').1
      have h2 : scalarKeys rr.scalars = [] := (List.append_eq_nil.1 h').2
      have e1 : scalarGet r.scalars k = 0 := scalarGet_eq_zero_of_not_mem _ _ (by simp [h1])
      have e2 : scalarGet rr.scalars k = 0 := scalarGet_eq_zero_of_not_mem _ _ (by simp [h2])
      simp [scalars, h1, h2, e1, e2, scalarGet] at *
    · simp only [h, Bool.false_eq_true, if_false]
      simp only [scalars, Option.getD_some, scalarGet_build, List.mem_append]
      split
      · rfl
      · rename_i hk
        simp only [not_or] at hk
        have e1 := scalarGet_eq_zero_of_not_mem _ _ hk.1
        have e2 := scalarGet_eq_zero_of_not_mem _ _ hk.2
        simp only [scalars] at e1 e2
        simp [e1, e2]

/-- What a queue's deserved gained minus what it lost is its change. -/
theorem Get_Diff_sub (r rr : Resource) (rn : ResourceName) :
    (r.Diff rr).1.Get rn - (r.Diff rr).2.Get rn = r.Get rn - rr.Get rn := by
  rw [Get_Diff_fst, Get_Diff_snd]
  rcases lt_trichotomy (r.Get rn) (rr.Get rn) with h | h | h
  · rw [if_neg (not_lt.2 (le_of_lt h)), if_pos h]; ring
  · rw [h]; simp
  · rw [if_pos h, if_neg (not_lt.2 (le_of_lt h))]; ring

theorem LessEqualInAllDimension_iff (r rr : Resource) (d : DimensionDefaultValue) :
    r.LessEqualInAllDimension rr d = true ↔ ∀ rn, r.Get rn ≤ rr.Get rn := by
  simp only [LessEqualInAllDimension, Bool.and_eq_true, decide_eq_true_eq, List.all_eq_true]
  constructor
  · rintro ⟨⟨h1, h2⟩, h3⟩ rn
    cases rn with
    | cpu => exact h1
    | memory => exact h2
    | scalar k =>
      simp only [Get]
      by_cases hk : k ∈ scalarKeys r.scalars ++ scalarKeys rr.scalars
      · exact h3 k hk
      · simp only [List.mem_append, not_or] at hk
        rw [scalarGet_eq_zero_of_not_mem _ _ hk.1, scalarGet_eq_zero_of_not_mem _ _ hk.2]
  · intro h
    exact ⟨⟨h .cpu, h .memory⟩, fun k _ => h (.scalar k)⟩

theorem LessInAllDimension_imp (r rr : Resource) (d : DimensionDefaultValue)
    (h : r.LessInAllDimension rr d = true) : r.MilliCPU < rr.MilliCPU ∧ r.Memory < rr.Memory := by
  simp only [LessInAllDimension, Bool.and_eq_true, decide_eq_true_eq] at h
  exact h.1

theorem IsEmpty_iff (r : Resource) : r.IsEmpty = true ↔ ∀ rn, r.Get rn ≤ 0 := by
  simp only [IsEmpty, Bool.and_eq_true, decide_eq_true_eq, List.all_eq_true]
  constructor
  · rintro ⟨⟨h1, h2⟩, h3⟩ rn
    cases rn with
    | cpu => exact h1
    | memory => exact h2
    | scalar k =>
      simp only [Get]
      by_cases hk : k ∈ scalarKeys r.scalars
      · simp only [scalarKeys, List.mem_map] at hk
        obtain ⟨kv, hkv, rfl⟩ := hk
        exact h3 kv hkv
      · rw [scalarGet_eq_zero_of_not_mem _ _ hk]
  · intro h
    exact ⟨⟨h .cpu, h .memory⟩, fun kv _ => h (.scalar kv.1)⟩

theorem DeepEqual_imp (a b : Resource) (h : a.DeepEqual b = true) :
    a.MilliCPU = b.MilliCPU ∧ a.Memory = b.Memory := by
  simp only [DeepEqual, Bool.and_eq_true, decide_eq_true_eq] at h
  exact h.1

end api.Resource

namespace helpers

open api api.Resource

/-- In every dimension `helpers.Min` gives the smaller of the two values, or zero. -/
theorem Get_Min_cases (l r : Resource) (rn : ResourceName) :
    (Min l r).Get rn = min (l.Get rn) (r.Get rn) ∨ (Min l r).Get rn = 0 := by
  cases rn with
  | cpu => exact Or.inl rfl
  | memory => exact Or.inl rfl
  | scalar k =>
    simp only [Get, Min, scalars]
    cases hl : l.ScalarResources with
    | none => right; simp [scalarGet]
    | some lm =>
      cases hr : r.ScalarResources with
      | none => right; simp [scalarGet]
      | some rm =>
        simp only [Option.getD_some, scalarGet_build]
        by_cases hk : k ∈ scalarKeys lm
        · left; simp [hk]
        · right; simp [hk]

/-- On non-negative resources `helpers.Min` is the dimension-wise minimum. -/
theorem Get_Min_eq (l r : Resource) (rn : ResourceName)
    (hl : 0 ≤ l.Get rn) (hr : 0 ≤ r.Get rn) :
    (Min l r).Get rn = min (l.Get rn) (r.Get rn) := by
  cases rn with
  | cpu => rfl
  | memory => rfl
  | scalar k =>
    simp only [Get, Min, scalars] at *
    cases hlm : l.ScalarResources with
    | none =>
      rw [hlm] at hl
      simp only [Option.getD_none, scalarGet] at *
      rw [min_eq_left hr]
    | some lm =>
      cases hrm : r.ScalarResources with
      | none =>
        rw [hlm] at hl
        simp only [Option.getD_none, Option.getD_some, scalarGet] at *
        rw [min_eq_right hl]
      | some rm =>
        rw [hlm] at hl; rw [hrm] at hr
        simp only [Option.getD_some, scalarGet_build] at *
        by_cases hk : k ∈ scalarKeys lm
        · simp [hk]
        · rw [if_neg hk, scalarGet_eq_zero_of_not_mem _ _ hk, min_eq_left hr]

theorem Get_Min_le_of_le (l r : Resource) (rn : ResourceName) (b : ℚ) (hb : 0 ≤ b)
    (h : l.Get rn ≤ b) : (Min l r).Get rn ≤ b := by
  rcases Get_Min_cases l r rn with e | e
  · rw [e]; exact le_trans (min_le_left _ _) h
  · rw [e]; exact hb

theorem Get_Min_le_right (l r : Resource) (rn : ResourceName) (hr : 0 ≤ r.Get rn) :
    (Min l r).Get rn ≤ r.Get rn := by
  rcases Get_Min_cases l r rn with e | e
  · rw [e]; exact min_le_right _ _
  · rw [e]; exact hr

theorem Get_Min_nonneg (l r : Resource) (rn : ResourceName)
    (hl : 0 ≤ l.Get rn) (hr : 0 ≤ r.Get rn) : 0 ≤ (Min l r).Get rn := by
  rcases Get_Min_cases l r rn with e | e
  · rw [e]; exact le_min hl hr
  · rw [e]

end helpers

namespace api

theorem scalarGet_scalarEntries (rl : ResourceList) (k : String) :
    scalarGet (scalarEntries rl) k = (mapGet rl (.scalar k)).getD 0 := by
  induction rl with
  | nil => rfl
  | cons e rl ih =>
    obtain ⟨n, v⟩ := e
    cases n with
    | cpu => simp [scalarEntries, mapGet, ih]
    | memory => simp [scalarEntries, mapGet, ih]
    | scalar a =>
      by_cases h : k = a
      · subst h; simp [scalarEntries, mapGet, scalarGet]
      · simp [scalarEntries, mapGet, scalarGet, h, ih]

/-- The Resource of a resource list reads, in every dimension, the list's quantity. -/
theorem Get_NewResource (rl : ResourceList) (rn : ResourceName) :
    (NewResource rl).Get rn = (mapGet rl rn).getD 0 := by
  cases rn with
  | cpu => rfl
  | memory => rfl
  | scalar k =>
    simp only [Resource.Get, NewResource, Resource.scalars]
    by_cases h : (scalarEntries rl).isEmpty = true
    · have h' : scalarEntries rl = [] := by simpa using h
      rw [← scalarGet_scalarEntries]
      simp [h', scalarGet]
    · simp only [h, Bool.false_eq_true, if_false, Option.getD_some, scalarGet_build]
      rw [← scalarGet_scalarEntries]
      split
      · rfl
      · rename_i hk
        rw [scalarGet_eq_zero_of_not_mem _ _ hk]

theorem mapGet_mem {K V : Type} [DecidableEq K] (m : List (K × V)) (k : K) (v : V)
    (h : mapGet m k = some v) : (k, v) ∈ m := by
  induction m with
  | nil => simp [mapGet] at h
  | cons e m ih =>
    obtain ⟨a, w⟩ := e
    by_cases hk : k = a
    · subst hk; simp [mapGet] at h; subst h; simp
    · simp [mapGet, hk] at h; exact List.mem_cons_of_mem _ (ih h)

end api

namespace proportion

open api api.Resource framework util

/-! ## JobEnqueueableFn -/

/-- C8: JobEnqueueableFn votes Permit and leaves the plugin state (so I_q) unchanged when
the job's queue has an empty capability or the job has no MinResources; otherwise, when
MinResources + A_q + I_q <= capability in every dimension it votes Permit and the only
change is that I_q of the job's queue grows by MinResources, and when not it votes
Reject and changes nothing.  In scenario S3 the vote is Reject. -/
theorem jobEnqueueable_votes (pp : proportionPlugin) (ssn : Session) (job : JobInfo)
    (queue : QueueInfo) (hq : mapGet ssn.Queues job.Queue = some queue) :
    (queue.Capability = [] → JobEnqueueableFn pp ssn job = some (Vote.Permit, pp)) ∧
    (∀ pg, job.PodGroup = some pg → pg.MinResources = none →
      JobEnqueueableFn pp ssn job = some (Vote.Permit, pp)) ∧
    (∀ pg rl attr, queue.Capability ≠ [] → job.PodGroup = some pg →
      pg.MinResources = some rl → mapGet (pp.queueOpts.getD []) job.Queue = some attr →
      ((∀ rn, (NewResource rl).Get rn + attr.allocated.Get rn + attr.inqueue.Get rn
            ≤ (NewResource queue.Capability).Get rn) →
        JobEnqueueableFn pp ssn job = some (Vote.Permit,
          { pp with queueOpts := some (mapSet (pp.queueOpts.getD []) job.Queue
              { attr with inqueue := attr.inqueue.Add (NewResource rl) }) }) ∧
        ∀ rn, (attr.inqueue.Add (NewResource rl)).Get rn
            = attr.inqueue.Get rn + (NewResource rl).Get rn) ∧
      (¬ (∀ rn, (NewResource rl).Get rn + attr.allocated.Get rn + attr.inqueue.Get rn
            ≤ (NewResource queue.Capability).Get rn) →
        JobEnqueueableFn pp ssn job = some (Vote.Reject, pp))) ∧
    JobEnqueueableFn s3Plugin s3Session s3Job = some (Vote.Reject, s3Plugin) := by
  refine ⟨?_, ?_, ?_, ?_⟩
  · intro hcap
    simp [JobEnqueueableFn, hq, hcap]
  · intro pg hpg hmin
    by_cases hcap : queue.Capability = []
    · simp [JobEnqueueableFn, hq, hcap]
    · simp [JobEnqueueableFn, hq, hcap, hpg, hmin]
  · intro pg rl attr hcap hpg hmin hattr
    have hlen : ¬ queue.Capability.length = 0 := by
      intro h; exact hcap (List.length_eq_zero.1 h)
    have hproposed : ∀ rn, (((NewResource rl).Add attr.allocated).Add attr.inqueue).Get rn
        = (NewResource rl).Get rn + attr.allocated.Get rn + attr.inqueue.Get rn := by
      intro rn; rw [Get_Add, Get_Add]
    constructor
    · intro hle
      have hcmp : (((NewResource rl).Add attr.allocated).Add attr.inqueue).LessEqualInAllDimension
          (NewResource queue.Capability) DimensionDefaultValue.Infinity = true := by
        rw [LessEqualInAllDimension_iff]; intro rn; rw [hproposed]; exact hle rn
      refine ⟨?_, fun rn => Get_Add _ _ rn⟩
      simp [JobEnqueueableFn, hq, hcap, hpg, hmin, JobInfo.GetMinResources, hattr, hcmp]
    · intro hnle
      have hcmp : (((NewResource rl).Add attr.allocated).Add attr.inqueue).LessEqualInAllDimension
          (NewResource queue.Capability) DimensionDefaultValue.Infinity = false := by
        rw [Bool.eq_false_iff]
        intro h
        rw [LessEqualInAllDimension_iff] at h
        exact hnle (fun rn => by rw [← hproposed]; exact h rn)
      simp [JobEnqueueableFn, hq, hcap, hpg, hmin, JobInfo.GetMinResources, hattr, hcmp]
  · decide!

/-- Witness of C8 in scenario S3: the queue is in the session, the proposed
{2100m, 4Gi} exceeds the capability in cpu, and the vote is Reject. -/
theorem jobEnqueueable_votes_witness :
    mapGet s3Session.Queues s3Job.Queue = some s3Queue ∧
    JobEnqueueableFn s3Plugin s3Session s3Job = some (Vote.Reject, s3Plugin) :=
  ⟨by decide!,
   ((jobEnqueueable_votes s3Plugin s3Session s3Job s3Queue (by decide!)).2.2.1
      { Phase := PodGroupPhase.Pending,
        MinResources := some [(ResourceName.cpu, 600), (ResourceName.memory, 1073741824)] }
      [(ResourceName.cpu, 600), (ResourceName.memory, 1073741824)]
      { queueID := "q", name := "q", weight := 1, share := 0,
        deserved := { MilliCPU := 4000, Memory := 8589934592, ScalarResources := none },
        allocated := { MilliCPU := 1500, Memory := 3221225472, ScalarResources := none },
        request := { MilliCPU := 1500, Memory := 3221225472, ScalarResources := none },
        inqueue := EmptyResource,
        capability := some (NewResource s3Queue.Capability) }
      (by decide!) (by decide!) (by decide!) (by decide!)).2
      (fun h => absurd (h ResourceName.cpu) (by decide!))⟩

/-- C9: for a queue whose capability is set and zero in every dimension it names,
JobEnqueueableFn votes Reject for every job whose MinResources is positive in at least
one dimension (the queue's allocated and inqueue being non-negative). -/
theorem jobEnqueueable_zero_capability_rejects (pp : proportionPlugin) (ssn : Session)
    (job : JobInfo) (queue : QueueInfo) (pg : PodGroup) (rl : ResourceList) (attr : queueAttr)
    (hq : mapGet ssn.Queues job.Queue = some queue)
    (hset : queue.Capability ≠ [])
    (hzero : ∀ e ∈ queue.Capability, e.2 = 0)
    (hpg : job.PodGroup = some pg) (hmin : pg.MinResources = some rl)
    (hpos : ∃ rn, 0 < (NewResource rl).Get rn)
    (hattr : mapGet (pp.queueOpts.getD []) job.Queue = some attr)
    (halloc : ∀ rn, 0 ≤ attr.allocated.Get rn) (hinq : ∀ rn, 0 ≤ attr.inqueue.Get rn) :
    JobEnqueueableFn pp ssn job = some (Vote.Reject, pp) := by
  have hlen : ¬ queue.Capability.length = 0 := by
    intro h; exact hset (List.length_eq_zero.1 h)
  have hcap0 : ∀ rn, (NewResource queue.Capability).Get rn = 0 := by
    intro rn
    rw [Get_NewResource]
    cases hg : mapGet queue.Capability rn with
    | none => rfl
    | some v =>
      have := hzero _ (mapGet_mem _ _ _ hg)
      simpa using this
  obtain ⟨rn, hrn⟩ := hpos
  have hcmp : (((NewResource rl).Add attr.allocated).Add attr.inqueue).LessEqualInAllDimension
      (NewResource queue.Capability) DimensionDefaultValue.Infinity = false := by
    rw [Bool.eq_false_iff]
    intro h
    rw [LessEqualInAllDimension_iff] at h
    have h1 := h rn
    rw [Get_Add, Get_Add, hcap0] at h1
    have h2 := halloc rn
    have h3 := hinq rn
    linarith
  simp [JobEnqueueableFn, hq, hset, hpg, hmin, JobInfo.GetMinResources, hattr, hcmp]

/-- Witness of C9: the job of scenario S3 in a queue with capability {0, 0}. -/
theorem jobEnqueueable_zero_capability_rejects_witness :
    JobEnqueueableFn s3Plugin zeroCapSession s3Job = some (Vote.Reject, s3Plugin) :=
  jobEnqueueable_zero_capability_rejects s3Plugin zeroCapSession s3Job
    { s3Queue with Capability := [(ResourceName.cpu, 0), (ResourceName.memory, 0)] }
    { Phase := PodGroupPhase.Pending,
      MinResources := some [(ResourceName.cpu, 600), (ResourceName.memory, 1073741824)] }
    [(ResourceName.cpu, 600), (ResourceName.memory, 1073741824)]
    { queueID := "q", name := "q", weight := 1, share := 0,
      deserved := { MilliCPU := 4000, Memory := 8589934592, ScalarResources := none },
      allocated := { MilliCPU := 1500, Memory := 3221225472, ScalarResources := none },
      request := { MilliCPU := 1500, Memory := 3221225472, ScalarResources := none },
      inqueue := EmptyResource,
      capability := some (NewResource s3Queue.Capability) }
    (by decide!) (by decide!) (by decide!) (by decide!) (by decide!)
    ⟨ResourceName.cpu, by decide!⟩ (by decide!)
    (by intro rn; cases rn <;> simp [Get, scalars, scalarGet, EmptyResource])
    (by intro rn; cases rn <;> simp [Get, scalars, scalarGet, EmptyResource])

end proportion

namespace proportion

open api api.Resource framework util

/-! ## ReclaimableFn -/

theorem reclaimStep_victims (pp : proportionPlugin) (ssn : Session) (st st' : reclaimState)
    (t : TaskInfo) (h : reclaimStep pp ssn st t = some st') :
    st'.victims = st.victims ∨
    (st'.victims = st.victims ++ [t] ∧ ∃ job attr,
      mapGet ssn.Jobs t.Job = some job ∧
      mapGet (pp.queueOpts.getD []) job.Queue = some attr ∧
      (runningAllocation st job.Queue attr).LessInAllDimension t.Resreq
        DimensionDefaultValue.Zero = false ∧
      (runningAllocation st job.Queue attr).LessEqualInAllDimension attr.deserved
        DimensionDefaultValue.Zero = false) := by
  unfold reclaimStep at h
  cases hj : mapGet ssn.Jobs t.Job with
  | none => simp [hj] at h
  | some job =>
    cases ha : mapGet (pp.queueOpts.getD []) job.Queue with
    | none => simp [hj, ha] at h
    | some attr =>
      simp only [hj, Option.some_bind, ha, Option.map_some', Option.some.injEq] at h
      by_cases h1 : (runningAllocation st job.Queue attr).LessInAllDimension t.Resreq
          DimensionDefaultValue.Zero = true
      · rw [if_pos h1] at h
        left; rw [← h]
      · rw [if_neg h1] at h
        by_cases h2 : (runningAllocation st job.Queue attr).LessEqualInAllDimension attr.deserved
            DimensionDefaultValue.Zero = true
        · simp only [h2, Bool.not_true, Bool.false_eq_true, if_false] at h
          left; rw [← h]
        · simp only [h2, Bool.not_false, if_true] at h
          right
          refine ⟨by rw [← h], job, attr, rfl, ha, ?_, ?_⟩
          · simpa using h1
          · simpa using h2

theorem reclaimLoop_append (pp : proportionPlugin) (ssn : Session) (l₁ l₂ : List TaskInfo)
    (st : reclaimState) :
    reclaimLoop pp ssn (l₁ ++ l₂) st = (reclaimLoop pp ssn l₁ st).bind (reclaimLoop pp ssn l₂) := by
  induction l₁ generalizing st with
  | nil => simp [reclaimLoop]
  | cons t l₁ ih =>
    simp only [List.cons_append, reclaimLoop]
    cases h : reclaimStep pp ssn st t with
    | none => simp
    | some st1 => simp [ih]

theorem reclaimLoop_victims (pp : proportionPlugin) (ssn : Session) (l : List TaskInfo) :
    ∀ (pre : List TaskInfo) (st0 st st' : reclaimState),
      reclaimLoop pp ssn pre st0 = some st → reclaimLoop pp ssn l st = some st' →
      ∀ v ∈ st'.victims, v ∈ st.victims ∨
        ∃ mid post st1 job attr, l = mid ++ v :: post ∧
          reclaimLoop pp ssn (pre ++ mid) st0 = some st1 ∧
          mapGet ssn.Jobs v.Job = some job ∧
          mapGet (pp.queueOpts.getD []) job.Queue = some attr ∧
          (runningAllocation st1 job.Queue attr).LessInAllDimension v.Resreq
            DimensionDefaultValue.Zero = false ∧
          (runningAllocation st1 job.Queue attr).LessEqualInAllDimension attr.deserved
            DimensionDefaultValue.Zero = false := by
  induction l with
  | nil =>
    intro pre st0 st st' _ h v hv
    simp only [reclaimLoop, Option.some.injEq] at h
    left; rw [h]; exact hv
  | cons t l ih =>
    intro pre st0 st st' hpre h v hv
    simp only [reclaimLoop] at h
    cases hs : reclaimStep pp ssn st t with
    | none => simp [hs] at h
    | some st2 =>
      simp only [hs, Option.some_bind] at h
      have hpre2 : reclaimLoop pp ssn (pre ++ [t]) st0 = some st2 := by
        rw [reclaimLoop_append, hpre]; simp [reclaimLoop, hs]
      rcases ih (pre ++ [t]) st0 st2 st' hpre2 h v hv with hin | ⟨mid, post, st1, job, attr, hl, hrun, hrest⟩
      · rcases reclaimStep_victims pp ssn st st2 t hs with hsame | ⟨hadd, job, attr, hj, ha, h1, h2⟩
        · left; rw [← hsame]; exact hin
        · rw [hadd, List.mem_append] at hin
          rcases hin with hin | hin
          · left; exact hin
          · right
            have hvt : v = t := by simpa using hin
            subst hvt
            exact ⟨[], l, st, job, attr, rfl, by simpa using hpre, hj, ha, h1, h2⟩
      · right
        refine ⟨t :: mid, post, st1, job, attr, by rw [hl]; rfl, ?_, hrest⟩
        rw [← hrun]; simp

/-- C10, as the code has it: every task ReclaimableFn returns as a victim is one of the
reclaimees for which the running allocation of its queue, before the task's request is
subtracted, is not below the request in all dimensions and is not <= the queue's
deserved in all dimensions; the vote is Permit. -/
theorem reclaimable_victims_overused (pp : proportionPlugin) (ssn : Session)
    (reclaimer : TaskInfo) (reclaimees victims : List TaskInfo) (vote : Vote)
    (h : ReclaimableFn pp ssn reclaimer reclaimees = some (victims, vote)) :
    vote = Vote.Permit ∧
    ∀ v ∈ victims, ∃ pre post st job attr,
      reclaimees = pre ++ v :: post ∧
      reclaimLoop pp ssn pre { victims := [], allocations := [] } = some st ∧
      mapGet ssn.Jobs v.Job = some job ∧
      mapGet (pp.queueOpts.getD []) job.Queue = some attr ∧
      (runningAllocation st job.Queue attr).LessInAllDimension v.Resreq
        DimensionDefaultValue.Zero = false ∧
      (runningAllocation st job.Queue attr).LessEqualInAllDimension attr.deserved
        DimensionDefaultValue.Zero = false := by
  unfold ReclaimableFn at h
  cases hl : reclaimLoop pp ssn reclaimees { victims := [], allocations := [] } with
  | none => simp [hl] at h
  | some st' =>
    simp only [hl, Option.map_some', Option.some.injEq, Prod.mk.injEq] at h
    obtain ⟨hv, hvote⟩ := h
    refine ⟨hvote.symm, ?_⟩
    intro v hvmem
    rw [← hv] at hvmem
    rcases reclaimLoop_victims pp ssn reclaimees [] _ _ st' rfl hl v hvmem with hin | hex
    · simp at hin
    · obtain ⟨mid, post, st1, job, attr, hl', hrun, hrest⟩ := hex
      exact ⟨mid, post, st1, job, attr, hl', by simpa using hrun, hrest⟩

/-- Witness of C10: the queue holds {1000m, 1000}, deserves {900m, 900}, and the one
reclaimee is returned. -/
theorem reclaimable_victims_overused_witness :
    ReclaimableFn reclaimPlugin reclaimSession reclaimTask [reclaimTask]
      = some ([reclaimTask], Vote.Permit) ∧
    ∀ v ∈ [reclaimTask], ∃ pre post st job attr,
      [reclaimTask] = pre ++ v :: post ∧
      reclaimLoop reclaimPlugin reclaimSession pre { victims := [], allocations := [] } = some st ∧
      mapGet reclaimSession.Jobs v.Job = some job ∧
      mapGet (reclaimPlugin.queueOpts.getD []) job.Queue = some attr ∧
      (runningAllocation st job.Queue attr).LessInAllDimension v.Resreq
        DimensionDefaultValue.Zero = false ∧
      (runningAllocation st job.Queue attr).LessEqualInAllDimension attr.deserved
        DimensionDefaultValue.Zero = false :=
  ⟨by decide!,
   (reclaimable_victims_overused reclaimPlugin reclaimSession reclaimTask [reclaimTask]
      [reclaimTask] Vote.Permit (by decide!)).2⟩

/-- C10 as stated fails: ReclaimableFn returns the reclaimee although the running
allocation of its queue, once the request is subtracted ({500m, 500}), is <= the
queue's deserved ({900m, 900}) in all dimensions. -/
theorem reclaimable_after_subtraction_counterexample :
    ReclaimableFn reclaimPlugin reclaimSession reclaimTask [reclaimTask]
      = some ([reclaimTask], Vote.Permit) ∧
    mapGet reclaimSession.Jobs reclaimTask.Job
      = some (exJob "j" "q" TaskStatus.Running [reclaimTask] none) ∧
    mapGet (reclaimPlugin.queueOpts.getD []) "q" = some reclaimAttr ∧
    ((runningAllocation { victims := [], allocations := [] } "q" reclaimAttr).Sub
        reclaimTask.Resreq).LessEqualInAllDimension reclaimAttr.deserved
      DimensionDefaultValue.Zero = true := by
  decide!

end proportion

namespace proportion

open api api.Resource framework util

/-! ## One queue in one round -/

theorem fillQueue_cases (rem : Resource) (W : Int) (attr : queueAttr) :
    (∃ cap, attr.capability = some cap ∧
      ¬ (∀ rn, (raised rem W attr).Get rn ≤ cap.Get rn) ∧
      fillQueue rem W attr =
        ({ attr with deserved := helpers.Min (helpers.Min (raised rem W attr) cap) attr.request },
          true)) ∨
    ((∀ cap, attr.capability = some cap → ∀ rn, (raised rem W attr).Get rn ≤ cap.Get rn) ∧
      (∀ rn, attr.request.Get rn ≤ (raised rem W attr).Get rn) ∧
      fillQueue rem W attr =
        ({ attr with deserved := helpers.Min (raised rem W attr) attr.request }, true)) ∨
    ((∀ cap, attr.capability = some cap → ∀ rn, (raised rem W attr).Get rn ≤ cap.Get rn) ∧
      ¬ (∀ rn, attr.request.Get rn ≤ (raised rem W attr).Get rn) ∧
      fillQueue rem W attr =
        ({ attr with deserved := (raised rem W attr).MinDimensionResource attr.request }, false)) := by
  by_cases hreq : attr.request.LessEqualInAllDimension (raised rem W attr)
      DimensionDefaultValue.Zero = true
  · have hreq' := (LessEqualInAllDimension_iff _ _ _).1 hreq
    cases hc : attr.capability with
    | none =>
      right; left
      refine ⟨(by intro cap h; cases h), hreq', ?_⟩
      simp only [fillQueue, hc]
      simp only [raised] at hreq
      rw [if_pos hreq]; rfl
    | some cap =>
      by_cases hcap : (raised rem W attr).LessEqualInAllDimension cap
          DimensionDefaultValue.Infinity = true
      · right; left
        refine ⟨?_, hreq', ?_⟩
        · intro cap' h; cases h
          exact (LessEqualInAllDimension_iff _ _ _).1 hcap
        · simp only [fillQueue, hc]
          simp only [raised] at hreq hcap
          simp only [hcap, hreq, Bool.not_true, Bool.false_eq_true, if_false, if_true]; rfl
      · left
        refine ⟨cap, rfl, ?_, ?_⟩
        · intro h; exact hcap ((LessEqualInAllDimension_iff _ _ _).2 h)
        · simp only [fillQueue, hc]
          simp only [raised] at hcap
          simp only [hcap, Bool.not_false, if_true]; rfl
  · have hreq' : ¬ (∀ rn, attr.request.Get rn ≤ (raised rem W attr).Get rn) := by
      intro h; exact hreq ((LessEqualInAllDimension_iff _ _ _).2 h)
    cases hc : attr.capability with
    | none =>
      right; right
      refine ⟨(by intro cap h; cases h), hreq', ?_⟩
      simp only [fillQueue, hc]
      simp only [raised] at hreq
      rw [if_neg hreq]; rfl
    | some cap =>
      by_cases hcap : (raised rem W attr).LessEqualInAllDimension cap
          DimensionDefaultValue.Infinity = true
      · right; right
        refine ⟨?_, hreq', ?_⟩
        · intro cap' h; cases h
          exact (LessEqualInAllDimension_iff _ _ _).1 hcap
        · simp only [fillQueue, hc]
          simp only [raised] at hreq hcap
          simp only [hcap, hreq, Bool.not_true, Bool.false_eq_true, if_false]; rfl
      · left
        refine ⟨cap, rfl, ?_, ?_⟩
        · intro h; exact hcap ((LessEqualInAllDimension_iff _ _ _).2 h)
        · simp only [fillQueue, hc]
          simp only [raised] at hcap
          simp only [hcap, Bool.not_false, if_true]; rfl

theorem Get_raised (rem : Resource) (W : Int) (attr : queueAttr) (rn : ResourceName) :
    (raised rem W attr).Get rn
      = attr.deserved.Get rn + rem.Get rn * ((attr.weight : ℚ) / (W : ℚ)) := by
  simp [raised, Get_Add, Get_Multi, Get_Clone]

theorem fillQueue_frame (rem : Resource) (W : Int) (attr : queueAttr) :
    sameFrame attr (fillQueue rem W attr).1 := by
  rcases fillQueue_cases rem W attr with ⟨cap, _, _, h⟩ | ⟨_, _, h⟩ | ⟨_, _, h⟩ <;>
    rw [h] <;> simp [sameFrame]

theorem updateShare_frame (attr : queueAttr) : sameFrame attr (updateShare attr) := by
  simp [sameFrame, updateShare]

theorem sameFrame_refl (a : queueAttr) : sameFrame a a := by simp [sameFrame]

theorem sameFrame_trans (a b c : queueAttr) (h1 : sameFrame a b) (h2 : sameFrame b c) :
    sameFrame a c := by
  obtain ⟨a1, a2, a3, a4, a5, a6, a7⟩ := h1
  obtain ⟨b1, b2, b3, b4, b5, b6, b7⟩ := h2
  exact ⟨b1.trans a1, b2.trans a2, b3.trans a3, b4.trans a4, b5.trans a5, b6.trans a6, b7.trans a7⟩

theorem passRel_frame (rem : Resource) (W : Int) (meet : List QueueID)
    (kv kv' : QueueID × queueAttr) (h : passRel rem W meet kv kv') : sameFrame kv.2 kv'.2 := by
  rcases h.2 with e | ⟨_, e⟩
  · rw [e]; exact sameFrame_refl _
  · rw [e]; exact sameFrame_trans _ _ _ (fillQueue_frame rem W kv.2) (updateShare_frame _)

end proportion

namespace proportion

open api api.Resource framework util

/-! ## One pass over the queues -/

theorem passQueue_spec (rem : Resource) (W : Int) (meet0 : List QueueID) (st : passState)
    (kv : QueueID × queueAttr) (hsub : ∀ x ∈ meet0, x ∈ st.meet) :
    ∃ kv', passRel rem W meet0 kv kv' ∧
      (passQueue rem W st kv).done = st.done ++ [kv'] ∧
      (∀ x ∈ st.meet, x ∈ (passQueue rem W st kv).meet) ∧
      ∀ rn, (passQueue rem W st kv).increasedDeserved.Get rn
            - (passQueue rem W st kv).decreasedDeserved.Get rn
          = st.increasedDeserved.Get rn - st.decreasedDeserved.Get rn
            + (kv'.2.deserved.Get rn - kv.2.deserved.Get rn) := by
  by_cases hm : kv.2.queueID ∈ st.meet
  · refine ⟨kv, ⟨rfl, Or.inl rfl⟩, ?_, ?_, ?_⟩
    · simp [passQueue, hm]
    · intro x hx; simpa [passQueue, hm] using hx
    · intro rn; simp [passQueue, hm]
  · refine ⟨(kv.1, updateShare (fillQueue rem W kv.2).1),
      ⟨rfl, Or.inr ⟨fun h => hm (hsub _ h), rfl⟩⟩, ?_, ?_, ?_⟩
    · simp [passQueue, hm]
    · intro x hx
      simp only [passQueue, hm, if_false]
      split
      · exact List.mem_append_left _ hx
      · exact hx
    · intro rn
      simp only [passQueue, hm, if_false, Get_Add]
      have := Get_Diff_sub (updateShare (fillQueue rem W kv.2).1).deserved kv.2.deserved rn
      linarith

theorem pass_spec (rem : Resource) (W : Int) (meet0 : List QueueID) :
    ∀ (l : List (QueueID × queueAttr)) (st : passState), (∀ x ∈ meet0, x ∈ st.meet) →
    ∃ l', List.Forall₂ (passRel rem W meet0) l l' ∧
      (l.foldl (passQueue rem W) st).done = st.done ++ l' ∧
      (∀ x ∈ st.meet, x ∈ (l.foldl (passQueue rem W) st).meet) ∧
      ∀ rn, (l.foldl (passQueue rem W) st).increasedDeserved.Get rn
            - (l.foldl (passQueue rem W) st).decreasedDeserved.Get rn
          = st.increasedDeserved.Get rn - st.decreasedDeserved.Get rn
            + (sumDeserved rn l' - sumDeserved rn l) := by
  intro l
  induction l with
  | nil =>
    intro st _
    exact ⟨[], List.Forall₂.nil, by simp, fun x hx => hx, fun rn => by simp [sumDeserved]⟩
  | cons kv l ih =>
    intro st hsub
    obtain ⟨kv', hrel, hdone, hmeet, hacc⟩ := passQueue_spec rem W meet0 st kv hsub
    obtain ⟨l', hl', hdone', hmeet', hacc'⟩ :=
      ih (passQueue rem W st kv) (fun x hx => hmeet x (hsub x hx))
    refine ⟨kv' :: l', List.Forall₂.cons hrel hl', ?_, ?_, ?_⟩
    · simp only [List.foldl_cons, hdone', hdone, List.append_assoc, List.singleton_append]
    · intro x hx; exact hmeet' x (hmeet x hx)
    · intro rn
      simp only [List.foldl_cons]
      rw [hacc' rn, hacc rn]
      simp only [sumDeserved, List.map_cons, List.sum_cons]
      ring

theorem fillRound_spec (W : Int) (s : fillState) :
    List.Forall₂ (passRel s.remaining W s.meet) s.opts (fillRound W s).opts ∧
    (∀ x ∈ s.meet, x ∈ (fillRound W s).meet) ∧
    ∀ rn, (fillRound W s).remaining.Get rn
        = s.remaining.Get rn - (sumDeserved rn (fillRound W s).opts - sumDeserved rn s.opts) := by
  obtain ⟨l', hl', hdone, hmeet, hacc⟩ := pass_spec s.remaining W s.meet s.opts
    { done := [], meet := s.meet, increasedDeserved := EmptyResource,
      decreasedDeserved := EmptyResource } (fun x hx => hx)
  have hopts : (fillRound W s).opts = l' := by
    simp only [fillRound]; rw [hdone]; rfl
  refine ⟨by rw [hopts]; exact hl', hmeet, ?_⟩
  intro rn
  have h := hacc rn
  simp only [Get_EmptyResource] at h
  rw [hopts]
  simp only [fillRound, Get_Add, Get_Sub]
  linarith

theorem forall₂_passRel_mem (rem : Resource) (W : Int) (meet0 : List QueueID)
    (l l' : List (QueueID × queueAttr)) (h : List.Forall₂ (passRel rem W meet0) l l')
    (kv' : QueueID × queueAttr) (hkv : kv' ∈ l') : ∃ kv ∈ l, passRel rem W meet0 kv kv' := by
  induction h with
  | nil => cases hkv
  | cons hrel _ ih =>
    rcases List.mem_cons.1 hkv with e | e
    · subst e; exact ⟨_, List.mem_cons_self _ _, hrel⟩
    · obtain ⟨kv, hmem, hr⟩ := ih e
      exact ⟨kv, List.mem_cons_of_mem _ hmem, hr⟩

/-- A property of a queue's attributes that `fillQueue` keeps holds of every queue after
the loop when it holds of every queue before. -/
theorem waterFill_forall (P : queueAttr → Prop)
    (hP : ∀ rem W attr, P attr → P (updateShare (fillQueue rem W attr).1)) :
    ∀ (fuel : Nat) (s s' : fillState), (∀ kv ∈ s.opts, P kv.2) →
      waterFill fuel s = some s' → ∀ kv ∈ s'.opts, P kv.2 := by
  intro fuel
  induction fuel with
  | zero => intro s s' _ h; simp [waterFill] at h
  | succ n ih =>
    intro s s' hs h
    simp only [waterFill] at h
    by_cases hw : totalWeight s.meet s.opts = 0
    · simp only [hw, if_true, Option.some.injEq] at h
      rw [← h]; exact hs
    · simp only [hw, if_false] at h
      have hround : ∀ kv ∈ (fillRound (totalWeight s.meet s.opts) s).opts, P kv.2 := by
        intro kv' hkv'
        obtain ⟨kv, hmem, hrel⟩ := forall₂_passRel_mem _ _ _ _ _
          (fillRound_spec (totalWeight s.meet s.opts) s).1 kv' hkv'
        rcases hrel.2 with e | ⟨_, e⟩
        · rw [e]; exact hs kv hmem
        · rw [e]; exact hP _ _ _ (hs kv hmem)
      split at h
      · simp only [Option.some.injEq] at h
        rw [← h]; exact hround
      · exact ih _ _ hround h

/-- An invariant of the rounds holds when the loop ends. -/
theorem waterFill_inv (I : fillState → Prop)
    (hI : ∀ s, I s → totalWeight s.meet s.opts ≠ 0 → I (fillRound (totalWeight s.meet s.opts) s)) :
    ∀ (fuel : Nat) (s s' : fillState), I s → waterFill fuel s = some s' → I s' := by
  intro fuel
  induction fuel with
  | zero => intro s s' _ h; simp [waterFill] at h
  | succ n ih =>
    intro s s' hs h
    simp only [waterFill] at h
    by_cases hw : totalWeight s.meet s.opts = 0
    · simp only [hw, if_true, Option.some.injEq] at h
      rw [← h]; exact hs
    · simp only [hw, if_false] at h
      split at h
      · simp only [Option.some.injEq] at h
        rw [← h]; exact hI s hs hw
      · exact ih _ _ (hI s hs hw) h

/-- A property of a queue's attributes that `fillQueue` keeps holds of every queue at the
end of every round, and when the loop is left, when it holds of every queue before. -/
theorem waterFillRounds_forall (P : queueAttr → Prop)
    (hP : ∀ rem W attr, P attr → P (updateShare (fillQueue rem W attr).1)) :
    ∀ (rounds : Nat) (s : fillState), (∀ kv ∈ s.opts, P kv.2) →
      ∀ kv ∈ (waterFillRounds rounds s).opts, P kv.2 := by
  intro rounds
  induction rounds with
  | zero => intro s hs; exact hs
  | succ n ih =>
    intro s hs
    simp only [waterFillRounds]
    by_cases hw : totalWeight s.meet s.opts = 0
    · simp only [hw, if_true]; exact hs
    · simp only [hw, if_false]
      have hround : ∀ kv ∈ (fillRound (totalWeight s.meet s.opts) s).opts, P kv.2 := by
        intro kv' hkv'
        obtain ⟨kv, hmem, hrel⟩ := forall₂_passRel_mem _ _ _ _ _
          (fillRound_spec (totalWeight s.meet s.opts) s).1 kv' hkv'
        rcases hrel.2 with e | ⟨_, e⟩
        · rw [e]; exact hs kv hmem
        · rw [e]; exact hP _ _ _ (hs kv hmem)
      split
      · exact hround
      · exact ih _ hround

/-- An invariant of the rounds holds at the end of every round. -/
theorem waterFillRounds_inv (I : fillState → Prop)
    (hI : ∀ s, I s → totalWeight s.meet s.opts ≠ 0 → I (fillRound (totalWeight s.meet s.opts) s)) :
    ∀ (rounds : Nat) (s : fillState), I s → I (waterFillRounds rounds s) := by
  intro rounds
  induction rounds with
  | zero => intro s hs; exact hs
  | succ n ih =>
    intro s hs
    simp only [waterFillRounds]
    by_cases hw : totalWeight s.meet s.opts = 0
    · simp only [hw, if_true]; exact hs
    · simp only [hw, if_false]
      split
      · exact hI s hs hw
      · exact ih _ (hI s hs hw)

/-- When the loop breaks within `fuel` rounds, the state in which it breaks is the state
`waterFillRounds` gives for that many rounds and for any larger number of rounds. -/
theorem waterFill_rounds :
    ∀ (fuel : Nat) (s s' : fillState), waterFill fuel s = some s' →
      ∀ extra, waterFillRounds (fuel + extra) s = s' := by
  intro fuel
  induction fuel with
  | zero => intro s s' h; simp [waterFill] at h
  | succ n ih =>
    intro s s' h extra
    have e : n + 1 + extra = (n + extra) + 1 := by omega
    rw [e]
    simp only [waterFill] at h
    simp only [waterFillRounds]
    by_cases hw : totalWeight s.meet s.opts = 0
    · simp only [hw, if_true, Option.some.injEq] at h
      simp only [hw, if_true]; exact h
    · simp only [hw, if_false] at h ⊢
      split at h
      · rename_i hexit
        simp only [Option.some.injEq] at h
        rw [if_pos hexit]; exact h
      · rename_i hexit
        rw [if_neg hexit]
        exact ih _ _ h extra

end proportion

/-! ## Reads and writes of maps -/

theorem mapGet_mapSet {K V : Type} [DecidableEq K] (m : List (K × V)) (k k' : K) (v : V) :
    mapGet (mapSet m k v) k' = if k' = k then some v else mapGet m k' := by
  induction m with
  | nil => simp [mapSet, mapGet]
  | cons e m ih =>
    obtain ⟨a, w⟩ := e
    by_cases h : k = a
    · subst h
      by_cases h' : k' = k
      · simp [mapSet, mapGet, h']
      · simp [mapSet, mapGet, h']
    · by_cases h' : k' = a
      · subst h'
        have : ¬ k' = k := fun e => h e.symm
        simp [mapSet, mapGet, h, this]
      · simp [mapSet, mapGet, h, h', ih]

theorem mem_mapSet {K V : Type} [DecidableEq K] (m : List (K × V)) (k : K) (v : V)
    (e : K × V) (h : e ∈ mapSet m k v) : e ∈ m ∨ e = (k, v) := by
  induction m with
  | nil => simp [mapSet] at h; exact Or.inr h
  | cons x m ih =>
    obtain ⟨a, w⟩ := x
    by_cases hk : k = a
    · subst hk
      simp only [mapSet, if_true, List.mem_cons] at h
      rcases h with h | h
      · exact Or.inr h
      · exact Or.inl (List.mem_cons_of_mem _ h)
    · simp only [mapSet, hk, if_false, List.mem_cons] at h
      rcases h with h | h
      · exact Or.inl (by rw [h]; exact List.mem_cons_self _ _)
      · rcases ih h with h | h
        · exact Or.inl (List.mem_cons_of_mem _ h)
        · exact Or.inr h

theorem keys_mapSet {K V : Type} [DecidableEq K] (m : List (K × V)) (k : K) (v : V) :
    (mapSet m k v).map Prod.fst
      = if k ∈ m.map Prod.fst then m.map Prod.fst else m.map Prod.fst ++ [k] := by
  induction m with
  | nil => simp [mapSet]
  | cons x m ih =>
    obtain ⟨a, w⟩ := x
    by_cases hk : k = a
    · subst hk; simp [mapSet]
    · simp only [mapSet, hk, if_false, List.map_cons, ih, List.mem_cons, false_or]
      split <;> simp

theorem nodup_keys_mapSet {K V : Type} [DecidableEq K] (m : List (K × V)) (k : K) (v : V)
    (h : (m.map Prod.fst).Nodup) : ((mapSet m k v).map Prod.fst).Nodup := by
  rw [keys_mapSet]
  split
  · exact h
  · rename_i hk
    rw [List.nodup_append]
    refine ⟨h, List.nodup_singleton _, ?_⟩
    intro a ha hb
    simp only [List.mem_singleton] at hb
    subst hb; exact hk ha

theorem mapGet_eq_none_iff {K V : Type} [DecidableEq K] (m : List (K × V)) (k : K) :
    mapGet m k = none ↔ k ∉ m.map Prod.fst := by
  induction m with
  | nil => simp [mapGet]
  | cons x m ih =>
    obtain ⟨a, w⟩ := x
    by_cases hk : k = a
    · subst hk; simp [mapGet]
    · simp [mapGet, hk, ih]

theorem mapGet_of_mem_nodup {K V : Type} [DecidableEq K] (m : List (K × V)) (k : K) (v : V)
    (hn : (m.map Prod.fst).Nodup) (h : (k, v) ∈ m) : mapGet m k = some v := by
  induction m with
  | nil => cases h
  | cons x m ih =>
    obtain ⟨a, w⟩ := x
    simp only [List.map_cons, List.nodup_cons] at hn
    rcases List.mem_cons.1 h with e | e
    · cases e; simp [mapGet]
    · have hne : k ≠ a := by
        intro e'; subst e'
        exact hn.1 (List.mem_map.2 ⟨(k, v), e, rfl⟩)
      simp [mapGet, hne, ih hn.2 e]

namespace proportion

open api api.Resource framework util

/-! ## The attributes OnSessionOpen builds -/

theorem Get_addTasks (tasks : tasksMap) (r : Resource) (rn : ResourceName) :
    (addTasks tasks r).Get rn = r.Get rn + (tasks.map fun t => t.2.Resreq.Get rn).sum := by
  unfold addTasks
  induction tasks generalizing r with
  | nil => simp
  | cons t tasks ih =>
    simp only [List.foldl_cons, List.map_cons, List.sum_cons]
    rw [ih, Get_Add]; ring

theorem accountBuckets_spec (bs : List (TaskStatus × tasksMap)) (attr : queueAttr) :
    ((bs.foldl accountBucket attr).queueID = attr.queueID ∧
      (bs.foldl accountBucket attr).name = attr.name ∧
      (bs.foldl accountBucket attr).weight = attr.weight ∧
      (bs.foldl accountBucket attr).inqueue = attr.inqueue ∧
      (bs.foldl accountBucket attr).capability = attr.capability ∧
      (bs.foldl accountBucket attr).deserved = attr.deserved ∧
      (bs.foldl accountBucket attr).share = attr.share) ∧
    (∀ rn, (bs.foldl accountBucket attr).allocated.Get rn
        = attr.allocated.Get rn
          + (bs.map fun b =>
              if AllocatedStatus b.1 = true then (b.2.map fun t => t.2.Resreq.Get rn).sum
              else 0).sum) ∧
    (∀ rn, (bs.foldl accountBucket attr).request.Get rn
        = attr.request.Get rn
          + (bs.map fun b =>
              if (AllocatedStatus b.1 || decide (b.1 = TaskStatus.Pending)) = true
              then (b.2.map fun t => t.2.Resreq.Get rn).sum else 0).sum) := by
  induction bs generalizing attr with
  | nil => simp
  | cons b bs ih =>
    simp only [List.foldl_cons, List.map_cons, List.sum_cons]
    obtain ⟨hf, ha, hr⟩ := ih (accountBucket attr b)
    by_cases h1 : AllocatedStatus b.1 = true
    · have e : accountBucket attr b = { attr with allocated := addTasks b.2 attr.allocated,
                                                   request := addTasks b.2 attr.request } := by
        simp [accountBucket, h1]
      refine ⟨?_, ?_, ?_⟩
      · simpa [e] using hf
      · intro rn; rw [ha rn, e]; simp only [Get_addTasks, h1, if_true]; ring
      · intro rn; rw [hr rn, e]; simp only [Get_addTasks, h1, Bool.true_or, if_true]; ring
    · by_cases h2 : b.1 = TaskStatus.Pending
      · have e : accountBucket attr b = { attr with request := addTasks b.2 attr.request } := by
          unfold accountBucket; rw [if_neg h1, if_pos h2]
        refine ⟨?_, ?_, ?_⟩
        · simpa [e] using hf
        · intro rn; rw [ha rn, e]; simp [h1]
        · intro rn; rw [hr rn, e]; simp only [Get_addTasks, h1, h2, decide_True, Bool.or_true, if_true]; ring
      · have e : accountBucket attr b = attr := by
          unfold accountBucket; rw [if_neg h1, if_neg h2]
        refine ⟨?_, ?_, ?_⟩
        · simpa [e] using hf
        · intro rn; rw [ha rn, e]; simp [h1]
        · intro rn; rw [hr rn, e]; simp [h1, h2]

theorem accountJob_spec (attr : queueAttr) (job : JobInfo) :
    ((accountJob attr job).queueID = attr.queueID ∧ (accountJob attr job).name = attr.name ∧
      (accountJob attr job).weight = attr.weight ∧ (accountJob attr job).inqueue = attr.inqueue ∧
      (accountJob attr job).capability = attr.capability ∧
      (accountJob attr job).deserved = attr.deserved ∧
      (accountJob attr job).share = attr.share) ∧
    (∀ rn, (accountJob attr job).allocated.Get rn
        = attr.allocated.Get rn + jobSum AllocatedStatus rn job) ∧
    (∀ rn, (accountJob attr job).request.Get rn
        = attr.request.Get rn
          + jobSum (fun s => AllocatedStatus s || decide (s = TaskStatus.Pending)) rn job) :=
  accountBuckets_spec job.TaskStatusIndex attr

end proportion

theorem mapSet_mapSet {K V : Type} [DecidableEq K] (m : List (K × V)) (k : K) (v w : V) :
    mapSet (mapSet m k v) k w = mapSet m k w := by
  induction m with
  | nil => simp [mapSet]
  | cons x m ih =>
    obtain ⟨a, u⟩ := x
    by_cases hk : k = a
    · subst hk; simp [mapSet]
    · simp [mapSet, hk, ih]

namespace proportion

open api api.Resource framework util

theorem openJob_eq (ssn : Session) (opts opts' : List (QueueID × queueAttr)) (job : JobInfo)
    (h : openJob ssn opts job = some opts') :
    ∃ attr0 pg minRes, job.PodGroup = some pg ∧ job.GetMinResources = some minRes ∧
      (mapGet opts job.Queue = some attr0 ∨
        (mapGet opts job.Queue = none ∧
          ∃ queue, mapGet ssn.Queues job.Queue = some queue ∧ attr0 = newAttr queue)) ∧
      opts' = mapSet opts job.Queue
        (if pg.Phase = PodGroupPhase.Inqueue then
          { accountJob attr0 job with inqueue := (accountJob attr0 job).inqueue.Add minRes }
         else accountJob attr0 job) := by
  unfold openJob at h
  cases hg : mapGet opts job.Queue with
  | some attr0 =>
    simp only [hg, Option.some_bind] at h
    cases hpg : job.PodGroup with
    | none => simp [hpg] at h
    | some pg =>
      cases hm : job.GetMinResources with
      | none => simp [hpg, hm] at h
      | some minRes =>
        simp only [hpg, hm, Option.some_bind, Option.map_some', Option.some.injEq] at h
        exact ⟨attr0, pg, minRes, rfl, rfl, Or.inl rfl, h.symm⟩
  | none =>
    simp only [hg] at h
    cases hq : mapGet ssn.Queues job.Queue with
    | none => simp [hq] at h
    | some queue =>
      simp only [hq, Option.map_some', Option.some_bind, mapGet_mapSet, if_true] at h
      cases hpg : job.PodGroup with
      | none => simp [hpg] at h
      | some pg =>
        cases hm : job.GetMinResources with
        | none => simp [hpg, hm] at h
        | some minRes =>
          simp only [hpg, hm, Option.some_bind, Option.map_some', Option.some.injEq,
            mapSet_mapSet] at h
          exact ⟨newAttr queue, pg, minRes, rfl, rfl, Or.inr ⟨rfl, queue, rfl, rfl⟩, h.symm⟩

/-- Every queue OnSessionOpen gives attributes starts with an empty deserved, and the
keys of the attribute map are distinct. -/
theorem buildAttrs_fresh (ssn : Session) :
    ∀ (jobs : List (JobID × JobInfo)) (opts opts' : List (QueueID × queueAttr)),
      buildAttrs ssn jobs opts = some opts' →
      (∀ kv ∈ opts, kv.2.deserved = EmptyResource) → (opts.map Prod.fst).Nodup →
      (∀ kv ∈ opts', kv.2.deserved = EmptyResource) ∧ (opts'.map Prod.fst).Nodup := by
  intro jobs
  induction jobs with
  | nil =>
    intro opts opts' h hd hn
    simp only [buildAttrs, Option.some.injEq] at h
    subst h; exact ⟨hd, hn⟩
  | cons j jobs ih =>
    intro opts opts' h hd hn
    obtain ⟨jid, job⟩ := j
    simp only [buildAttrs] at h
    cases ho : openJob ssn opts job with
    | none => simp [ho] at h
    | some opts1 =>
      simp only [ho, Option.some_bind] at h
      obtain ⟨attr0, pg, minRes, _, _, hattr0, hopts1⟩ := openJob_eq ssn opts opts1 job ho
      refine ih opts1 opts' h ?_ ?_
      · intro kv hkv
        rw [hopts1] at hkv
        rcases mem_mapSet _ _ _ _ hkv with hkv | hkv
        · exact hd kv hkv
        · have h0 : attr0.deserved = EmptyResource := by
            rcases hattr0 with hg | ⟨_, queue, _, e⟩
            · exact hd _ (api.mapGet_mem _ _ _ hg)
            · rw [e]; rfl
          rw [hkv]
          have hacc := (accountJob_spec attr0 job).1.2.2.2.2.2.1
          split
          · simp only; rw [hacc, h0]
          · simp only; rw [hacc, h0]
      · rw [hopts1]; exact nodup_keys_mapSet _ _ _ hn

/-- After the aggregation of OnSessionOpen the allocated of a queue is, in every
dimension, what it was before plus the requests of the tasks in allocated-class buckets
of the jobs of the queue, and its request what it was plus the requests of the tasks in
allocated-class or Pending buckets. -/
theorem buildAttrs_sums (ssn : Session) :
    ∀ (jobs : List (JobID × JobInfo)) (opts opts' : List (QueueID × queueAttr)),
      buildAttrs ssn jobs opts = some opts' → ∀ (q : QueueID) (rn : ResourceName),
      (((mapGet opts' q).map fun a => a.allocated.Get rn).getD 0
        = ((mapGet opts q).map fun a => a.allocated.Get rn).getD 0
          + queueSum AllocatedStatus rn jobs q) ∧
      (((mapGet opts' q).map fun a => a.request.Get rn).getD 0
        = ((mapGet opts q).map fun a => a.request.Get rn).getD 0
          + queueSum (fun s => AllocatedStatus s || decide (s = TaskStatus.Pending)) rn jobs q) := by
  intro jobs
  induction jobs with
  | nil =>
    intro opts opts' h q rn
    simp only [buildAttrs, Option.some.injEq] at h
    subst h; simp [queueSum]
  | cons j jobs ih =>
    intro opts opts' h q rn
    obtain ⟨jid, job⟩ := j
    simp only [buildAttrs] at h
    cases ho : openJob ssn opts job with
    | none => simp [ho] at h
    | some opts1 =>
      simp only [ho, Option.some_bind] at h
      obtain ⟨attr0, pg, minRes, _, _, hattr0, hopts1⟩ := openJob_eq ssn opts opts1 job ho
      obtain ⟨ihA, ihR⟩ := ih opts1 opts' h q rn
      rw [ihA, ihR]
      simp only [queueSum, List.map_cons, List.sum_cons]
      obtain ⟨_, hA, hR⟩ := accountJob_spec attr0 job
      have hattrA : ((mapGet opts job.Queue).map fun a => a.allocated.Get rn).getD 0
          = attr0.allocated.Get rn := by
        rcases hattr0 with hg | ⟨hg, queue, _, e⟩
        · simp [hg]
        · rw [hg, e]; simp [newAttr, Get_EmptyResource]
      have hattrR : ((mapGet opts job.Queue).map fun a => a.request.Get rn).getD 0
          = attr0.request.Get rn := by
        rcases hattr0 with hg | ⟨hg, queue, _, e⟩
        · simp [hg]
        · rw [hg, e]; simp [newAttr, Get_EmptyResource]
      by_cases hq : q = job.Queue
      · subst hq
        rw [hopts1, mapGet_mapSet]
        simp only [if_true, Option.map_some', Option.getD_some]
        rw [hattrA, hattrR]
        constructor
        · split <;> (try simp only) <;> rw [hA rn] <;> ring
        · split <;> (try simp only) <;> rw [hR rn] <;> ring
      · have hq' : ¬ job.Queue = q := fun e => hq e.symm
        rw [hopts1, mapGet_mapSet]
        simp only [hq, hq', if_false]
        constructor <;> ring

end proportion

namespace proportion

open api api.Resource framework util

/-! ## OnSessionOpen on a fresh plugin -/

theorem OnSessionOpen_New_iff (fuel : Nat) (ssn : Session) (pp' : proportionPlugin) :
    OnSessionOpen fuel New ssn = some pp' ↔
    ∃ opts s, buildAttrs ssn ssn.Jobs [] = some opts ∧
      waterFill fuel { opts := opts, meet := [], remaining := EmptyResource.Add ssn.TotalResource }
        = some s ∧
      pp' = { totalResource := some (EmptyResource.Add ssn.TotalResource),
              queueOpts := some s.opts } := by
  simp only [OnSessionOpen, New, Option.some_bind, Clone]
  cases hb : buildAttrs ssn ssn.Jobs [] with
  | none => simp
  | some opts =>
    simp only [Option.map_some', Option.some_bind, Option.getD_some]
    cases hw : waterFill fuel
        { opts := opts, meet := [], remaining := EmptyResource.Add ssn.TotalResource } with
    | none => simp [hw]
    | some s =>
      simp only [Option.map_some', Option.some.injEq]
      constructor
      · intro h; exact ⟨opts, s, rfl, hw, h.symm⟩
      · rintro ⟨opts', s', h1, h2, h3⟩
        cases h1
        rw [hw] at h2
        cases h2; exact h3.symm

theorem OnSessionOpenRounds_New_iff (rounds : Nat) (ssn : Session) (pp' : proportionPlugin) :
    OnSessionOpenRounds rounds New ssn = some pp' ↔
    ∃ opts, buildAttrs ssn ssn.Jobs [] = some opts ∧
      pp' = { totalResource := some (EmptyResource.Add ssn.TotalResource),
              queueOpts := some (waterFillRounds rounds
                { opts := opts, meet := [],
                  remaining := EmptyResource.Add ssn.TotalResource }).opts } := by
  simp only [OnSessionOpenRounds, New, Option.some_bind, Clone]
  cases hb : buildAttrs ssn ssn.Jobs [] with
  | none => simp
  | some opts =>
    simp only [Option.map_some', Option.some.injEq, Option.getD_some]
    constructor
    · intro h; exact ⟨opts, rfl, h.symm⟩
    · rintro ⟨opts', h1, h3⟩
      cases h1
      exact h3.symm

theorem Get_total (ssn : Session) (rn : ResourceName) :
    (EmptyResource.Add ssn.TotalResource).Get rn = ssn.TotalResource.Get rn := by
  rw [Get_Add, Get_EmptyResource]; ring

theorem forall₂_comp {α : Type} (R S T : α → α → Prop)
    (hRS : ∀ a b c, R a b → S b c → T a c) :
    ∀ (l₁ l₂ l₃ : List α), List.Forall₂ R l₁ l₂ → List.Forall₂ S l₂ l₃ → List.Forall₂ T l₁ l₃ := by
  intro l₁ l₂ l₃ h1
  induction h1 generalizing l₃ with
  | nil => intro h2; cases h2; exact List.Forall₂.nil
  | cons hr _ ih =>
    intro h2
    cases h2 with
    | cons hs hrest => exact List.Forall₂.cons (hRS _ _ _ hr hs) (ih _ hrest)

theorem forall₂_mem_right {α : Type} (R : α → α → Prop) (l l' : List α)
    (h : List.Forall₂ R l l') (b : α) (hb : b ∈ l') : ∃ a ∈ l, R a b := by
  induction h with
  | nil => cases hb
  | cons hrel _ ih =>
    rcases List.mem_cons.1 hb with e | e
    · subst e; exact ⟨_, List.mem_cons_self _ _, hrel⟩
    · obtain ⟨a, hmem, hr⟩ := ih e
      exact ⟨a, List.mem_cons_of_mem _ hmem, hr⟩

theorem forall₂_refl {α : Type} (R : α → α → Prop) (hR : ∀ a, R a a) (l : List α) :
    List.Forall₂ R l l := by
  induction l with
  | nil => exact List.Forall₂.nil
  | cons a l ih => exact List.Forall₂.cons (hR a) ih

/-- The loop leaves every queue its key and everything but deserved and share. -/
theorem waterFill_frame (fuel : Nat) (s s' : fillState) (h : waterFill fuel s = some s') :
    List.Forall₂ (fun a b => b.1 = a.1 ∧ sameFrame a.2 b.2) s.opts s'.opts := by
  refine waterFill_inv
    (fun t => List.Forall₂ (fun a b => b.1 = a.1 ∧ sameFrame a.2 b.2) s.opts t.opts)
    ?_ fuel s s' (forall₂_refl _ (fun a => ⟨rfl, sameFrame_refl _⟩) _) h
  intro t ht _
  refine forall₂_comp _ (passRel t.remaining (totalWeight t.meet t.opts) t.meet) _ ?_ _ _ _ ht
    (fillRound_spec _ t).1
  intro a b c hab hbc
  exact ⟨hbc.1.trans hab.1, sameFrame_trans _ _ _ hab.2 (passRel_frame _ _ _ _ _ hbc)⟩

/-- Every round leaves every queue its key and everything but deserved and share. -/
theorem waterFillRounds_frame (rounds : Nat) (s : fillState) :
    List.Forall₂ (fun a b => b.1 = a.1 ∧ sameFrame a.2 b.2) s.opts
      (waterFillRounds rounds s).opts := by
  refine waterFillRounds_inv
    (fun t => List.Forall₂ (fun a b => b.1 = a.1 ∧ sameFrame a.2 b.2) s.opts t.opts)
    ?_ rounds s (forall₂_refl _ (fun a => ⟨rfl, sameFrame_refl _⟩) _)
  intro t ht _
  refine forall₂_comp _ (passRel t.remaining (totalWeight t.meet t.opts) t.meet) _ ?_ _ _ _ ht
    (fillRound_spec _ t).1
  intro a b c hab hbc
  exact ⟨hbc.1.trans hab.1, sameFrame_trans _ _ _ hab.2 (passRel_frame _ _ _ _ _ hbc)⟩

/-- When the embedding with fuel returns, the embedding by rounds returns the same state
for that number of rounds. -/
theorem OnSessionOpen_rounds (fuel : Nat) (ssn : Session) (pp' : proportionPlugin)
    (h : OnSessionOpen fuel New ssn = some pp') : OnSessionOpenRounds fuel New ssn = some pp' := by
  obtain ⟨opts, s, hb, hw, hpp⟩ := (OnSessionOpen_New_iff fuel ssn pp').1 h
  refine (OnSessionOpenRounds_New_iff fuel ssn pp').2 ⟨opts, hb, ?_⟩
  have e := waterFill_rounds fuel _ s hw 0
  rw [Nat.add_zero] at e
  rw [hpp, e]

/-! ## Bounds on deserved -/

theorem fillQueue_bounds (rem : Resource) (W : Int) (attr : queueAttr)
    (_h : (∀ cap, attr.capability = some cap → (∀ rn, 0 ≤ cap.Get rn) →
            ∀ rn, attr.deserved.Get rn ≤ cap.Get rn) ∧
         (∀ rn, 0 < attr.request.Get rn → attr.deserved.Get rn ≤ attr.request.Get rn)) :
    (∀ cap, (updateShare (fillQueue rem W attr).1).capability = some cap →
        (∀ rn, 0 ≤ cap.Get rn) →
        ∀ rn, (updateShare (fillQueue rem W attr).1).deserved.Get rn ≤ cap.Get rn) ∧
    (∀ rn, 0 < (updateShare (fillQueue rem W attr).1).request.Get rn →
        (updateShare (fillQueue rem W attr).1).deserved.Get rn
          ≤ (updateShare (fillQueue rem W attr).1).request.Get rn) := by
  rcases fillQueue_cases rem W attr with ⟨cap, hc, _, e⟩ | ⟨hle, _, e⟩ | ⟨hle, _, e⟩
  · rw [e]
    constructor
    · intro cap' hcap' hnn rn
      have hcc : cap' = cap := by
        have : attr.capability = some cap' := hcap'
        rw [hc] at this; exact (Option.some.inj this).symm
      subst hcc
      show (helpers.Min (helpers.Min (raised rem W attr) cap') attr.request).Get rn ≤ cap'.Get rn
      apply helpers.Get_Min_le_of_le _ _ _ _ (hnn rn)
      exact helpers.Get_Min_le_right _ _ _ (hnn rn)
    · intro rn hpos
      show (helpers.Min (helpers.Min (raised rem W attr) cap) attr.request).Get rn
        ≤ attr.request.Get rn
      exact helpers.Get_Min_le_right _ _ _ (le_of_lt hpos)
  · rw [e]
    constructor
    · intro cap' hcap' hnn rn
      show (helpers.Min (raised rem W attr) attr.request).Get rn ≤ cap'.Get rn
      exact helpers.Get_Min_le_of_le _ _ _ _ (hnn rn) (hle cap' hcap' rn)
    · intro rn hpos
      show (helpers.Min (raised rem W attr) attr.request).Get rn ≤ attr.request.Get rn
      exact helpers.Get_Min_le_right _ _ _ (le_of_lt hpos)
  · rw [e]
    constructor
    · intro cap' hcap' hnn rn
      show ((raised rem W attr).MinDimensionResource attr.request).Get rn ≤ cap'.Get rn
      rw [Get_MinDimensionResource]
      split
      · exact le_trans (min_le_left _ _) (hle cap' hcap' rn)
      · exact hle cap' hcap' rn
    · intro rn hpos
      show ((raised rem W attr).MinDimensionResource attr.request).Get rn ≤ attr.request.Get rn
      have hpos' : 0 < attr.request.Get rn := hpos
      rw [Get_MinDimensionResource, if_pos hpos']
      exact min_le_right _ _

/-- C1: when the aggregation of OnSessionOpen (on a fresh plugin) completes, the plugin
state at the end of every round of the water-filling loop, and so the state in which the
loop is left, whatever the round in which that happens, is one in which every queue that
has a (non-negative) capability has deserved <= capability in every dimension, and every
queue has deserved <= request in every dimension in which its request is positive. -/
theorem deserved_le_capability_and_request (rounds : Nat) (ssn : Session)
    (hb : (buildAttrs ssn ssn.Jobs []).isSome = true) :
    ∃ pp', OnSessionOpenRounds rounds New ssn = some pp' ∧
      (∀ kv ∈ pp'.queueOpts.getD [],
        (∀ cap, kv.2.capability = some cap → (∀ rn, 0 ≤ cap.Get rn) →
          ∀ rn, kv.2.deserved.Get rn ≤ cap.Get rn) ∧
        (∀ rn, 0 < kv.2.request.Get rn → kv.2.deserved.Get rn ≤ kv.2.request.Get rn)) ∧
      ∀ fuel pp'', OnSessionOpen fuel New ssn = some pp'' →
        ∀ kv ∈ pp''.queueOpts.getD [],
          (∀ cap, kv.2.capability = some cap → (∀ rn, 0 ≤ cap.Get rn) →
            ∀ rn, kv.2.deserved.Get rn ≤ cap.Get rn) ∧
          (∀ rn, 0 < kv.2.request.Get rn → kv.2.deserved.Get rn ≤ kv.2.request.Get rn) := by
  obtain ⟨opts, hb⟩ := Option.isSome_iff_exists.1 hb
  have key : ∀ n, ∀ kv ∈ (waterFillRounds n
      { opts := opts, meet := [], remaining := EmptyResource.Add ssn.TotalResource }).opts,
      (∀ cap, kv.2.capability = some cap → (∀ rn, 0 ≤ cap.Get rn) →
        ∀ rn, kv.2.deserved.Get rn ≤ cap.Get rn) ∧
      (∀ rn, 0 < kv.2.request.Get rn → kv.2.deserved.Get rn ≤ kv.2.request.Get rn) := by
    intro n
    refine waterFillRounds_forall
      (fun a => (∀ cap, a.capability = some cap → (∀ rn, 0 ≤ cap.Get rn) →
          ∀ rn, a.deserved.Get rn ≤ cap.Get rn) ∧
        (∀ rn, 0 < a.request.Get rn → a.deserved.Get rn ≤ a.request.Get rn))
      (fun rem W attr hP => fillQueue_bounds rem W attr hP) n _ ?_
    intro kv hkv
    have hd := (buildAttrs_fresh ssn ssn.Jobs [] opts hb (by simp) (by simp)).1 kv hkv
    simp only at hkv ⊢
    rw [hd]
    constructor
    · intro cap _ hnn rn; rw [Get_EmptyResource]; exact hnn rn
    · intro rn hpos; rw [Get_EmptyResource]; exact le_of_lt hpos
  refine ⟨_, (OnSessionOpenRounds_New_iff rounds ssn _).2 ⟨opts, hb, rfl⟩, ?_, ?_⟩
  · simp only [Option.getD_some]
    exact key rounds
  · intro fuel pp'' h
    obtain ⟨opts', hb', hpp⟩ :=
      (OnSessionOpenRounds_New_iff fuel ssn pp'').1 (OnSessionOpen_rounds fuel ssn pp'' h)
    rw [hb] at hb'; cases hb'
    subst hpp
    simp only [Option.getD_some]
    exact key fuel

/-- Witness of C1: `halvingSession`, where every round halves the remaining resource and
three rounds do not end the loop; at the end of the third round q1 has {3425m, 100} of
its request {10000m, 100} and q2 has {100m, 6925} of {100m, 10000}.  And `capSession`,
where the loop is left in the second round with q1 at its capability {500m, 1Gi}. -/
theorem deserved_le_capability_and_request_witness :
    OnSessionOpenRounds 3 New halvingSession = some halvingResult ∧
    OnSessionOpen 3 New halvingSession = none ∧
    OnSessionOpenRounds 3 New capSession = some capResult ∧
    (∃ pp', OnSessionOpenRounds 3 New halvingSession = some pp' ∧
      (∀ kv ∈ pp'.queueOpts.getD [],
        (∀ cap, kv.2.capability = some cap → (∀ rn, 0 ≤ cap.Get rn) →
          ∀ rn, kv.2.deserved.Get rn ≤ cap.Get rn) ∧
        (∀ rn, 0 < kv.2.request.Get rn → kv.2.deserved.Get rn ≤ kv.2.request.Get rn)) ∧
      ∀ fuel pp'', OnSessionOpen fuel New halvingSession = some pp'' →
        ∀ kv ∈ pp''.queueOpts.getD [],
          (∀ cap, kv.2.capability = some cap → (∀ rn, 0 ≤ cap.Get rn) →
            ∀ rn, kv.2.deserved.Get rn ≤ cap.Get rn) ∧
          (∀ rn, 0 < kv.2.request.Get rn → kv.2.deserved.Get rn ≤ kv.2.request.Get rn)) ∧
    ∃ pp', OnSessionOpenRounds 3 New capSession = some pp' ∧
      (∀ kv ∈ pp'.queueOpts.getD [],
        (∀ cap, kv.2.capability = some cap → (∀ rn, 0 ≤ cap.Get rn) →
          ∀ rn, kv.2.deserved.Get rn ≤ cap.Get rn) ∧
        (∀ rn, 0 < kv.2.request.Get rn → kv.2.deserved.Get rn ≤ kv.2.request.Get rn)) ∧
      ∀ fuel pp'', OnSessionOpen fuel New capSession = some pp'' →
        ∀ kv ∈ pp''.queueOpts.getD [],
          (∀ cap, kv.2.capability = some cap → (∀ rn, 0 ≤ cap.Get rn) →
            ∀ rn, kv.2.deserved.Get rn ≤ cap.Get rn) ∧
          (∀ rn, 0 < kv.2.request.Get rn → kv.2.deserved.Get rn ≤ kv.2.request.Get rn) :=
  ⟨by decide!, by decide!, by decide!,
    deserved_le_capability_and_request 3 halvingSession (by decide!),
    deserved_le_capability_and_request 3 capSession (by decide!)⟩

end proportion

namespace proportion

open api api.Resource framework util

/-! ## Queues of weight zero -/

theorem fillQueue_zero_weight (rem : Resource) (W : Int) (attr : queueAttr)
    (h : attr.weight = 0 → (∀ rn, 0 ≤ attr.request.Get rn) →
      (∀ cap, attr.capability = some cap → ∀ rn, 0 ≤ cap.Get rn) →
      ∀ rn, attr.deserved.Get rn = 0) :
    (updateShare (fillQueue rem W attr).1).weight = 0 →
    (∀ rn, 0 ≤ (updateShare (fillQueue rem W attr).1).request.Get rn) →
    (∀ cap, (updateShare (fillQueue rem W attr).1).capability = some cap → ∀ rn, 0 ≤ cap.Get rn) →
    ∀ rn, (updateShare (fillQueue rem W attr).1).deserved.Get rn = 0 := by
  obtain ⟨_, _, hw, _, hr, _, hc⟩ :=
    sameFrame_trans _ _ _ (fillQueue_frame rem W attr) (updateShare_frame (fillQueue rem W attr).1)
  intro hw0 hreq hcap rn
  rw [hw] at hw0
  rw [hr] at hreq
  rw [hc] at hcap
  have hd := h hw0 hreq hcap
  have hraised : ∀ rn, (raised rem W attr).Get rn = 0 := by
    intro rn; rw [Get_raised, hd rn, hw0]; simp
  rcases fillQueue_cases rem W attr with ⟨cap, hcp, hnle, _⟩ | ⟨_, _, e⟩ | ⟨_, _, e⟩
  · exfalso; apply hnle
    intro rn; rw [hraised]; exact hcap cap hcp rn
  · rw [e]
    show (helpers.Min (raised rem W attr) attr.request).Get rn = 0
    rw [helpers.Get_Min_eq _ _ _ (by rw [hraised]) (hreq rn), hraised]
    exact min_eq_left (hreq rn)
  · rw [e]
    show ((raised rem W attr).MinDimensionResource attr.request).Get rn = 0
    rw [Get_MinDimensionResource, hraised]
    split
    · exact min_eq_left (hreq rn)
    · rfl

theorem jobSum_nonneg (p : TaskStatus → Bool) (rn : ResourceName) (job : JobInfo)
    (h : ∀ b ∈ job.TaskStatusIndex, ∀ t ∈ b.2, 0 ≤ t.2.Resreq.Get rn) : 0 ≤ jobSum p rn job := by
  unfold jobSum
  apply List.sum_nonneg
  intro x hx
  obtain ⟨b, hb, rfl⟩ := List.mem_map.1 hx
  split
  · apply List.sum_nonneg
    intro y hy
    obtain ⟨t, ht, rfl⟩ := List.mem_map.1 hy
    exact h b hb t ht
  · exact le_refl _

theorem queueSum_nonneg (p : TaskStatus → Bool) (rn : ResourceName)
    (jobs : List (JobID × JobInfo)) (q : QueueID)
    (h : ∀ kv ∈ jobs, ∀ b ∈ kv.2.TaskStatusIndex, ∀ t ∈ b.2, 0 ≤ t.2.Resreq.Get rn) :
    0 ≤ queueSum p rn jobs q := by
  unfold queueSum
  apply List.sum_nonneg
  intro x hx
  obtain ⟨kv, hkv, rfl⟩ := List.mem_map.1 hx
  split
  · exact jobSum_nonneg p rn kv.2 (h kv hkv)
  · exact le_refl _

/-- At the end of any round a queue of weight 0 has deserved zero, and its allocated is
what the aggregation gave it. -/
theorem zero_weight_after_rounds (rounds : Nat) (ssn : Session) (pp' : proportionPlugin)
    (q : QueueID) (attr : queueAttr)
    (hreq : ∀ kv ∈ ssn.Jobs, ∀ b ∈ kv.2.TaskStatusIndex, ∀ t ∈ b.2, ∀ rn, 0 ≤ t.2.Resreq.Get rn)
    (hcap : ∀ cap, attr.capability = some cap → ∀ rn, 0 ≤ cap.Get rn)
    (h : OnSessionOpenRounds rounds New ssn = some pp')
    (hq : (q, attr) ∈ pp'.queueOpts.getD []) (hw : attr.weight = 0) :
    (∀ rn, attr.deserved.Get rn = 0) ∧
    (∀ rn, attr.allocated.Get rn = queueSum AllocatedStatus rn ssn.Jobs q) ∧
    (∀ rn, 0 ≤ attr.allocated.Get rn) := by
  obtain ⟨opts, hb, hpp⟩ := (OnSessionOpenRounds_New_iff rounds ssn pp').1 h
  subst hpp
  simp only [Option.getD_some] at hq
  obtain ⟨hfresh, hnodup⟩ := buildAttrs_fresh ssn ssn.Jobs [] opts hb (by simp) (by simp)
  obtain ⟨kv0, hkv0, hkey, hframe⟩ :=
    forall₂_mem_right _ _ _ (waterFillRounds_frame rounds _) _ hq
  obtain ⟨k0, a0⟩ := kv0
  simp only at hkey hframe hkv0
  subst hkey
  obtain ⟨_, _, _, hal, hrq, _, _⟩ := hframe
  have hget : mapGet opts q = some a0 := mapGet_of_mem_nodup _ _ _ hnodup hkv0
  have hsums := buildAttrs_sums ssn ssn.Jobs [] opts hb q
  have halloc : ∀ rn, attr.allocated.Get rn = queueSum AllocatedStatus rn ssn.Jobs q := by
    intro rn
    have := (hsums rn).1
    simp only [hget, Option.map_some', Option.getD_some, mapGet, Option.map_none',
      Option.getD_none, zero_add] at this
    rw [hal]; exact this
  have hrequest : ∀ rn, 0 ≤ attr.request.Get rn := by
    intro rn
    have := (hsums rn).2
    simp only [hget, Option.map_some', Option.getD_some, mapGet, Option.map_none',
      Option.getD_none, zero_add] at this
    rw [hrq, this]
    exact queueSum_nonneg _ rn ssn.Jobs q (fun kv hkv b hb t ht => hreq kv hkv b hb t ht rn)
  refine ⟨?_, halloc, ?_⟩
  · have hall := waterFillRounds_forall
      (fun a => a.weight = 0 → (∀ rn, 0 ≤ a.request.Get rn) →
        (∀ cap, a.capability = some cap → ∀ rn, 0 ≤ cap.Get rn) → ∀ rn, a.deserved.Get rn = 0)
      (fun rem W a hP => fillQueue_zero_weight rem W a hP) rounds
      { opts := opts, meet := [], remaining := EmptyResource.Add ssn.TotalResource }
      (by
        intro kv hkv _ _ _ rn
        rw [hfresh kv hkv, Get_EmptyResource])
    exact hall (q, attr) hq hw hrequest hcap
  · intro rn
    rw [halloc rn]
    exact queueSum_nonneg _ rn ssn.Jobs q (fun kv hkv b hb t ht => hreq kv hkv b hb t ht rn)

/-- C7: when the task requests are not negative and the aggregation of OnSessionOpen (on
a fresh plugin) completes, then in the plugin state at the end of every round of the
water-filling loop, and so in the state in which the loop is left, whatever the round in
which that happens, a queue whose weight is 0 (and whose capability, if any, is not
negative) has deserved zero in every dimension, and its allocated is in every dimension
the sum of the requests of the tasks in allocated-class buckets of the queue's jobs,
which is not negative. -/
theorem zero_weight_deserved_zero (rounds : Nat) (ssn : Session)
    (hreq : ∀ kv ∈ ssn.Jobs, ∀ b ∈ kv.2.TaskStatusIndex, ∀ t ∈ b.2, ∀ rn, 0 ≤ t.2.Resreq.Get rn)
    (hb : (buildAttrs ssn ssn.Jobs []).isSome = true) :
    ∃ pp', OnSessionOpenRounds rounds New ssn = some pp' ∧
      (∀ q attr, (q, attr) ∈ pp'.queueOpts.getD [] → attr.weight = 0 →
        (∀ cap, attr.capability = some cap → ∀ rn, 0 ≤ cap.Get rn) →
        (∀ rn, attr.deserved.Get rn = 0) ∧
        (∀ rn, attr.allocated.Get rn = queueSum AllocatedStatus rn ssn.Jobs q) ∧
        (∀ rn, 0 ≤ attr.allocated.Get rn)) ∧
      ∀ fuel pp'', OnSessionOpen fuel New ssn = some pp'' →
        ∀ q attr, (q, attr) ∈ pp''.queueOpts.getD [] → attr.weight = 0 →
          (∀ cap, attr.capability = some cap → ∀ rn, 0 ≤ cap.Get rn) →
          (∀ rn, attr.deserved.Get rn = 0) ∧
          (∀ rn, attr.allocated.Get rn = queueSum AllocatedStatus rn ssn.Jobs q) ∧
          (∀ rn, 0 ≤ attr.allocated.Get rn) := by
  obtain ⟨opts, hb⟩ := Option.isSome_iff_exists.1 hb
  have h := (OnSessionOpenRounds_New_iff rounds ssn _).2 ⟨opts, hb, rfl⟩
  refine ⟨_, h, ?_, ?_⟩
  · intro q attr hq hw hcap
    exact zero_weight_after_rounds rounds ssn _ q attr hreq hcap h hq hw
  · intro fuel pp'' h' q attr hq hw hcap
    exact zero_weight_after_rounds fuel ssn pp'' q attr hreq hcap
      (OnSessionOpen_rounds fuel ssn pp'' h') hq hw

/-- The requests of the tasks of `halvingSession` are not negative. -/
theorem halvingSession_requests_nonneg :
    ∀ kv ∈ halvingSession.Jobs, ∀ b ∈ kv.2.TaskStatusIndex, ∀ t ∈ b.2, ∀ rn,
      0 ≤ t.2.Resreq.Get rn := by
  intro kv hkv b hb t ht rn
  simp only [halvingSession, List.mem_cons, List.mem_singleton, List.not_mem_nil, or_false] at hkv
  rcases hkv with rfl | rfl | rfl <;>
    (simp only [exJob, exTask, List.map_cons, List.map_nil, List.mem_singleton] at hb
     subst hb
     simp only [List.mem_singleton] at ht
     subst ht
     cases rn <;> simp [Get, scalars, scalarGet])

/-- Witness of C7: in `halvingSession`, where three rounds do not end the loop, the
queue q0 has weight 0 and one running task of {100m, 1Mi}; at the end of the third round
it has deserved zero and allocated {100m, 1Mi}. -/
theorem zero_weight_deserved_zero_witness :
    OnSessionOpenRounds 3 New halvingSession = some halvingResult ∧
    OnSessionOpen 3 New halvingSession = none ∧
    (∀ rn, (exRes 0 0).Get rn = 0) ∧
    (∀ rn, (exRes 100 1048576).Get rn = queueSum AllocatedStatus rn halvingSession.Jobs "q0") ∧
    (∀ rn, 0 ≤ (exRes 100 1048576).Get rn) := by
  obtain ⟨pp', h1, h2, _⟩ :=
    zero_weight_deserved_zero 3 halvingSession halvingSession_requests_nonneg (by decide!)
  have e : OnSessionOpenRounds 3 New halvingSession = some halvingResult := by decide!
  rw [e] at h1
  cases h1
  exact ⟨e, by decide!,
    h2 "q0" (exAttr "q0" 0 1 (exRes 0 0) (exRes 100 1048576) (exRes 100 1048576) none)
      (by decide!) rfl (by intro cap hcap; cases hcap)⟩

end proportion

/-! ## The total never exceeded -/

theorem int32_eq_self (x : Int) (h0 : 0 ≤ x) (h1 : x < 2147483648) : int32 x = x := by
  unfold int32; omega

namespace proportion

open api api.Resource framework util

theorem totalWeight_foldl (meet : List QueueID) (opts : List (QueueID × queueAttr)) (acc : Int)
    (hw : ∀ kv ∈ opts, 0 ≤ kv.2.weight) (hacc : 0 ≤ acc)
    (hsum : acc + (opts.map fun kv => kv.2.weight).sum < 2147483648) :
    opts.foldl (fun acc kv => if kv.2.queueID ∈ meet then acc else int32 (acc + kv.2.weight)) acc
      = acc + unmetWeight meet opts := by
  induction opts generalizing acc with
  | nil => simp [unmetWeight]
  | cons kv opts ih =>
    have hkv : 0 ≤ kv.2.weight := hw kv (List.mem_cons_self _ _)
    have hrest : ∀ kv' ∈ opts, 0 ≤ kv'.2.weight := fun kv' h => hw kv' (List.mem_cons_of_mem _ h)
    have hnn : 0 ≤ (opts.map fun kv => kv.2.weight).sum := by
      apply List.sum_nonneg
      intro x hx
      obtain ⟨kv', hkv', rfl⟩ := List.mem_map.1 hx
      exact hrest kv' hkv'
    simp only [List.map_cons, List.sum_cons] at hsum
    simp only [List.foldl_cons]
    by_cases hm : kv.2.queueID ∈ meet
    · rw [if_pos hm, ih acc hrest hacc (by omega)]
      simp [unmetWeight, hm]
    · rw [if_neg hm, int32_eq_self _ (by omega) (by omega), ih _ hrest (by omega) (by omega)]
      simp [unmetWeight, hm]; ring

theorem totalWeight_eq (meet : List QueueID) (opts : List (QueueID × queueAttr))
    (hw : ∀ kv ∈ opts, 0 ≤ kv.2.weight)
    (hsum : (opts.map fun kv => kv.2.weight).sum < 2147483648) :
    totalWeight meet opts = unmetWeight meet opts := by
  unfold totalWeight
  rw [totalWeight_foldl meet opts 0 hw (le_refl _) (by simpa using hsum)]
  simp

theorem unmetWeight_nonneg (meet : List QueueID) (opts : List (QueueID × queueAttr))
    (hw : ∀ kv ∈ opts, 0 ≤ kv.2.weight) : 0 ≤ unmetWeight meet opts := by
  unfold unmetWeight
  apply List.sum_nonneg
  intro x hx
  obtain ⟨kv, hkv, rfl⟩ := List.mem_map.1 hx
  exact hw kv (List.mem_of_mem_filter hkv)

theorem raised_nonneg (rem : Resource) (W : Int) (attr : queueAttr) (rn : ResourceName)
    (hd : 0 ≤ attr.deserved.Get rn) (hrem : 0 ≤ rem.Get rn) (hw : 0 ≤ attr.weight)
    (hW : 0 < W) : 0 ≤ (raised rem W attr).Get rn := by
  rw [Get_raised]
  have h1 : (0 : ℚ) ≤ (attr.weight : ℚ) := by exact_mod_cast hw
  have h2 : (0 : ℚ) < (W : ℚ) := by exact_mod_cast hW
  have h3 : (0 : ℚ) ≤ (attr.weight : ℚ) / (W : ℚ) := div_nonneg h1 (le_of_lt h2)
  have h4 := mul_nonneg hrem h3
  linarith

/-- What `fillQueue` leaves of deserved is at most what the queue was raised to. -/
theorem fillQueue_le_raised (rem : Resource) (W : Int) (attr : queueAttr) (rn : ResourceName)
    (hraised : 0 ≤ (raised rem W attr).Get rn) :
    (fillQueue rem W attr).1.deserved.Get rn ≤ (raised rem W attr).Get rn := by
  rcases fillQueue_cases rem W attr with ⟨cap, _, _, e⟩ | ⟨_, _, e⟩ | ⟨_, _, e⟩
  · rw [e]
    show (helpers.Min (helpers.Min (raised rem W attr) cap) attr.request).Get rn ≤ _
    apply helpers.Get_Min_le_of_le _ _ _ _ hraised
    exact helpers.Get_Min_le_of_le _ _ _ _ hraised (le_refl _)
  · rw [e]
    show (helpers.Min (raised rem W attr) attr.request).Get rn ≤ _
    exact helpers.Get_Min_le_of_le _ _ _ _ hraised (le_refl _)
  · rw [e]
    show ((raised rem W attr).MinDimensionResource attr.request).Get rn ≤ _
    rw [Get_MinDimensionResource]
    split
    · exact min_le_left _ _
    · exact le_refl _

theorem fillQueue_nonneg (rem : Resource) (W : Int) (attr : queueAttr) (rn : ResourceName)
    (hraised : 0 ≤ (raised rem W attr).Get rn) (hreq : 0 ≤ attr.request.Get rn)
    (hcap : ∀ cap, attr.capability = some cap → 0 ≤ cap.Get rn) :
    0 ≤ (fillQueue rem W attr).1.deserved.Get rn := by
  rcases fillQueue_cases rem W attr with ⟨cap, hc, _, e⟩ | ⟨_, _, e⟩ | ⟨_, _, e⟩
  · rw [e]
    show 0 ≤ (helpers.Min (helpers.Min (raised rem W attr) cap) attr.request).Get rn
    exact helpers.Get_Min_nonneg _ _ _ (helpers.Get_Min_nonneg _ _ _ hraised (hcap cap hc)) hreq
  · rw [e]
    show 0 ≤ (helpers.Min (raised rem W attr) attr.request).Get rn
    exact helpers.Get_Min_nonneg _ _ _ hraised hreq
  · rw [e]
    show 0 ≤ ((raised rem W attr).MinDimensionResource attr.request).Get rn
    rw [Get_MinDimensionResource]
    split
    · exact le_min hraised hreq
    · exact hraised

/-- What must hold of a queue, in one dimension, for the sum of deserved to stay within
the total: nothing negative. -/
theorem passRel_nonneg (rem : Resource) (W : Int) (meet : List QueueID) (rn : ResourceName)
    (kv kv' : QueueID × queueAttr) (hrel : passRel rem W meet kv kv')
    (hrem : 0 ≤ rem.Get rn) (hW : 0 < W)
    (h : 0 ≤ kv.2.deserved.Get rn ∧ 0 ≤ kv.2.request.Get rn ∧
      (∀ cap, kv.2.capability = some cap → 0 ≤ cap.Get rn) ∧ 0 ≤ kv.2.weight) :
    (0 ≤ kv'.2.deserved.Get rn ∧ 0 ≤ kv'.2.request.Get rn ∧
      (∀ cap, kv'.2.capability = some cap → 0 ≤ cap.Get rn) ∧ 0 ≤ kv'.2.weight) ∧
    kv'.2.deserved.Get rn - kv.2.deserved.Get rn
      ≤ rem.Get rn * (((if kv.2.queueID ∈ meet then 0 else kv.2.weight : Int) : ℚ) / (W : ℚ)) := by
  obtain ⟨hd, hr, hc, hw⟩ := h
  have hWq : (0 : ℚ) < (W : ℚ) := by exact_mod_cast hW
  have hwq : (0 : ℚ) ≤ (kv.2.weight : ℚ) := by exact_mod_cast hw
  rcases hrel.2 with e | ⟨hnot, e⟩
  · rw [e]
    refine ⟨⟨hd, hr, hc, hw⟩, ?_⟩
    have : (0 : ℚ) ≤ ((if kv.2.queueID ∈ meet then 0 else kv.2.weight : Int) : ℚ) := by
      split
      · simp
      · exact hwq
    have := mul_nonneg hrem (div_nonneg this (le_of_lt hWq))
    linarith
  · obtain ⟨_, _, fw, _, fr, _, fc⟩ := passRel_frame rem W meet kv kv' hrel
    have hra := raised_nonneg rem W kv.2 rn hd hrem hw hW
    have hdes : kv'.2.deserved = (fillQueue rem W kv.2).1.deserved := by rw [e]; rfl
    refine ⟨⟨?_, ?_, ?_, ?_⟩, ?_⟩
    · rw [hdes]; exact fillQueue_nonneg rem W kv.2 rn hra hr hc
    · rw [fr]; exact hr
    · rw [fc]; exact hc
    · rw [fw]; exact hw
    · rw [hdes, if_neg hnot]
      have h1 := fillQueue_le_raised rem W kv.2 rn hra
      rw [Get_raised] at h1
      linarith

theorem pass_bound (rem : Resource) (W : Int) (meet : List QueueID) (rn : ResourceName)
    (hrem : 0 ≤ rem.Get rn) (hW : 0 < W) (l l' : List (QueueID × queueAttr))
    (hrel : List.Forall₂ (passRel rem W meet) l l')
    (h : ∀ kv ∈ l, 0 ≤ kv.2.deserved.Get rn ∧ 0 ≤ kv.2.request.Get rn ∧
      (∀ cap, kv.2.capability = some cap → 0 ≤ cap.Get rn) ∧ 0 ≤ kv.2.weight) :
    (∀ kv ∈ l', 0 ≤ kv.2.deserved.Get rn ∧ 0 ≤ kv.2.request.Get rn ∧
      (∀ cap, kv.2.capability = some cap → 0 ≤ cap.Get rn) ∧ 0 ≤ kv.2.weight) ∧
    (l'.map fun kv => kv.2.weight) = (l.map fun kv => kv.2.weight) ∧
    sumDeserved rn l' - sumDeserved rn l ≤ rem.Get rn * ((unmetWeight meet l : ℚ) / (W : ℚ)) := by
  induction hrel with
  | nil => simp [sumDeserved, unmetWeight]
  | @cons kv kv' l l' hkv _ ih =>
    obtain ⟨hall, hwts, hbound⟩ := ih (fun x hx => h x (List.mem_cons_of_mem _ hx))
    obtain ⟨hnn, hstep⟩ := passRel_nonneg rem W meet rn kv kv' hkv hrem hW
      (h kv (List.mem_cons_self _ _))
    have hfw : kv'.2.weight = kv.2.weight := (passRel_frame rem W meet kv kv' hkv).2.2.1
    refine ⟨?_, ?_, ?_⟩
    · intro x hx
      rcases List.mem_cons.1 hx with e | e
      · rw [e]; exact hnn
      · exact hall x e
    · simp only [List.map_cons, hwts, hfw]
    · have hsplit : (unmetWeight meet (kv :: l) : ℚ)
          = ((if kv.2.queueID ∈ meet then 0 else kv.2.weight : Int) : ℚ)
            + (unmetWeight meet l : ℚ) := by
        by_cases hm : kv.2.queueID ∈ meet
        · simp [unmetWeight, hm]
        · simp [unmetWeight, hm]
      rw [hsplit]
      simp only [sumDeserved, List.map_cons, List.sum_cons] at hbound ⊢
      have : rem.Get rn * ((((if kv.2.queueID ∈ meet then 0 else kv.2.weight : Int) : ℚ)
            + (unmetWeight meet l : ℚ)) / (W : ℚ))
          = rem.Get rn * (((if kv.2.queueID ∈ meet then 0 else kv.2.weight : Int) : ℚ) / (W : ℚ))
            + rem.Get rn * ((unmetWeight meet l : ℚ) / (W : ℚ)) := by ring
      rw [this]
      linarith

end proportion

namespace proportion

open api api.Resource framework util

/-- One round keeps, in every dimension, the remaining resource non-negative and the sum
of deserved plus the remaining resource constant. -/
theorem fillRound_conserves (T : Resource) (rn : ResourceName) (s : fillState)
    (hW : totalWeight s.meet s.opts ≠ 0)
    (h : 0 ≤ s.remaining.Get rn ∧ sumDeserved rn s.opts + s.remaining.Get rn = T.Get rn ∧
      (∀ kv ∈ s.opts, 0 ≤ kv.2.deserved.Get rn ∧ 0 ≤ kv.2.request.Get rn ∧
        (∀ cap, kv.2.capability = some cap → 0 ≤ cap.Get rn) ∧ 0 ≤ kv.2.weight) ∧
      (s.opts.map fun kv => kv.2.weight).sum < 2147483648) :
    0 ≤ (fillRound (totalWeight s.meet s.opts) s).remaining.Get rn ∧
    sumDeserved rn (fillRound (totalWeight s.meet s.opts) s).opts
      + (fillRound (totalWeight s.meet s.opts) s).remaining.Get rn = T.Get rn ∧
    (∀ kv ∈ (fillRound (totalWeight s.meet s.opts) s).opts,
      0 ≤ kv.2.deserved.Get rn ∧ 0 ≤ kv.2.request.Get rn ∧
      (∀ cap, kv.2.capability = some cap → 0 ≤ cap.Get rn) ∧ 0 ≤ kv.2.weight) ∧
    ((fillRound (totalWeight s.meet s.opts) s).opts.map fun kv => kv.2.weight).sum
      < 2147483648 := by
  obtain ⟨hrem, hcons, hall, hsum⟩ := h
  have hwts : ∀ kv ∈ s.opts, 0 ≤ kv.2.weight := fun kv hkv => (hall kv hkv).2.2.2
  have hWeq := totalWeight_eq s.meet s.opts hwts hsum
  have hWpos : 0 < totalWeight s.meet s.opts := by
    have := unmetWeight_nonneg s.meet s.opts hwts
    rw [← hWeq] at this
    omega
  obtain ⟨hrel, _, hremaining⟩ := fillRound_spec (totalWeight s.meet s.opts) s
  obtain ⟨hall', hwts', hbound⟩ :=
    pass_bound s.remaining (totalWeight s.meet s.opts) s.meet rn hrem hWpos _ _ hrel hall
  have hone : ((unmetWeight s.meet s.opts : Int) : ℚ) / ((totalWeight s.meet s.opts : Int) : ℚ)
      = 1 := by
    rw [← hWeq]
    have : ((totalWeight s.meet s.opts : Int) : ℚ) ≠ 0 := by exact_mod_cast hW
    exact div_self this
  rw [hone, mul_one] at hbound
  refine ⟨?_, ?_, hall', ?_⟩
  · rw [hremaining rn]; linarith
  · rw [hremaining rn]; linarith
  · rw [hwts']; exact hsum

theorem sumDeserved_fresh (rn : ResourceName) (opts : List (QueueID × queueAttr))
    (h : ∀ kv ∈ opts, kv.2.deserved = EmptyResource) : sumDeserved rn opts = 0 := by
  unfold sumDeserved
  apply List.sum_eq_zero
  intro x hx
  obtain ⟨kv, hkv, rfl⟩ := List.mem_map.1 hx
  rw [h kv hkv, Get_EmptyResource]

/-- The attributes OnSessionOpen builds keep, for every key, the weight, the UID and the
capability of the session's queue of that key. -/
theorem buildAttrs_queue (ssn : Session) :
    ∀ (jobs : List (JobID × JobInfo)) (opts opts' : List (QueueID × queueAttr)),
      buildAttrs ssn jobs opts = some opts' →
      (∀ kv ∈ opts, ∃ queue, mapGet ssn.Queues kv.1 = some queue ∧
        kv.2.weight = queue.Weight ∧ kv.2.queueID = queue.UID ∧
        kv.2.capability = (newAttr queue).capability) →
      (∀ kv ∈ opts', ∃ queue, mapGet ssn.Queues kv.1 = some queue ∧
        kv.2.weight = queue.Weight ∧ kv.2.queueID = queue.UID ∧
        kv.2.capability = (newAttr queue).capability) := by
  intro jobs
  induction jobs with
  | nil =>
    intro opts opts' h hq
    simp only [buildAttrs, Option.some.injEq] at h
    subst h; exact hq
  | cons j jobs ih =>
    intro opts opts' h hq
    obtain ⟨jid, job⟩ := j
    simp only [buildAttrs] at h
    cases ho : openJob ssn opts job with
    | none => simp [ho] at h
    | some opts1 =>
      simp only [ho, Option.some_bind] at h
      obtain ⟨attr0, pg, minRes, _, _, hattr0, hopts1⟩ := openJob_eq ssn opts opts1 job ho
      refine ih opts1 opts' h ?_
      intro kv hkv
      rw [hopts1] at hkv
      rcases mem_mapSet _ _ _ _ hkv with hkv | hkv
      · exact hq kv hkv
      · have h0 : ∃ queue, mapGet ssn.Queues job.Queue = some queue ∧
            attr0.weight = queue.Weight ∧ attr0.queueID = queue.UID ∧
            attr0.capability = (newAttr queue).capability := by
          rcases hattr0 with hg | ⟨_, queue, hqueue, e⟩
          · exact hq _ (api.mapGet_mem _ _ _ hg)
          · exact ⟨queue, hqueue, by rw [e]; rfl, by rw [e]; rfl, by rw [e]⟩
        obtain ⟨queue, hqueue, hw, hid, hc⟩ := h0
        obtain ⟨⟨aid, _, aw, _, ac, _, _⟩, _, _⟩ := accountJob_spec attr0 job
        refine ⟨queue, by rw [hkv]; exact hqueue, ?_, ?_, ?_⟩
        · rw [hkv]; split <;> (try simp only) <;> rw [aw, hw]
        · rw [hkv]; split <;> (try simp only) <;> rw [aid, hid]
        · rw [hkv]; split <;> (try simp only) <;> rw [ac, hc]

theorem newAttr_capability_nonneg (queue : QueueInfo) (h : ∀ e ∈ queue.Capability, 0 ≤ e.2)
    (cap : Resource) (hc : (newAttr queue).capability = some cap) (rn : ResourceName) :
    0 ≤ cap.Get rn := by
  simp only [newAttr] at hc
  split at hc
  · simp only [Option.some.injEq] at hc
    rw [← hc, Get_NewResource]
    cases hg : mapGet queue.Capability rn with
    | none => simp
    | some v => simpa using h _ (api.mapGet_mem _ _ _ hg)
  · cases hc

end proportion

namespace proportion

open api api.Resource framework util

theorem sum_lookup_le (m : List (QueueID × QueueInfo)) :
    ∀ (ks : List QueueID), ks.Nodup → (∀ kv ∈ m, 0 ≤ kv.2.Weight) →
      (ks.map fun k => ((mapGet m k).map fun q => q.Weight).getD 0).sum
        ≤ (m.map fun kv => kv.2.Weight).sum := by
  induction m with
  | nil => intro ks _ _; simp [mapGet]
  | cons e m ih =>
    intro ks hn hw
    obtain ⟨a, q⟩ := e
    have hq : 0 ≤ q.Weight := hw (a, q) (List.mem_cons_self _ _)
    have hrest : ∀ kv ∈ m, 0 ≤ kv.2.Weight := fun kv h => hw kv (List.mem_cons_of_mem _ h)
    simp only [List.map_cons, List.sum_cons]
    by_cases ha : a ∈ ks
    · have hperm := List.perm_cons_erase ha
      have hsum := (hperm.map fun k => ((mapGet ((a, q) :: m) k).map fun q => q.Weight).getD 0).sum_eq
      rw [hsum]
      simp only [List.map_cons, List.sum_cons, mapGet, if_true, Option.map_some', Option.getD_some]
      have hne : ∀ k ∈ ks.erase a, k ≠ a := by
        intro k hk e
        subst e
        exact (List.Nodup.not_mem_erase hn) hk
      have hcongr : ((ks.erase a).map fun k =>
            ((if k = a then some q else mapGet m k).map fun q => q.Weight).getD 0)
          = ((ks.erase a).map fun k => ((mapGet m k).map fun q => q.Weight).getD 0) := by
        apply List.map_congr_left
        intro k hk
        rw [if_neg (hne k hk)]
      rw [hcongr]
      have := ih (ks.erase a) (hn.erase a) hrest
      linarith
    · have hcongr : (ks.map fun k => ((mapGet ((a, q) :: m) k).map fun q => q.Weight).getD 0)
          = (ks.map fun k => ((mapGet m k).map fun q => q.Weight).getD 0) := by
        apply List.map_congr_left
        intro k hk
        have : k ≠ a := fun e => ha (e ▸ hk)
        simp [mapGet, this]
      rw [hcongr]
      have := ih ks hn hrest
      linarith

/-- The weights of the queues that have attributes sum to at most the sum of the weights
of the session's queues. -/
theorem attrs_weight_sum_le (ssn : Session) (opts : List (QueueID × queueAttr))
    (hb : buildAttrs ssn ssn.Jobs [] = some opts)
    (hw : ∀ kv ∈ ssn.Queues, 0 ≤ kv.2.Weight) :
    (∀ kv ∈ opts, 0 ≤ kv.2.weight) ∧
    (opts.map fun kv => kv.2.weight).sum ≤ (ssn.Queues.map fun kv => kv.2.Weight).sum := by
  have hq := buildAttrs_queue ssn ssn.Jobs [] opts hb (by simp)
  have hn := (buildAttrs_fresh ssn ssn.Jobs [] opts hb (by simp) (by simp)).2
  constructor
  · intro kv hkv
    obtain ⟨queue, hg, hwt, _, _⟩ := hq kv hkv
    rw [hwt]
    exact hw _ (api.mapGet_mem _ _ _ hg)
  · have hcongr : (opts.map fun kv => kv.2.weight)
        = ((opts.map Prod.fst).map fun k =>
            ((mapGet ssn.Queues k).map fun q => q.Weight).getD 0) := by
      rw [List.map_map]
      apply List.map_congr_left
      intro kv hkv
      obtain ⟨queue, hg, hwt, _, _⟩ := hq kv hkv
      simp [hg, hwt]
    rw [hcongr]
    exact sum_lookup_le ssn.Queues _ hn hw

/-- Over exact rationals: when the total resource, the task requests, the queue
capabilities and the queue weights are non-negative and the weights sum to less than
2^31, the sum over all queues of deserved is at most the session's total resource in
every dimension at the end of every round of the water-filling loop.  The code adds and
subtracts doubles, whose rounding this says nothing of. -/
theorem sum_deserved_le_total (rounds : Nat) (ssn : Session) (pp' : proportionPlugin)
    (hT : ∀ rn, 0 ≤ ssn.TotalResource.Get rn)
    (hreq : ∀ kv ∈ ssn.Jobs, ∀ b ∈ kv.2.TaskStatusIndex, ∀ t ∈ b.2, ∀ rn, 0 ≤ t.2.Resreq.Get rn)
    (hcap : ∀ kv ∈ ssn.Queues, ∀ e ∈ kv.2.Capability, 0 ≤ e.2)
    (hw : ∀ kv ∈ ssn.Queues, 0 ≤ kv.2.Weight)
    (hsum : (ssn.Queues.map fun kv => kv.2.Weight).sum < 2147483648)
    (h : OnSessionOpenRounds rounds New ssn = some pp') :
    ∀ rn, sumDeserved rn (pp'.queueOpts.getD []) ≤ ssn.TotalResource.Get rn := by
  intro rn
  obtain ⟨opts, hb, hpp⟩ := (OnSessionOpenRounds_New_iff rounds ssn pp').1 h
  subst hpp
  simp only [Option.getD_some]
  obtain ⟨hfresh, hnodup⟩ := buildAttrs_fresh ssn ssn.Jobs [] opts hb (by simp) (by simp)
  obtain ⟨hwts, hwsum⟩ := attrs_weight_sum_le ssn opts hb hw
  have hq := buildAttrs_queue ssn ssn.Jobs [] opts hb (by simp)
  have hinv := waterFillRounds_inv
    (fun t => 0 ≤ t.remaining.Get rn ∧
      sumDeserved rn t.opts + t.remaining.Get rn = ssn.TotalResource.Get rn ∧
      (∀ kv ∈ t.opts, 0 ≤ kv.2.deserved.Get rn ∧ 0 ≤ kv.2.request.Get rn ∧
        (∀ cap, kv.2.capability = some cap → 0 ≤ cap.Get rn) ∧ 0 ≤ kv.2.weight) ∧
      (t.opts.map fun kv => kv.2.weight).sum < 2147483648)
    (fun t ht hW => fillRound_conserves ssn.TotalResource rn t hW ht)
    rounds { opts := opts, meet := [], remaining := EmptyResource.Add ssn.TotalResource } ?_
  · obtain ⟨hrem, hcons, _, _⟩ := hinv
    linarith
  · refine ⟨?_, ?_, ?_, ?_⟩
    · show 0 ≤ (EmptyResource.Add ssn.TotalResource).Get rn
      rw [Get_total]; exact hT rn
    · show sumDeserved rn opts + (EmptyResource.Add ssn.TotalResource).Get rn = _
      rw [Get_total, sumDeserved_fresh rn opts hfresh]; ring
    · intro kv hkv
      obtain ⟨k, a⟩ := kv
      have hget : mapGet opts k = some a := mapGet_of_mem_nodup _ _ _ hnodup hkv
      refine ⟨?_, ?_, ?_, hwts _ hkv⟩
      · rw [hfresh _ hkv, Get_EmptyResource]
      · have := (buildAttrs_sums ssn ssn.Jobs [] opts hb k rn).2
        simp only [hget, Option.map_some', Option.getD_some, mapGet, Option.map_none',
          Option.getD_none, zero_add] at this
        rw [this]
        exact queueSum_nonneg _ rn ssn.Jobs k (fun kv hkv b hb t ht => hreq kv hkv b hb t ht rn)
      · intro cap hc
        obtain ⟨queue, hg, _, _, hcq⟩ := hq _ hkv
        simp only at hcq hc
        rw [hcq] at hc
        exact newAttr_capability_nonneg queue (hcap _ (api.mapGet_mem _ _ _ hg)) cap hc rn
    · show (opts.map fun kv => kv.2.weight).sum < 2147483648
      omega

/-- The sum of deserved in `halvingSession` at the end of the third round, {3525m, 7025},
is within the total {4000m, 8000}. -/
theorem sum_deserved_le_total_witness :
    OnSessionOpenRounds 3 New halvingSession = some halvingResult ∧
    ∀ rn, sumDeserved rn (halvingResult.queueOpts.getD []) ≤ halvingSession.TotalResource.Get rn :=
  ⟨by decide!,
   sum_deserved_le_total 3 halvingSession halvingResult
     (by intro rn; cases rn <;> simp [halvingSession, Get, scalars, scalarGet])
     halvingSession_requests_nonneg
     (by decide!) (by decide!) (by decide!) (by decide!)⟩

end proportion

namespace proportion

open api api.Resource framework util

/-! ## A pass over queues with distinct identifiers -/

theorem passOne_queueID (rem : Resource) (W : Int) (kv : QueueID × queueAttr) :
    (passOne rem W kv).2.queueID = kv.2.queueID :=
  (sameFrame_trans _ _ _ (fillQueue_frame rem W kv.2) (updateShare_frame _)).1

theorem passAll_queueID (rem : Resource) (W : Int) (meet : List QueueID)
    (kv : QueueID × queueAttr) : (passAll rem W meet kv).2.queueID = kv.2.queueID := by
  unfold passAll
  split
  · rfl
  · exact passOne_queueID rem W kv

theorem passAll_key (rem : Resource) (W : Int) (meet : List QueueID)
    (kv : QueueID × queueAttr) : (passAll rem W meet kv).1 = kv.1 := by
  unfold passAll
  split <;> rfl

/-- When no two queues share an identifier, a pass treats every queue by what the met set
was at the start of the round: it is independent of the order of the visit. -/
theorem pass_nodup (rem : Resource) (W : Int) (meet0 : List QueueID) :
    ∀ (l : List (QueueID × queueAttr)) (st : passState),
      (l.map fun kv => kv.2.queueID).Nodup →
      (∀ kv ∈ l, (kv.2.queueID ∈ st.meet ↔ kv.2.queueID ∈ meet0)) →
      (l.foldl (passQueue rem W) st).done = st.done ++ l.map (passAll rem W meet0) ∧
      (∀ x, x ∈ (l.foldl (passQueue rem W) st).meet ↔
        x ∈ st.meet ∨ ∃ kv ∈ l, kv.2.queueID ∉ meet0 ∧ (fillQueue rem W kv.2).2 = true ∧
          x = kv.2.queueID) ∧
      (l.foldl (passQueue rem W) st).increasedDeserved
        = ((unmet meet0 l).map fun kv => (diffOne rem W kv).1).foldl Resource.Add
            st.increasedDeserved ∧
      (l.foldl (passQueue rem W) st).decreasedDeserved
        = ((unmet meet0 l).map fun kv => (diffOne rem W kv).2).foldl Resource.Add
            st.decreasedDeserved := by
  intro l
  induction l with
  | nil => intro st _ _; simp [unmet]
  | cons kv l ih =>
    intro st hn hmeet
    simp only [List.map_cons, List.nodup_cons] at hn
    have hkv := hmeet kv (List.mem_cons_self _ _)
    have hstep : ∀ kv' ∈ l, (kv'.2.queueID ∈ (passQueue rem W st kv).meet ↔
        kv'.2.queueID ∈ meet0) := by
      intro kv' hkv'
      rw [← hmeet kv' (List.mem_cons_of_mem _ hkv')]
      have hne : kv'.2.queueID ≠ kv.2.queueID := by
        intro e
        exact hn.1 (List.mem_map.2 ⟨kv', hkv', e⟩)
      unfold passQueue
      by_cases hm : kv.2.queueID ∈ st.meet
      · simp [hm]
      · simp only [hm, if_false]
        split
        · simp only [List.mem_append, List.mem_singleton]
          constructor
          · rintro (h | h)
            · exact h
            · exact absurd (h.trans (passOne_queueID rem W kv)) hne
          · intro h; exact Or.inl h
        · exact Iff.rfl
    obtain ⟨hdone, hm', hinc, hdec⟩ := ih (passQueue rem W st kv) hn.2 hstep
    simp only [List.foldl_cons]
    by_cases hm : kv.2.queueID ∈ st.meet
    · have hm0 : kv.2.queueID ∈ meet0 := hkv.1 hm
      have hpq : passQueue rem W st kv = { st with done := st.done ++ [kv] } := by
        simp [passQueue, hm]
      refine ⟨?_, ?_, ?_, ?_⟩
      · rw [hdone, hpq]; simp [passAll, hm0]
      · intro x
        rw [hm' x, hpq]
        constructor
        · rintro (h | ⟨kv', hkv', h⟩)
          · exact Or.inl h
          · exact Or.inr ⟨kv', List.mem_cons_of_mem _ hkv', h⟩
        · rintro (h | ⟨kv', hkv', h⟩)
          · exact Or.inl h
          · rcases List.mem_cons.1 hkv' with e | e
            · subst e; exact absurd hm0 h.1
            · exact Or.inr ⟨kv', e, h⟩
      · rw [hinc, hpq]; simp [unmet, hm0]
      · rw [hdec, hpq]; simp [unmet, hm0]
    · have hm0 : kv.2.queueID ∉ meet0 := fun h => hm (hkv.2 h)
      refine ⟨?_, ?_, ?_, ?_⟩
      · rw [hdone]; simp [passQueue, hm, passAll, hm0, passOne]
      · intro x
        rw [hm' x]
        constructor
        · rintro (h | ⟨kv', hkv', h⟩)
          · simp only [passQueue, hm, if_false] at h
            split at h
            · rename_i hmet
              rcases List.mem_append.1 h with h | h
              · exact Or.inl h
              · refine Or.inr ⟨kv, List.mem_cons_self _ _, hm0, hmet, ?_⟩
                simp only [List.mem_singleton] at h
                rw [h]; exact passOne_queueID rem W kv
            · exact Or.inl h
          · exact Or.inr ⟨kv', List.mem_cons_of_mem _ hkv', h⟩
        · rintro (h | ⟨kv', hkv', h⟩)
          · left
            simp only [passQueue, hm, if_false]
            split
            · exact List.mem_append_left _ h
            · exact h
          · rcases List.mem_cons.1 hkv' with e | e
            · subst e
              left
              simp only [passQueue, hm, if_false, h.2.1, if_true]
              apply List.mem_append_right
              simp only [List.mem_singleton]
              rw [h.2.2]; exact (passOne_queueID rem W kv').symm
            · exact Or.inr ⟨kv', e, h⟩
      · rw [hinc]; simp [unmet, hm0, passQueue, hm, diffOne, passOne]
      · rw [hdec]; simp [unmet, hm0, passQueue, hm, diffOne, passOne]

/-- One round over queues with distinct identifiers. -/
theorem fillRound_nodup (W : Int) (s : fillState)
    (hn : (s.opts.map fun kv => kv.2.queueID).Nodup) :
    (fillRound W s).opts = s.opts.map (passAll s.remaining W s.meet) ∧
    (∀ x, x ∈ (fillRound W s).meet ↔
      x ∈ s.meet ∨ ∃ kv ∈ s.opts, kv.2.queueID ∉ s.meet ∧
        (fillQueue s.remaining W kv.2).2 = true ∧ x = kv.2.queueID) ∧
    (fillRound W s).remaining
      = (s.remaining.Sub
          (((unmet s.meet s.opts).map fun kv => (diffOne s.remaining W kv).1).foldl
            Resource.Add EmptyResource)).Add
          (((unmet s.meet s.opts).map fun kv => (diffOne s.remaining W kv).2).foldl
            Resource.Add EmptyResource) := by
  obtain ⟨hdone, hmeet, hinc, hdec⟩ := pass_nodup s.remaining W s.meet s.opts
    { done := [], meet := s.meet, increasedDeserved := EmptyResource,
      decreasedDeserved := EmptyResource } hn (fun _ _ => Iff.rfl)
  refine ⟨?_, hmeet, ?_⟩
  · simp only [fillRound]; rw [hdone]; rfl
  · simp only [fillRound]; rw [hinc, hdec]

end proportion

/-! ## Independence of the order in which the queue map is visited -/

theorem int32_add_int32 (x y : Int) : int32 (int32 x + y) = int32 (x + y) := by
  unfold int32; omega

namespace api.Resource

theorem scalars_Add (r rr : Resource) :
    (r.Add rr).scalars =
      if rr.scalars.isEmpty then r.scalars
      else scalarBuild (scalarKeys r.scalars ++ scalarKeys rr.scalars)
        fun k => scalarGet r.scalars k + scalarGet rr.scalars k := by
  simp only [Add, scalars]
  split <;> rfl

theorem Add_scalars_isEmpty (r rr : Resource) (h : rr.scalars.isEmpty = false) :
    (r.Add rr).scalars.isEmpty = false := by
  rw [scalars_Add, h]
  simp only [Bool.false_eq_true, if_false]
  rw [Bool.eq_false_iff]
  intro hc
  have hnil : scalarBuild (scalarKeys r.scalars ++ scalarKeys rr.scalars)
      (fun k => scalarGet r.scalars k + scalarGet rr.scalars k) = [] := by simpa using hc
  have := (scalarBuild_eq_nil_iff _ _).1 hnil
  have h2 : scalarKeys rr.scalars = [] := (List.append_eq_nil.1 this).2
  have h3 : rr.scalars = [] := by simpa [scalarKeys] using h2
  rw [h3] at h
  simp at h

/-- Adding two resources to a third gives the same resource in either order. -/
theorem Add_right_comm (a b c : Resource) : (a.Add b).Add c = (a.Add c).Add b := by
  have hcpu : ((a.Add b).Add c).MilliCPU = ((a.Add c).Add b).MilliCPU := by
    simp only [Add]; ring
  have hmem : ((a.Add b).Add c).Memory = ((a.Add c).Add b).Memory := by
    simp only [Add]; ring
  have hsc : ((a.Add b).Add c).ScalarResources = ((a.Add c).Add b).ScalarResources := by
    by_cases hb : b.scalars.isEmpty = true
    · by_cases hc : c.scalars.isEmpty = true
      · simp only [Add, hb, hc, if_true]
      · have hab : (a.Add b).scalars = a.scalars := by rw [scalars_Add, if_pos hb]
        show (if c.scalars.isEmpty then (a.Add b).ScalarResources else _) = 
          (if b.scalars.isEmpty then (a.Add c).ScalarResources else _)
        rw [if_neg hc, if_pos hb, hab]
        simp only [Add, hc, if_false]
        rfl
    · by_cases hc : c.scalars.isEmpty = true
      · have hac : (a.Add c).scalars = a.scalars := by rw [scalars_Add, if_pos hc]
        show (if c.scalars.isEmpty then (a.Add b).ScalarResources else _) = 
          (if b.scalars.isEmpty then (a.Add c).ScalarResources else _)
        rw [if_pos hc, if_neg hb, hac]
        simp only [Add, hb, if_false]
        rfl
      · show (if c.scalars.isEmpty then (a.Add b).ScalarResources else _) = 
          (if b.scalars.isEmpty then (a.Add c).ScalarResources else _)
        rw [if_neg hc, if_neg hb]
        congr 1
        have hab : (a.Add b).scalars = scalarBuild (scalarKeys a.scalars ++ scalarKeys b.scalars)
            (fun k => scalarGet a.scalars k + scalarGet b.scalars k) := by
          rw [scalars_Add, if_neg hb]
        have hac : (a.Add c).scalars = scalarBuild (scalarKeys a.scalars ++ scalarKeys c.scalars)
            (fun k => scalarGet a.scalars k + scalarGet c.scalars k) := by
          rw [scalars_Add, if_neg hc]
        rw [hab, hac]
        apply scalarBuild_congr
        · intro k
          simp only [List.mem_append, mem_scalarKeys_build]
          tauto
        · intro k _
          simp only [scalarGet_build, List.mem_append]
          by_cases h1 : k ∈ scalarKeys a.scalars
          · simp [h1]; ring
          · by_cases h2 : k ∈ scalarKeys b.scalars
            · by_cases h3 : k ∈ scalarKeys c.scalars
              · simp [h1, h2, h3]; ring
              · simp [h1, h2, h3, scalarGet_eq_zero_of_not_mem _ _ h3,
                  scalarGet_eq_zero_of_not_mem _ _ h1]
            · by_cases h3 : k ∈ scalarKeys c.scalars
              · simp [h1, h2, h3, scalarGet_eq_zero_of_not_mem _ _ h2,
                  scalarGet_eq_zero_of_not_mem _ _ h1]
              · simp [h1, h2, h3, scalarGet_eq_zero_of_not_mem _ _ h2,
                  scalarGet_eq_zero_of_not_mem _ _ h3]
  cases hx : (a.Add b).Add c with
  | mk x1 x2 x3 =>
    cases hy : (a.Add c).Add b with
    | mk y1 y2 y3 =>
      rw [hx, hy] at hcpu hmem hsc
      simp only at hcpu hmem hsc
      rw [hcpu, hmem, hsc]

theorem foldl_Add_perm (l₁ l₂ : List Resource) (h : l₁.Perm l₂) (init : Resource) :
    l₁.foldl Resource.Add init = l₂.foldl Resource.Add init :=
  h.foldl_eq' (fun x _ y _ z => Add_right_comm z x y) init

end api.Resource

namespace proportion

open api api.Resource framework util

theorem totalWeight_perm (meet meet' : List QueueID) (l l' : List (QueueID × queueAttr))
    (hm : ∀ x, x ∈ meet' ↔ x ∈ meet) (hp : l'.Perm l) :
    totalWeight meet' l' = totalWeight meet l := by
  unfold totalWeight
  have hf : (fun (acc : Int) (kv : QueueID × queueAttr) =>
        if kv.2.queueID ∈ meet' then acc else int32 (acc + kv.2.weight))
      = (fun acc kv => if kv.2.queueID ∈ meet then acc else int32 (acc + kv.2.weight)) := by
    funext acc kv
    by_cases h : kv.2.queueID ∈ meet
    · rw [if_pos h, if_pos ((hm _).2 h)]
    · rw [if_neg h, if_neg (fun h' => h ((hm _).1 h'))]
  rw [hf]
  apply hp.foldl_eq'
  intro x _ y _ z
  by_cases hx : x.2.queueID ∈ meet <;> by_cases hy : y.2.queueID ∈ meet
  · simp [hx, hy]
  · simp [hx, hy]
  · simp [hx, hy]
  · simp only [hx, hy, if_false]
    rw [int32_add_int32, int32_add_int32]
    congr 1; ring

theorem passAll_congr (rem : Resource) (W : Int) (meet meet' : List QueueID)
    (hm : ∀ x, x ∈ meet' ↔ x ∈ meet) : passAll rem W meet' = passAll rem W meet := by
  funext kv
  unfold passAll
  by_cases h : kv.2.queueID ∈ meet
  · rw [if_pos h, if_pos ((hm _).2 h)]
  · rw [if_neg h, if_neg (fun h' => h ((hm _).1 h'))]

theorem unmet_perm (meet meet' : List QueueID) (l l' : List (QueueID × queueAttr))
    (hm : ∀ x, x ∈ meet' ↔ x ∈ meet) (hp : l'.Perm l) : (unmet meet' l').Perm (unmet meet l) := by
  unfold unmet
  have hf : (fun (kv : QueueID × queueAttr) => decide (kv.2.queueID ∉ meet'))
      = (fun kv => decide (kv.2.queueID ∉ meet)) := by
    funext kv
    simp [hm]
  rw [hf]
  exact hp.filter _

theorem fillRound_queueIDs (W : Int) (s : fillState)
    (hn : (s.opts.map fun kv => kv.2.queueID).Nodup) :
    ((fillRound W s).opts.map fun kv => kv.2.queueID) = (s.opts.map fun kv => kv.2.queueID) := by
  rw [(fillRound_nodup W s hn).1, List.map_map]
  apply List.map_congr_left
  intro kv _
  exact passAll_queueID _ _ _ kv

/-- One round gives the same queues, the same met set and the same remaining resource
whatever the order in which it visits the queue map. -/
theorem fillRound_perm (W : Int) (s s' : fillState)
    (hn : (s.opts.map fun kv => kv.2.queueID).Nodup)
    (hp : s'.opts.Perm s.opts) (hm : ∀ x, x ∈ s'.meet ↔ x ∈ s.meet)
    (hr : s'.remaining = s.remaining) :
    (fillRound W s').opts.Perm (fillRound W s).opts ∧
    (∀ x, x ∈ (fillRound W s').meet ↔ x ∈ (fillRound W s).meet) ∧
    (fillRound W s').remaining = (fillRound W s).remaining := by
  have hn' : (s'.opts.map fun kv => kv.2.queueID).Nodup :=
    (hp.map fun kv => kv.2.queueID).nodup_iff.2 hn
  obtain ⟨ho, hmeet, hrem⟩ := fillRound_nodup W s hn
  obtain ⟨ho', hmeet', hrem'⟩ := fillRound_nodup W s' hn'
  refine ⟨?_, ?_, ?_⟩
  · rw [ho, ho', hr, passAll_congr _ _ _ _ hm]
    exact hp.map _
  · intro x
    rw [hmeet x, hmeet' x, hm x, hr]
    constructor
    · rintro (h | ⟨kv, hkv, h1, h2⟩)
      · exact Or.inl h
      · exact Or.inr ⟨kv, hp.mem_iff.1 hkv, fun h => h1 ((hm _).2 h), h2⟩
    · rintro (h | ⟨kv, hkv, h1, h2⟩)
      · exact Or.inl h
      · exact Or.inr ⟨kv, hp.mem_iff.2 hkv, fun h => h1 ((hm _).1 h), h2⟩
  · rw [hrem, hrem', hr]
    have hu := unmet_perm s.meet s'.meet s.opts s'.opts hm hp
    rw [foldl_Add_perm _ _ (hu.map fun kv => (diffOne s.remaining W kv).1),
      foldl_Add_perm _ _ (hu.map fun kv => (diffOne s.remaining W kv).2)]

/-- The loop gives the same queues and the same remaining resource whatever the orders in
which its rounds visit the queue map, and ends after the same number of rounds. -/
theorem waterFillVisit_perm
    (visit : Nat → List (QueueID × queueAttr) → List (QueueID × queueAttr))
    (hvisit : ∀ n l, (visit n l).Perm l) :
    ∀ (fuel : Nat) (s s' : fillState),
      (s.opts.map fun kv => kv.2.queueID).Nodup →
      s'.opts.Perm s.opts → (∀ x, x ∈ s'.meet ↔ x ∈ s.meet) → s'.remaining = s.remaining →
      (waterFill fuel s = none ∧ waterFillVisit visit fuel s' = none) ∨
      ∃ t t', waterFill fuel s = some t ∧ waterFillVisit visit fuel s' = some t' ∧
        t'.opts.Perm t.opts ∧ t'.remaining = t.remaining := by
  intro fuel
  induction fuel with
  | zero => intro s s' _ _ _ _; left; exact ⟨rfl, rfl⟩
  | succ n ih =>
    intro s s' hn hp hm hr
    obtain ⟨o', m', r'⟩ := s'
    simp only at hp hm hr
    subst hr
    have hw : totalWeight m' (visit (2 * n + 1) o') = totalWeight s.meet s.opts :=
      totalWeight_perm _ _ _ _ hm ((hvisit _ _).trans hp)
    simp only [waterFill, waterFillVisit, hw]
    by_cases h0 : totalWeight s.meet s.opts = 0
    · right
      exact ⟨s, { opts := o', meet := m', remaining := s.remaining }, by simp [h0],
        by simp [h0], hp, rfl⟩
    · simp only [h0, if_false]
      obtain ⟨hp1, hm1, hr1⟩ := fillRound_perm (totalWeight s.meet s.opts) s
        { opts := visit (2 * n) o', meet := m', remaining := s.remaining } hn
        ((hvisit _ _).trans hp) hm rfl
      rw [hr1]
      by_cases hexit : ((fillRound (totalWeight s.meet s.opts) s).remaining.IsEmpty ||
          (fillRound (totalWeight s.meet s.opts) s).remaining.DeepEqual s.remaining) = true
      · right
        refine ⟨_, _, by rw [if_pos hexit], by rw [if_pos hexit], hp1, hr1⟩
      · rw [if_neg hexit, if_neg hexit]
        apply ih _ _ _ hp1 hm1 hr1
        rw [fillRound_queueIDs _ _ hn]; exact hn

theorem mapGet_perm {V : Type} (m m' : List (QueueID × V)) (hp : m'.Perm m)
    (hn : (m.map Prod.fst).Nodup) (q : QueueID) : mapGet m' q = mapGet m q := by
  have hn' : (m'.map Prod.fst).Nodup := (hp.map Prod.fst).nodup_iff.2 hn
  cases h : mapGet m q with
  | none =>
    rw [mapGet_eq_none_iff] at h ⊢
    intro hc
    exact h ((hp.map Prod.fst).mem_iff.1 hc)
  | some v =>
    exact mapGet_of_mem_nodup _ _ _ hn' (hp.mem_iff.2 (api.mapGet_mem _ _ _ h))

theorem waterFill_keys (fuel : Nat) (s t : fillState) (h : waterFill fuel s = some t) :
    t.opts.map Prod.fst = s.opts.map Prod.fst := by
  have := waterFill_frame fuel s t h
  generalize s.opts = l at this
  generalize t.opts = l' at this
  induction this with
  | nil => rfl
  | cons hab _ ih => simp only [List.map_cons, ih, hab.1]

theorem buildAttrs_queueIDs (ssn : Session) (opts : List (QueueID × queueAttr))
    (hb : buildAttrs ssn ssn.Jobs [] = some opts)
    (hUID : ∀ kv ∈ ssn.Queues, kv.2.UID = kv.1) :
    (opts.map fun kv => kv.2.queueID) = opts.map Prod.fst := by
  apply List.map_congr_left
  intro kv hkv
  obtain ⟨queue, hg, _, hid, _⟩ := buildAttrs_queue ssn ssn.Jobs [] opts hb (by simp) kv hkv
  rw [hid]
  exact hUID _ (api.mapGet_mem _ _ _ hg)

end proportion

namespace proportion

open api api.Resource framework util

/-- Over exact rationals: for a snapshot whose queue map is keyed by the queues' UIDs,
the deserved that OnSessionOpen (on a fresh plugin) computes for each queue does not
depend on the order in which any `range` over the queue map visits it: two runs with
visiting orders of their own either both do not end within `fuel` rounds, as
OnSessionOpen, or both end with, for every queue, the same deserved as OnSessionOpen.
The code sums doubles in the visiting order, whose rounding this says nothing of. -/
theorem deserved_independent_of_visit_order (fuel : Nat) (ssn : Session)
    (opts : List (QueueID × queueAttr))
    (visit₁ visit₂ : Nat → List (QueueID × queueAttr) → List (QueueID × queueAttr))
    (hb : buildAttrs ssn ssn.Jobs [] = some opts)
    (hUID : ∀ kv ∈ ssn.Queues, kv.2.UID = kv.1)
    (h₁ : ∀ n l, (visit₁ n l).Perm l) (h₂ : ∀ n l, (visit₂ n l).Perm l) :
    (OnSessionOpen fuel New ssn = none ∧
      waterFillVisit visit₁ fuel
        { opts := opts, meet := [], remaining := EmptyResource.Add ssn.TotalResource } = none ∧
      waterFillVisit visit₂ fuel
        { opts := opts, meet := [], remaining := EmptyResource.Add ssn.TotalResource } = none) ∨
    ∃ pp' t₁ t₂, OnSessionOpen fuel New ssn = some pp' ∧
      waterFillVisit visit₁ fuel
        { opts := opts, meet := [], remaining := EmptyResource.Add ssn.TotalResource } = some t₁ ∧
      waterFillVisit visit₂ fuel
        { opts := opts, meet := [], remaining := EmptyResource.Add ssn.TotalResource } = some t₂ ∧
      ∀ q, (mapGet t₁.opts q).map (fun a => a.deserved)
            = (mapGet (pp'.queueOpts.getD []) q).map (fun a => a.deserved) ∧
          (mapGet t₂.opts q).map (fun a => a.deserved)
            = (mapGet (pp'.queueOpts.getD []) q).map (fun a => a.deserved) := by
  have hkeys := (buildAttrs_fresh ssn ssn.Jobs [] opts hb (by simp) (by simp)).2
  have hids : (opts.map fun kv => kv.2.queueID).Nodup := by
    rw [buildAttrs_queueIDs ssn opts hb hUID]; exact hkeys
  rcases waterFillVisit_perm visit₁ h₁ fuel
      { opts := opts, meet := [], remaining := EmptyResource.Add ssn.TotalResource } _ hids
      (List.Perm.refl _) (fun _ => Iff.rfl) rfl with ⟨hn, hn1⟩ | ⟨t, t₁, ht, ht1, hp1, _⟩
  · left
    rcases waterFillVisit_perm visit₂ h₂ fuel
        { opts := opts, meet := [], remaining := EmptyResource.Add ssn.TotalResource } _ hids
        (List.Perm.refl _) (fun _ => Iff.rfl) rfl with ⟨_, hn2⟩ | ⟨t, _, ht, _⟩
    · refine ⟨?_, hn1, hn2⟩
      cases ho : OnSessionOpen fuel New ssn with
      | none => rfl
      | some pp' =>
        obtain ⟨opts', s, hb', hw, _⟩ := (OnSessionOpen_New_iff fuel ssn pp').1 ho
        rw [hb] at hb'; cases hb'
        rw [hn] at hw; cases hw
    · rw [hn] at ht; cases ht
  · right
    rcases waterFillVisit_perm visit₂ h₂ fuel
        { opts := opts, meet := [], remaining := EmptyResource.Add ssn.TotalResource } _ hids
        (List.Perm.refl _) (fun _ => Iff.rfl) rfl with ⟨hn, _⟩ | ⟨t', t₂, ht', ht2, hp2, _⟩
    · rw [hn] at ht; cases ht
    · rw [ht] at ht'; cases ht'
      have hopen : OnSessionOpen fuel New ssn
          = some { totalResource := some (EmptyResource.Add ssn.TotalResource),
                   queueOpts := some t.opts } :=
        (OnSessionOpen_New_iff fuel ssn _).2 ⟨opts, t, hb, ht, rfl⟩
      have htk : (t.opts.map Prod.fst).Nodup := by
        rw [waterFill_keys fuel _ t ht]; exact hkeys
      refine ⟨_, t₁, t₂, hopen, ht1, ht2, ?_⟩
      intro q
      simp only [Option.getD_some]
      rw [mapGet_perm t.opts t₁.opts hp1 htk q, mapGet_perm t.opts t₂.opts hp2 htk q]
      exact ⟨rfl, rfl⟩

/-- The queues of `capSession` visited in the order of the list and in the reverse
order. -/
theorem deserved_independent_of_visit_order_witness :
    (OnSessionOpen 3 New capSession = none ∧
      waterFillVisit (fun _ l => l) 3
        { opts := capAttrs,
          meet := [], remaining := EmptyResource.Add capSession.TotalResource } = none ∧
      waterFillVisit (fun _ l => l.reverse) 3
        { opts := capAttrs,
          meet := [], remaining := EmptyResource.Add capSession.TotalResource } = none) ∨
    ∃ pp' t₁ t₂, OnSessionOpen 3 New capSession = some pp' ∧
      waterFillVisit (fun _ l => l) 3
        { opts := capAttrs,
          meet := [], remaining := EmptyResource.Add capSession.TotalResource } = some t₁ ∧
      waterFillVisit (fun _ l => l.reverse) 3
        { opts := capAttrs,
          meet := [], remaining := EmptyResource.Add capSession.TotalResource } = some t₂ ∧
      ∀ q, (mapGet t₁.opts q).map (fun a => a.deserved)
            = (mapGet (pp'.queueOpts.getD []) q).map (fun a => a.deserved) ∧
          (mapGet t₂.opts q).map (fun a => a.deserved)
            = (mapGet (pp'.queueOpts.getD []) q).map (fun a => a.deserved) :=
  deserved_independent_of_visit_order 3 capSession
    capAttrs
    (fun _ l => l) (fun _ l => l.reverse) (by decide!) (by decide!)
    (fun _ l => List.Perm.refl l) (fun _ l => List.reverse_perm l)

end proportion

namespace proportion

open api api.Resource framework util

/-! ## Queues that ask for more than their share -/

/-- A queue without capability whose request is at least what it is raised to keeps, in
every dimension, what it is raised to. -/
theorem fillQueue_keeps_raised (rem : Resource) (W : Int) (attr : queueAttr)
    (hcap : attr.capability = none)
    (hle : ∀ rn, (raised rem W attr).Get rn ≤ attr.request.Get rn)
    (hnn : ∀ rn, 0 ≤ (raised rem W attr).Get rn) (rn : ResourceName) :
    (fillQueue rem W attr).1.deserved.Get rn = (raised rem W attr).Get rn := by
  rcases fillQueue_cases rem W attr with ⟨cap, hc, _, _⟩ | ⟨_, _, e⟩ | ⟨_, _, e⟩
  · rw [hcap] at hc; cases hc
  · rw [e]
    show (helpers.Min (raised rem W attr) attr.request).Get rn = _
    rw [helpers.Get_Min_eq _ _ _ (hnn rn) (le_trans (hnn rn) (hle rn))]
    exact min_eq_left (hle rn)
  · rw [e]
    show ((raised rem W attr).MinDimensionResource attr.request).Get rn = _
    rw [Get_MinDimensionResource]
    split
    · exact min_eq_left (hle rn)
    · rfl

theorem unmetWeight_nil (opts : List (QueueID × queueAttr)) :
    unmetWeight [] opts = (opts.map fun kv => kv.2.weight).sum := by
  simp [unmetWeight]

theorem weight_le_sum (opts : List (QueueID × queueAttr)) (hw : ∀ kv ∈ opts, 0 ≤ kv.2.weight)
    (kv : QueueID × queueAttr) (hkv : kv ∈ opts) :
    kv.2.weight ≤ (opts.map fun kv => kv.2.weight).sum := by
  apply List.single_le_sum
  · intro x hx
    obtain ⟨kv', hkv', rfl⟩ := List.mem_map.1 hx
    exact hw kv' hkv'
  · exact List.mem_map.2 ⟨kv, hkv, rfl⟩

theorem sum_shares (c W : ℚ) (opts : List (QueueID × queueAttr)) :
    (opts.map fun kv => c * ((kv.2.weight : ℚ) / W)).sum
      = c * ((((opts.map fun kv => kv.2.weight).sum : Int) : ℚ) / W) := by
  induction opts with
  | nil => simp
  | cons kv opts ih =>
    simp only [List.map_cons, List.sum_cons, ih]
    push_cast
    ring

/-- C4: when no queue has a capability, every queue requests at least the total resource
T in every dimension, T and the weights are non-negative and the weights sum to a
positive number below 2^31, OnSessionOpen (on a fresh plugin, snapshot keyed by queue
UID) ends after one round and gives every queue, in every dimension,
deserved = T * w_q / (sum of all weights).  In scenario S1 this is {1000m, 2Gi} and
{3000m, 6Gi}. -/
theorem deserved_proportional_to_weight (fuel : Nat) (ssn : Session)
    (opts : List (QueueID × queueAttr))
    (hb : buildAttrs ssn ssn.Jobs [] = some opts)
    (hUID : ∀ kv ∈ ssn.Queues, kv.2.UID = kv.1)
    (hT : ∀ rn, 0 ≤ ssn.TotalResource.Get rn)
    (hcap : ∀ kv ∈ opts, kv.2.capability = none)
    (hreq : ∀ kv ∈ opts, ∀ rn, ssn.TotalResource.Get rn ≤ kv.2.request.Get rn)
    (hw : ∀ kv ∈ opts, 0 ≤ kv.2.weight)
    (hpos : 0 < (opts.map fun kv => kv.2.weight).sum)
    (hsum : (opts.map fun kv => kv.2.weight).sum < 2147483648) :
    (∃ pp', OnSessionOpen (fuel + 1) New ssn = some pp' ∧
      (pp'.queueOpts.getD []).map Prod.fst = opts.map Prod.fst ∧
      ∀ kv ∈ pp'.queueOpts.getD [], ∀ rn,
        kv.2.deserved.Get rn
          = ssn.TotalResource.Get rn * (kv.2.weight : ℚ)
            / (((opts.map fun kv => kv.2.weight).sum : Int) : ℚ)) ∧
    OnSessionOpen 1 New s1Session = some s1Result := by
  refine ⟨?_, by decide!⟩
  obtain ⟨hfresh, hkeys⟩ := buildAttrs_fresh ssn ssn.Jobs [] opts hb (by simp) (by simp)
  have hids : (opts.map fun kv => kv.2.queueID).Nodup := by
    rw [buildAttrs_queueIDs ssn opts hb hUID]; exact hkeys
  have hWeq : totalWeight [] opts = (opts.map fun kv => kv.2.weight).sum := by
    rw [totalWeight_eq [] opts hw hsum, unmetWeight_nil]
  have hWq : (0 : ℚ) < (((opts.map fun kv => kv.2.weight).sum : Int) : ℚ) := by
    exact_mod_cast hpos
  -- what every queue is raised to in the first round
  have hraised : ∀ kv ∈ opts, ∀ rn,
      (raised (EmptyResource.Add ssn.TotalResource) (totalWeight [] opts) kv.2).Get rn
        = ssn.TotalResource.Get rn * ((kv.2.weight : ℚ)
          / (((opts.map fun kv => kv.2.weight).sum : Int) : ℚ)) := by
    intro kv hkv rn
    rw [Get_raised, hfresh kv hkv, Get_EmptyResource, Get_total, hWeq]; ring
  have hratio : ∀ kv ∈ opts, (0 : ℚ) ≤ (kv.2.weight : ℚ)
      / (((opts.map fun kv => kv.2.weight).sum : Int) : ℚ) ∧
      (kv.2.weight : ℚ) / (((opts.map fun kv => kv.2.weight).sum : Int) : ℚ) ≤ 1 := by
    intro kv hkv
    have h1 : (0 : ℚ) ≤ (kv.2.weight : ℚ) := by exact_mod_cast hw kv hkv
    have h2 : (kv.2.weight : ℚ) ≤ (((opts.map fun kv => kv.2.weight).sum : Int) : ℚ) := by
      exact_mod_cast weight_le_sum opts hw kv hkv
    exact ⟨div_nonneg h1 (le_of_lt hWq), (div_le_one hWq).2 h2⟩
  have hdes : ∀ kv ∈ opts, ∀ rn,
      (passOne (EmptyResource.Add ssn.TotalResource) (totalWeight [] opts) kv).2.deserved.Get rn
        = ssn.TotalResource.Get rn * ((kv.2.weight : ℚ)
          / (((opts.map fun kv => kv.2.weight).sum : Int) : ℚ)) := by
    intro kv hkv rn
    rw [← hraised kv hkv rn]
    apply fillQueue_keeps_raised _ _ _ (hcap kv hkv)
    · intro rn'
      rw [hraised kv hkv rn']
      have := mul_le_mul_of_nonneg_left (hratio kv hkv).2 (hT rn')
      have := hreq kv hkv rn'
      linarith
    · intro rn'
      rw [hraised kv hkv rn']
      exact mul_nonneg (hT rn') (hratio kv hkv).1
  -- the first round
  have hW0 : totalWeight [] opts ≠ 0 := by rw [hWeq]; omega
  obtain ⟨hopts, _, _⟩ := fillRound_nodup (totalWeight [] opts)
    { opts := opts, meet := [], remaining := EmptyResource.Add ssn.TotalResource } hids
  have hopts' : (fillRound (totalWeight [] opts)
        { opts := opts, meet := [], remaining := EmptyResource.Add ssn.TotalResource }).opts
      = opts.map (passOne (EmptyResource.Add ssn.TotalResource) (totalWeight [] opts)) := by
    rw [hopts]
    apply List.map_congr_left
    intro kv _
    simp [passAll]
  have hremaining := (fillRound_spec (totalWeight [] opts)
    { opts := opts, meet := [], remaining := EmptyResource.Add ssn.TotalResource }).2.2
  have hempty : (fillRound (totalWeight [] opts)
      { opts := opts, meet := [], remaining := EmptyResource.Add ssn.TotalResource }).remaining.IsEmpty
      = true := by
    rw [IsEmpty_iff]
    intro rn
    rw [hremaining rn, hopts']
    simp only
    rw [sumDeserved_fresh rn opts hfresh, Get_total]
    have hs : sumDeserved rn
        (opts.map (passOne (EmptyResource.Add ssn.TotalResource) (totalWeight [] opts)))
        = ssn.TotalResource.Get rn := by
      unfold sumDeserved
      rw [List.map_map]
      have hc : (opts.map ((fun kv => kv.2.deserved.Get rn) ∘
            passOne (EmptyResource.Add ssn.TotalResource) (totalWeight [] opts)))
          = (opts.map fun kv => ssn.TotalResource.Get rn * ((kv.2.weight : ℚ)
              / (((opts.map fun kv => kv.2.weight).sum : Int) : ℚ))) := by
        apply List.map_congr_left
        intro kv hkv
        exact hdes kv hkv rn
      rw [hc, sum_shares, div_self (ne_of_gt hWq), mul_one]
    rw [hs]; linarith
  have hfill : waterFill (fuel + 1)
      { opts := opts, meet := [], remaining := EmptyResource.Add ssn.TotalResource }
      = some (fillRound (totalWeight [] opts)
          { opts := opts, meet := [], remaining := EmptyResource.Add ssn.TotalResource }) := by
    simp only [waterFill, hW0, if_false, hempty, Bool.true_or, if_true]
  refine ⟨_, (OnSessionOpen_New_iff (fuel + 1) ssn _).2 ⟨opts, _, hb, hfill, rfl⟩, ?_, ?_⟩
  · simp only [Option.getD_some]
    exact waterFill_keys _ _ _ hfill
  · intro kv' hkv' rn
    simp only [Option.getD_some, hopts'] at hkv'
    obtain ⟨kv, hkv, rfl⟩ := List.mem_map.1 hkv'
    rw [hdes kv hkv rn]
    have hwt : (passOne (EmptyResource.Add ssn.TotalResource) (totalWeight [] opts) kv).2.weight
        = kv.2.weight :=
      (sameFrame_trans _ _ _ (fillQueue_frame _ _ kv.2) (updateShare_frame _)).2.2.1
    rw [hwt]; ring

end proportion

namespace proportion

open api api.Resource framework util

/-- Witness of C4: scenario S1, total {4000m, 8Gi}, weights 1 and 3. -/
theorem deserved_proportional_to_weight_witness :
    ∃ pp', OnSessionOpen (0 + 1) New s1Session = some pp' ∧
      (pp'.queueOpts.getD []).map Prod.fst = s1Attrs.map Prod.fst ∧
      ∀ kv ∈ pp'.queueOpts.getD [], ∀ rn,
        kv.2.deserved.Get rn
          = s1Session.TotalResource.Get rn * (kv.2.weight : ℚ)
            / (((s1Attrs.map fun kv => kv.2.weight).sum : Int) : ℚ) :=
  (deserved_proportional_to_weight 0 s1Session s1Attrs (by decide!) (by decide!)
    (fun rn => by
      have h := (LessEqualInAllDimension_iff EmptyResource s1Session.TotalResource
        DimensionDefaultValue.Zero).1 (by decide!) rn
      rwa [Get_EmptyResource] at h)
    (by decide!)
    (fun kv hkv rn =>
      (LessEqualInAllDimension_iff s1Session.TotalResource kv.2.request
        DimensionDefaultValue.Zero).1
        ((by decide! : ∀ kv ∈ s1Attrs,
          s1Session.TotalResource.LessEqualInAllDimension kv.2.request
            DimensionDefaultValue.Zero = true) kv hkv) rn)
    (by decide!) (by decide!) (by decide!)).1

end proportion

namespace proportion

open api api.Resource framework util

/-! ## Two queues, one of which asks for less than its share -/

theorem fillQueue_met_iff (rem : Resource) (W : Int) (attr : queueAttr)
    (hcap : attr.capability = none) :
    (fillQueue rem W attr).2 = true ↔
      ∀ rn, attr.request.Get rn ≤ (raised rem W attr).Get rn := by
  rcases fillQueue_cases rem W attr with ⟨cap, hc, _, _⟩ | ⟨_, hle, e⟩ | ⟨_, hnle, e⟩
  · rw [hcap] at hc; cases hc
  · rw [e]; simp only [true_iff]; exact hle
  · rw [e]; simp only [Bool.false_eq_true, false_iff]; exact hnle

/-- A queue without capability whose request is at most what it is raised to gets, in
every dimension, its request. -/
theorem fillQueue_met_deserved (rem : Resource) (W : Int) (attr : queueAttr)
    (hcap : attr.capability = none)
    (hle : ∀ rn, attr.request.Get rn ≤ (raised rem W attr).Get rn)
    (hnn : ∀ rn, 0 ≤ attr.request.Get rn) (rn : ResourceName) :
    (fillQueue rem W attr).1.deserved.Get rn = attr.request.Get rn := by
  rcases fillQueue_cases rem W attr with ⟨cap, hc, _, _⟩ | ⟨_, _, e⟩ | ⟨_, hnle, _⟩
  · rw [hcap] at hc; cases hc
  · rw [e]
    show (helpers.Min (raised rem W attr) attr.request).Get rn = _
    rw [helpers.Get_Min_eq _ _ _ (le_trans (hnn rn) (hle rn)) (hnn rn)]
    exact min_eq_right (hle rn)
  · exact absurd hle hnle

theorem waterFillVisit_id (fuel : Nat) (s : fillState) :
    waterFillVisit (fun _ l => l) fuel s = waterFill fuel s := by
  induction fuel generalizing s with
  | zero => rfl
  | succ n ih =>
    simp only [waterFillVisit, waterFill]
    split
    · rfl
    · split
      · rfl
      · exact ih _

theorem passOne_frame (rem : Resource) (W : Int) (kv : QueueID × queueAttr) :
    sameFrame kv.2 (passOne rem W kv).2 :=
  sameFrame_trans _ _ _ (fillQueue_frame rem W kv.2) (updateShare_frame _)

theorem passOne_deserved (rem : Resource) (W : Int) (kv : QueueID × queueAttr) :
    (passOne rem W kv).2.deserved = (fillQueue rem W kv.2).1.deserved := rfl

end proportion

namespace proportion

open api api.Resource framework util

theorem two_queues_fill (fuel : Nat) (T R : Resource) (k1 k2 : QueueID) (a1 a2 : queueAttr)
    (hR : ∀ rn, R.Get rn = T.Get rn)
    (hd1 : a1.deserved = EmptyResource) (hd2 : a2.deserved = EmptyResource)
    (hid : a1.queueID ≠ a2.queueID)
    (hc1 : a1.capability = none) (hc2 : a2.capability = none)
    (hw1 : 0 < a1.weight) (hw2 : 0 < a2.weight) (hsum : a1.weight + a2.weight < 2147483648)
    (hT : ∀ rn, 0 ≤ T.Get rn) (hTcpu : 0 < T.Get ResourceName.cpu)
    (hr1 : ∀ rn, a1.request.Get rn
      ≤ T.Get rn * (a1.weight : ℚ) / ((a1.weight : ℚ) + (a2.weight : ℚ)))
    (hr1nn : ∀ rn, 0 ≤ a1.request.Get rn)
    (hr2 : ∀ rn, T.Get rn ≤ a2.request.Get rn) :
    ∃ t b1 b2, waterFill (fuel + 2) { opts := [(k1, a1), (k2, a2)], meet := [], remaining := R }
        = some t ∧
      t.opts = [(k1, b1), (k2, b2)] ∧
      (∀ rn, b1.deserved.Get rn = a1.request.Get rn) ∧
      (∀ rn, b2.deserved.Get rn = T.Get rn - a1.request.Get rn) := by
  have hw1q : (0 : ℚ) < (a1.weight : ℚ) := by exact_mod_cast hw1
  have hw2q : (0 : ℚ) < (a2.weight : ℚ) := by exact_mod_cast hw2
  have hWq : (0 : ℚ) < (a1.weight : ℚ) + (a2.weight : ℚ) := by linarith
  have hWne : (a1.weight : ℚ) + (a2.weight : ℚ) ≠ 0 := ne_of_gt hWq
  -- the first round
  have hn0 : (([(k1, a1), (k2, a2)] : List (QueueID × queueAttr)).map
      fun kv => kv.2.queueID).Nodup := by
    simp [hid]
  have hW : totalWeight [] [(k1, a1), (k2, a2)] = a1.weight + a2.weight := by
    rw [totalWeight_eq [] _ (by
      intro kv hkv
      simp only [List.mem_cons, List.mem_singleton, List.not_mem_nil, or_false] at hkv
      rcases hkv with rfl | rfl
      · exact le_of_lt hw1
      · exact le_of_lt hw2) (by simpa using hsum), unmetWeight_nil]
    simp
  have hW0 : totalWeight [] [(k1, a1), (k2, a2)] ≠ 0 := by rw [hW]; omega
  have hraised1 : ∀ rn, (raised R (totalWeight [] [(k1, a1), (k2, a2)]) a1).Get rn
      = T.Get rn * (a1.weight : ℚ) / ((a1.weight : ℚ) + (a2.weight : ℚ)) := by
    intro rn
    rw [Get_raised, hd1, Get_EmptyResource, hR, hW]; push_cast; ring
  have hraised2 : ∀ rn, (raised R (totalWeight [] [(k1, a1), (k2, a2)]) a2).Get rn
      = T.Get rn * (a2.weight : ℚ) / ((a1.weight : ℚ) + (a2.weight : ℚ)) := by
    intro rn
    rw [Get_raised, hd2, Get_EmptyResource, hR, hW]; push_cast; ring
  have hsplit : ∀ rn, T.Get rn * (a1.weight : ℚ) / ((a1.weight : ℚ) + (a2.weight : ℚ))
      + T.Get rn * (a2.weight : ℚ) / ((a1.weight : ℚ) + (a2.weight : ℚ)) = T.Get rn := by
    intro rn; field_simp; ring
  have hshare2_nonneg : ∀ rn,
      0 ≤ T.Get rn * (a2.weight : ℚ) / ((a1.weight : ℚ) + (a2.weight : ℚ)) := by
    intro rn
    exact div_nonneg (mul_nonneg (hT rn) (le_of_lt hw2q)) (le_of_lt hWq)
  have hshare1_nonneg : ∀ rn,
      0 ≤ T.Get rn * (a1.weight : ℚ) / ((a1.weight : ℚ) + (a2.weight : ℚ)) := by
    intro rn
    exact div_nonneg (mul_nonneg (hT rn) (le_of_lt hw1q)) (le_of_lt hWq)
  have hshare1_cpu : 0 < T.Get ResourceName.cpu * (a1.weight : ℚ)
      / ((a1.weight : ℚ) + (a2.weight : ℚ)) := div_pos (mul_pos hTcpu hw1q) hWq
  have hmet1 : (fillQueue R (totalWeight [] [(k1, a1), (k2, a2)]) a1).2 = true := by
    rw [fillQueue_met_iff _ _ _ hc1]
    intro rn; rw [hraised1]; exact hr1 rn
  have hmet2 : (fillQueue R (totalWeight [] [(k1, a1), (k2, a2)]) a2).2 = false := by
    rw [Bool.eq_false_iff]
    intro h
    rw [fillQueue_met_iff _ _ _ hc2] at h
    have h1 := h ResourceName.cpu
    rw [hraised2] at h1
    have h2 := hr2 ResourceName.cpu
    have h3 := hsplit ResourceName.cpu
    linarith
  have hdes1 : ∀ rn, (passOne R (totalWeight [] [(k1, a1), (k2, a2)]) (k1, a1)).2.deserved.Get rn
      = a1.request.Get rn := by
    intro rn
    rw [passOne_deserved]
    exact fillQueue_met_deserved _ _ _ hc1 (fun rn => by rw [hraised1]; exact hr1 rn) hr1nn rn
  have hdes2 : ∀ rn, (passOne R (totalWeight [] [(k1, a1), (k2, a2)]) (k2, a2)).2.deserved.Get rn
      = T.Get rn * (a2.weight : ℚ) / ((a1.weight : ℚ) + (a2.weight : ℚ)) := by
    intro rn
    rw [passOne_deserved, ← hraised2 rn]
    apply fillQueue_keeps_raised _ _ _ hc2
    · intro rn'
      rw [hraised2]
      have := hsplit rn'; have := hshare1_nonneg rn'; have := hr2 rn'
      linarith
    · intro rn'; rw [hraised2]; exact hshare2_nonneg rn'
  obtain ⟨hopts1, hmeet1, _⟩ := fillRound_nodup (totalWeight [] [(k1, a1), (k2, a2)])
    { opts := [(k1, a1), (k2, a2)], meet := [], remaining := R } hn0
  have hrem1 := (fillRound_spec (totalWeight [] [(k1, a1), (k2, a2)])
    { opts := [(k1, a1), (k2, a2)], meet := [], remaining := R }).2.2
  generalize hs1 : fillRound (totalWeight [] [(k1, a1), (k2, a2)])
    { opts := [(k1, a1), (k2, a2)], meet := [], remaining := R } = s1 at hopts1 hmeet1 hrem1
  generalize hb1 : passOne R (totalWeight [] [(k1, a1), (k2, a2)]) (k1, a1) = kv1
    at hopts1 hdes1
  generalize hb2 : passOne R (totalWeight [] [(k1, a1), (k2, a2)]) (k2, a2) = kv2
    at hopts1 hdes2
  have hf1 : sameFrame a1 kv1.2 := by rw [← hb1]; exact passOne_frame _ _ _
  have hf2 : sameFrame a2 kv2.2 := by rw [← hb2]; exact passOne_frame _ _ _
  have hk1 : kv1.1 = k1 := by rw [← hb1]; rfl
  have hk2 : kv2.1 = k2 := by rw [← hb2]; rfl
  have hopts1' : s1.opts = [kv1, kv2] := by
    rw [hopts1]; simp [passAll, hb1, hb2]
  have hmeet1' : ∀ x, x ∈ s1.meet ↔ x = a1.queueID := by
    intro x
    rw [hmeet1 x]
    simp only [List.not_mem_nil, false_or, not_false_eq_true, true_and, List.mem_cons,
      List.mem_singleton, or_false]
    constructor
    · rintro ⟨kv, hkv, hm, hx⟩
      rcases hkv with rfl | rfl
      · exact hx
      · simp only at hm; rw [hmet2] at hm; cases hm
    · intro hx
      exact ⟨(k1, a1), Or.inl rfl, hmet1, hx⟩
  have hrem1' : ∀ rn, s1.remaining.Get rn
      = T.Get rn * (a1.weight : ℚ) / ((a1.weight : ℚ) + (a2.weight : ℚ))
        - a1.request.Get rn := by
    intro rn
    rw [hrem1 rn, hopts1']
    simp only [sumDeserved, List.map_cons, List.map_nil, List.sum_cons, List.sum_nil,
      hdes1 rn, hdes2 rn, hd1, hd2, Get_EmptyResource, hR]
    have := hsplit rn
    linarith
  have hnotdeep : s1.remaining.DeepEqual R = false := by
    rw [Bool.eq_false_iff]
    intro h
    have hcpu : s1.remaining.Get ResourceName.cpu = R.Get ResourceName.cpu :=
      (DeepEqual_imp _ _ h).1
    rw [hrem1', hR] at hcpu
    have := hsplit ResourceName.cpu
    have := hr1nn ResourceName.cpu
    have : 0 < T.Get ResourceName.cpu * (a2.weight : ℚ)
        / ((a1.weight : ℚ) + (a2.weight : ℚ)) := div_pos (mul_pos hTcpu hw2q) hWq
    linarith
  have hunfold : waterFill (fuel + 2)
      { opts := [(k1, a1), (k2, a2)], meet := [], remaining := R }
      = if s1.remaining.IsEmpty = true then some s1 else waterFill (fuel + 1) s1 := by
    rw [show fuel + 2 = (fuel + 1) + 1 from rfl]
    simp only [waterFill, hW0, if_false, hs1, hnotdeep, Bool.or_false]
  rw [hunfold]
  by_cases hempty : s1.remaining.IsEmpty = true
  · rw [if_pos hempty]
    refine ⟨s1, kv1.2, kv2.2, rfl, ?_, hdes1, ?_⟩
    · rw [hopts1', ← hk1, ← hk2]
    · intro rn
      rw [hdes2 rn]
      have h1 := (IsEmpty_iff _).1 hempty rn
      rw [hrem1'] at h1
      have := hr1 rn; have := hsplit rn
      linarith
  · rw [if_neg hempty]
    -- the second round
    have hn1 : (s1.opts.map fun kv => kv.2.queueID).Nodup := by
      rw [hopts1']; simp [hf1.1, hf2.1, hid]
    have hkv1met : kv1.2.queueID ∈ s1.meet := (hmeet1' _).2 hf1.1
    have hkv2unmet : kv2.2.queueID ∉ s1.meet := by
      rw [hmeet1', hf2.1]; exact fun e => hid e.symm
    have hW2 : totalWeight s1.meet s1.opts = a2.weight := by
      rw [totalWeight_eq s1.meet _ (by
        intro kv hkv
        rw [hopts1'] at hkv
        simp only [List.mem_cons, List.mem_singleton, List.not_mem_nil, or_false] at hkv
        rcases hkv with rfl | rfl
        · rw [hf1.2.2.1]; exact le_of_lt hw1
        · rw [hf2.2.2.1]; exact le_of_lt hw2) (by
        rw [hopts1']; simpa [hf1.2.2.1, hf2.2.2.1] using hsum)]
      rw [hopts1']
      simp [unmetWeight, hkv1met, hkv2unmet, hf2.2.2.1]
    have hW20 : totalWeight s1.meet s1.opts ≠ 0 := by rw [hW2]; omega
    have hraised : ∀ rn, (raised s1.remaining (totalWeight s1.meet s1.opts) kv2.2).Get rn
        = T.Get rn - a1.request.Get rn := by
      intro rn
      rw [Get_raised, hdes2, hrem1', hW2, hf2.2.2.1, div_self (ne_of_gt hw2q)]
      have := hsplit rn
      linarith
    have hdes2' : ∀ rn,
        (passOne s1.remaining (totalWeight s1.meet s1.opts) kv2).2.deserved.Get rn
          = T.Get rn - a1.request.Get rn := by
      intro rn
      rw [passOne_deserved, ← hraised rn]
      apply fillQueue_keeps_raised _ _ _ (by rw [hf2.2.2.2.2.2.2]; exact hc2)
      · intro rn'
        rw [hraised, hf2.2.2.2.2.1]
        have := hr1nn rn'; have := hr2 rn'
        linarith
      · intro rn'
        rw [hraised]
        have := hr1 rn'; have := hsplit rn'; have := hshare2_nonneg rn'
        linarith
    obtain ⟨hopts2, _, _⟩ := fillRound_nodup (totalWeight s1.meet s1.opts) s1 hn1
    have hrem2 := (fillRound_spec (totalWeight s1.meet s1.opts) s1).2.2
    have hopts2' : (fillRound (totalWeight s1.meet s1.opts) s1).opts
        = [kv1, passOne s1.remaining (totalWeight s1.meet s1.opts) kv2] := by
      rw [hopts2, hopts1']
      simp [passAll, hkv1met, hkv2unmet]
    have hempty2 : (fillRound (totalWeight s1.meet s1.opts) s1).remaining.IsEmpty = true := by
      rw [IsEmpty_iff]
      intro rn
      rw [hrem2 rn, hopts2']
      have e1 : sumDeserved rn [kv1, passOne s1.remaining (totalWeight s1.meet s1.opts) kv2]
          = a1.request.Get rn + (T.Get rn - a1.request.Get rn) := by
        simp only [sumDeserved, List.map_cons, List.map_nil, List.sum_cons, List.sum_nil,
          hdes1 rn, hdes2' rn, add_zero]
      have e2 : sumDeserved rn s1.opts = a1.request.Get rn
          + T.Get rn * (a2.weight : ℚ) / ((a1.weight : ℚ) + (a2.weight : ℚ)) := by
        rw [hopts1']
        simp only [sumDeserved, List.map_cons, List.map_nil, List.sum_cons, List.sum_nil,
          hdes1 rn, hdes2 rn, add_zero]
      rw [e1, e2, hrem1' rn]
      have := hsplit rn
      linarith
    have hfill2 : waterFill (fuel + 1) s1
        = some (fillRound (totalWeight s1.meet s1.opts) s1) := by
      simp only [waterFill, hW20, if_false, hempty2, Bool.true_or, if_true]
    refine ⟨_, kv1.2, (passOne s1.remaining (totalWeight s1.meet s1.opts) kv2).2, hfill2,
      ?_, hdes1, hdes2'⟩
    rw [hopts2', ← hk1, ← hk2]
    rfl

end proportion

namespace proportion

open api api.Resource framework util

/-- C5: for two queues without capability, with positive weights (sum below 2^31) and a
non-negative total T that is positive in cpu and memory: if 0 <= request(Q1) <=
T * w1 / (w1 + w2) and request(Q2) >= T in every dimension, OnSessionOpen (on a fresh
plugin, snapshot keyed by queue UID) ends within two rounds with
deserved(Q1) = request(Q1) and deserved(Q2) = T - request(Q1) in every dimension.  In
scenario S2 this is {500m, 1Gi} and {3500m, 7Gi}. -/
theorem two_queues_small_request (fuel : Nat) (ssn : Session)
    (opts : List (QueueID × queueAttr)) (k1 k2 : QueueID) (a1 a2 : queueAttr)
    (hb : buildAttrs ssn ssn.Jobs [] = some opts)
    (hUID : ∀ kv ∈ ssn.Queues, kv.2.UID = kv.1)
    (hopts : opts.Perm [(k1, a1), (k2, a2)])
    (hc1 : a1.capability = none) (hc2 : a2.capability = none)
    (hw1 : 0 < a1.weight) (hw2 : 0 < a2.weight) (hsum : a1.weight + a2.weight < 2147483648)
    (hT : ∀ rn, 0 ≤ ssn.TotalResource.Get rn)
    (hTcpu : 0 < ssn.TotalResource.Get ResourceName.cpu)
    (_hTmem : 0 < ssn.TotalResource.Get ResourceName.memory)
    (hr1 : ∀ rn, a1.request.Get rn
      ≤ ssn.TotalResource.Get rn * (a1.weight : ℚ) / ((a1.weight : ℚ) + (a2.weight : ℚ)))
    (hr1nn : ∀ rn, 0 ≤ a1.request.Get rn)
    (hr2 : ∀ rn, ssn.TotalResource.Get rn ≤ a2.request.Get rn) :
    (∃ pp' b1 b2, OnSessionOpen (fuel + 2) New ssn = some pp' ∧
      mapGet (pp'.queueOpts.getD []) k1 = some b1 ∧
      mapGet (pp'.queueOpts.getD []) k2 = some b2 ∧
      (∀ rn, b1.deserved.Get rn = a1.request.Get rn) ∧
      (∀ rn, b2.deserved.Get rn = ssn.TotalResource.Get rn - a1.request.Get rn)) ∧
    OnSessionOpen 2 New s2Session = some s2Result := by
  refine ⟨?_, by decide!⟩
  obtain ⟨hfresh, hkeys⟩ := buildAttrs_fresh ssn ssn.Jobs [] opts hb (by simp) (by simp)
  have hids : (opts.map fun kv => kv.2.queueID).Nodup := by
    rw [buildAttrs_queueIDs ssn opts hb hUID]; exact hkeys
  have hids' : (([(k1, a1), (k2, a2)] : List (QueueID × queueAttr)).map
      fun kv => kv.2.queueID).Nodup := (hopts.map fun kv => kv.2.queueID).nodup_iff.1 hids
  have hkeys' : (([(k1, a1), (k2, a2)] : List (QueueID × queueAttr)).map Prod.fst).Nodup :=
    (hopts.map Prod.fst).nodup_iff.1 hkeys
  have hid : a1.queueID ≠ a2.queueID := by
    intro e; simp [e] at hids'
  have hk : k1 ≠ k2 := by
    intro e; simp [e] at hkeys'
  have hd1 : a1.deserved = EmptyResource :=
    hfresh (k1, a1) (hopts.mem_iff.2 (by simp))
  have hd2 : a2.deserved = EmptyResource :=
    hfresh (k2, a2) (hopts.mem_iff.2 (by simp))
  obtain ⟨t, b1, b2, hfill, hto, hb1, hb2⟩ := two_queues_fill fuel ssn.TotalResource
    (EmptyResource.Add ssn.TotalResource) k1 k2 a1 a2 (Get_total ssn) hd1 hd2 hid hc1 hc2
    hw1 hw2 hsum hT hTcpu hr1 hr1nn hr2
  rcases waterFillVisit_perm (fun _ l => l) (fun _ l => List.Perm.refl l) (fuel + 2)
      { opts := [(k1, a1), (k2, a2)], meet := [],
        remaining := EmptyResource.Add ssn.TotalResource }
      { opts := opts, meet := [], remaining := EmptyResource.Add ssn.TotalResource }
      hids' hopts (fun _ => Iff.rfl) rfl with ⟨hn, _⟩ | ⟨t0, t', ht0, ht', hp, _⟩
  · rw [hn] at hfill; cases hfill
  · rw [hfill] at ht0; cases ht0
    rw [waterFillVisit_id] at ht'
    have htk : (t.opts.map Prod.fst).Nodup := by
      rw [hto]; exact hkeys'
    refine ⟨_, b1, b2, (OnSessionOpen_New_iff (fuel + 2) ssn _).2 ⟨opts, t', hb, ht', rfl⟩,
      ?_, ?_, hb1, hb2⟩
    · simp only [Option.getD_some]
      rw [mapGet_perm t.opts t'.opts hp htk k1, hto]
      simp [mapGet]
    · simp only [Option.getD_some]
      rw [mapGet_perm t.opts t'.opts hp htk k2, hto]
      have : ¬ k2 = k1 := fun e => hk e.symm
      simp [mapGet, this]

/-- Witness of C5: scenario S2, total {4000m, 8Gi}, weights 1 and 3, request(Q1) =
{500m, 1Gi}. -/
theorem two_queues_small_request_witness :
    ∃ pp' b1 b2, OnSessionOpen (0 + 2) New s2Session = some pp' ∧
      mapGet (pp'.queueOpts.getD []) "q1" = some b1 ∧
      mapGet (pp'.queueOpts.getD []) "q2" = some b2 ∧
      (∀ rn, b1.deserved.Get rn = (exRes 500 1073741824).Get rn) ∧
      (∀ rn, b2.deserved.Get rn
        = s2Session.TotalResource.Get rn - (exRes 500 1073741824).Get rn) :=
  (two_queues_small_request 0 s2Session s2Attrs "q1" "q2"
    (exAttr "q1" 1 0 EmptyResource EmptyResource (exRes 500 1073741824) none)
    (exAttr "q2" 3 0 EmptyResource EmptyResource (exRes 5000 8589934592) none)
    (by decide!) (by decide!) (List.Perm.refl _) rfl rfl (by decide!) (by decide!) (by decide!)
    (fun rn => by
      have h := (LessEqualInAllDimension_iff EmptyResource s2Session.TotalResource
        DimensionDefaultValue.Zero).1 (by decide!) rn
      rwa [Get_EmptyResource] at h)
    (by decide!) (by decide!)
    (fun rn => by
      cases rn <;> simp [exAttr, exRes, s2Session, s1Session, Get, scalars, scalarGet] <;>
        norm_num)
    (fun rn => by
      have h := (LessEqualInAllDimension_iff EmptyResource (exRes 500 1073741824)
        DimensionDefaultValue.Zero).1 (by decide!) rn
      rwa [Get_EmptyResource] at h)
    (fun rn =>
      (LessEqualInAllDimension_iff s2Session.TotalResource (exRes 5000 8589934592)
        DimensionDefaultValue.Zero).1 (by decide!) rn)).1

end proportion
/-! ## Deletes of maps -/

theorem mapGet_mapErase {K V : Type} [DecidableEq K] (m : List (K × V)) (k k' : K) :
    mapGet (mapErase m k) k' = if k' = k then none else mapGet m k' := by
  induction m with
  | nil => simp [mapErase, mapGet]
  | cons e m ih =>
    obtain ⟨a, w⟩ := e
    unfold mapErase at ih ⊢
    by_cases h : a = k
    · subst h
      by_cases h' : k' = a
      · simp [List.filter, h'] at ih ⊢; simpa [h'] using ih
      · simp [List.filter, mapGet, h'] at ih ⊢; simpa [h'] using ih
    · by_cases h' : k' = a
      · subst h'
        simp [List.filter, mapGet, h]
      · simp [List.filter, mapGet, h, h'] at ih ⊢; exact ih

theorem mem_mapErase {K V : Type} [DecidableEq K] (m : List (K × V)) (k : K) (e : K × V) :
    e ∈ mapErase m k ↔ e ∈ m ∧ e.1 ≠ k := by
  simp [mapErase, List.mem_filter]

theorem keys_mapErase {K V : Type} [DecidableEq K] (m : List (K × V)) (k : K) :
    (mapErase m k).map Prod.fst = (m.map Prod.fst).filter fun a => decide (a ≠ k) := by
  induction m with
  | nil => simp [mapErase]
  | cons e m ih =>
    obtain ⟨a, w⟩ := e
    unfold mapErase at ih ⊢
    by_cases h : a = k
    · simp only [List.filter_cons, List.map_cons, h]
      simpa using ih
    · simp only [List.filter_cons, List.map_cons, h]
      simpa [h] using ih

theorem nodup_keys_mapErase {K V : Type} [DecidableEq K] (m : List (K × V)) (k : K)
    (h : (m.map Prod.fst).Nodup) : ((mapErase m k).map Prod.fst).Nodup := by
  rw [keys_mapErase]; exact h.filter _

theorem not_mem_keys_mapErase {K V : Type} [DecidableEq K] (m : List (K × V)) (k : K) :
    k ∉ (mapErase m k).map Prod.fst := by
  rw [keys_mapErase]; simp

theorem mapSet_of_not_mem {K V : Type} [DecidableEq K] (m : List (K × V)) (k : K) (v : V)
    (h : k ∉ m.map Prod.fst) : mapSet m k v = m ++ [(k, v)] := by
  induction m with
  | nil => simp [mapSet]
  | cons e m ih =>
    obtain ⟨a, w⟩ := e
    simp only [List.map_cons, List.mem_cons, not_or] at h
    simp [mapSet, h.1, ih h.2]

theorem mapErase_of_not_mem {K V : Type} [DecidableEq K] (m : List (K × V)) (k : K)
    (h : k ∉ m.map Prod.fst) : mapErase m k = m := by
  unfold mapErase
  rw [List.filter_eq_self]
  intro e he
  have : e.1 ≠ k := fun e' => h (e' ▸ List.mem_map.2 ⟨e, he, rfl⟩)
  simpa using this

theorem mapErase_mapSet_of_not_mem {K V : Type} [DecidableEq K] (m : List (K × V)) (k : K)
    (v : V) (h : k ∉ m.map Prod.fst) : mapErase (mapSet m k v) k = m := by
  rw [mapSet_of_not_mem m k v h]
  unfold mapErase
  rw [List.filter_append]
  have := mapErase_of_not_mem m k h
  unfold mapErase at this
  rw [this]; simp

theorem mapSet_eq_self {K V : Type} [DecidableEq K] (m : List (K × V)) (k : K) (v : V)
    (h : mapGet m k = some v) : mapSet m k v = m := by
  induction m with
  | nil => simp [mapGet] at h
  | cons e m ih =>
    obtain ⟨a, w⟩ := e
    by_cases hk : k = a
    · subst hk
      simp only [mapGet, if_true, Option.some.injEq] at h
      simp [mapSet, h]
    · simp only [mapGet, hk, if_false] at h
      simp [mapSet, hk, ih h]

theorem mem_mapSet_ne {K V : Type} [DecidableEq K] (m : List (K × V)) (k : K) (v : V)
    (hn : (m.map Prod.fst).Nodup) (e : K × V) (h : e ∈ mapSet m k v) :
    (e ∈ m ∧ e.1 ≠ k) ∨ e = (k, v) := by
  induction m with
  | nil => simp [mapSet] at h; exact Or.inr h
  | cons x m ih =>
    obtain ⟨a, w⟩ := x
    simp only [List.map_cons, List.nodup_cons] at hn
    by_cases hk : k = a
    · subst hk
      simp only [mapSet, if_true, List.mem_cons] at h
      rcases h with h | h
      · exact Or.inr h
      · refine Or.inl ⟨List.mem_cons_of_mem _ h, ?_⟩
        intro e'
        exact hn.1 (e' ▸ List.mem_map.2 ⟨e, h, rfl⟩)
    · simp only [mapSet, hk, if_false, List.mem_cons] at h
      rcases h with h | h
      · refine Or.inl ⟨by rw [h]; exact List.mem_cons_self _ _, ?_⟩
        rw [h]; exact fun e' => hk e'.symm
      · rcases ih hn.2 h with h | h
        · exact Or.inl ⟨List.mem_cons_of_mem _ h.1, h.2⟩
        · exact Or.inr h

theorem mapGet_some_mem_keys {K V : Type} [DecidableEq K] (m : List (K × V)) (k : K) (v : V)
    (h : mapGet m k = some v) : k ∈ m.map Prod.fst := by
  by_contra hc
  rw [(mapGet_eq_none_iff m k).2 hc] at h
  cases h

namespace api

open api.Resource

/-! ## The fields of a job after AddTaskInfo and DeleteTaskInfo -/

theorem AddTaskInfo_Tasks (ji : JobInfo) (ti : TaskInfo) :
    (ji.AddTaskInfo ti).Tasks = mapSet ji.Tasks ti.UID ti := by
  unfold JobInfo.AddTaskInfo JobInfo.addTaskIndex
  split <;> rfl

theorem AddTaskInfo_Index (ji : JobInfo) (ti : TaskInfo) :
    (ji.AddTaskInfo ti).TaskStatusIndex = mapSet ji.TaskStatusIndex ti.Status
      (mapSet ((mapGet ji.TaskStatusIndex ti.Status).getD []) ti.UID ti) := by
  unfold JobInfo.AddTaskInfo JobInfo.addTaskIndex
  split <;> rfl

theorem AddTaskInfo_TotalRequest (ji : JobInfo) (ti : TaskInfo) :
    (ji.AddTaskInfo ti).TotalRequest = ji.TotalRequest.Add ti.Resreq := by
  unfold JobInfo.AddTaskInfo JobInfo.addTaskIndex
  split <;> rfl

theorem AddTaskInfo_Allocated (ji : JobInfo) (ti : TaskInfo) :
    (ji.AddTaskInfo ti).Allocated
      = if AllocatedStatus ti.Status = true then ji.Allocated.Add ti.Resreq else ji.Allocated := by
  unfold JobInfo.AddTaskInfo JobInfo.addTaskIndex
  split <;> rfl

theorem deleteTaskIndex_frame (ji : JobInfo) (ti : TaskInfo) :
    (ji.deleteTaskIndex ti).Tasks = ji.Tasks ∧
    (ji.deleteTaskIndex ti).TotalRequest = ji.TotalRequest ∧
    (ji.deleteTaskIndex ti).Allocated = ji.Allocated := by
  unfold JobInfo.deleteTaskIndex
  split
  · rename_i tasks _
    by_cases hl : (mapErase tasks ti.UID).length = 0
    · simp [hl]
    · simp [hl]
  · exact ⟨rfl, rfl, rfl⟩

theorem deleteTaskIndex_Index (ji : JobInfo) (ti : TaskInfo) :
    (ji.deleteTaskIndex ti).TaskStatusIndex
      = match mapGet ji.TaskStatusIndex ti.Status with
        | some tasks =>
          if (mapErase tasks ti.UID).length = 0 then mapErase ji.TaskStatusIndex ti.Status
          else mapSet ji.TaskStatusIndex ti.Status (mapErase tasks ti.UID)
        | none => ji.TaskStatusIndex := by
  unfold JobInfo.deleteTaskIndex
  cases hg : mapGet ji.TaskStatusIndex ti.Status with
  | none => rfl
  | some tasks =>
    by_cases hl : (mapErase tasks ti.UID).length = 0
    · simp [hl]
    · simp [hl]

theorem DeleteTaskInfo_missing (ji : JobInfo) (ti : TaskInfo) (h : mapGet ji.Tasks ti.UID = none) :
    (ji.DeleteTaskInfo ti).1 = ji ∧ (ji.DeleteTaskInfo ti).2 ≠ none := by
  unfold JobInfo.DeleteTaskInfo
  rw [h]; simp

theorem DeleteTaskInfo_found (ji : JobInfo) (ti task : TaskInfo)
    (h : mapGet ji.Tasks ti.UID = some task) :
    (ji.DeleteTaskInfo ti).2 = none ∧
    (ji.DeleteTaskInfo ti).1.Tasks = mapErase ji.Tasks task.UID ∧
    (ji.DeleteTaskInfo ti).1.TotalRequest = ji.TotalRequest.Sub task.Resreq ∧
    (ji.DeleteTaskInfo ti).1.Allocated
      = (if AllocatedStatus task.Status = true then ji.Allocated.Sub task.Resreq
         else ji.Allocated) ∧
    (ji.DeleteTaskInfo ti).1.TaskStatusIndex
      = (JobInfo.deleteTaskIndex ji task).TaskStatusIndex := by
  unfold JobInfo.DeleteTaskInfo
  rw [h]
  refine ⟨rfl, ?_, ?_, ?_, ?_⟩
  · show (JobInfo.deleteTaskIndex _ task).Tasks = _
    rw [(deleteTaskIndex_frame _ _).1]
    by_cases ha : AllocatedStatus task.Status = true <;> simp [ha]
  · show (JobInfo.deleteTaskIndex _ task).TotalRequest = _
    rw [(deleteTaskIndex_frame _ _).2.1]
    by_cases ha : AllocatedStatus task.Status = true <;> simp [ha]
  · show (JobInfo.deleteTaskIndex _ task).Allocated = _
    rw [(deleteTaskIndex_frame _ _).2.2]
    by_cases ha : AllocatedStatus task.Status = true <;> simp [ha]
  · show (JobInfo.deleteTaskIndex _ task).TaskStatusIndex = _
    rw [deleteTaskIndex_Index, deleteTaskIndex_Index]
    by_cases ha : AllocatedStatus task.Status = true <;> simp [ha]

/-! ## Sums over the tasks of a job -/

theorem taskSum_append (p : TaskStatus → Bool) (rn : ResourceName) (l₁ l₂ : tasksMap) :
    taskSum p rn (l₁ ++ l₂) = taskSum p rn l₁ + taskSum p rn l₂ := by
  simp [taskSum]

theorem taskSum_mapErase (p : TaskStatus → Bool) (rn : ResourceName) (m : tasksMap) (k : TaskID)
    (t : TaskInfo) (hn : (m.map Prod.fst).Nodup) (h : mapGet m k = some t) :
    taskSum p rn (mapErase m k)
      = taskSum p rn m - (if p t.Status = true then t.Resreq.Get rn else 0) := by
  induction m with
  | nil => simp [mapGet] at h
  | cons e m ih =>
    obtain ⟨a, w⟩ := e
    simp only [List.map_cons, List.nodup_cons] at hn
    by_cases hk : k = a
    · subst hk
      simp only [mapGet, if_true, Option.some.injEq] at h
      subst h
      have hm : mapErase ((k, w) :: m) k = m := by
        have := mapErase_of_not_mem m k hn.1
        unfold mapErase at this ⊢
        rw [List.filter_cons]
        simpa using this
      rw [hm]
      simp [taskSum]
    · simp only [mapGet, hk, if_false] at h
      have hk' : ¬ a = k := fun e => hk e.symm
      have hm : mapErase ((a, w) :: m) k = (a, w) :: mapErase m k := by
        unfold mapErase
        simp [List.filter, hk']
      rw [hm]
      have := ih hn.2 h
      simp only [taskSum, List.map_cons, List.sum_cons] at this ⊢
      rw [this]; ring

end api

namespace proportion

open api api.Resource framework util

/-! ## The share of a queue -/

theorem foldl_max_spec (f : ResourceName → ℚ) (l : List ResourceName) (init : ℚ) :
    init ≤ l.foldl (fun res rn => if f rn > res then f rn else res) init ∧
    (∀ rn ∈ l, f rn ≤ l.foldl (fun res rn => if f rn > res then f rn else res) init) ∧
    (l.foldl (fun res rn => if f rn > res then f rn else res) init = init ∨
      ∃ rn ∈ l, l.foldl (fun res rn => if f rn > res then f rn else res) init = f rn) := by
  induction l generalizing init with
  | nil => simp
  | cons a l ih =>
    simp only [List.foldl_cons, List.mem_cons, forall_eq_or_imp, exists_eq_or_imp]
    obtain ⟨h1, h2, h3⟩ := ih (if f a > init then f a else init)
    have hle : init ≤ (if f a > init then f a else init) := by
      split
      · rename_i h; exact le_of_lt h
      · exact le_refl _
    have hle' : f a ≤ (if f a > init then f a else init) := by
      split
      · exact le_refl _
      · rename_i h; exact not_lt.1 h
    refine ⟨le_trans hle h1, ⟨le_trans hle' h1, h2⟩, ?_⟩
    rcases h3 with h3 | ⟨rn, hrn, h3⟩
    · by_cases h : f a > init
      · rw [if_pos h] at h3
        exact Or.inr (Or.inl (by rw [if_pos h]; exact h3))
      · rw [if_neg h] at h3
        exact Or.inl (by rw [if_neg h]; exact h3)
    · exact Or.inr (Or.inr ⟨rn, hrn, h3⟩)

/-- C11: helpers.Share(l, r) is l / r when r is not 0, 0 when l = r = 0 and 1 when r = 0
and l > 0; updateShare leaves everything but the share as it is, and the share it sets
is at least 0 and at least Share(allocated_d, deserved_d) for every dimension d of
deserved, is one of these values when one of them is positive, and is 0 when none is. -/
theorem share_is_max_ratio (l r : ℚ) (attr : queueAttr) :
    (r ≠ 0 → helpers.Share l r = l / r) ∧ helpers.Share 0 0 = 0 ∧
    (0 < l → helpers.Share l 0 = 1) ∧
    sameFrame attr (updateShare attr) ∧ (updateShare attr).deserved = attr.deserved ∧
    0 ≤ (updateShare attr).share ∧
    (∀ rn ∈ attr.deserved.ResourceNames,
      helpers.Share (attr.allocated.Get rn) (attr.deserved.Get rn) ≤ (updateShare attr).share) ∧
    ((∃ rn ∈ attr.deserved.ResourceNames,
        0 < helpers.Share (attr.allocated.Get rn) (attr.deserved.Get rn)) →
      ∃ rn ∈ attr.deserved.ResourceNames,
        (updateShare attr).share = helpers.Share (attr.allocated.Get rn) (attr.deserved.Get rn)) ∧
    ((∀ rn ∈ attr.deserved.ResourceNames,
        helpers.Share (attr.allocated.Get rn) (attr.deserved.Get rn) ≤ 0) →
      (updateShare attr).share = 0) := by
  obtain ⟨h1, h2, h3⟩ := foldl_max_spec
    (fun rn => helpers.Share (attr.allocated.Get rn) (attr.deserved.Get rn))
    attr.deserved.ResourceNames 0
  have hs : (updateShare attr).share = attr.deserved.ResourceNames.foldl
      (fun res rn => if (fun rn => helpers.Share (attr.allocated.Get rn) (attr.deserved.Get rn)) rn
        > res then (fun rn => helpers.Share (attr.allocated.Get rn) (attr.deserved.Get rn)) rn
        else res) 0 := rfl
  refine ⟨fun hr => by simp [helpers.Share, hr], by simp [helpers.Share],
    fun hl => by simp [helpers.Share, ne_of_gt hl], updateShare_frame attr, rfl, ?_, ?_, ?_, ?_⟩
  · rw [hs]; exact h1
  · rw [hs]; exact h2
  · rintro ⟨rn, hrn, hpos⟩
    rw [hs]
    rcases h3 with h3 | h3
    · exfalso
      have := h2 rn hrn
      rw [h3] at this
      exact absurd hpos (not_lt.2 this)
    · exact h3
  · intro hall
    rw [hs]
    rcases h3 with h3 | ⟨rn, hrn, h3⟩
    · exact h3
    · exact le_antisymm (by rw [h3]; exact hall rn hrn) h1

/-! ## The event handlers -/

theorem updateShare_share_congr (a b : queueAttr) (hd : a.deserved = b.deserved)
    (h : ∀ rn, a.allocated.Get rn = b.allocated.Get rn) :
    (updateShare a).share = (updateShare b).share := by
  simp only [updateShare, hd]
  congr 1
  funext res rn
  rw [h rn]

/-- C12, as the code has it: for a task whose job is in the session and whose queue has
attributes, AllocateFunc adds the task's request to the allocated of the job's queue and
DeallocateFunc subtracts it, both recompute the share, and AllocateFunc followed by
DeallocateFunc leaves the queue's allocated as it was in every dimension, its share as
it was when that share was up to date (what updateShare computes from allocated and
deserved), and every other queue untouched. -/
theorem allocate_then_deallocate_restores (pp : proportionPlugin) (ssn : Session)
    (task : TaskInfo) (job : JobInfo) (opts : List (QueueID × queueAttr)) (attr : queueAttr)
    (hj : mapGet ssn.Jobs task.Job = some job) (ho : pp.queueOpts = some opts)
    (ha : mapGet opts job.Queue = some attr) (hs : attr.share = (updateShare attr).share) :
    ∃ pp1 pp2 pp3 opts1 opts2 opts3 attr1 attr2 attr3,
      AllocateFunc pp ssn task = some pp1 ∧ DeallocateFunc pp1 ssn task = some pp2 ∧
      DeallocateFunc pp ssn task = some pp3 ∧
      pp1.queueOpts = some opts1 ∧ pp2.queueOpts = some opts2 ∧ pp3.queueOpts = some opts3 ∧
      mapGet opts1 job.Queue = some attr1 ∧ mapGet opts2 job.Queue = some attr2 ∧
      mapGet opts3 job.Queue = some attr3 ∧
      (∀ rn, attr1.allocated.Get rn = attr.allocated.Get rn + task.Resreq.Get rn) ∧
      (∀ rn, attr3.allocated.Get rn = attr.allocated.Get rn - task.Resreq.Get rn) ∧
      attr1.share = (updateShare attr1).share ∧ attr3.share = (updateShare attr3).share ∧
      (∀ rn, attr2.allocated.Get rn = attr.allocated.Get rn) ∧ attr2.share = attr.share ∧
      sameFrame { attr with allocated := attr2.allocated } attr2 ∧
      attr2.deserved = attr.deserved ∧
      (∀ q, q ≠ job.Queue → mapGet opts1 q = mapGet opts q ∧ mapGet opts2 q = mapGet opts q ∧
        mapGet opts3 q = mapGet opts q) ∧
      pp2.totalResource = pp.totalResource := by
  have e1 : AllocateFunc pp ssn task = some
      { pp with queueOpts := some (mapSet opts job.Queue
          (updateShare { attr with allocated := attr.allocated.Add task.Resreq })) } := by
    simp [AllocateFunc, hj, ho, ha]
  have g1 : mapGet (mapSet opts job.Queue
      (updateShare { attr with allocated := attr.allocated.Add task.Resreq })) job.Queue
      = some (updateShare { attr with allocated := attr.allocated.Add task.Resreq }) := by
    rw [mapGet_mapSet]; simp
  have e2 : DeallocateFunc { pp with queueOpts := some (mapSet opts job.Queue
          (updateShare { attr with allocated := attr.allocated.Add task.Resreq })) } ssn task
      = some { pp with queueOpts := some (mapSet opts job.Queue
          (updateShare { attr with
            allocated := (attr.allocated.Add task.Resreq).Sub task.Resreq })) } := by
    simp only [DeallocateFunc, hj, Option.some_bind, Option.getD_some, g1, Option.map_some',
      mapSet_mapSet]
    rfl
  have e3 : DeallocateFunc pp ssn task = some
      { pp with queueOpts := some (mapSet opts job.Queue
          (updateShare { attr with allocated := attr.allocated.Sub task.Resreq })) } := by
    simp [DeallocateFunc, hj, ho, ha]
  have hback : ∀ rn, ((attr.allocated.Add task.Resreq).Sub task.Resreq).Get rn
      = attr.allocated.Get rn := by
    intro rn; rw [Get_Sub, Get_Add]; ring
  refine ⟨_, _, _, _, _, _,
    updateShare { attr with allocated := attr.allocated.Add task.Resreq },
    updateShare { attr with allocated := (attr.allocated.Add task.Resreq).Sub task.Resreq },
    updateShare { attr with allocated := attr.allocated.Sub task.Resreq },
    e1, e2, e3, rfl, rfl, rfl, g1, ?_, ?_, ?_, ?_, rfl, rfl, ?_, ?_, ?_, rfl, ?_, rfl⟩
  · rw [mapGet_mapSet]; simp
  · rw [mapGet_mapSet]; simp
  · intro rn; exact Get_Add _ _ _
  · intro rn; exact Get_Sub _ _ _
  · exact hback
  · rw [hs]
    exact updateShare_share_congr _ _ rfl hback
  · exact updateShare_frame _
  · intro q hq
    refine ⟨?_, ?_, ?_⟩ <;> rw [mapGet_mapSet] <;> simp [hq]

/-- Witness of C12: the task of 500m/500 of the queue that holds 1000m/1000 and
deserves 900m/900, whose share 10/9 is up to date. -/
theorem allocate_then_deallocate_restores_witness :
    ∃ pp1 pp2 pp3 opts1 opts2 opts3 attr1 attr2 attr3,
      AllocateFunc reclaimPlugin reclaimSession reclaimTask = some pp1 ∧
      DeallocateFunc pp1 reclaimSession reclaimTask = some pp2 ∧
      DeallocateFunc reclaimPlugin reclaimSession reclaimTask = some pp3 ∧
      pp1.queueOpts = some opts1 ∧ pp2.queueOpts = some opts2 ∧ pp3.queueOpts = some opts3 ∧
      mapGet opts1 "q" = some attr1 ∧ mapGet opts2 "q" = some attr2 ∧
      mapGet opts3 "q" = some attr3 ∧
      (∀ rn, attr1.allocated.Get rn = reclaimAttr.allocated.Get rn + reclaimTask.Resreq.Get rn) ∧
      (∀ rn, attr3.allocated.Get rn = reclaimAttr.allocated.Get rn - reclaimTask.Resreq.Get rn) ∧
      attr1.share = (updateShare attr1).share ∧ attr3.share = (updateShare attr3).share ∧
      (∀ rn, attr2.allocated.Get rn = reclaimAttr.allocated.Get rn) ∧
      attr2.share = reclaimAttr.share ∧
      sameFrame { reclaimAttr with allocated := attr2.allocated } attr2 ∧
      attr2.deserved = reclaimAttr.deserved ∧
      (∀ q, q ≠ "q" → mapGet opts1 q = mapGet [("q", reclaimAttr)] q ∧
        mapGet opts2 q = mapGet [("q", reclaimAttr)] q ∧
        mapGet opts3 q = mapGet [("q", reclaimAttr)] q) ∧
      pp2.totalResource = reclaimPlugin.totalResource :=
  allocate_then_deallocate_restores reclaimPlugin reclaimSession reclaimTask
    (exJob "j" "q" TaskStatus.Running [reclaimTask] none) [("q", reclaimAttr)] reclaimAttr
    (by decide!) rfl (by decide!) (by decide!)

/-- Counterexample to C12 as stated: the only queue of the session has weight 0, so the
water-filling loop of OnSessionOpen breaks before updateShare runs and leaves the share
at 0 with allocated {500m, 500} and deserved zero; AllocateFunc followed by
DeallocateFunc of the queue's task restores allocated and leaves the share at 1. -/
theorem stale_share_not_restored :
    OnSessionOpen 1 New idleSession = some (idlePlugin 0) ∧
    AllocateFunc (idlePlugin 0) idleSession reclaimTask
      = some { totalResource := some idleSession.TotalResource,
               queueOpts := some [("q", { idleAttr 1 with
                 allocated := { MilliCPU := 1000, Memory := 1000, ScalarResources := none } })] } ∧
    ((AllocateFunc (idlePlugin 0) idleSession reclaimTask).bind fun pp1 =>
      DeallocateFunc pp1 idleSession reclaimTask) = some (idlePlugin 1) ∧
    (idleAttr 0).allocated = (idleAttr 1).allocated ∧ (idleAttr 0).share ≠ (idleAttr 1).share := by
  decide!

end proportion

namespace proportion

open api api.Resource framework util

/-! ## The aggregation of OnSessionOpen -/

/-- C13, as the code has it: after the aggregation step of OnSessionOpen on a fresh
plugin the request of every queue is, in every dimension, the sum of the requests of the
tasks in allocated-class or Pending buckets of the jobs of the queue, and its allocated
the sum over the tasks in allocated-class buckets. -/
theorem aggregation_counts_allocated_and_pending (ssn : Session)
    (opts : List (QueueID × queueAttr)) (q : QueueID) (attr : queueAttr) (rn : ResourceName)
    (h : buildAttrs ssn ssn.Jobs [] = some opts) (hq : mapGet opts q = some attr) :
    attr.request.Get rn
      = queueSum (fun s => AllocatedStatus s || decide (s = TaskStatus.Pending)) rn ssn.Jobs q ∧
    attr.allocated.Get rn = queueSum AllocatedStatus rn ssn.Jobs q := by
  obtain ⟨hA, hR⟩ := buildAttrs_sums ssn ssn.Jobs [] opts h q rn
  simp only [hq, Option.map_some', Option.getD_some, mapGet, Option.map_none', Option.getD_none,
    zero_add] at hA hR
  exact ⟨hR, hA⟩

/-- Witness of C13: scenario S1, queue q2, cpu. -/
theorem aggregation_counts_allocated_and_pending_witness :
    (exAttr "q2" 3 0 EmptyResource EmptyResource (exRes 5000 8589934592) none).request.Get
        ResourceName.cpu
      = queueSum (fun s => AllocatedStatus s || decide (s = TaskStatus.Pending))
          ResourceName.cpu s1Session.Jobs "q2" ∧
    (exAttr "q2" 3 0 EmptyResource EmptyResource (exRes 5000 8589934592) none).allocated.Get
        ResourceName.cpu
      = queueSum AllocatedStatus ResourceName.cpu s1Session.Jobs "q2" :=
  aggregation_counts_allocated_and_pending s1Session s1Attrs "q2"
    (exAttr "q2" 3 0 EmptyResource EmptyResource (exRes 5000 8589934592) none) ResourceName.cpu
    (by decide!) (by decide!)

/-- Counterexample to C13 as stated: the only task of the queue has status Succeeded and
asks for 1000m; the aggregation leaves the request of the queue at 0, not at the sum of
the requests of all its tasks. -/
theorem aggregation_skips_finished_tasks :
    ((buildAttrs doneSession doneSession.Jobs []).bind fun opts =>
      (mapGet opts "q").map fun attr => attr.request.Get ResourceName.cpu) = some 0 ∧
    queueSum (fun _ => true) ResourceName.cpu doneSession.Jobs "q" = 1000 := by
  decide!

/-! ## OnSessionClose -/

/-- C14, as the code has it: OnSessionClose leaves the same state whatever the plugin
held, with totalResource and queueOpts both nil, and OnSessionOpen on that state does
not complete for any session (it dereferences the nil totalResource). -/
theorem close_drops_state (pp : proportionPlugin) (fuel : Nat) (ssn : Session) :
    OnSessionClose pp = OnSessionClose New ∧
    (OnSessionClose pp).totalResource = none ∧ (OnSessionClose pp).queueOpts = none ∧
    OnSessionOpen fuel (OnSessionClose pp) ssn = none := by
  refine ⟨rfl, rfl, rfl, ?_⟩
  simp [OnSessionOpen, OnSessionClose]

/-- Counterexample to C14 as stated: scenario S1; OnSessionOpen on a fresh plugin gives
the attributes of S1, OnSessionOpen on the plugin that was opened and closed gives
nothing. -/
theorem reopen_after_close_fails :
    OnSessionOpen 1 New s1Session = some s1Result ∧
    OnSessionOpen 1 (OnSessionClose s1Result) s1Session = none := by
  decide!

end proportion

namespace api

open api.Resource

/-! ## The totals of a job -/

theorem inv_NewJobInfo (uid : JobID) :
    tasksKeyed (NewJobInfo uid) ∧ totalsInv (NewJobInfo uid) := by
  refine ⟨⟨by simp [NewJobInfo], by simp [NewJobInfo]⟩, ?_⟩
  intro rn
  simp [NewJobInfo, taskSum, Get_EmptyResource]

theorem inv_AddTaskInfo (ji : JobInfo) (ti : TaskInfo) (hk : tasksKeyed ji) (hi : totalsInv ji)
    (hu : ti.UID ∉ ji.Tasks.map Prod.fst) :
    tasksKeyed (ji.AddTaskInfo ti) ∧ totalsInv (ji.AddTaskInfo ti) := by
  refine ⟨⟨?_, ?_⟩, ?_⟩
  · rw [AddTaskInfo_Tasks]; exact nodup_keys_mapSet _ _ _ hk.1
  · rw [AddTaskInfo_Tasks]
    intro kv hkv
    rcases mem_mapSet _ _ _ _ hkv with h | h
    · exact hk.2 kv h
    · rw [h]
  · intro rn
    obtain ⟨h1, h2⟩ := hi rn
    rw [AddTaskInfo_Tasks, AddTaskInfo_TotalRequest, AddTaskInfo_Allocated,
      mapSet_of_not_mem _ _ _ hu, taskSum_append, taskSum_append, Get_Add, h1]
    refine ⟨by simp [taskSum], ?_⟩
    by_cases ha : AllocatedStatus ti.Status = true
    · simp [ha, taskSum, Get_Add, h2]
    · simp [ha, taskSum, h2]

theorem inv_DeleteTaskInfo (ji : JobInfo) (ti : TaskInfo) (hk : tasksKeyed ji)
    (hi : totalsInv ji) :
    tasksKeyed (ji.DeleteTaskInfo ti).1 ∧ totalsInv (ji.DeleteTaskInfo ti).1 ∧
    ti.UID ∉ (ji.DeleteTaskInfo ti).1.Tasks.map Prod.fst := by
  cases hg : mapGet ji.Tasks ti.UID with
  | none =>
    rw [(DeleteTaskInfo_missing ji ti hg).1]
    exact ⟨hk, hi, (mapGet_eq_none_iff _ _).1 hg⟩
  | some task =>
    obtain ⟨_, hT, hR, hA, _⟩ := DeleteTaskInfo_found ji ti task hg
    have hu : task.UID = ti.UID := hk.2 _ (mapGet_mem _ _ _ hg)
    refine ⟨⟨?_, ?_⟩, ?_, ?_⟩
    · rw [hT]; exact nodup_keys_mapErase _ _ hk.1
    · rw [hT]
      intro kv hkv
      exact hk.2 kv ((mem_mapErase _ _ _).1 hkv).1
    · intro rn
      obtain ⟨h1, h2⟩ := hi rn
      rw [hT, hR, hA, hu, taskSum_mapErase _ rn _ _ task hk.1 hg,
        taskSum_mapErase _ rn _ _ task hk.1 hg, Get_Sub, h1]
      refine ⟨by simp, ?_⟩
      by_cases ha : AllocatedStatus task.Status = true
      · simp [ha, Get_Sub, h2]
      · simp [ha, h2]
    · rw [hT, hu]; exact not_mem_keys_mapErase _ _

theorem inv_UpdateTaskStatus (ji : JobInfo) (ti : TaskInfo) (status : TaskStatus)
    (hk : tasksKeyed ji) (hi : totalsInv ji) :
    tasksKeyed (ji.UpdateTaskStatus ti status).1 ∧ totalsInv (ji.UpdateTaskStatus ti status).1 := by
  unfold JobInfo.UpdateTaskStatus
  cases hv : validateStatusUpdate ti.Status status with
  | some err => exact ⟨hk, hi⟩
  | none =>
    obtain ⟨h1, h2, h3⟩ := inv_DeleteTaskInfo ji ti hk hi
    exact inv_AddTaskInfo _ { ti with Status := status } h1 h2 h3

/-- C15, as the code has it: the totals invariant (in every dimension TotalRequest is the
sum of Resreq over Tasks and Allocated the sum over the tasks of allocated-class status,
Tasks being keyed by UID) holds for NewJobInfo and is preserved by DeleteTaskInfo, by
UpdateTaskStatus, and by AddTaskInfo of a task whose UID is not yet in Tasks. -/
theorem totals_invariant_preserved (uid : JobID) (ji : JobInfo) (ti : TaskInfo)
    (status : TaskStatus) (hk : tasksKeyed ji) (hi : totalsInv ji) :
    (tasksKeyed (NewJobInfo uid) ∧ totalsInv (NewJobInfo uid)) ∧
    (ti.UID ∉ ji.Tasks.map Prod.fst →
      tasksKeyed (ji.AddTaskInfo ti) ∧ totalsInv (ji.AddTaskInfo ti)) ∧
    (tasksKeyed (ji.DeleteTaskInfo ti).1 ∧ totalsInv (ji.DeleteTaskInfo ti).1) ∧
    (tasksKeyed (ji.UpdateTaskStatus ti status).1 ∧
      totalsInv (ji.UpdateTaskStatus ti status).1) :=
  ⟨inv_NewJobInfo uid, inv_AddTaskInfo ji ti hk hi,
    ⟨(inv_DeleteTaskInfo ji ti hk hi).1, (inv_DeleteTaskInfo ji ti hk hi).2.1⟩,
    inv_UpdateTaskStatus ji ti status hk hi⟩

/-- Witness of C15: the job that holds the running task "t" of {1000m, 1000}.  The
task is found in it, so that DeleteTaskInfo removes it (TotalRequest and Allocated go to
0) and UpdateTaskStatus to Succeeded moves it (TotalRequest stays 1000m, Allocated goes
to 0); the running task "t2" of {500m, 500}, which the job does not hold, is added. -/
theorem totals_invariant_preserved_witness :
    (tasksKeyed exJobOne ∧ totalsInv exJobOne) ∧
    mapGet exJobOne.Tasks exRunning.UID = some exRunning ∧
    ((tasksKeyed (NewJobInfo "j") ∧ totalsInv (NewJobInfo "j")) ∧
      (exRunning.UID ∉ exJobOne.Tasks.map Prod.fst →
        tasksKeyed (exJobOne.AddTaskInfo exRunning) ∧
        totalsInv (exJobOne.AddTaskInfo exRunning)) ∧
      (tasksKeyed (exJobOne.DeleteTaskInfo exRunning).1 ∧
        totalsInv (exJobOne.DeleteTaskInfo exRunning).1) ∧
      (tasksKeyed (exJobOne.UpdateTaskStatus exRunning TaskStatus.Succeeded).1 ∧
        totalsInv (exJobOne.UpdateTaskStatus exRunning TaskStatus.Succeeded).1)) ∧
    (tasksKeyed (exJobOne.AddTaskInfo exRunningTwo) ∧
      totalsInv (exJobOne.AddTaskInfo exRunningTwo)) ∧
    (exJobOne.DeleteTaskInfo exRunning).2 = none ∧
    (exJobOne.DeleteTaskInfo exRunning).1.Tasks = [] ∧
    (exJobOne.DeleteTaskInfo exRunning).1.TotalRequest.Get ResourceName.cpu = 0 ∧
    (exJobOne.DeleteTaskInfo exRunning).1.Allocated.Get ResourceName.cpu = 0 ∧
    (exJobOne.UpdateTaskStatus exRunning TaskStatus.Succeeded).1.Tasks
      = [("t", { exRunning with Status := TaskStatus.Succeeded })] ∧
    (exJobOne.UpdateTaskStatus exRunning TaskStatus.Succeeded).1.TotalRequest.Get
      ResourceName.cpu = 1000 ∧
    (exJobOne.UpdateTaskStatus exRunning TaskStatus.Succeeded).1.Allocated.Get
      ResourceName.cpu = 0 ∧
    (exJobOne.AddTaskInfo exRunningTwo).TotalRequest.Get ResourceName.cpu = 1500 := by
  have h := inv_AddTaskInfo (NewJobInfo "j") exRunning (inv_NewJobInfo "j").1
    (inv_NewJobInfo "j").2 (by decide)
  exact ⟨h, by decide,
    totals_invariant_preserved "j" exJobOne exRunning TaskStatus.Succeeded h.1 h.2,
    (totals_invariant_preserved "j" exJobOne exRunningTwo TaskStatus.Succeeded h.1 h.2).2.1
      (by decide),
    by decide, by decide, by decide!, by decide!, by decide, by decide!, by decide!,
    by decide!⟩

/-- Counterexample to C15 as stated: the job that holds the running task of {1000m, 1000}
satisfies the invariant; AddTaskInfo of that same task leaves one task in Tasks and a
TotalRequest of 2000m. -/
theorem add_known_task_breaks_totals :
    tasksKeyed exJobOne ∧ totalsInv exJobOne ∧
    (exJobOne.AddTaskInfo exRunning).Tasks = exJobOne.Tasks ∧
    (exJobOne.AddTaskInfo exRunning).TotalRequest.Get ResourceName.cpu = 2000 ∧
    taskSum (fun _ => true) ResourceName.cpu (exJobOne.AddTaskInfo exRunning).Tasks = 1000 ∧
    ¬ totalsInv (exJobOne.AddTaskInfo exRunning) := by
  have h := inv_AddTaskInfo (NewJobInfo "j") exRunning (inv_NewJobInfo "j").1
    (inv_NewJobInfo "j").2 (by decide)
  refine ⟨h.1, h.2, by decide!, by decide!, by decide!, ?_⟩
  intro hc
  have h1 := (hc ResourceName.cpu).1
  revert h1
  decide!

end api

namespace api

open api.Resource

/-! ## The status index of a job -/

theorem idx_NewJobInfo (uid : JobID) :
    tasksKeyed (NewJobInfo uid) ∧ indexKeyed (NewJobInfo uid) ∧
    bucketsPartition (NewJobInfo uid) := by
  refine ⟨⟨by simp [NewJobInfo], by simp [NewJobInfo]⟩,
    ⟨by simp [NewJobInfo], by simp [NewJobInfo]⟩, ?_, by simp [NewJobInfo]⟩
  intro uid' t h
  simp [NewJobInfo, mapGet] at h

theorem bucket_getD_mem (ji : JobInfo) (st : TaskStatus) (kv : TaskID × TaskInfo)
    (h : kv ∈ (mapGet ji.TaskStatusIndex st).getD []) :
    (st, (mapGet ji.TaskStatusIndex st).getD []) ∈ ji.TaskStatusIndex := by
  cases hg : mapGet ji.TaskStatusIndex st with
  | none => rw [hg] at h; simp at h
  | some b => simpa using mapGet_mem _ _ _ hg

theorem idx_AddTaskInfo (ji : JobInfo) (ti : TaskInfo) (hk : tasksKeyed ji)
    (hx : indexKeyed ji) (hp : bucketsPartition ji) (hu : ti.UID ∉ ji.Tasks.map Prod.fst) :
    tasksKeyed (ji.AddTaskInfo ti) ∧ indexKeyed (ji.AddTaskInfo ti) ∧
    bucketsPartition (ji.AddTaskInfo ti) := by
  have hb0 : (((mapGet ji.TaskStatusIndex ti.Status).getD []).map Prod.fst).Nodup := by
    cases hg : mapGet ji.TaskStatusIndex ti.Status with
    | none => simp
    | some b => simpa using hx.2 _ (mapGet_mem _ _ _ hg)
  refine ⟨⟨?_, ?_⟩, ⟨?_, ?_⟩, ?_, ?_⟩
  · rw [AddTaskInfo_Tasks]; exact nodup_keys_mapSet _ _ _ hk.1
  · rw [AddTaskInfo_Tasks]
    intro kv hkv
    rcases mem_mapSet _ _ _ _ hkv with h | h
    · exact hk.2 kv h
    · rw [h]
  · rw [AddTaskInfo_Index]; exact nodup_keys_mapSet _ _ _ hx.1
  · rw [AddTaskInfo_Index]
    intro b hb
    rcases mem_mapSet _ _ _ _ hb with h | h
    · exact hx.2 b h
    · rw [h]; exact nodup_keys_mapSet _ _ _ hb0
  · intro uid t hg
    rw [AddTaskInfo_Tasks, mapGet_mapSet] at hg
    rw [AddTaskInfo_Index]
    by_cases hu' : uid = ti.UID
    · rw [if_pos hu'] at hg
      cases hg
      exact ⟨_, by rw [mapGet_mapSet, if_pos rfl], by rw [mapGet_mapSet, if_pos hu']⟩
    · rw [if_neg hu'] at hg
      obtain ⟨b, hb1, hb2⟩ := hp.1 uid t hg
      by_cases hs : t.Status = ti.Status
      · refine ⟨_, by rw [mapGet_mapSet, if_pos hs], ?_⟩
        rw [← hs, hb1, mapGet_mapSet, if_neg hu']
        exact hb2
      · exact ⟨b, by rw [mapGet_mapSet, if_neg hs]; exact hb1, hb2⟩
  · intro b hb kv hkv
    rw [AddTaskInfo_Index] at hb
    rw [AddTaskInfo_Tasks, mapGet_mapSet]
    have old : ∀ b' ∈ ji.TaskStatusIndex, kv ∈ b'.2 →
        (if kv.1 = ti.UID then some ti else mapGet ji.Tasks kv.1) = some kv.2 ∧
        kv.2.Status = b'.1 := by
      intro b' hb' hkv'
      obtain ⟨h1, h2⟩ := hp.2 b' hb' kv hkv'
      have hne : kv.1 ≠ ti.UID := fun e => hu (e ▸ mapGet_some_mem_keys _ _ _ h1)
      rw [if_neg hne]
      exact ⟨h1, h2⟩
    rcases mem_mapSet _ _ _ _ hb with h | h
    · exact old b h hkv
    · rw [h] at hkv ⊢
      rcases mem_mapSet _ _ _ _ hkv with h' | h'
      · exact old (ti.Status, (mapGet ji.TaskStatusIndex ti.Status).getD [])
          (bucket_getD_mem ji ti.Status kv h') h'
      · rw [h']; simp

theorem deleteIndex_of_bucket (ji : JobInfo) (task : TaskInfo) (b : tasksMap)
    (hb : mapGet ji.TaskStatusIndex task.Status = some b) :
    (ji.deleteTaskIndex task).TaskStatusIndex
      = if (mapErase b task.UID).length = 0 then mapErase ji.TaskStatusIndex task.Status
        else mapSet ji.TaskStatusIndex task.Status (mapErase b task.UID) := by
  rw [deleteTaskIndex_Index, hb]

theorem idx_DeleteTaskInfo (ji : JobInfo) (ti : TaskInfo) (hk : tasksKeyed ji)
    (hx : indexKeyed ji) (hp : bucketsPartition ji) :
    tasksKeyed (ji.DeleteTaskInfo ti).1 ∧ indexKeyed (ji.DeleteTaskInfo ti).1 ∧
    bucketsPartition (ji.DeleteTaskInfo ti).1 ∧
    ti.UID ∉ (ji.DeleteTaskInfo ti).1.Tasks.map Prod.fst := by
  cases hg : mapGet ji.Tasks ti.UID with
  | none =>
    rw [(DeleteTaskInfo_missing ji ti hg).1]
    exact ⟨hk, hx, hp, (mapGet_eq_none_iff _ _).1 hg⟩
  | some task =>
    obtain ⟨_, hT, _, _, hI⟩ := DeleteTaskInfo_found ji ti task hg
    have hu : task.UID = ti.UID := hk.2 _ (mapGet_mem _ _ _ hg)
    rw [← hu] at hg
    obtain ⟨b, hb1, hb2⟩ := hp.1 _ _ hg
    have hbm : (task.Status, b) ∈ ji.TaskStatusIndex := mapGet_mem _ _ _ hb1
    rw [deleteIndex_of_bucket ji task b hb1] at hI
    have keep : ∀ b' ∈ ji.TaskStatusIndex, b'.1 ≠ task.Status → ∀ kv ∈ b'.2,
        mapGet (mapErase ji.Tasks task.UID) kv.1 = some kv.2 ∧ kv.2.Status = b'.1 := by
      intro b' hb' hne kv hkv
      obtain ⟨h1, h2⟩ := hp.2 b' hb' kv hkv
      have hne' : kv.1 ≠ task.UID := by
        intro e
        rw [e, hg] at h1
        cases h1
        exact hne h2.symm
      rw [mapGet_mapErase, if_neg hne']
      exact ⟨h1, h2⟩
    have keepb : ∀ kv ∈ mapErase b task.UID,
        mapGet (mapErase ji.Tasks task.UID) kv.1 = some kv.2 ∧ kv.2.Status = task.Status := by
      intro kv hkv
      obtain ⟨hm, hne⟩ := (mem_mapErase _ _ _).1 hkv
      obtain ⟨h1, h2⟩ := hp.2 _ hbm kv hm
      rw [mapGet_mapErase, if_neg hne]
      exact ⟨h1, h2⟩
    refine ⟨⟨?_, ?_⟩, ⟨?_, ?_⟩, ⟨?_, ?_⟩, ?_⟩
    · rw [hT]; exact nodup_keys_mapErase _ _ hk.1
    · rw [hT]
      intro kv hkv
      exact hk.2 kv ((mem_mapErase _ _ _).1 hkv).1
    · rw [hI]
      split
      · exact nodup_keys_mapErase _ _ hx.1
      · exact nodup_keys_mapSet _ _ _ hx.1
    · rw [hI]
      intro b' hb'
      split at hb'
      · exact hx.2 b' ((mem_mapErase _ _ _).1 hb').1
      · rcases mem_mapSet _ _ _ _ hb' with h | h
        · exact hx.2 b' h
        · rw [h]; exact nodup_keys_mapErase _ _ (hx.2 _ hbm)
    · intro uid t hgt
      rw [hT, mapGet_mapErase] at hgt
      by_cases hne : uid = task.UID
      · rw [if_pos hne] at hgt; cases hgt
      · rw [if_neg hne] at hgt
        obtain ⟨b1, hb1', hb2'⟩ := hp.1 uid t hgt
        rw [hI]
        by_cases hs : t.Status = task.Status
        · rw [hs, hb1] at hb1'
          cases hb1'
          have hin : mapGet (mapErase b task.UID) uid = some t := by
            rw [mapGet_mapErase, if_neg hne]; exact hb2'
          have hlen : ¬ (mapErase b task.UID).length = 0 := by
            intro h0
            rw [List.length_eq_zero] at h0
            rw [h0] at hin
            simp [mapGet] at hin
          rw [if_neg hlen]
          exact ⟨_, by rw [hs, mapGet_mapSet, if_pos rfl], hin⟩
        · refine ⟨b1, ?_, hb2'⟩
          split
          · rw [mapGet_mapErase, if_neg hs]; exact hb1'
          · rw [mapGet_mapSet, if_neg hs]; exact hb1'
    · intro b' hb' kv hkv
      rw [hT]
      rw [hI] at hb'
      split at hb'
      · obtain ⟨hm, hne⟩ := (mem_mapErase _ _ _).1 hb'
        exact keep b' hm hne kv hkv
      · rcases mem_mapSet_ne _ _ _ hx.1 _ hb' with ⟨hm, hne⟩ | h
        · exact keep b' hm hne kv hkv
        · rw [h] at hkv ⊢
          exact keepb kv hkv
    · rw [hT, hu]; exact not_mem_keys_mapErase _ _

theorem idx_UpdateTaskStatus (ji : JobInfo) (ti : TaskInfo) (status : TaskStatus)
    (hk : tasksKeyed ji) (hx : indexKeyed ji) (hp : bucketsPartition ji) :
    tasksKeyed (ji.UpdateTaskStatus ti status).1 ∧ indexKeyed (ji.UpdateTaskStatus ti status).1 ∧
    bucketsPartition (ji.UpdateTaskStatus ti status).1 := by
  unfold JobInfo.UpdateTaskStatus
  cases hv : validateStatusUpdate ti.Status status with
  | some err => exact ⟨hk, hx, hp⟩
  | none =>
    obtain ⟨h1, h2, h3, h4⟩ := idx_DeleteTaskInfo ji ti hk hx hp
    exact idx_AddTaskInfo _ { ti with Status := status } h1 h2 h3 h4

/-- C16, as the code has it: for a job whose maps are keyed (Tasks by UID, the index by
status, each bucket by UID) and whose buckets partition Tasks (every task of Tasks is in
the bucket of its status, and whatever a bucket holds is the task Tasks has under that
UID and has the status of the bucket), the same holds after DeleteTaskInfo, after
UpdateTaskStatus, and after AddTaskInfo of a task whose UID is not yet in Tasks; it holds
for NewJobInfo. -/
theorem buckets_partition_preserved (uid : JobID) (ji : JobInfo) (ti : TaskInfo)
    (status : TaskStatus) (hk : tasksKeyed ji) (hx : indexKeyed ji) (hp : bucketsPartition ji) :
    (tasksKeyed (NewJobInfo uid) ∧ indexKeyed (NewJobInfo uid) ∧
      bucketsPartition (NewJobInfo uid)) ∧
    (ti.UID ∉ ji.Tasks.map Prod.fst →
      tasksKeyed (ji.AddTaskInfo ti) ∧ indexKeyed (ji.AddTaskInfo ti) ∧
      bucketsPartition (ji.AddTaskInfo ti)) ∧
    (tasksKeyed (ji.DeleteTaskInfo ti).1 ∧ indexKeyed (ji.DeleteTaskInfo ti).1 ∧
      bucketsPartition (ji.DeleteTaskInfo ti).1) ∧
    (tasksKeyed (ji.UpdateTaskStatus ti status).1 ∧
      indexKeyed (ji.UpdateTaskStatus ti status).1 ∧
      bucketsPartition (ji.UpdateTaskStatus ti status).1) :=
  ⟨idx_NewJobInfo uid, idx_AddTaskInfo ji ti hk hx hp,
    ⟨(idx_DeleteTaskInfo ji ti hk hx hp).1, (idx_DeleteTaskInfo ji ti hk hx hp).2.1,
      (idx_DeleteTaskInfo ji ti hk hx hp).2.2.1⟩,
    idx_UpdateTaskStatus ji ti status hk hx hp⟩

/-- Witness of C16: the job that holds the running task "t".  The task is found in it,
so that DeleteTaskInfo removes it with its bucket and UpdateTaskStatus to Succeeded moves
it from the Running bucket, which goes, to the Succeeded bucket; the running task "t2",
which the job does not hold, is added to the Running bucket. -/
theorem buckets_partition_preserved_witness :
    (tasksKeyed exJobOne ∧ indexKeyed exJobOne ∧ bucketsPartition exJobOne) ∧
    mapGet exJobOne.Tasks exRunning.UID = some exRunning ∧
    ((tasksKeyed (NewJobInfo "j") ∧ indexKeyed (NewJobInfo "j") ∧
        bucketsPartition (NewJobInfo "j")) ∧
      (exRunning.UID ∉ exJobOne.Tasks.map Prod.fst →
        tasksKeyed (exJobOne.AddTaskInfo exRunning) ∧
        indexKeyed (exJobOne.AddTaskInfo exRunning) ∧
        bucketsPartition (exJobOne.AddTaskInfo exRunning)) ∧
      (tasksKeyed (exJobOne.DeleteTaskInfo exRunning).1 ∧
        indexKeyed (exJobOne.DeleteTaskInfo exRunning).1 ∧
        bucketsPartition (exJobOne.DeleteTaskInfo exRunning).1) ∧
      (tasksKeyed (exJobOne.UpdateTaskStatus exRunning TaskStatus.Succeeded).1 ∧
        indexKeyed (exJobOne.UpdateTaskStatus exRunning TaskStatus.Succeeded).1 ∧
        bucketsPartition (exJobOne.UpdateTaskStatus exRunning TaskStatus.Succeeded).1)) ∧
    (tasksKeyed (exJobOne.AddTaskInfo exRunningTwo) ∧
      indexKeyed (exJobOne.AddTaskInfo exRunningTwo) ∧
      bucketsPartition (exJobOne.AddTaskInfo exRunningTwo)) ∧
    (exJobOne.DeleteTaskInfo exRunning).2 = none ∧
    (exJobOne.DeleteTaskInfo exRunning).1.Tasks = [] ∧
    (exJobOne.DeleteTaskInfo exRunning).1.TaskStatusIndex = [] ∧
    (exJobOne.UpdateTaskStatus exRunning TaskStatus.Succeeded).1.Tasks
      = [("t", { exRunning with Status := TaskStatus.Succeeded })] ∧
    (exJobOne.UpdateTaskStatus exRunning TaskStatus.Succeeded).1.TaskStatusIndex
      = [(TaskStatus.Succeeded, [("t", { exRunning with Status := TaskStatus.Succeeded })])] ∧
    (exJobOne.AddTaskInfo exRunningTwo).TaskStatusIndex
      = [(TaskStatus.Running, [("t", exRunning), ("t2", exRunningTwo)])] := by
  have h := idx_AddTaskInfo (NewJobInfo "j") exRunning (idx_NewJobInfo "j").1
    (idx_NewJobInfo "j").2.1 (idx_NewJobInfo "j").2.2 (by decide)
  exact ⟨h, by decide,
    buckets_partition_preserved "j" exJobOne exRunning TaskStatus.Succeeded h.1 h.2.1 h.2.2,
    (buckets_partition_preserved "j" exJobOne exRunningTwo TaskStatus.Succeeded
      h.1 h.2.1 h.2.2).2.1 (by decide),
    by decide, by decide, by decide, by decide, by decide, by decide⟩

/-- Counterexample to C16 as stated: the job holds the running task "t"; AddTaskInfo of
the task "t" with status Pending leaves "t" in the Running bucket and in the Pending
bucket, and the Running bucket holds a task that Tasks does not have. -/
theorem add_known_task_breaks_partition :
    tasksKeyed exJobOne ∧ indexKeyed exJobOne ∧ bucketsPartition exJobOne ∧
    (exJobOne.AddTaskInfo exPendingAgain).Tasks = [("t", exPendingAgain)] ∧
    (exJobOne.AddTaskInfo exPendingAgain).TaskStatusIndex
      = [(TaskStatus.Running, [("t", exRunning)]), (TaskStatus.Pending, [("t", exPendingAgain)])] ∧
    ¬ bucketsPartition (exJobOne.AddTaskInfo exPendingAgain) := by
  have h := idx_AddTaskInfo (NewJobInfo "j") exRunning (idx_NewJobInfo "j").1
    (idx_NewJobInfo "j").2.1 (idx_NewJobInfo "j").2.2 (by decide)
  have e : (exJobOne.AddTaskInfo exPendingAgain).TaskStatusIndex
      = [(TaskStatus.Running, [("t", exRunning)]), (TaskStatus.Pending, [("t", exPendingAgain)])] := by
    decide!
  refine ⟨h.1, h.2.1, h.2.2, by decide!, e, ?_⟩
  intro hc
  have h1 := (hc.2 (TaskStatus.Running, [("t", exRunning)]) (by rw [e]; simp)
    ("t", exRunning) (by simp)).1
  revert h1
  decide!

end api

namespace api

open api.Resource

/-! ## Clone -/

theorem TaskInfo_Clone_eq (ti : TaskInfo) : ti.Clone = ti := by
  cases ti; rfl

theorem foldl_AddTaskInfo_totals (rn : ResourceName) (l : tasksMap) (info : JobInfo) :
    (l.foldl (fun info kv => info.AddTaskInfo kv.2.Clone) info).TotalRequest.Get rn
      = info.TotalRequest.Get rn + taskSum (fun _ => true) rn l ∧
    (l.foldl (fun info kv => info.AddTaskInfo kv.2.Clone) info).Allocated.Get rn
      = info.Allocated.Get rn + taskSum AllocatedStatus rn l := by
  induction l generalizing info with
  | nil => simp [taskSum]
  | cons kv l ih =>
    obtain ⟨h1, h2⟩ := ih (info.AddTaskInfo kv.2.Clone)
    simp only [List.foldl_cons]
    rw [h1, h2, AddTaskInfo_TotalRequest, AddTaskInfo_Allocated, TaskInfo_Clone_eq, Get_Add]
    constructor
    · simp [taskSum]; ring
    · by_cases ha : AllocatedStatus kv.2.Status = true
      · simp [taskSum, ha, Get_Add]; ring
      · simp [taskSum, ha]

/-- C17, what the code does: Clone starts from copies of TotalRequest and Allocated and
then adds every task again, so in every dimension the clone's TotalRequest is the
original's plus the sum of the requests of its tasks, and its Allocated the original's
plus the sum over the allocated-class tasks; for the job with the one running task of
{1000m, 1000}, whose totals are right, the clone has the same task and a TotalRequest and
an Allocated of 2000m. -/
theorem clone_adds_requests_again (ji : JobInfo) (rn : ResourceName) :
    ji.Clone.TotalRequest.Get rn = ji.TotalRequest.Get rn + taskSum (fun _ => true) rn ji.Tasks ∧
    ji.Clone.Allocated.Get rn = ji.Allocated.Get rn + taskSum AllocatedStatus rn ji.Tasks ∧
    exJobOne.TotalRequest.Get ResourceName.cpu = 1000 ∧
    taskSum (fun _ => true) ResourceName.cpu exJobOne.Tasks = 1000 ∧
    exJobOne.Clone.Tasks = exJobOne.Tasks ∧
    exJobOne.Clone.TotalRequest.Get ResourceName.cpu = 2000 ∧
    exJobOne.Clone.Allocated.Get ResourceName.cpu = 2000 := by
  refine ⟨?_, ?_, by decide!, by decide!, by decide!, by decide!, by decide!⟩
  · exact (foldl_AddTaskInfo_totals rn ji.Tasks _).1
  · exact (foldl_AddTaskInfo_totals rn ji.Tasks _).2

/-! ## Adding and deleting a task -/

/-- C18: for a job and a task whose UID is not in the job (not in Tasks, not in the
bucket of the task's status, a bucket that is not empty when it exists), AddTaskInfo
followed by DeleteTaskInfo returns no error and leaves the same Tasks, the same
TaskStatusIndex, and in every dimension the same TotalRequest and Allocated. -/
theorem add_then_delete_restores (ji : JobInfo) (ti : TaskInfo)
    (hu : ti.UID ∉ ji.Tasks.map Prod.fst)
    (hb : ∀ b, mapGet ji.TaskStatusIndex ti.Status = some b →
      b ≠ [] ∧ ti.UID ∉ b.map Prod.fst) :
    ((ji.AddTaskInfo ti).DeleteTaskInfo ti).2 = none ∧
    ((ji.AddTaskInfo ti).DeleteTaskInfo ti).1.Tasks = ji.Tasks ∧
    ((ji.AddTaskInfo ti).DeleteTaskInfo ti).1.TaskStatusIndex = ji.TaskStatusIndex ∧
    ∀ rn, ((ji.AddTaskInfo ti).DeleteTaskInfo ti).1.TotalRequest.Get rn = ji.TotalRequest.Get rn ∧
      ((ji.AddTaskInfo ti).DeleteTaskInfo ti).1.Allocated.Get rn = ji.Allocated.Get rn := by
  have hg : mapGet (ji.AddTaskInfo ti).Tasks ti.UID = some ti := by
    rw [AddTaskInfo_Tasks, mapGet_mapSet, if_pos rfl]
  obtain ⟨hE, hT, hR, hA, hI⟩ := DeleteTaskInfo_found (ji.AddTaskInfo ti) ti ti hg
  refine ⟨hE, ?_, ?_, ?_⟩
  · rw [hT, AddTaskInfo_Tasks]; exact mapErase_mapSet_of_not_mem _ _ _ hu
  · have hgi : mapGet (ji.AddTaskInfo ti).TaskStatusIndex ti.Status
        = some (mapSet ((mapGet ji.TaskStatusIndex ti.Status).getD []) ti.UID ti) := by
      rw [AddTaskInfo_Index, mapGet_mapSet, if_pos rfl]
    rw [hI, deleteTaskIndex_Index, hgi]
    simp only
    cases hq : mapGet ji.TaskStatusIndex ti.Status with
    | none =>
      have he : mapErase (mapSet ([] : tasksMap) ti.UID ti) ti.UID = [] :=
        mapErase_mapSet_of_not_mem _ _ _ (by simp)
      simp only [Option.getD_none, he, List.length_nil, if_true]
      rw [AddTaskInfo_Index, hq]
      exact mapErase_mapSet_of_not_mem _ _ _ ((mapGet_eq_none_iff _ _).1 hq)
    | some b =>
      obtain ⟨hne, hnm⟩ := hb b hq
      have he : mapErase (mapSet b ti.UID ti) ti.UID = b := mapErase_mapSet_of_not_mem _ _ _ hnm
      have hl : ¬ b.length = 0 := fun h0 => hne (List.length_eq_zero.1 h0)
      simp only [Option.getD_some, he, hl, if_false]
      rw [AddTaskInfo_Index, mapSet_mapSet]
      exact mapSet_eq_self _ _ _ hq
  · intro rn
    rw [hR, hA, AddTaskInfo_TotalRequest, AddTaskInfo_Allocated, Get_Sub, Get_Add]
    refine ⟨by ring, ?_⟩
    by_cases ha : AllocatedStatus ti.Status = true
    · simp only [ha, if_true]
      rw [Get_Sub, Get_Add]; ring
    · simp only [ha]
      simp

/-- Witness of C18: the job that holds the running task "t", and the running task "t2". -/
theorem add_then_delete_restores_witness :
    ((exJobOne.AddTaskInfo exRunningTwo).DeleteTaskInfo exRunningTwo).2 = none ∧
    ((exJobOne.AddTaskInfo exRunningTwo).DeleteTaskInfo exRunningTwo).1.Tasks = exJobOne.Tasks ∧
    ((exJobOne.AddTaskInfo exRunningTwo).DeleteTaskInfo exRunningTwo).1.TaskStatusIndex
      = exJobOne.TaskStatusIndex ∧
    ∀ rn, ((exJobOne.AddTaskInfo exRunningTwo).DeleteTaskInfo exRunningTwo).1.TotalRequest.Get rn
        = exJobOne.TotalRequest.Get rn ∧
      ((exJobOne.AddTaskInfo exRunningTwo).DeleteTaskInfo exRunningTwo).1.Allocated.Get rn
        = exJobOne.Allocated.Get rn :=
  add_then_delete_restores exJobOne exRunningTwo (by decide)
    (fun b h => by
      have e : mapGet exJobOne.TaskStatusIndex exRunningTwo.Status = some [("t", exRunning)] := by
        decide!
      rw [e] at h
      cases h
      exact ⟨by simp, by decide⟩)

/-- C19, as the code has it: a second AddTaskInfo of the same task leaves Tasks and
TaskStatusIndex as the first left them, and adds the task's request once more to
TotalRequest and, for a task of allocated-class status, to Allocated. -/
theorem add_twice_same_maps (ji : JobInfo) (ti : TaskInfo) (rn : ResourceName) :
    ((ji.AddTaskInfo ti).AddTaskInfo ti).Tasks = (ji.AddTaskInfo ti).Tasks ∧
    ((ji.AddTaskInfo ti).AddTaskInfo ti).TaskStatusIndex = (ji.AddTaskInfo ti).TaskStatusIndex ∧
    ((ji.AddTaskInfo ti).AddTaskInfo ti).TotalRequest.Get rn
      = (ji.AddTaskInfo ti).TotalRequest.Get rn + ti.Resreq.Get rn ∧
    ((ji.AddTaskInfo ti).AddTaskInfo ti).Allocated.Get rn
      = (ji.AddTaskInfo ti).Allocated.Get rn
        + (if AllocatedStatus ti.Status = true then ti.Resreq.Get rn else 0) := by
  refine ⟨?_, ?_, ?_, ?_⟩
  · rw [AddTaskInfo_Tasks, AddTaskInfo_Tasks, mapSet_mapSet]
  · rw [AddTaskInfo_Index, AddTaskInfo_Index, mapGet_mapSet, if_pos rfl]
    simp only [Option.getD_some]
    rw [mapSet_mapSet, mapSet_mapSet]
  · rw [AddTaskInfo_TotalRequest, Get_Add]
  · rw [AddTaskInfo_Allocated]
    by_cases ha : AllocatedStatus ti.Status = true
    · simp only [ha, if_true]; rw [Get_Add]
    · simp [ha]

/-- Counterexample to C19 as stated: after one AddTaskInfo of the running task of
{1000m, 1000} the empty job has TotalRequest and Allocated 1000m, after two it has
2000m. -/
theorem add_twice_doubles_request :
    ((NewJobInfo "j").AddTaskInfo exRunning).TotalRequest.Get ResourceName.cpu = 1000 ∧
    (((NewJobInfo "j").AddTaskInfo exRunning).AddTaskInfo exRunning).TotalRequest.Get
      ResourceName.cpu = 2000 ∧
    ((NewJobInfo "j").AddTaskInfo exRunning).Allocated.Get ResourceName.cpu = 1000 ∧
    (((NewJobInfo "j").AddTaskInfo exRunning).AddTaskInfo exRunning).Allocated.Get
      ResourceName.cpu = 2000 ∧
    (((NewJobInfo "j").AddTaskInfo exRunning).AddTaskInfo exRunning).TotalRequest
      ≠ ((NewJobInfo "j").AddTaskInfo exRunning).TotalRequest := by
  decide!

/-! ## UpdateTaskStatus -/

/-- C20: UpdateTaskStatus rejects a transition from Running to Pending and every
transition from Succeeded or Failed to another status, and a rejected call returns the
error and gives back the job and the task as they were. -/
theorem update_rejects_invalid_transition (ji : JobInfo) (task : TaskInfo) (status : TaskStatus)
    (h : (task.Status = TaskStatus.Running ∧ status = TaskStatus.Pending) ∨
      ((task.Status = TaskStatus.Succeeded ∨ task.Status = TaskStatus.Failed) ∧
        status ≠ task.Status)) :
    ji.UpdateTaskStatus task status = (ji, task, some "InvalidStatusTransition") ∧
    ∀ (ji' : JobInfo) (task' : TaskInfo) (status' : TaskStatus) (err : String),
      validateStatusUpdate task'.Status status' = some err →
      ji'.UpdateTaskStatus task' status' = (ji', task', some err) := by
  constructor
  · have hv : validateStatusUpdate task.Status status = some "InvalidStatusTransition" := by
      unfold validateStatusUpdate
      rcases h with ⟨h1, h2⟩ | ⟨h1, h2⟩
      · rw [h1, h2]; decide
      · rw [if_pos ⟨h1, h2⟩]
    unfold JobInfo.UpdateTaskStatus
    rw [hv]
  · intro ji' task' status' err hv
    unfold JobInfo.UpdateTaskStatus
    rw [hv]

/-- Witness of C20: scenario S6, the running task "t" of job "j" set to Pending. -/
theorem update_rejects_invalid_transition_witness :
    exJobOne.UpdateTaskStatus exRunning TaskStatus.Pending
      = (exJobOne, exRunning, some "InvalidStatusTransition") ∧
    ∀ (ji' : JobInfo) (task' : TaskInfo) (status' : TaskStatus) (err : String),
      validateStatusUpdate task'.Status status' = some err →
      ji'.UpdateTaskStatus task' status' = (ji', task', some err) :=
  update_rejects_invalid_transition exJobOne exRunning TaskStatus.Pending
    (Or.inl ⟨rfl, rfl⟩)

/-- C39, as the code has it: UpdateTaskStatus applied to a task whose UID is not in the
job, for a transition the validation allows, returns no error and leaves the job as
AddTaskInfo of the task with the new status leaves it: the task is in Tasks, the maps of
the other tasks are as they were, and the request of the task is added to TotalRequest
and, for an allocated-class status, to Allocated.  DeleteTaskInfo returns an error for
such a task and the job as it was. -/
theorem update_unknown_task_is_add (ji : JobInfo) (task : TaskInfo) (status : TaskStatus)
    (h : mapGet ji.Tasks task.UID = none)
    (hv : validateStatusUpdate task.Status status = none) :
    ji.UpdateTaskStatus task status
      = (ji.AddTaskInfo { task with Status := status }, { task with Status := status }, none) ∧
    mapGet (ji.UpdateTaskStatus task status).1.Tasks task.UID
      = some { task with Status := status } ∧
    (∀ rn, (ji.UpdateTaskStatus task status).1.TotalRequest.Get rn
      = ji.TotalRequest.Get rn + task.Resreq.Get rn) ∧
    (∀ rn, (ji.UpdateTaskStatus task status).1.Allocated.Get rn
      = ji.Allocated.Get rn + if AllocatedStatus status then task.Resreq.Get rn else 0) ∧
    (ji.DeleteTaskInfo task).1 = ji ∧ (ji.DeleteTaskInfo task).2 ≠ none := by
  have hd : ji.DeleteTaskInfo task
      = (ji, some ("failed to find task <" ++ task.Namespace ++ "/" ++ task.Name ++
          "> in job <" ++ ji.Namespace ++ "/" ++ ji.Name ++ ">")) := by
    unfold JobInfo.DeleteTaskInfo
    rw [h]
  have hu : ji.UpdateTaskStatus task status
      = (ji.AddTaskInfo { task with Status := status }, { task with Status := status }, none) := by
    unfold JobInfo.UpdateTaskStatus
    rw [hv, hd]
  refine ⟨hu, ?_, ?_, ?_, by rw [hd], by rw [hd]; simp⟩
  · rw [hu]
    show mapGet (ji.AddTaskInfo { task with Status := status }).Tasks task.UID = _
    rw [AddTaskInfo_Tasks, mapGet_mapSet]
    simp
  · intro rn
    rw [hu]
    show (ji.AddTaskInfo { task with Status := status }).TotalRequest.Get rn = _
    rw [AddTaskInfo_TotalRequest, Get_Add]
  · intro rn
    rw [hu]
    show (ji.AddTaskInfo { task with Status := status }).Allocated.Get rn = _
    rw [AddTaskInfo_Allocated]
    by_cases ha : AllocatedStatus status = true
    · simp [ha, Get_Add]
    · simp [ha]

/-- Witness of C39: the job that holds the running task "t", and the running task "t2",
which it does not hold, set to Succeeded. -/
theorem update_unknown_task_is_add_witness :
    exJobOne.UpdateTaskStatus exRunningTwo TaskStatus.Succeeded
      = (exJobOne.AddTaskInfo { exRunningTwo with Status := TaskStatus.Succeeded },
          { exRunningTwo with Status := TaskStatus.Succeeded }, none) ∧
    mapGet (exJobOne.UpdateTaskStatus exRunningTwo TaskStatus.Succeeded).1.Tasks exRunningTwo.UID
      = some { exRunningTwo with Status := TaskStatus.Succeeded } ∧
    (∀ rn, (exJobOne.UpdateTaskStatus exRunningTwo TaskStatus.Succeeded).1.TotalRequest.Get rn
      = exJobOne.TotalRequest.Get rn + exRunningTwo.Resreq.Get rn) ∧
    (∀ rn, (exJobOne.UpdateTaskStatus exRunningTwo TaskStatus.Succeeded).1.Allocated.Get rn
      = exJobOne.Allocated.Get rn
        + if AllocatedStatus TaskStatus.Succeeded then exRunningTwo.Resreq.Get rn else 0) ∧
    (exJobOne.DeleteTaskInfo exRunningTwo).1 = exJobOne ∧
    (exJobOne.DeleteTaskInfo exRunningTwo).2 ≠ none :=
  update_unknown_task_is_add exJobOne exRunningTwo TaskStatus.Succeeded
    (by decide) (by decide)

/-- Counterexample to C39 as stated: for the empty job "j" and the running task "t",
which the job does not hold, DeleteTaskInfo returns an error and the job as it was, and
UpdateTaskStatus to Succeeded returns no error and a job that holds the task, with its
request in TotalRequest. -/
theorem update_unknown_task_adds_it :
    ((NewJobInfo "j").DeleteTaskInfo exRunning).1 = NewJobInfo "j" ∧
    ((NewJobInfo "j").DeleteTaskInfo exRunning).2
      = some "failed to find task <default/t> in job </>" ∧
    ((NewJobInfo "j").UpdateTaskStatus exRunning TaskStatus.Succeeded).2.2 = none ∧
    ((NewJobInfo "j").UpdateTaskStatus exRunning TaskStatus.Succeeded).1.Tasks
      = [("t", { exRunning with Status := TaskStatus.Succeeded })] ∧
    ((NewJobInfo "j").UpdateTaskStatus exRunning TaskStatus.Succeeded).1.TaskStatusIndex
      = [(TaskStatus.Succeeded, [("t", { exRunning with Status := TaskStatus.Succeeded })])] ∧
    ((NewJobInfo "j").UpdateTaskStatus exRunning TaskStatus.Succeeded).1.TotalRequest.Get
      ResourceName.cpu = 1000 := by
  decide!

/-! ## The job of a pod -/

/-- C21: getJobID returns the pod's namespace, a slash and the group name for a pod with
a non-empty group-name annotation, and the pod's controller reference for a pod without
the annotation or with an empty one; the pod of namespace test with group j1 gets
test/j1. -/
theorem getJobID_from_annotation (pod : Pod) :
    (∀ gn, mapGet pod.Annotations GroupNameAnnotationKey = some gn → gn ≠ "" →
      getJobID pod = pod.Namespace ++ "/" ++ gn) ∧
    (mapGet pod.Annotations GroupNameAnnotationKey = none → getJobID pod = pod.Controller) ∧
    (mapGet pod.Annotations GroupNameAnnotationKey = some "" → getJobID pod = pod.Controller) ∧
    getJobID exPod = "test/j1" := by
  refine ⟨?_, ?_, ?_, by decide⟩
  · intro gn hg hne
    have hl : pod.Annotations.length ≠ 0 := by
      intro h0
      rw [List.length_eq_zero] at h0
      rw [h0] at hg
      simp [mapGet] at hg
    unfold getJobID
    rw [if_pos hl, hg]
    simp [hne]
  · intro hg
    unfold getJobID
    rw [hg]; simp
  · intro hg
    unfold getJobID
    rw [hg]; simp

end api

namespace tdm

open api

/-! ## Revocable zones -/

theorem Unix_dateOf (day : Int) (clock : Nat × Nat) :
    Unix (dateOf day clock) = day * 86400 + (clock.1 : Int) * 3600 + (clock.2 : Int) * 60 := by
  unfold Unix dateOf
  exact Int.mul_ediv_cancel _ (by decide)

theorem available_of_parsed (bp : tdmPlugin) (rz rzRaw : String) (a b : List Char)
    (t1 t2 : Nat × Nat) (now p : Int)
    (hz : mapGet bp.revocableZone rz = some rzRaw)
    (hs : splitDash (trimSpace rzRaw.data) = [a, b])
    (h1 : parseClock a = some t1) (h2 : parseClock b = some t2) :
    availableRevocableZone bp rz now p
      = if Unix now < dayOf p * 86400 + (t1.1 : Int) * 3600 + (t1.2 : Int) * 60 ∨
          Unix now > (if t2.1 * 60 + t2.2 ≤ t1.1 * 60 + t1.2 then dayOf p + 1 else dayOf p) * 86400
            + (t2.1 : Int) * 3600 + (t2.2 : Int) * 60
        then some ("current time beyond revocable zone " ++ rz ++ ":" ++ rzRaw) else none := by
  unfold availableRevocableZone parseRevocableZone
  rw [hz]
  simp only [hs, h1, h2]
  by_cases hc : t2.1 * 60 + t2.2 ≤ t1.1 * 60 + t1.2
  · simp only [hc, if_true, Unix_dateOf]
  · simp only [hc, if_false, Unix_dateOf]

/-- C22: for a configured zone whose window splits at the dash into two times the layout
15:04 accepts, the first earlier than the second, availableRevocableZone at the instant
`now` returns no error exactly when the second of `now` lies between today's start time
and today's end time, both included; a zone that is not configured, or whose window is
not two such times around one dash, gets an error at every instant. -/
theorem zone_active_within_window (bp : tdmPlugin) (rz rzRaw : String) (a b : List Char)
    (t1 t2 : Nat × Nat) (now : Int)
    (hz : mapGet bp.revocableZone rz = some rzRaw)
    (hs : splitDash (trimSpace rzRaw.data) = [a, b])
    (h1 : parseClock a = some t1) (h2 : parseClock b = some t2)
    (hlt : t1.1 * 60 + t1.2 < t2.1 * 60 + t2.2) :
    (availableRevocableZone bp rz now now = none ↔
      dayOf now * 86400 + (t1.1 : Int) * 3600 + (t1.2 : Int) * 60 ≤ Unix now ∧
      Unix now ≤ dayOf now * 86400 + (t2.1 : Int) * 3600 + (t2.2 : Int) * 60) ∧
    (∀ (bp' : tdmPlugin) (rz' : String) (n p : Int), mapGet bp'.revocableZone rz' = none →
      availableRevocableZone bp' rz' n p ≠ none) ∧
    (∀ (bp' : tdmPlugin) (rz' raw' : String) (n p : Int),
      mapGet bp'.revocableZone rz' = some raw' →
      (¬ ∃ a' b' ta tb, splitDash (trimSpace raw'.data) = [a', b'] ∧
        parseClock a' = some ta ∧ parseClock b' = some tb) →
      availableRevocableZone bp' rz' n p ≠ none) := by
  refine ⟨?_, ?_, ?_⟩
  · rw [available_of_parsed bp rz rzRaw a b t1 t2 now now hz hs h1 h2]
    have hc : ¬ t2.1 * 60 + t2.2 ≤ t1.1 * 60 + t1.2 := not_le.2 hlt
    simp only [hc, if_false]
    constructor
    · intro h
      by_contra hn
      rw [if_pos] at h
      · cases h
      · by_contra hh
        exact hn ⟨not_lt.1 fun x => hh (Or.inl x), not_lt.1 fun x => hh (Or.inr x)⟩
    · intro ⟨ha, hb⟩
      rw [if_neg]
      intro hh
      rcases hh with hh | hh
      · exact absurd ha (not_le.2 hh)
      · exact absurd hb (not_le.2 hh)
  · intro bp' rz' n p hn
    unfold availableRevocableZone
    rw [hn]; simp
  · intro bp' rz' raw' n p hz' hbad
    unfold availableRevocableZone
    rw [hz']
    cases hp : parseRevocableZone raw' p with
    | error e => simp [hp]
    | ok se =>
      exfalso
      apply hbad
      unfold parseRevocableZone at hp
      split at hp
      · rename_i v1 v2 hsplit
        split at hp
        · cases hp
        · rename_i ta hta
          split at hp
          · cases hp
          · rename_i tb htb
            exact ⟨v1, v2, ta, tb, hsplit, hta, htb⟩
      · cases hp

/-- Witness of C22: the zone rz1 of 10:00-12:00 at 11:30 of day 3. -/
theorem zone_active_within_window_witness :
    (availableRevocableZone s5Plugin "rz1" (clockAt 3 11 30 0) (clockAt 3 11 30 0) = none ↔
      dayOf (clockAt 3 11 30 0) * 86400 + ((10, 0) : Nat × Nat).1 * 3600
          + (((10, 0) : Nat × Nat).2 : Int) * 60 ≤ Unix (clockAt 3 11 30 0) ∧
      Unix (clockAt 3 11 30 0) ≤ dayOf (clockAt 3 11 30 0) * 86400
          + (((12, 0) : Nat × Nat).1 : Int) * 3600 + (((12, 0) : Nat × Nat).2 : Int) * 60) ∧
    (∀ (bp' : tdmPlugin) (rz' : String) (n p : Int), mapGet bp'.revocableZone rz' = none →
      availableRevocableZone bp' rz' n p ≠ none) ∧
    (∀ (bp' : tdmPlugin) (rz' raw' : String) (n p : Int),
      mapGet bp'.revocableZone rz' = some raw' →
      (¬ ∃ a' b' ta tb, splitDash (trimSpace raw'.data) = [a', b'] ∧
        parseClock a' = some ta ∧ parseClock b' = some tb) →
      availableRevocableZone bp' rz' n p ≠ none) :=
  zone_active_within_window s5Plugin "rz1" "10:00-12:00" "10:00".data "12:00".data (10, 0) (12, 0)
    (clockAt 3 11 30 0) (by decide) (by decide) (by decide) (by decide) (by decide)

/-- C23, what the code does: the start of the window is always taken on the day of the
current instant, so a window over midnight is open from its start to midnight only.
The zone 22:00-06:00 is active at 23:00 of day 0 and gets an error at 02:00 and at 06:00
of day 1; the zone 10:00-10:00 is active at 10:00 of day 0 and gets an error at 09:00 of
day 1, 23 hours later. -/
theorem overnight_window_closed_after_midnight :
    availableRevocableZone nightPlugin "night" (clockAt 0 23 0 0) (clockAt 0 23 0 0) = none ∧
    availableRevocableZone nightPlugin "night" (clockAt 1 2 0 0) (clockAt 1 2 0 0)
      = some "current time beyond revocable zone night:22:00-06:00" ∧
    availableRevocableZone nightPlugin "night" (clockAt 1 6 0 0) (clockAt 1 6 0 0)
      = some "current time beyond revocable zone night:22:00-06:00" ∧
    availableRevocableZone nightPlugin "full" (clockAt 0 10 0 0) (clockAt 0 10 0 0) = none ∧
    availableRevocableZone nightPlugin "full" (clockAt 1 9 0 0) (clockAt 1 9 0 0)
      = some "current time beyond revocable zone full:10:00-10:00" := by
  decide

/-- C24: the tdm PredicateFn returns no error for a node with an empty revocable zone;
for a node with a revocable zone it returns no error exactly when the zone is active and
the task is preemptable. -/
theorem predicate_needs_active_zone_and_preemptable (bp : tdmPlugin) (now p : Int)
    (task : TaskInfo) (node : NodeInfo) :
    (node.RevocableZone = "" → predicateFn bp now p task node = none) ∧
    (node.RevocableZone ≠ "" →
      (predicateFn bp now p task node = none ↔
        availableRevocableZone bp node.RevocableZone now p = none ∧ task.Preemptable = true)) := by
  constructor
  · intro h
    unfold predicateFn
    rw [if_pos h]
  · intro h
    unfold predicateFn
    rw [if_neg h]
    cases ha : availableRevocableZone bp node.RevocableZone now p with
    | some err => simp
    | none =>
      cases hp : task.Preemptable <;> simp

end tdm

namespace tdm

open api

/-! ## The eviction budget of a job -/

theorem neg_ediv_neg_eq_ceil (x : Int) : -((-x) / 100) = ⌈((x : Int) : ℚ) / 100⌉ := by
  symm
  rw [Int.ceil_eq_iff]
  have h1 : (-((-x) / 100) - 1) * 100 < x := by omega
  have h2 : x ≤ -((-x) / 100) * 100 := by omega
  constructor
  · rw [lt_div_iff₀ (by norm_num : (0 : ℚ) < 100)]
    exact_mod_cast h1
  · rw [div_le_iff₀ (by norm_num : (0 : ℚ) < 100)]
    exact_mod_cast h2

/-- C26: getMaxPodEvictNum is parseIntStr of Budget.MaxUnavailable and the number of
tasks when MaxUnavailable is set; otherwise the number of Running tasks less
parseIntStr of Budget.MinAvailable when MinAvailable is set and that number is at least
the parsed value; otherwise 1.  parseIntStr gives the integer Atoi reads (as an int32),
and for a string Atoi does not read, such as "N%", the percentage Atoi reads once the
percent signs are dropped, of the number of tasks, rounded up. -/
theorem maxPodEvictNum_cases (job : JobInfo) (s : String) (n total : Int) :
    (job.Budget.MaxUnavilable ≠ "" →
      getMaxPodEvictNum job = parseIntStr job.Budget.MaxUnavilable job.Tasks.length) ∧
    (job.Budget.MaxUnavilable = "" → job.Budget.MinAvailable ≠ "" →
      parseIntStr job.Budget.MinAvailable job.Tasks.length
        ≤ (((mapGet job.TaskStatusIndex TaskStatus.Running).getD []).length : Int) →
      getMaxPodEvictNum job
        = (((mapGet job.TaskStatusIndex TaskStatus.Running).getD []).length : Int)
          - parseIntStr job.Budget.MinAvailable job.Tasks.length) ∧
    (job.Budget.MaxUnavilable = "" → job.Budget.MinAvailable = "" →
      getMaxPodEvictNum job = 1) ∧
    (job.Budget.MaxUnavilable = "" →
      (((mapGet job.TaskStatusIndex TaskStatus.Running).getD []).length : Int)
        < parseIntStr job.Budget.MinAvailable job.Tasks.length →
      getMaxPodEvictNum job = 1) ∧
    (Atoi s.data = some n → parseIntStr s total = int32 n) ∧
    (Atoi s.data = some n → 0 ≤ n → n < 2147483648 → parseIntStr s total = n) ∧
    (Atoi s.data = none → Atoi (s.data.filter fun c => decide (c.toNat ≠ 37)) = some n →
      parseIntStr s total = ⌈((n * total : Int) : ℚ) / 100⌉) ∧
    parseIntStr "3" 10 = 3 ∧ parseIntStr "50%" 5 = 3 ∧ parseIntStr "20%" 10 = 2 := by
  refine ⟨?_, ?_, ?_, ?_, ?_, ?_, ?_, by decide, by decide, by decide⟩
  · intro h
    unfold getMaxPodEvictNum
    simp only [h, ne_eq, not_false_eq_true, if_true]
  · intro h1 h2 h3
    unfold getMaxPodEvictNum
    simp only [h1, ne_eq, not_true_eq_false, if_false]
    rw [if_pos ⟨h2, h3⟩]
  · intro h1 h2
    unfold getMaxPodEvictNum
    simp only [h1, h2, ne_eq, not_true_eq_false, if_false, false_and]
    rfl
  · intro h1 h2
    unfold getMaxPodEvictNum
    simp only [h1, ne_eq, not_true_eq_false, if_false]
    rw [if_neg]
    · rfl
    · intro hc
      exact absurd hc.2 (not_le.2 h2)
  · intro h
    unfold parseIntStr
    rw [h]
  · intro h h0 h1
    unfold parseIntStr
    rw [h]
    exact int32_eq_self n h0 h1
  · intro h1 h2
    unfold parseIntStr
    rw [h1]
    simp only [h2]
    exact neg_ediv_neg_eq_ceil _

theorem getMaxPodEvictNum_of_minAvailable (job : JobInfo)
    (h1 : job.Budget.MaxUnavilable = "") (h2 : job.Budget.MinAvailable ≠ "")
    (h3 : parseIntStr job.Budget.MinAvailable job.Tasks.length
      ≤ (((mapGet job.TaskStatusIndex TaskStatus.Running).getD []).length : Int)) :
    getMaxPodEvictNum job
      = (((mapGet job.TaskStatusIndex TaskStatus.Running).getD []).length : Int)
        - parseIntStr job.Budget.MinAvailable job.Tasks.length := by
  unfold getMaxPodEvictNum
  simp only [h1, ne_eq, not_true_eq_false, if_false]
  rw [if_pos ⟨h2, h3⟩]

/-- C27, as the code has it: for a job with MinAvailable set and MaxUnavailable unset,
when the Running tasks are at least the parsed MinAvailable m, getMaxPodEvictNum is the
number of Running tasks less m, which is not negative, so that evicting that many leaves
m Running tasks, not fewer; when the Running tasks are fewer than m, getMaxPodEvictNum is
the default of 1. -/
theorem minAvailable_floor_or_default (job : JobInfo)
    (h1 : job.Budget.MaxUnavilable = "") (h2 : job.Budget.MinAvailable ≠ "") :
    (parseIntStr job.Budget.MinAvailable job.Tasks.length
        ≤ (((mapGet job.TaskStatusIndex TaskStatus.Running).getD []).length : Int) →
      0 ≤ getMaxPodEvictNum job ∧
      (((mapGet job.TaskStatusIndex TaskStatus.Running).getD []).length : Int)
          - getMaxPodEvictNum job
        = parseIntStr job.Budget.MinAvailable job.Tasks.length ∧
      parseIntStr job.Budget.MinAvailable job.Tasks.length
        ≤ (((mapGet job.TaskStatusIndex TaskStatus.Running).getD []).length : Int)
          - getMaxPodEvictNum job) ∧
    ((((mapGet job.TaskStatusIndex TaskStatus.Running).getD []).length : Int)
        < parseIntStr job.Budget.MinAvailable job.Tasks.length →
      getMaxPodEvictNum job = 1) := by
  constructor
  · intro h3
    rw [getMaxPodEvictNum_of_minAvailable job h1 h2 h3]
    refine ⟨by omega, by ring, by omega⟩
  · intro h3
    unfold getMaxPodEvictNum
    simp only [h1, ne_eq, not_true_eq_false, if_false]
    rw [if_neg]
    · rfl
    · intro hc
      exact absurd hc.2 (not_le.2 h3)

/-- Witness of C27: the job of two Running tasks with MinAvailable "1", of which one may
be evicted. -/
theorem minAvailable_floor_or_default_witness :
    getMaxPodEvictNum (zoneJob [zoneTask "t1" "n0" true, zoneTask "t2" "n0" true] "1" "") = 1 ∧
    ((parseIntStr "1" 2 ≤ 2 →
      0 ≤ getMaxPodEvictNum (zoneJob [zoneTask "t1" "n0" true, zoneTask "t2" "n0" true] "1" "") ∧
      2 - getMaxPodEvictNum (zoneJob [zoneTask "t1" "n0" true, zoneTask "t2" "n0" true] "1" "")
        = parseIntStr "1" 2 ∧
      parseIntStr "1" 2
        ≤ 2 - getMaxPodEvictNum
          (zoneJob [zoneTask "t1" "n0" true, zoneTask "t2" "n0" true] "1" "")) ∧
    (2 < parseIntStr "1" 2 →
      getMaxPodEvictNum (zoneJob [zoneTask "t1" "n0" true, zoneTask "t2" "n0" true] "1" "")
        = 1)) :=
  ⟨by decide,
    minAvailable_floor_or_default
      (zoneJob [zoneTask "t1" "n0" true, zoneTask "t2" "n0" true] "1" "") rfl (by decide)⟩

/-- Counterexample to C27 as stated: the job of two tasks with MinAvailable "2",
MaxUnavailable unset and one Running task is below its floor, and getMaxPodEvictNum
gives it the default of 1, not 0. -/
theorem below_floor_default_evicts_one :
    belowFloorJob.Budget.MaxUnavilable = "" ∧
    parseIntStr belowFloorJob.Budget.MinAvailable belowFloorJob.Tasks.length = 2 ∧
    ((mapGet belowFloorJob.TaskStatusIndex TaskStatus.Running).getD []).length = 1 ∧
    getMaxPodEvictNum belowFloorJob = 1 ∧ getMaxPodEvictNum belowFloorJob ≠ 0 := by
  decide

/-- C38, what the code does: a negative MaxUnavailable is read as it stands.  For the job
with MaxUnavailable "-1" getMaxPodEvictNum is -1, and with "-50%" and two tasks it is
-1 as well; maxVictims and the tdm PreemptableFn then take a slice with a negative bound
of the two candidate tasks and do not return. -/
theorem negative_budget_slices_out_of_range :
    getMaxPodEvictNum (zoneJob [zoneTask "t1" "n0" true, zoneTask "t2" "n0" true] "" "-1") = -1 ∧
    getMaxPodEvictNum (zoneJob [zoneTask "t1" "n0" true, zoneTask "t2" "n0" true] "" "-50%") = -1 ∧
    maxVictims (zoneJob [zoneTask "t1" "n0" true, zoneTask "t2" "n0" true] "" "-1")
      [zoneTask "t1" "n0" true, zoneTask "t2" "n0" true] = none ∧
    preemptableFn (plainSession "" "-1") (zoneTask "p" "" false)
      [zoneTask "t1" "n0" true, zoneTask "t2" "n0" true] = none ∧
    preemptableFn (plainSession "" "") (zoneTask "p" "" false)
      [zoneTask "t1" "n0" true, zoneTask "t2" "n0" true] = some [zoneTask "t1" "n0" true] := by
  decide

/-! ## The evict period -/

/-- C28: called at an instant earlier than lastEvictAt + evictPeriod the tdm
VictimTasksFn returns no victims and leaves lastEvictAt as it is; called at another
instant it sets lastEvictAt to that instant; so a call less than evictPeriod after a
call that scanned returns nothing.  Scenario S5 (zone 10:00-12:00, time 13:00): the first
call returns the Running preemptable task, a call 30 seconds later returns nothing. -/
theorem victims_once_per_evict_period (bp : tdmPlugin) (ssn : Session) (lastEvictAt now : Int) :
    (now < lastEvictAt + bp.evictPeriod →
      victimsFn bp ssn lastEvictAt now = some ([], lastEvictAt)) ∧
    (lastEvictAt + bp.evictPeriod ≤ now → ∀ r, victimsFn bp ssn lastEvictAt now = some r →
      r.2 = now) ∧
    (lastEvictAt + bp.evictPeriod ≤ now → ∀ r later, victimsFn bp ssn lastEvictAt now = some r →
      later < now + bp.evictPeriod → victimsFn bp ssn r.2 later = some ([], r.2)) ∧
    victimsFn s5Plugin s5Session zeroTime (clockAt 0 13 0 0)
      = some ([zoneTask "t1" "n1" true], clockAt 0 13 0 0) ∧
    victimsFn s5Plugin s5Session (clockAt 0 13 0 0) (clockAt 0 13 0 30)
      = some ([], clockAt 0 13 0 0) := by
  have hscan : lastEvictAt + bp.evictPeriod ≤ now → ∀ r,
      victimsFn bp ssn lastEvictAt now = some r → r.2 = now := by
    intro h r hr
    unfold victimsFn at hr
    rw [if_neg (not_lt.2 h)] at hr
    cases hf : foldlOpt (zoneStep bp ssn now) bp.revocableZone [] with
    | none => rw [hf] at hr; cases hr
    | some vs =>
      rw [hf] at hr
      simp only [Option.map_some', Option.some.injEq] at hr
      rw [← hr]
  refine ⟨?_, hscan, ?_, by decide, by decide⟩
  · intro h
    unfold victimsFn
    rw [if_pos h]
  · intro h r later hr hl
    rw [hscan h r hr]
    unfold victimsFn
    rw [if_pos hl]

end tdm

namespace tdm

open api

/-! ## Tasks grouped by job -/

theorem grouped_nil (P : TaskInfo → Prop) : grouped P [] := by
  simp [grouped]

theorem grouped_groupAdd (P : TaskInfo → Prop) (m : List (JobID × List TaskInfo))
    (t : TaskInfo) (hm : grouped P m) (ht : P t) : grouped P (groupAdd m t) := by
  refine ⟨nodup_keys_mapSet _ _ _ hm.1, ?_⟩
  intro e he u hu
  rcases mem_mapSet _ _ _ _ he with h | h
  · exact hm.2 e h u hu
  · rw [h] at hu ⊢
    simp only [List.mem_append, List.mem_singleton] at hu
    rcases hu with hu | hu
    · cases hg : mapGet m t.Job with
      | none => rw [hg] at hu; simp at hu
      | some g =>
        rw [hg] at hu
        exact hm.2 _ (mapGet_mem _ _ _ hg) u hu
    · rw [hu]; exact ⟨rfl, ht⟩

theorem grouped_preemptableTasks_aux (ssn : Session) (P : TaskInfo → Prop)
    (l : List TaskInfo)
    (hl : ∀ t ∈ l, t.Preemptable = true → t.Status = TaskStatus.Running →
      ∀ node, mapGet ssn.Nodes t.NodeName = some node → node.RevocableZone = "" → P t) :
    ∀ m, grouped P m → grouped P (l.foldl (fun tasksMap task =>
      if !task.Preemptable || task.Status ≠ TaskStatus.Running then tasksMap
      else
        match mapGet ssn.Nodes task.NodeName with
        | none => tasksMap
        | some node => if node.RevocableZone ≠ "" then tasksMap else groupAdd tasksMap task) m) := by
  induction l with
  | nil => intro m hm; exact hm
  | cons t l ih =>
    intro m hm
    simp only [List.foldl_cons]
    apply ih (fun u hu => hl u (List.mem_cons_of_mem _ hu))
    by_cases hc : (!t.Preemptable || decide (t.Status ≠ TaskStatus.Running)) = true
    · rw [if_pos hc]; exact hm
    · rw [if_neg hc]
      simp only [Bool.or_eq_true, Bool.not_eq_true', decide_eq_true_eq, not_or,
        Bool.not_eq_false, ne_eq, not_not] at hc
      cases hn : mapGet ssn.Nodes t.NodeName with
      | none => exact hm
      | some node =>
        simp only
        by_cases hz : node.RevocableZone ≠ ""
        · rw [if_pos hz]; exact hm
        · rw [if_neg hz]
          exact grouped_groupAdd P m t hm
            (hl t (List.mem_cons_self _ _) hc.1 hc.2 node hn (not_not.1 hz))

theorem grouped_preemptableTasks (ssn : Session) (preemptees : List TaskInfo) :
    grouped (fun t => t ∈ preemptees ∧ t.Preemptable = true ∧ t.Status = TaskStatus.Running ∧
      ∃ node, mapGet ssn.Nodes t.NodeName = some node ∧ node.RevocableZone = "")
      (preemptableTasks ssn preemptees) := by
  unfold preemptableTasks
  apply grouped_preemptableTasks_aux
  · intro t ht h1 h2 node h3 h4
    exact ⟨ht, h1, h2, node, h3, h4⟩
  · exact grouped_nil _

theorem countJob_append (j : JobID) (l₁ l₂ : List TaskInfo) :
    countJob j (l₁ ++ l₂) = countJob j l₁ + countJob j l₂ := by
  simp [countJob]

theorem countJob_le_length (j : JobID) (l : List TaskInfo) : countJob j l ≤ l.length := by
  unfold countJob
  exact List.length_filter_le _ _

theorem countJob_of_other (j : JobID) (l : List TaskInfo) (h : ∀ t ∈ l, t.Job ≠ j) :
    countJob j l = 0 := by
  unfold countJob
  rw [List.length_eq_zero, List.filter_eq_nil_iff]
  intro t ht
  simpa using h t ht

theorem preemptStep_adds (ssn : Session) : stepAdds ssn (preemptStep ssn) := by
  intro acc e acc' h
  unfold preemptStep at h
  cases hj : mapGet ssn.Jobs e.1 with
  | none =>
    rw [hj] at h
    simp only [Option.some.injEq] at h
    exact ⟨[], by simp [h], by simp, by intro job hjob; cases hjob⟩
  | some job =>
    rw [hj] at h
    simp only at h
    by_cases h1 : getMaxPodEvictNum job ≥ (e.2.length : Int)
    · rw [if_pos h1] at h
      simp only [Option.some.injEq] at h
      refine ⟨e.2, h.symm, fun v hv => hv, ?_⟩
      intro job' hjob'
      cases hjob'
      exact h1
    · rw [if_neg h1] at h
      by_cases h2 : getMaxPodEvictNum job < 0
      · rw [if_pos h2] at h; cases h
      · rw [if_neg h2] at h
        simp only [Option.some.injEq] at h
        refine ⟨e.2.take (getMaxPodEvictNum job).toNat, h.symm,
          fun v hv => List.mem_of_mem_take hv, ?_⟩
        intro job' hjob'
        cases hjob'
        rw [List.length_take]
        have := Int.toNat_of_nonneg (not_lt.1 h2)
        omega

theorem victimStep_adds (ssn : Session) : stepAdds ssn (victimStep ssn) := by
  intro acc e acc' h
  unfold victimStep at h
  cases hj : mapGet ssn.Jobs e.1 with
  | none =>
    rw [hj] at h
    simp only [Option.some.injEq] at h
    exact ⟨[], by simp [h], by simp, by intro job hjob; cases hjob⟩
  | some job =>
    rw [hj] at h
    simp only at h
    unfold maxVictims at h
    by_cases h2 : min (getMaxPodEvictNum job) (e.2.length : Int) < 0
    · simp [h2] at h
    · simp only [h2, if_false, Option.map_some', Option.some.injEq] at h
      refine ⟨e.2.take (min (getMaxPodEvictNum job) (e.2.length : Int)).toNat, h.symm,
        fun v hv => List.mem_of_mem_take hv, ?_⟩
      intro job' hjob'
      cases hjob'
      rw [List.length_take]
      have := Int.toNat_of_nonneg (not_lt.1 h2)
      omega

theorem victimLoop_spec (ssn : Session)
    (f : List TaskInfo → JobID × List TaskInfo → Option (List TaskInfo)) (hf : stepAdds ssn f)
    (P : TaskInfo → Prop) :
    ∀ (groups : List (JobID × List TaskInfo)) (acc victims : List TaskInfo),
      foldlOpt f groups acc = some victims → grouped P groups →
      ∃ added, victims = acc ++ added ∧ (∀ v ∈ added, P v ∧ v.Job ∈ groups.map Prod.fst) ∧
        ∀ jobID job, mapGet ssn.Jobs jobID = some job →
          (countJob jobID added : Int) ≤ max (getMaxPodEvictNum job) 0 := by
  intro groups
  induction groups with
  | nil =>
    intro acc victims h _
    simp only [foldlOpt, Option.some.injEq] at h
    exact ⟨[], by simp [h], by simp, by intro j job _; simp [countJob]⟩
  | cons e groups ih =>
    intro acc victims h hg
    simp only [foldlOpt] at h
    cases hs : f acc e with
    | none => rw [hs] at h; cases h
    | some acc1 =>
      rw [hs] at h
      simp only [Option.some_bind] at h
      obtain ⟨add1, e1, hin1, hb1⟩ := hf acc e acc1 hs
      have hg' : grouped P groups := by
        refine ⟨(List.nodup_cons.1 hg.1).2, fun x hx => hg.2 x (List.mem_cons_of_mem _ hx)⟩
      obtain ⟨add2, e2, hin2, hb2⟩ := ih acc1 victims h hg'
      refine ⟨add1 ++ add2, by rw [e2, e1, List.append_assoc], ?_, ?_⟩
      · intro v hv
        rcases List.mem_append.1 hv with hv | hv
        · have := hg.2 e (List.mem_cons_self _ _) v (hin1 v hv)
          exact ⟨this.2, by rw [this.1]; simp⟩
        · exact ⟨(hin2 v hv).1, List.mem_cons_of_mem _ (hin2 v hv).2⟩
      · intro jobID job hjob
        rw [countJob_append]
        by_cases hk : e.1 = jobID
        · have h2 : countJob jobID add2 = 0 := by
            apply countJob_of_other
            intro t ht hc
            have hmem := (hin2 t ht).2
            rw [hc, ← hk] at hmem
            exact (List.nodup_cons.1 hg.1).1 hmem
          have h1 := hb1 job (by rw [hk]; exact hjob)
          have h3 := countJob_le_length jobID add1
          rw [h2]
          have : (countJob jobID add1 : Int) ≤ getMaxPodEvictNum job := by omega
          simp only [Nat.add_zero]
          exact le_trans this (le_max_left _ _)
        · have h1 : countJob jobID add1 = 0 := by
            apply countJob_of_other
            intro t ht hc
            have := (hg.2 e (List.mem_cons_self _ _) t (hin1 t ht)).1
            exact hk (this.symm.trans hc)
          rw [h1]
          simpa using hb2 jobID job hjob

theorem preemptLoop_total (ssn : Session) (hn : ∀ kv ∈ ssn.Jobs, 0 ≤ getMaxPodEvictNum kv.2) :
    ∀ (groups : List (JobID × List TaskInfo)) (acc : List TaskInfo),
      ∃ victims, foldlOpt (preemptStep ssn) groups acc = some victims := by
  intro groups
  induction groups with
  | nil => intro acc; exact ⟨acc, rfl⟩
  | cons e groups ih =>
    intro acc
    simp only [foldlOpt]
    have hs : ∃ acc1, preemptStep ssn acc e = some acc1 := by
      unfold preemptStep
      cases hj : mapGet ssn.Jobs e.1 with
      | none => exact ⟨acc, rfl⟩
      | some job =>
        simp only
        have h0 := hn _ (mapGet_mem _ _ _ hj)
        by_cases h1 : getMaxPodEvictNum job ≥ (e.2.length : Int)
        · rw [if_pos h1]; exact ⟨_, rfl⟩
        · rw [if_neg h1, if_neg (not_lt.2 h0)]; exact ⟨_, rfl⟩
    obtain ⟨acc1, hs⟩ := hs
    rw [hs]
    exact ih acc1

/-- C25: the tdm PreemptableFn returns no victims for a preemptable preemptor; for a
preemptor that is not preemptable, whenever it returns, every victim is one of the
preemptees, is preemptable, is Running and sits on a known node with no revocable zone,
and the victims of a job number at most its getMaxPodEvictNum (at most 0 when that is
negative); it returns whenever no job of the session has a negative getMaxPodEvictNum. -/
theorem preemptable_victims_within_budget (ssn : Session) (preemptor : TaskInfo)
    (preemptees victims : List TaskInfo) (h : preemptableFn ssn preemptor preemptees = some victims) :
    (preemptor.Preemptable = true → victims = []) ∧
    (∀ v ∈ victims, v ∈ preemptees ∧ v.Preemptable = true ∧ v.Status = TaskStatus.Running ∧
      ∃ node, mapGet ssn.Nodes v.NodeName = some node ∧ node.RevocableZone = "") ∧
    (∀ jobID job, mapGet ssn.Jobs jobID = some job →
      (countJob jobID victims : Int) ≤ max (getMaxPodEvictNum job) 0) ∧
    ((∀ kv ∈ ssn.Jobs, 0 ≤ getMaxPodEvictNum kv.2) →
      ∀ (preemptor' : TaskInfo) (preemptees' : List TaskInfo),
        ∃ victims', preemptableFn ssn preemptor' preemptees' = some victims') := by
  have htotal : (∀ kv ∈ ssn.Jobs, 0 ≤ getMaxPodEvictNum kv.2) →
      ∀ (preemptor' : TaskInfo) (preemptees' : List TaskInfo),
        ∃ victims', preemptableFn ssn preemptor' preemptees' = some victims' := by
    intro hn preemptor' preemptees'
    unfold preemptableFn
    by_cases hp : preemptor'.Preemptable = true
    · rw [if_pos hp]; exact ⟨[], rfl⟩
    · rw [if_neg hp]; exact preemptLoop_total ssn hn _ _
  unfold preemptableFn at h
  by_cases hp : preemptor.Preemptable = true
  · rw [if_pos hp] at h
    simp only [Option.some.injEq] at h
    subst h
    exact ⟨fun _ => rfl, by simp, by intro j job _; simp [countJob], htotal⟩
  · rw [if_neg hp] at h
    obtain ⟨added, e, hin, hb⟩ := victimLoop_spec ssn (preemptStep ssn) (preemptStep_adds ssn) _
      _ _ _ h (grouped_preemptableTasks ssn preemptees)
    simp only [List.nil_append] at e
    subst e
    exact ⟨fun hc => absurd hc hp, fun v hv => (hin v hv).1, hb, htotal⟩

/-- Witness of C25: two Running preemptable tasks of one job on a node without revocable
zone, no budget set; the first is the victim. -/
theorem preemptable_victims_within_budget_witness :
    ((zoneTask "p" "" false).Preemptable = true → [zoneTask "t1" "n0" true] = []) ∧
    (∀ v ∈ [zoneTask "t1" "n0" true],
      v ∈ [zoneTask "t1" "n0" true, zoneTask "t2" "n0" true] ∧ v.Preemptable = true ∧
      v.Status = TaskStatus.Running ∧
      ∃ node, mapGet (plainSession "" "").Nodes v.NodeName = some node ∧
        node.RevocableZone = "") ∧
    (∀ jobID job, mapGet (plainSession "" "").Jobs jobID = some job →
      (countJob jobID [zoneTask "t1" "n0" true] : Int) ≤ max (getMaxPodEvictNum job) 0) ∧
    ((∀ kv ∈ (plainSession "" "").Jobs, 0 ≤ getMaxPodEvictNum kv.2) →
      ∀ (preemptor' : TaskInfo) (preemptees' : List TaskInfo),
        ∃ victims', preemptableFn (plainSession "" "") preemptor' preemptees' = some victims') :=
  preemptable_victims_within_budget (plainSession "" "") (zoneTask "p" "" false)
    [zoneTask "t1" "n0" true, zoneTask "t2" "n0" true] [zoneTask "t1" "n0" true] (by decide)

end tdm

namespace tdm

open api

/-! ## The victims of a scan -/

theorem grouped_nodeTasks (P : TaskInfo → Prop) (l : List (TaskID × TaskInfo))
    (hl : ∀ e ∈ l, e.2.Preemptable = true → e.2.Status = TaskStatus.Running → P e.2) :
    ∀ m, grouped P m → grouped P (l.foldl (fun tasksMap t =>
      if t.2.Preemptable && t.2.Status = TaskStatus.Running then groupAdd tasksMap t.2
      else tasksMap) m) := by
  induction l with
  | nil => intro m hm; exact hm
  | cons t l ih =>
    intro m hm
    simp only [List.foldl_cons]
    apply ih (fun u hu => hl u (List.mem_cons_of_mem _ hu))
    by_cases hc : (t.2.Preemptable && decide (t.2.Status = TaskStatus.Running)) = true
    · rw [if_pos hc]
      simp only [Bool.and_eq_true, decide_eq_true_eq] at hc
      exact grouped_groupAdd P m t.2 hm (hl t (List.mem_cons_self _ _) hc.1 hc.2)
    · rw [if_neg hc]; exact hm

theorem grouped_revocable_aux (rz : String) (P : TaskInfo → Prop)
    (nodes : List (String × NodeInfo))
    (hl : ∀ kv ∈ nodes, kv.2.RevocableZone = rz → ∀ e ∈ kv.2.Tasks,
      e.2.Preemptable = true → e.2.Status = TaskStatus.Running → P e.2) :
    ∀ m, grouped P m → grouped P (nodes.foldl (fun tasksMap kv =>
      if kv.2.RevocableZone ≠ rz then tasksMap
      else kv.2.Tasks.foldl (fun tasksMap t =>
        if t.2.Preemptable && t.2.Status = TaskStatus.Running then groupAdd tasksMap t.2
        else tasksMap) tasksMap) m) := by
  induction nodes with
  | nil => intro m hm; exact hm
  | cons kv nodes ih =>
    intro m hm
    simp only [List.foldl_cons]
    apply ih (fun u hu => hl u (List.mem_cons_of_mem _ hu))
    by_cases hz : kv.2.RevocableZone ≠ rz
    · rw [if_pos hz]; exact hm
    · rw [if_neg hz]
      exact grouped_nodeTasks P kv.2.Tasks (hl kv (List.mem_cons_self _ _) (not_not.1 hz)) m hm

theorem grouped_revocableNodePreemptableTask (rz : String) (ssn : Session) :
    grouped (fun t => t.Preemptable = true ∧ t.Status = TaskStatus.Running ∧
      ∃ kv ∈ ssn.RevocableNodes, (∃ e ∈ kv.2.Tasks, e.2 = t) ∧ kv.2.RevocableZone = rz)
      (revocableNodePreemptableTask rz ssn) := by
  unfold revocableNodePreemptableTask
  apply grouped_revocable_aux
  · intro kv hkv hz e he h1 h2
    exact ⟨h1, h2, kv, hkv, ⟨e, he, rfl⟩, hz⟩
  · exact grouped_nil _

theorem zoneStep_spec (bp : tdmPlugin) (ssn : Session) (now : Int) (acc vs : List TaskInfo)
    (zone : String × String) (h : zoneStep bp ssn now acc zone = some vs) :
    ∃ added, vs = acc ++ added ∧ (∀ v ∈ added, scanVictim bp ssn now v) ∧
      ∀ jobID job, mapGet ssn.Jobs jobID = some job →
        (countJob jobID added : Int) ≤ max (getMaxPodEvictNum job) 0 := by
  unfold zoneStep at h
  cases ha : availableRevocableZone bp zone.1 now now with
  | none =>
    rw [ha] at h
    simp only [Option.some.injEq] at h
    exact ⟨[], by simp [h], by simp, by intro j job _; simp [countJob]⟩
  | some err =>
    rw [ha] at h
    simp only at h
    obtain ⟨added, e, hin, hb⟩ := victimLoop_spec ssn (victimStep ssn) (victimStep_adds ssn) _
      _ _ _ h (grouped_revocableNodePreemptableTask zone.1 ssn)
    refine ⟨added, e, ?_, hb⟩
    intro v hv
    obtain ⟨⟨h1, h2, kv, hkv, he, hz⟩, _⟩ := hin v hv
    refine ⟨h1, h2, kv, hkv, he, ?_⟩
    rw [hz, ha]; simp

theorem zoneLoop_spec (bp : tdmPlugin) (ssn : Session) (now : Int) :
    ∀ (zones : List (String × String)) (acc victims : List TaskInfo),
      foldlOpt (zoneStep bp ssn now) zones acc = some victims →
      ∀ v ∈ victims, v ∈ acc ∨ scanVictim bp ssn now v := by
  intro zones
  induction zones with
  | nil =>
    intro acc victims h v hv
    simp only [foldlOpt, Option.some.injEq] at h
    rw [← h] at hv; exact Or.inl hv
  | cons z zones ih =>
    intro acc victims h v hv
    simp only [foldlOpt] at h
    cases hs : zoneStep bp ssn now acc z with
    | none => rw [hs] at h; cases h
    | some acc1 =>
      rw [hs] at h
      simp only [Option.some_bind] at h
      obtain ⟨added, e, hin, _⟩ := zoneStep_spec bp ssn now acc acc1 z hs
      rcases ih acc1 victims h v hv with h1 | h1
      · rw [e] at h1
        rcases List.mem_append.1 h1 with h2 | h2
        · exact Or.inl h2
        · exact Or.inr (hin v h2)
      · exact Or.inr h1

/-- C29, as the code has it: in a call of the tdm VictimTasksFn that scans, every victim
is a preemptable Running task among the tasks of a revocable node whose zone gets an
error at that instant; the pass over one zone adds, for each job, at most
getMaxPodEvictNum(job) of its tasks (none when that is negative), so the bound holds for
each job and each zone. -/
theorem victims_from_inactive_zones (bp : tdmPlugin) (ssn : Session) (lastEvictAt now : Int)
    (r : List TaskInfo × Int) (h : victimsFn bp ssn lastEvictAt now = some r)
    (hscan : lastEvictAt + bp.evictPeriod ≤ now) :
    (∀ v ∈ r.1, scanVictim bp ssn now v) ∧
    (∀ (zone : String × String) (acc vs : List TaskInfo),
      zoneStep bp ssn now acc zone = some vs →
      ∃ added, vs = acc ++ added ∧ (∀ v ∈ added, scanVictim bp ssn now v) ∧
        ∀ jobID job, mapGet ssn.Jobs jobID = some job →
          (countJob jobID added : Int) ≤ max (getMaxPodEvictNum job) 0) := by
  refine ⟨?_, fun zone acc vs hz => zoneStep_spec bp ssn now acc vs zone hz⟩
  unfold victimsFn at h
  rw [if_neg (not_lt.2 hscan)] at h
  cases hf : foldlOpt (zoneStep bp ssn now) bp.revocableZone [] with
  | none => rw [hf] at h; cases h
  | some vs =>
    rw [hf] at h
    simp only [Option.map_some', Option.some.injEq] at h
    rw [← h]
    intro v hv
    rcases zoneLoop_spec bp ssn now _ _ _ hf v hv with h1 | h1
    · cases h1
    · exact h1

/-- Witness of C29: scenario S5, the first call at 13:00. -/
theorem victims_from_inactive_zones_witness :
    (∀ v ∈ ([zoneTask "t1" "n1" true], clockAt 0 13 0 0).1,
      scanVictim s5Plugin s5Session (clockAt 0 13 0 0) v) ∧
    (∀ (zone : String × String) (acc vs : List TaskInfo),
      zoneStep s5Plugin s5Session (clockAt 0 13 0 0) acc zone = some vs →
      ∃ added, vs = acc ++ added ∧
        (∀ v ∈ added, scanVictim s5Plugin s5Session (clockAt 0 13 0 0) v) ∧
        ∀ jobID job, mapGet s5Session.Jobs jobID = some job →
          (countJob jobID added : Int) ≤ max (getMaxPodEvictNum job) 0) :=
  victims_from_inactive_zones s5Plugin s5Session zeroTime (clockAt 0 13 0 0)
    ([zoneTask "t1" "n1" true], clockAt 0 13 0 0) (by decide) (by decide)

/-- Counterexample to C29 as stated: the zones rz1 and rz2 are both closed at 13:00, the
job has one Running preemptable task on a node of each and a getMaxPodEvictNum of 1, and
the call returns both tasks. -/
theorem two_zones_exceed_job_budget :
    victimsFn twoZonePlugin twoZoneSession zeroTime (clockAt 0 13 0 0)
      = some ([zoneTask "t1" "n1" true, zoneTask "t2" "n2" true], clockAt 0 13 0 0) ∧
    mapGet twoZoneSession.Jobs "j"
      = some (zoneJob [zoneTask "t1" "n1" true, zoneTask "t2" "n2" true] "" "") ∧
    getMaxPodEvictNum (zoneJob [zoneTask "t1" "n1" true, zoneTask "t2" "n2" true] "" "") = 1 ∧
    countJob "j" [zoneTask "t1" "n1" true, zoneTask "t2" "n2" true] = 2 := by
  decide

end tdm

namespace api

/-! ## The weight heap of a namespace -/

theorem map_mapSet {K V W : Type} [DecidableEq K] (f : V → W) (m : List (K × V)) (k : K) (v : V) :
    (mapSet m k v).map (fun kv => (kv.1, f kv.2)) = mapSet (m.map fun kv => (kv.1, f kv.2)) k (f v) := by
  induction m with
  | nil => simp [mapSet]
  | cons e m ih =>
    obtain ⟨a, w⟩ := e
    by_cases h : k = a
    · subst h; simp [mapSet]
    · simp [mapSet, h, ih]

theorem map_mapErase {K V W : Type} [DecidableEq K] (f : V → W) (m : List (K × V)) (k : K) :
    (mapErase m k).map (fun kv => (kv.1, f kv.2)) = mapErase (m.map fun kv => (kv.1, f kv.2)) k := by
  unfold mapErase
  induction m with
  | nil => simp
  | cons e m ih =>
    obtain ⟨a, w⟩ := e
    by_cases h : a = k
    · simp only [List.filter_cons, List.map_cons, h]
      simpa using ih
    · simp only [List.filter_cons, List.map_cons, h]
      simpa [h] using ih

theorem mem_mapSet_self {K V : Type} [DecidableEq K] (m : List (K × V)) (k : K) (v : V) :
    (k, v) ∈ mapSet m k v := by
  induction m with
  | nil => simp [mapSet]
  | cons e m ih =>
    obtain ⟨a, w⟩ := e
    by_cases h : k = a
    · subst h; simp [mapSet]
    · simp [mapSet, h, ih]

/-- The step of `registered`. -/
theorem applyOps_heap (isScalar : String → Bool) (ops : List QuotaOp)
    (hn : ∀ op ∈ ops, op.quota.Name ≠ NamespaceWeightKey) :
    ∀ (n : NamespaceCollection) (m : List (String × Int)),
      n.quotaWeight.map (fun kv => (kv.1, kv.2.weight)) = (NamespaceWeightKey, 1) :: m →
      n.RQStatus.map Prod.fst = m.map Prod.fst →
      (applyOps isScalar ops n).quotaWeight.map (fun kv => (kv.1, kv.2.weight))
        = (NamespaceWeightKey, 1) :: ops.foldl (fun m op =>
            match op with
            | .update q => mapSet m q.Name (itemFromQuota q).weight
            | .delete q => mapErase m q.Name) m ∧
      (applyOps isScalar ops n).RQStatus.map Prod.fst
        = (ops.foldl (fun m op =>
            match op with
            | .update q => mapSet m q.Name (itemFromQuota q).weight
            | .delete q => mapErase m q.Name) m).map Prod.fst := by
  induction ops with
  | nil => intro n m h1 h2; exact ⟨h1, h2⟩
  | cons op ops ih =>
    intro n m h1 h2
    have hop := hn op (List.mem_cons_self _ _)
    simp only [applyOps, List.foldl_cons]
    cases op with
    | update q =>
      have hq : q.Name ≠ NamespaceWeightKey := hop
      apply ih (fun o ho => hn o (List.mem_cons_of_mem _ ho))
      · show (mapSet n.quotaWeight (itemFromQuota q).name (itemFromQuota q)).map
            (fun kv => (kv.1, kv.2.weight)) = _
        rw [map_mapSet (fun i : quotaItem => i.weight), h1]
        show mapSet _ q.Name _ = _
        simp [mapSet, hq]
      · show (mapSet n.RQStatus q.Name q.Status).map Prod.fst = _
        rw [keys_mapSet, keys_mapSet, h2]
    | delete q =>
      have hq : q.Name ≠ NamespaceWeightKey := hop
      have hq' : NamespaceWeightKey ≠ q.Name := fun e => hq e.symm
      have hd : (NamespaceCollection.Delete isScalar n q).quotaWeight
          = mapErase n.quotaWeight q.Name := by
        unfold NamespaceCollection.Delete NamespaceCollection.deleteWeight
        simp only
        split <;> rfl
      have hs : (NamespaceCollection.Delete isScalar n q).RQStatus = mapErase n.RQStatus q.Name := by
        unfold NamespaceCollection.Delete NamespaceCollection.deleteWeight
        simp only
        split <;> rfl
      apply ih (fun o ho => hn o (List.mem_cons_of_mem _ ho))
      · rw [hd, map_mapErase (fun i : quotaItem => i.weight), h1]
        simp [mapErase, List.filter_cons, hq']
      · rw [hs, keys_mapErase, keys_mapErase, h2]

theorem heapPop_spec (h : List (String × quotaItem)) (hne : h ≠ []) :
    ∃ item rest, heapPop h = some (item, rest) ∧ rest = mapErase h item.name ∧
      item ∈ h.map Prod.snd ∧ ∀ y ∈ h, y.2.weight ≤ item.weight := by
  cases h with
  | nil => exact absurd rfl hne
  | cons x xs =>
    refine ⟨_, _, rfl, rfl, ?_, ?_⟩
    · have : ∀ (l : List (String × quotaItem)) (b : quotaItem),
          l.foldl (fun best y => if y.2.weight > best.weight then y.2 else best) b = b ∨
          l.foldl (fun best y => if y.2.weight > best.weight then y.2 else best) b
            ∈ l.map Prod.snd := by
        intro l
        induction l with
        | nil => intro b; exact Or.inl rfl
        | cons y l ih =>
          intro b
          simp only [List.foldl_cons, List.map_cons, List.mem_cons]
          rcases ih (if y.2.weight > b.weight then y.2 else b) with h1 | h1
          · rw [h1]
            by_cases hc : y.2.weight > b.weight
            · rw [if_pos hc]; exact Or.inr (Or.inl rfl)
            · rw [if_neg hc]; exact Or.inl rfl
          · exact Or.inr (Or.inr h1)
      simp only [List.map_cons, List.mem_cons]
      rcases this xs x.2 with h1 | h1
      · exact Or.inl h1
      · exact Or.inr h1
    · have : ∀ (l : List (String × quotaItem)) (b : quotaItem),
          b.weight ≤ (l.foldl (fun best y => if y.2.weight > best.weight then y.2 else best)
            b).weight ∧
          ∀ y ∈ l, y.2.weight
            ≤ (l.foldl (fun best y => if y.2.weight > best.weight then y.2 else best) b).weight := by
        intro l
        induction l with
        | nil => intro b; simp
        | cons y l ih =>
          intro b
          simp only [List.foldl_cons, List.mem_cons, forall_eq_or_imp]
          obtain ⟨h1, h2⟩ := ih (if y.2.weight > b.weight then y.2 else b)
          refine ⟨le_trans ?_ h1, le_trans ?_ h1, h2⟩
          · by_cases hc : y.2.weight > b.weight
            · rw [if_pos hc]; exact le_of_lt hc
            · rw [if_neg hc]
          · by_cases hc : y.2.weight > b.weight
            · rw [if_pos hc]
            · rw [if_neg hc]; exact not_lt.1 hc
      intro y hy
      rcases List.mem_cons.1 hy with e | e
      · rw [e]; exact (this xs x.2).1
      · exact (this xs x.2).2 y e

theorem maxWeight_spec (ws : List Int) (a : Int) :
    a ≤ ws.foldl max a ∧ (∀ w ∈ ws, w ≤ ws.foldl max a) ∧
    (ws.foldl max a = a ∨ ws.foldl max a ∈ ws) := by
  induction ws generalizing a with
  | nil => simp
  | cons w ws ih =>
    simp only [List.foldl_cons, List.mem_cons, forall_eq_or_imp]
    obtain ⟨h1, h2, h3⟩ := ih (max a w)
    refine ⟨le_trans (le_max_left _ _) h1, ⟨le_trans (le_max_right _ _) h1, h2⟩, ?_⟩
    rcases h3 with h3 | h3
    · rw [h3]
      rcases max_choice a w with hc | hc
      · exact Or.inl hc
      · exact Or.inr (Or.inl hc)
    · exact Or.inr (Or.inr h3)

theorem mapGet_eq_find {V : Type} (m : List (String × V)) (k : String) :
    mapGet m k = (m.find? fun e => decide (e.1 = k)).map Prod.snd := by
  induction m with
  | nil => rfl
  | cons e m ih =>
    obtain ⟨a, v⟩ := e
    by_cases h : k = a
    · subst h; simp [mapGet, List.find?]
    · have h' : ¬ a = k := fun e => h e.symm
      simp [mapGet, List.find?, h, h', ih]

/-- The weight itemFromQuota reads from a quota is the weight the quota declares. -/
theorem itemFromQuota_weight (quota : ResourceQuota) :
    (itemFromQuota quota).weight = declaredWeight quota := by
  unfold itemFromQuota declaredWeight
  simp only
  rw [mapGet_eq_find]
  unfold NamespaceWeightKey
  cases quota.Hard.find? fun e => decide (e.1 = "volcano.sh/namespace.weight") with
  | none => rfl
  | some e => rfl

theorem registered_eq (ops : List QuotaOp) :
    registered ops = ops.foldl (fun m op =>
      match op with
      | .update q => mapSet m q.Name (itemFromQuota q).weight
      | .delete q => mapErase m q.Name) ([] : List (String × Int)) := by
  unfold registered
  congr 1
  funext m op
  cases op with
  | update q => simp only [itemFromQuota_weight]
  | delete q => rfl

/-- C30: after NewNamespaceCollection and any sequence of Update and Delete calls with
quotas whose name is not the reserved key, the weight heap is not empty, the quotas in
RQStatus are the registered ones, Snapshot returns, with Weight the largest of 1 and the
weights the registered quotas declare in their hard entry volcano.sh/namespace.weight (1
for a quota without the entry), and a second Snapshot right after returns the same
weight.  With a quota of weight 3 and a quota without weight the Weight is 3; it is 2
once the first quota is updated to weight 2, and 1 once it is deleted and for the
collection as created. -/
theorem snapshot_weight_is_max (isScalar : String → Bool) (name : String) (ops : List QuotaOp)
    (hn : ∀ op ∈ ops, op.quota.Name ≠ NamespaceWeightKey) :
    ((applyOps isScalar ops (NewNamespaceCollection name)).quotaWeight ≠ [] ∧
    (applyOps isScalar ops (NewNamespaceCollection name)).RQStatus.map Prod.fst
      = (registered ops).map Prod.fst ∧
    ∃ info n' info2 n'',
      (applyOps isScalar ops (NewNamespaceCollection name)).Snapshot = some (info, n') ∧
      info.Weight = maxWeight ((registered ops).map Prod.snd) ∧
      n'.Snapshot = some (info2, n'') ∧ info2.Weight = info.Weight) ∧
    declaredWeight exQuotaHeavy = 3 ∧ declaredWeight exQuotaPlain = 1 ∧
    ((applyOps (fun _ => false) [QuotaOp.update exQuotaHeavy, QuotaOp.update exQuotaPlain]
      (NewNamespaceCollection "ns")).Snapshot.map fun r => r.1.Weight) = some 3 ∧
    ((applyOps (fun _ => false) [QuotaOp.update exQuotaPlain, QuotaOp.update exQuotaHeavy]
      (NewNamespaceCollection "ns")).Snapshot.map fun r => r.1.Weight) = some 3 ∧
    ((applyOps (fun _ => false) [QuotaOp.update exQuotaHeavy, QuotaOp.update exQuotaPlain]
      (NewNamespaceCollection "ns")).Snapshot.bind fun r =>
        r.2.Snapshot.map fun r2 => r2.1.Weight) = some 3 ∧
    ((applyOps (fun _ => false)
      [QuotaOp.update exQuotaHeavy, QuotaOp.update exQuotaPlain, QuotaOp.update exQuotaLighter]
      (NewNamespaceCollection "ns")).Snapshot.map fun r => r.1.Weight) = some 2 ∧
    ((applyOps (fun _ => false)
      [QuotaOp.update exQuotaHeavy, QuotaOp.update exQuotaPlain, QuotaOp.delete exQuotaHeavy]
      (NewNamespaceCollection "ns")).Snapshot.map fun r => r.1.Weight) = some 1 ∧
    ((NewNamespaceCollection "ns").Snapshot.map fun r => r.1.Weight) = some 1 := by
  refine ⟨?_, by decide!, by decide!, by decide!, by decide!, by decide!, by decide!,
    by decide!, by decide!⟩
  obtain ⟨hh, hr⟩ := applyOps_heap isScalar ops hn (NewNamespaceCollection name) []
    (by simp [NewNamespaceCollection, NamespaceCollection.updateWeight, mapSet,
      DefaultNamespaceWeight])
    (by simp [NewNamespaceCollection, NamespaceCollection.updateWeight])
  rw [← registered_eq] at hh hr
  generalize applyOps isScalar ops (NewNamespaceCollection name) = n at hh hr
  have hne : n.quotaWeight ≠ [] := by
    intro h0; rw [h0] at hh; simp at hh
  obtain ⟨item, rest, hpop, hrest, hmem, hmax⟩ := heapPop_spec n.quotaWeight hne
  have hne2 : mapSet rest item.name item ≠ [] := by
    intro h0
    have := mem_mapSet_self rest item.name item
    rw [h0] at this; cases this
  obtain ⟨item2, rest2, hpop2, _, hmem2, hmax2⟩ := heapPop_spec _ hne2
  refine ⟨hne, hr,
    { Name := n.Name, Weight := item.weight, RQStatus := n.RQStatus,
      RQToResource := n.RQToResource },
    { n with quotaWeight := mapSet rest item.name item },
    { Name := n.Name, Weight := item2.weight, RQStatus := n.RQStatus,
      RQToResource := n.RQToResource },
    { n with quotaWeight := mapSet rest2 item2.name item2 },
    by simp [NamespaceCollection.Snapshot, hpop], ?_,
    by simp [NamespaceCollection.Snapshot, hpop2], ?_⟩
  · show item.weight = _
    obtain ⟨m1, m2, m3⟩ := maxWeight_spec ((registered ops).map Prod.snd) 1
    have hws : n.quotaWeight.map (fun kv => kv.2.weight)
        = 1 :: (registered ops).map Prod.snd := by
      have := congrArg (List.map Prod.snd) hh
      simpa [List.map_map, Function.comp] using this
    apply le_antisymm
    · obtain ⟨y, hy, e⟩ := List.mem_map.1 hmem
      have hw : item.weight ∈ n.quotaWeight.map (fun kv => kv.2.weight) :=
        List.mem_map.2 ⟨y, hy, by rw [e]⟩
      rw [hws] at hw
      rcases List.mem_cons.1 hw with h1 | h1
      · rw [h1]; exact m1
      · exact m2 _ h1
    · have hall : ∀ w ∈ n.quotaWeight.map (fun kv => kv.2.weight), w ≤ item.weight := by
        intro w hw
        obtain ⟨y, hy, e⟩ := List.mem_map.1 hw
        rw [← e]; exact hmax y hy
      rcases m3 with h3 | h3
      · unfold maxWeight; rw [h3]
        exact hall 1 (by rw [hws]; simp)
      · exact hall _ (by rw [hws]; exact List.mem_cons_of_mem _ h3)
  · show item2.weight = item.weight
    apply le_antisymm
    · obtain ⟨y, hy, e⟩ := List.mem_map.1 hmem2
      rcases mem_mapSet _ _ _ _ hy with h1 | h1
      · rw [hrest] at h1
        rw [← e]
        exact hmax y ((mem_mapErase _ _ _).1 h1).1
      · rw [← e, h1]
    · exact hmax2 _ (mem_mapSet_self rest item.name item)

/-- Witness of C30: a quota of weight 3 and a quota without weight are registered, then
the second is deleted; both Snapshots return, with Weight 3. -/
theorem snapshot_weight_is_max_witness :
    ∃ info n' info2 n'',
      (applyOps (fun _ => false)
        [QuotaOp.update exQuotaHeavy, QuotaOp.update exQuotaPlain, QuotaOp.delete exQuotaPlain]
        (NewNamespaceCollection "ns")).Snapshot = some (info, n') ∧
      info.Weight = 3 ∧ n'.Snapshot = some (info2, n'') ∧ info2.Weight = 3 := by
  obtain ⟨_, _, info, n', info2, n'', h1, h2, h3, h4⟩ :=
    (snapshot_weight_is_max (fun _ => false) "ns"
      [QuotaOp.update exQuotaHeavy, QuotaOp.update exQuotaPlain, QuotaOp.delete exQuotaPlain]
      (by decide)).1
  have e : maxWeight ((registered [QuotaOp.update exQuotaHeavy, QuotaOp.update exQuotaPlain,
      QuotaOp.delete exQuotaPlain]).map Prod.snd) = 3 := by decide!
  exact ⟨info, n', info2, n'', h1, h2.trans e, h3, h4.trans (h2.trans e)⟩

end api

namespace api

open api.Resource

/-! ## The resource of the quotas of a namespace -/

theorem scalarGet_mapSet (m : List (String × ℚ)) (k k' : String) (v : ℚ) :
    scalarGet (mapSet m k v) k' = if k' = k then v else scalarGet m k' := by
  induction m with
  | nil => simp [mapSet, scalarGet]
  | cons e m ih =>
    obtain ⟨a, w⟩ := e
    by_cases h : k = a
    · subst h
      by_cases h' : k' = k
      · simp [mapSet, scalarGet, h']
      · simp [mapSet, scalarGet, h']
    · by_cases h' : k' = a
      · subst h'
        have : ¬ k' = k := fun e => h e.symm
        simp [mapSet, scalarGet, h, this]
      · simp [mapSet, scalarGet, h, h', ih]

theorem dimensionOf_congr (isScalar : String → Bool) (a b : String)
    (h : TrimRequests a = TrimRequests b) : dimensionOf isScalar a = dimensionOf isScalar b := by
  unfold dimensionOf; rw [h]

theorem dimensionOf_inj (isScalar : String → Bool) (a b : String) (d : ResourceName)
    (ha : dimensionOf isScalar a = some d) (hb : dimensionOf isScalar b = some d) :
    TrimRequests a = TrimRequests b := by
  unfold dimensionOf at ha hb
  by_cases a1 : TrimRequests a = "cpu"
  · rw [if_pos a1] at ha
    cases ha
    by_cases b1 : TrimRequests b = "cpu"
    · rw [a1, b1]
    · rw [if_neg b1] at hb
      by_cases b2 : TrimRequests b = "memory"
      · rw [if_pos b2] at hb; cases hb
      · rw [if_neg b2] at hb
        split at hb <;> cases hb
  · rw [if_neg a1] at ha
    by_cases a2 : TrimRequests a = "memory"
    · rw [if_pos a2] at ha
      cases ha
      by_cases b1 : TrimRequests b = "cpu"
      · rw [if_pos b1] at hb; cases hb
      · rw [if_neg b1] at hb
        by_cases b2 : TrimRequests b = "memory"
        · rw [a2, b2]
        · rw [if_neg b2] at hb
          split at hb <;> cases hb
    · rw [if_neg a2] at ha
      by_cases a3 : isScalar (TrimRequests a) = true
      · rw [if_pos a3] at ha
        cases ha
        by_cases b1 : TrimRequests b = "cpu"
        · rw [if_pos b1] at hb; cases hb
        · rw [if_neg b1] at hb
          by_cases b2 : TrimRequests b = "memory"
          · rw [if_pos b2] at hb; cases hb
          · rw [if_neg b2] at hb
            split at hb
            · simp only [Option.some.injEq, ResourceName.scalar.injEq] at hb
              exact hb.symm
            · cases hb
      · rw [if_neg a3] at ha; cases ha

theorem dimensionValues_append (isScalar : String → Bool) (d : ResourceName)
    (l : List (String × ℚ)) (e : String × ℚ) :
    dimensionValues isScalar d (l ++ [e])
      = dimensionValues isScalar d l
        ++ (if dimensionOf isScalar e.1 = some d then [dimensionValue d e.2] else []) := by
  unfold dimensionValues
  rw [List.filterMap_append]
  congr 1
  by_cases h : dimensionOf isScalar e.1 = some d
  · simp [List.filterMap, h]
  · simp [List.filterMap, h]

theorem leastOf_keep (x v : ℚ) (values : List ℚ) (h : leastOf x values) (hne : values ≠ [])
    (hle : x ≤ v) : leastOf x (values ++ [v]) := by
  rcases h with ⟨h0, _⟩ | ⟨h1, h2⟩
  · exact absurd h0 hne
  · refine Or.inr ⟨List.mem_append_left _ h1, ?_⟩
    intro y hy
    rcases List.mem_append.1 hy with hy | hy
    · exact h2 y hy
    · simp only [List.mem_singleton] at hy
      rw [hy]; exact hle

theorem leastOf_new (x v : ℚ) (values : List ℚ) (h : leastOf x values)
    (hc : v < x ∨ values = []) : leastOf v (values ++ [v]) := by
  refine Or.inr ⟨by simp, ?_⟩
  intro y hy
  rcases List.mem_append.1 hy with hy | hy
  · rcases hc with hc | hc
    · rcases h with ⟨h0, _⟩ | ⟨_, h2⟩
      · rw [h0] at hy; cases hy
      · exact le_trans (le_of_lt hc) (h2 y hy)
    · rw [hc] at hy; cases hy
  · simp only [List.mem_singleton] at hy
    rw [hy]

/-- One entry more: what holds of the dimension `d0` of the entry, given that the other
dimensions keep their value. -/
theorem convertInv_step (isScalar : String → Bool) (st st' : Resource × List String)
    (done : List (String × ℚ)) (e : String × ℚ) (d0 : ResourceName)
    (h : convertInv isScalar st done) (hd : dimensionOf isScalar e.1 = some d0)
    (hother : ∀ d, d ≠ d0 → st'.1.Get d = st.1.Get d)
    (hcase : (st'.1.Get d0 = dimensionValue d0 e.2 ∧ st'.2 = TrimRequests e.1 :: st.2 ∧
        (dimensionValue d0 e.2 < st.1.Get d0 ∨ TrimRequests e.1 ∉ st.2)) ∨
      (st' = st ∧ st.1.Get d0 ≤ dimensionValue d0 e.2 ∧ TrimRequests e.1 ∈ st.2)) :
    convertInv isScalar st' (done ++ [e]) := by
  obtain ⟨hA, hB⟩ := h
  have hset0 := hA e.1 d0 hd
  constructor
  · intro name d hn
    rw [dimensionValues_append]
    have hiff : TrimRequests name = TrimRequests e.1 ↔ dimensionOf isScalar e.1 = some d := by
      constructor
      · intro ht; rw [← dimensionOf_congr isScalar name e.1 ht]; exact hn
      · intro he; exact dimensionOf_inj isScalar name e.1 d hn he
    rcases hcase with ⟨_, h2, _⟩ | ⟨h1, _, h3⟩
    · rw [h2, List.mem_cons, hA name d hn, hiff]
      by_cases he : dimensionOf isScalar e.1 = some d
      · simp [he]
      · simp [he]
    · rw [h1, hA name d hn]
      by_cases he : dimensionOf isScalar e.1 = some d
      · have : dimensionValues isScalar d done ≠ [] := by
          rw [← hA name d hn, hiff.2 he]; exact h3
        simp [he, this]
      · simp [he]
  · intro d
    rw [dimensionValues_append]
    by_cases he : d = d0
    · subst he
      rw [if_pos hd]
      rcases hcase with ⟨h1, _, h3⟩ | ⟨h1, h2, h3⟩
      · rw [h1]
        apply leastOf_new _ _ _ (hB d)
        rcases h3 with h3 | h3
        · exact Or.inl h3
        · right
          by_contra hne
          exact h3 (hset0.2 hne)
      · rw [h1]
        exact leastOf_keep _ _ _ (hB d) (hset0.1 h3) h2
    · have hne : ¬ dimensionOf isScalar e.1 = some d := by
        intro hc
        rw [hd] at hc
        exact he (Option.some.inj hc).symm
      rw [if_neg hne, List.append_nil]
      have : st'.1.Get d = st.1.Get d := by
        rcases hcase with _ | ⟨h1, _, _⟩
        · exact hother d he
        · rw [h1]
      rw [this]
      exact hB d

theorem convertInv_skip (isScalar : String → Bool) (st : Resource × List String)
    (done : List (String × ℚ)) (e : String × ℚ)
    (h : convertInv isScalar st done) (hd : dimensionOf isScalar e.1 = none) :
    convertInv isScalar st (done ++ [e]) := by
  obtain ⟨hA, hB⟩ := h
  constructor
  · intro name d hn
    rw [dimensionValues_append, hd]
    simpa using hA name d hn
  · intro d
    rw [dimensionValues_append, hd]
    simpa using hB d

theorem convertStep_inv (isScalar : String → Bool) (st : Resource × List String)
    (done : List (String × ℚ)) (e : String × ℚ) (h : convertInv isScalar st done) :
    convertInv isScalar (convertStep isScalar st e) (done ++ [e]) := by
  unfold convertStep
  simp only
  by_cases c1 : TrimRequests e.1 = "cpu"
  · have hd : dimensionOf isScalar e.1 = some ResourceName.cpu := by
      unfold dimensionOf; rw [if_pos c1]
    rw [if_pos c1]
    by_cases hc : st.1.MilliCPU > (MilliValue e.2 : ℚ) ∨ TrimRequests e.1 ∉ st.2
    · rw [if_pos hc]
      apply convertInv_step isScalar st _ done e ResourceName.cpu h hd
      · intro d hne
        cases d with
        | cpu => exact absurd rfl hne
        | memory => rfl
        | scalar n => rfl
      · exact Or.inl ⟨rfl, rfl, hc⟩
    · rw [if_neg hc]
      apply convertInv_step isScalar st _ done e ResourceName.cpu h hd (fun _ _ => rfl)
      right
      simp only [not_or, not_lt, not_not] at hc
      exact ⟨rfl, hc.1, hc.2⟩
  · rw [if_neg c1]
    by_cases c2 : TrimRequests e.1 = "memory"
    · have hd : dimensionOf isScalar e.1 = some ResourceName.memory := by
        unfold dimensionOf; rw [if_neg c1, if_pos c2]
      rw [if_pos c2]
      by_cases hc : st.1.Memory > (Value e.2 : ℚ) ∨ TrimRequests e.1 ∉ st.2
      · rw [if_pos hc]
        apply convertInv_step isScalar st _ done e ResourceName.memory h hd
        · intro d hne
          cases d with
          | cpu => rfl
          | memory => exact absurd rfl hne
          | scalar n => rfl
        · exact Or.inl ⟨rfl, rfl, hc⟩
      · rw [if_neg hc]
        apply convertInv_step isScalar st _ done e ResourceName.memory h hd (fun _ _ => rfl)
        right
        simp only [not_or, not_lt, not_not] at hc
        exact ⟨rfl, hc.1, hc.2⟩
    · rw [if_neg c2]
      by_cases c3 : isScalar (TrimRequests e.1) = true
      · have hd : dimensionOf isScalar e.1 = some (ResourceName.scalar (TrimRequests e.1)) := by
          unfold dimensionOf; rw [if_neg c1, if_neg c2, if_pos c3]
        rw [if_pos c3]
        by_cases hc : scalarGet st.1.scalars (TrimRequests e.1) > (MilliValue e.2 : ℚ) ∨
            TrimRequests e.1 ∉ st.2
        · rw [if_pos hc]
          apply convertInv_step isScalar st _ done e _ h hd
          · intro d hne
            cases d with
            | cpu => rfl
            | memory => rfl
            | scalar n =>
              have hn : ¬ n = TrimRequests e.1 := fun hc' => hne (by rw [hc'])
              show scalarGet (mapSet st.1.scalars _ _) n = scalarGet st.1.scalars n
              rw [scalarGet_mapSet, if_neg hn]
          · refine Or.inl ⟨?_, rfl, hc⟩
            show scalarGet (mapSet st.1.scalars _ _) _ = _
            rw [scalarGet_mapSet, if_pos rfl]
            rfl
        · rw [if_neg hc]
          apply convertInv_step isScalar st _ done e _ h hd (fun _ _ => rfl)
          right
          simp only [not_or, not_lt, not_not] at hc
          exact ⟨rfl, hc.1, hc.2⟩
      · rw [if_neg c3]
        apply convertInv_skip isScalar st done e h
        unfold dimensionOf; rw [if_neg c1, if_neg c2, if_neg c3]

theorem convertLoop_inv (isScalar : String → Bool) (rest : List (String × ℚ)) :
    ∀ (st : Resource × List String) (done : List (String × ℚ)),
      convertInv isScalar st done →
      convertInv isScalar (rest.foldl (convertStep isScalar) st) (done ++ rest) := by
  induction rest with
  | nil => intro st done h; simpa using h
  | cons e rest ih =>
    intro st done h
    simp only [List.foldl_cons]
    have := ih _ _ (convertStep_inv isScalar st done e h)
    simpa using this

theorem convert_least (isScalar : String → Bool) (rQstatus : List (String × ResourceQuotaStatus))
    (d : ResourceName) :
    leastOf ((convertResourceQuotaToResource isScalar rQstatus).Get d)
      (dimensionValues isScalar d (quotaEntries rQstatus)) := by
  have h0 : convertInv isScalar (({ EmptyResource with ScalarResources := some [] } : Resource), [])
      [] := by
    constructor
    · intro name d' _
      simp [dimensionValues]
    · intro d'
      left
      refine ⟨by simp [dimensionValues], ?_⟩
      cases d' <;> rfl
  have := (convertLoop_inv isScalar (quotaEntries rQstatus) _ _ h0).2 d
  simpa [convertResourceQuotaToResource] using this

theorem leastOf_perm (x y : ℚ) (l l' : List ℚ) (hp : l.Perm l') (hx : leastOf x l)
    (hy : leastOf y l') : x = y := by
  rcases hx with ⟨h0, hx0⟩ | ⟨h1, h2⟩
  · rw [h0] at hp
    have := hp.nil_eq
    rcases hy with ⟨_, hy0⟩ | ⟨h3, _⟩
    · rw [hx0, hy0]
    · rw [← this] at h3; cases h3
  · rcases hy with ⟨h0, _⟩ | ⟨h3, h4⟩
    · rw [h0] at hp
      have := hp.eq_nil
      rw [this] at h1; cases h1
    · exact le_antisymm (h2 y (hp.mem_iff.2 h3)) (h4 x (hp.mem_iff.1 h1))

/-- C31: Update leaves in RQToResource the resource convertResourceQuotaToResource makes
of the registered quotas, and so does a Delete that leaves a quota, while a Delete that
leaves none leaves the empty resource; that resource holds in every dimension (cpu,
memory, a scalar, the name taken without a leading "requests.") the least of the values
hard - used of the entries of the hard lists that name the dimension, 0 when none does,
and so is the same in whatever order the quotas are visited.  For the quota that bounds
cpu by 4 with 1 used and memory by 1000 with 200 used, and the quota that bounds
requests.cpu by 2 with 1/2 used, it holds 1500 milli-cpu and 800 of memory. -/
theorem rq_resource_is_least_headroom (isScalar : String → Bool) (n : NamespaceCollection)
    (quota : ResourceQuota) (rQstatus rQstatus' : List (String × ResourceQuotaStatus))
    (d : ResourceName) :
    (n.Update isScalar quota).RQToResource
      = convertResourceQuotaToResource isScalar (n.Update isScalar quota).RQStatus ∧
    ((n.Delete isScalar quota).RQStatus ≠ [] →
      (n.Delete isScalar quota).RQToResource
        = convertResourceQuotaToResource isScalar (n.Delete isScalar quota).RQStatus) ∧
    ((n.Delete isScalar quota).RQStatus = [] →
      (n.Delete isScalar quota).RQToResource = EmptyResource) ∧
    leastOf ((convertResourceQuotaToResource isScalar rQstatus).Get d)
      (dimensionValues isScalar d (quotaEntries rQstatus)) ∧
    (rQstatus'.Perm rQstatus →
      (convertResourceQuotaToResource isScalar rQstatus').Get d
        = (convertResourceQuotaToResource isScalar rQstatus).Get d) ∧
    convertResourceQuotaToResource (fun _ => false)
        [("heavy", exQuotaHeavy.Status), ("plain", exQuotaPlain.Status)]
      = { MilliCPU := 1500, Memory := 800, ScalarResources := some [] } := by
  refine ⟨rfl, ?_, ?_, convert_least isScalar rQstatus d, ?_, by decide!⟩
  · intro hne
    unfold NamespaceCollection.Delete at hne ⊢
    simp only at hne ⊢
    by_cases hl : (mapErase (n.deleteWeight (itemFromQuota quota)).RQStatus quota.Name).length = 0
    · rw [if_pos hl] at hne
      exact absurd (List.length_eq_zero.1 hl) hne
    · rw [if_neg hl]
  · intro he
    unfold NamespaceCollection.Delete at he ⊢
    simp only at he ⊢
    by_cases hl : (mapErase (n.deleteWeight (itemFromQuota quota)).RQStatus quota.Name).length = 0
    · rw [if_pos hl]
    · rw [if_neg hl] at he
      have he' : mapErase (n.deleteWeight (itemFromQuota quota)).RQStatus quota.Name = [] := he
      exact absurd (by rw [he']; rfl) hl
  · intro hp
    have hq : (quotaEntries rQstatus').Perm (quotaEntries rQstatus) := by
      unfold quotaEntries
      exact hp.flatMap_right _
    have hv : (dimensionValues isScalar d (quotaEntries rQstatus')).Perm
        (dimensionValues isScalar d (quotaEntries rQstatus)) := by
      unfold dimensionValues
      exact hq.filterMap _
    exact leastOf_perm _ _ _ _ hv (convert_least isScalar rQstatus' d)
      (convert_least isScalar rQstatus d)

end api

namespace resourcequota

open api

/-! ## The vote of the resourcequota plugin -/

theorem mapGet_Mask (l : List (String × ℚ)) (names : List String) (k : String) :
    mapGet (Mask l names) k = if k ∈ names then mapGet l k else none := by
  unfold Mask
  induction l with
  | nil => simp [mapGet]
  | cons e l ih =>
    obtain ⟨a, w⟩ := e
    by_cases ha : a ∈ names
    · simp only [List.filter_cons, ha, decide_True, if_true, mapGet]
      by_cases hk : k = a
      · subst hk; simp [ha]
      · simp only [hk, if_false]; exact ih
    · simp only [List.filter_cons, ha, decide_False, mapGet]
      by_cases hk : k = a
      · subst hk
        simp only [if_true, Bool.false_eq_true, if_false]
        rw [ih, if_neg ha, if_neg ha]
      · simp only [hk, if_false, Bool.false_eq_true]; exact ih

theorem mapGet_append {V : Type} (l₁ l₂ : List (String × V)) (k : String) :
    mapGet (l₁ ++ l₂) k = match mapGet l₁ k with
      | some v => some v
      | none => mapGet l₂ k := by
  induction l₁ with
  | nil => simp [mapGet]
  | cons e l ih =>
    obtain ⟨a, w⟩ := e
    by_cases hk : k = a
    · simp [mapGet, hk]
    · simp [mapGet, hk, ih]

theorem mapGet_map_values {V W : Type} (f : String → V → W) (l : List (String × V)) (k : String) :
    mapGet (l.map fun e => (e.1, f e.1 e.2)) k = (mapGet l k).map (f k) := by
  induction l with
  | nil => simp [mapGet]
  | cons e l ih =>
    obtain ⟨a, w⟩ := e
    by_cases hk : k = a
    · simp [mapGet, hk]
    · simp [mapGet, hk, ih]

theorem mapGet_filter_keys {V : Type} (p : String → Bool) (l : List (String × V)) (k : String) :
    mapGet (l.filter fun e => p e.1) k = if p k = true then mapGet l k else none := by
  induction l with
  | nil => simp [mapGet]
  | cons e l ih =>
    obtain ⟨a, w⟩ := e
    by_cases ha : p a = true
    · simp only [List.filter_cons, ha, if_true, mapGet]
      by_cases hk : k = a
      · subst hk; simp [ha]
      · simp only [hk, if_false]; exact ih
    · simp only [List.filter_cons, ha, mapGet]
      by_cases hk : k = a
      · subst hk
        simp only [if_true, Bool.false_eq_true, if_false]
        rw [ih, if_neg ha, if_neg ha]
      · simp only [hk, if_false, Bool.false_eq_true]; exact ih

theorem mapGet_Add (a b : List (String × ℚ)) (k : String) :
    mapGet (Add a b) k = match mapGet a k with
      | some x => some (x + (mapGet b k).getD 0)
      | none => mapGet b k := by
  unfold Add
  rw [mapGet_append, mapGet_map_values (fun k v => v + (mapGet b k).getD 0)]
  cases ha : mapGet a k with
  | some x => simp
  | none =>
    simp only [Option.map_none']
    rw [mapGet_filter_keys (fun s => decide (s ∉ a.map Prod.fst))]
    have := (mapGet_eq_none_iff a k).1 ha
    simp [this]

theorem quotaAllows_false_iff (req : List (String × ℚ)) (q : ResourceQuotaStatus) :
    quotaAllows req q = false ↔
      ∃ e ∈ q.Hard, ∃ r, mapGet req e.1 = some r ∧ (mapGet q.Used e.1).getD 0 + r > e.2 := by
  have key : ∀ e ∈ q.Hard,
      mapGet (Mask (Add q.Used (Mask req (ResourceNames q.Hard)))
        (ResourceNames (Mask req (ResourceNames q.Hard)))) e.1
      = (mapGet req e.1).map fun r => (mapGet q.Used e.1).getD 0 + r := by
    intro e he
    have hk : e.1 ∈ ResourceNames q.Hard := List.mem_map.2 ⟨e, he, rfl⟩
    have hreq : mapGet (Mask req (ResourceNames q.Hard)) e.1 = mapGet req e.1 := by
      rw [mapGet_Mask, if_pos hk]
    rw [mapGet_Mask, mapGet_Add, hreq]
    cases hr : mapGet req e.1 with
    | none =>
      have hnk : e.1 ∉ ResourceNames (Mask req (ResourceNames q.Hard)) :=
        (mapGet_eq_none_iff _ _).1 (by rw [hreq, hr])
      rw [if_neg hnk]; rfl
    | some r =>
      have hin : e.1 ∈ ResourceNames (Mask req (ResourceNames q.Hard)) :=
        mapGet_some_mem_keys _ _ r (by rw [hreq, hr])
      rw [if_pos hin]
      cases hu : mapGet q.Used e.1 with
      | none => simp
      | some u => simp
  unfold quotaAllows LessThanOrEqual
  simp only
  rw [← Bool.not_eq_true, List.isEmpty_iff, List.map_eq_nil_iff, List.filter_eq_nil_iff]
  simp only [not_forall, Classical.not_imp, not_not]
  constructor
  · rintro ⟨e, he, hc⟩
    rw [key e he] at hc
    cases hr : mapGet req e.1 with
    | none => rw [hr] at hc; simp at hc
    | some r =>
      rw [hr] at hc
      simp only [Option.map_some', decide_eq_true_eq] at hc
      exact ⟨e, he, r, hr, hc⟩
  · rintro ⟨e, he, r, hr, hc⟩
    refine ⟨e, he, ?_⟩
    rw [key e he, hr]
    simpa using hc

/-- C32: the resourcequota JobEnqueueableFn returns Permit for a job without MinQuotas;
for a job with MinQuotas whose namespace has an info it returns Reject exactly when some
resource quota of the namespace has a resource named both in its Hard list and in
MinQuotas for which Used + MinQuotas exceeds Hard, and Permit otherwise, in whatever
order the quotas are visited. -/
theorem quota_vote_rejects_exceeding_request (ssn : Session) (job : JobInfo) (pg : PodGroup)
    (info : NamespaceInfo) (hpg : job.PodGroup = some pg)
    (hinfo : mapGet ssn.NamespaceInfo job.Namespace = some info) :
    (pg.MinQuotas = none → JobEnqueueableFn ssn job = some util.Vote.Permit) ∧
    (∀ req, pg.MinQuotas = some req →
      (JobEnqueueableFn ssn job = some util.Vote.Reject ↔
        ∃ kv ∈ info.RQStatus, ∃ e ∈ kv.2.Hard, ∃ r, mapGet req e.1 = some r ∧
          (mapGet kv.2.Used e.1).getD 0 + r > e.2) ∧
      (JobEnqueueableFn ssn job = some util.Vote.Permit ↔
        ¬ ∃ kv ∈ info.RQStatus, ∃ e ∈ kv.2.Hard, ∃ r, mapGet req e.1 = some r ∧
          (mapGet kv.2.Used e.1).getD 0 + r > e.2)) ∧
    (∀ (ssn' : Session) (info' : NamespaceInfo),
      mapGet ssn'.NamespaceInfo job.Namespace = some info' →
      info'.RQStatus.Perm info.RQStatus → JobEnqueueableFn ssn' job = JobEnqueueableFn ssn job) := by
  have hall : ∀ req (l : List (String × ResourceQuotaStatus)),
      (l.all fun kv => quotaAllows req kv.2) = false ↔
        ∃ kv ∈ l, ∃ e ∈ kv.2.Hard, ∃ r, mapGet req e.1 = some r ∧
          (mapGet kv.2.Used e.1).getD 0 + r > e.2 := by
    intro req l
    rw [← Bool.not_eq_true, List.all_eq_true]
    simp only [not_forall, Bool.not_eq_true, Classical.not_imp]
    constructor
    · rintro ⟨kv, hkv, hq⟩
      exact ⟨kv, hkv, (quotaAllows_false_iff req kv.2).1 hq⟩
    · rintro ⟨kv, hkv, hq⟩
      exact ⟨kv, hkv, (quotaAllows_false_iff req kv.2).2 hq⟩
  refine ⟨?_, ?_, ?_⟩
  · intro hm
    simp [JobEnqueueableFn, hpg, hm]
  · intro req hm
    have hfn : JobEnqueueableFn ssn job
        = some (if (info.RQStatus.all fun kv => quotaAllows req kv.2) = true
            then util.Vote.Permit else util.Vote.Reject) := by
      simp [JobEnqueueableFn, hpg, hm, hinfo]
    rw [hfn, ← hall req info.RQStatus]
    cases hb : info.RQStatus.all fun kv => quotaAllows req kv.2 <;> simp
  · intro ssn' info' hinfo' hp
    cases hm : pg.MinQuotas with
    | none => simp [JobEnqueueableFn, hpg, hm]
    | some req =>
      have e1 : (info'.RQStatus.all fun kv => quotaAllows req kv.2)
          = (info.RQStatus.all fun kv => quotaAllows req kv.2) := by
        rw [Bool.eq_iff_iff, List.all_eq_true, List.all_eq_true]
        constructor
        · intro h x hx; exact h x (hp.mem_iff.2 hx)
        · intro h x hx; exact h x (hp.mem_iff.1 hx)
      simp only [JobEnqueueableFn, hpg, hm, hinfo, hinfo', Option.some_bind, Option.map_some']
      rw [e1]

/-- Witness of C32: the quota bounds cpu by 4 with 1 used, the gang asks for 4. -/
theorem quota_vote_rejects_exceeding_request_witness :
    (({ MinQuotas := some [("cpu", 4)] } : PodGroup).MinQuotas = none →
      JobEnqueueableFn quotaSession quotaJob = some util.Vote.Permit) ∧
    (∀ req, ({ MinQuotas := some [("cpu", 4)] } : PodGroup).MinQuotas = some req →
      (JobEnqueueableFn quotaSession quotaJob = some util.Vote.Reject ↔
        ∃ kv ∈ [("heavy", exQuotaHeavy.Status)], ∃ e ∈ kv.2.Hard, ∃ r,
          mapGet req e.1 = some r ∧ (mapGet kv.2.Used e.1).getD 0 + r > e.2) ∧
      (JobEnqueueableFn quotaSession quotaJob = some util.Vote.Permit ↔
        ¬ ∃ kv ∈ [("heavy", exQuotaHeavy.Status)], ∃ e ∈ kv.2.Hard, ∃ r,
          mapGet req e.1 = some r ∧ (mapGet kv.2.Used e.1).getD 0 + r > e.2)) ∧
    (∀ (ssn' : Session) (info' : NamespaceInfo),
      mapGet ssn'.NamespaceInfo quotaJob.Namespace = some info' →
      info'.RQStatus.Perm [("heavy", exQuotaHeavy.Status)] →
      JobEnqueueableFn ssn' quotaJob = JobEnqueueableFn quotaSession quotaJob) :=
  quota_vote_rejects_exceeding_request quotaSession quotaJob { MinQuotas := some [("cpu", 4)] }
    { Name := "ns", Weight := 3, RQStatus := [("heavy", exQuotaHeavy.Status)],
      RQToResource := EmptyResource } rfl (by decide!)

/-- C40, what the code does: for a job with MinQuotas whose namespace has no entry in
the session's NamespaceInfo map the function reads `RQStatus` through the nil pointer the
map returns and does not return; GetWeight and GetResource test their receiver for nil
and return the default weight and the empty resource. -/
theorem missing_namespace_is_dereferenced :
    quotaJob.PodGroup = some { MinQuotas := some [("cpu", 4)] } ∧
    mapGet emptySession.NamespaceInfo quotaJob.Namespace = none ∧
    JobEnqueueableFn emptySession quotaJob = none ∧
    JobEnqueueableFn quotaSession quotaJob = some util.Vote.Reject ∧
    NamespaceInfo.GetWeight none = 1 ∧ NamespaceInfo.GetResource none = EmptyResource := by
  decide!

end resourcequota

namespace state

/-! ## The handlers of the Running, Inqueue and Completing states -/

/-- C33: in the Running state Restart, Abort, Terminate and Complete kill the job and set
the phase to Restarting, Aborting, Terminating and Completing when status.Terminating is
not 0, and to Running, Running, Running and Completed when it is 0; any other action
syncs and sets the phase to Completed when Succeeded + Failed is the job's total of tasks
and to Running otherwise; RetryCount goes up by one (in int32) for Restart with
Terminating not 0 and is kept in every other case, as are the counters.  Scenario S4:
Complete gives Completed with Terminating 0 and Completing with Terminating 1. -/
theorem running_state_mutations (totalTasks : Int) (status : JobStatus) (name : String) :
    ((runningState.Execute totalTasks Action.RestartJobAction).fn status
      = if status.Terminating ≠ 0 then
          { status with Phase := JobPhase.Restarting, RetryCount := int32 (status.RetryCount + 1) }
        else { status with Phase := JobPhase.Running }) ∧
    ((runningState.Execute totalTasks Action.AbortJobAction).fn status
      = { status with Phase := if status.Terminating ≠ 0 then JobPhase.Aborting
                               else JobPhase.Running }) ∧
    ((runningState.Execute totalTasks Action.TerminateJobAction).fn status
      = { status with Phase := if status.Terminating ≠ 0 then JobPhase.Terminating
                               else JobPhase.Running }) ∧
    ((runningState.Execute totalTasks Action.CompleteJobAction).fn status
      = { status with Phase := if status.Terminating ≠ 0 then JobPhase.Completing
                               else JobPhase.Completed }) ∧
    ((runningState.Execute totalTasks Action.SyncJobAction).fn status
      = { status with Phase := if int32 (status.Succeeded + status.Failed) = totalTasks
                               then JobPhase.Completed else JobPhase.Running }) ∧
    ((runningState.Execute totalTasks (Action.other name)).fn status
      = { status with Phase := if int32 (status.Succeeded + status.Failed) = totalTasks
                               then JobPhase.Completed else JobPhase.Running }) ∧
    (runningState.Execute totalTasks Action.RestartJobAction).kills = true ∧
    (runningState.Execute totalTasks Action.AbortJobAction).kills = true ∧
    (runningState.Execute totalTasks Action.TerminateJobAction).kills = true ∧
    (runningState.Execute totalTasks Action.CompleteJobAction).kills = true ∧
    (runningState.Execute totalTasks Action.SyncJobAction).kills = false ∧
    (0 ≤ status.RetryCount → status.RetryCount < 2147483647 →
      int32 (status.RetryCount + 1) = status.RetryCount + 1) ∧
    ((runningState.Execute 3 Action.CompleteJobAction).fn (s4Status 0)).Phase
      = JobPhase.Completed ∧
    ((runningState.Execute 3 Action.CompleteJobAction).fn (s4Status 1)).Phase
      = JobPhase.Completing := by
  refine ⟨?_, ?_, ?_, ?_, ?_, ?_, rfl, rfl, rfl, rfl, rfl, ?_, by decide, by decide⟩
  · simp only [runningState.Execute, Call.fn]
  · simp only [runningState.Execute, Call.fn]; split <;> rfl
  · simp only [runningState.Execute, Call.fn]; split <;> rfl
  · simp only [runningState.Execute, Call.fn]; split <;> rfl
  · simp only [runningState.Execute, Call.fn]; split <;> rfl
  · simp only [runningState.Execute, Call.fn]; split <;> rfl
  · intro h0 h1
    exact int32_eq_self _ (by omega) (by omega)

/-- C34, as the code has it: applying the status mutation of the Running, Inqueue or
Completing handler twice gives the same phase as applying it once, whatever the action,
and the same status for every action but Restart. -/
theorem mutations_idempotent_but_restart (totalTasks minAvailable : Int) (action : Action)
    (status : JobStatus) :
    ((runningState.Execute totalTasks action).fn
        ((runningState.Execute totalTasks action).fn status)).Phase
      = ((runningState.Execute totalTasks action).fn status).Phase ∧
    ((inqueueState.Execute minAvailable action).fn
        ((inqueueState.Execute minAvailable action).fn status)).Phase
      = ((inqueueState.Execute minAvailable action).fn status).Phase ∧
    (completingState.Execute action).fn ((completingState.Execute action).fn status)
      = (completingState.Execute action).fn status ∧
    (action ≠ Action.RestartJobAction →
      (runningState.Execute totalTasks action).fn
          ((runningState.Execute totalTasks action).fn status)
        = (runningState.Execute totalTasks action).fn status ∧
      (inqueueState.Execute minAvailable action).fn
          ((inqueueState.Execute minAvailable action).fn status)
        = (inqueueState.Execute minAvailable action).fn status) := by
  refine ⟨?_, ?_, ?_, ?_⟩
  · cases action <;> simp only [runningState.Execute, Call.fn] <;>
      split <;> simp_all
  · cases action <;> simp only [inqueueState.Execute, Call.fn, UpdateJobPhase] <;>
      (try split) <;> simp_all
  · simp only [completingState.Execute, Call.fn, UpdateJobPhase]
    split <;> simp_all
  · intro hne
    constructor
    · cases action <;> simp only [runningState.Execute, Call.fn] <;>
        (try exact absurd rfl hne) <;> split <;> simp_all
    · cases action <;> simp only [inqueueState.Execute, Call.fn, UpdateJobPhase] <;>
        (try exact absurd rfl hne) <;> (try split) <;> simp_all

/-- Counterexample to C34 as stated: in the Inqueue state the mutation of Restart takes
RetryCount from 0 to 1, and applied again to 2; in the Running state with Terminating 1
it does the same. -/
theorem restart_twice_counts_twice :
    ((inqueueState.Execute 1 Action.RestartJobAction).fn (s4Status 0)).RetryCount = 1 ∧
    ((inqueueState.Execute 1 Action.RestartJobAction).fn
      ((inqueueState.Execute 1 Action.RestartJobAction).fn (s4Status 0))).RetryCount = 2 ∧
    ((runningState.Execute 3 Action.RestartJobAction).fn (s4Status 1)).RetryCount = 1 ∧
    ((runningState.Execute 3 Action.RestartJobAction).fn
      ((runningState.Execute 3 Action.RestartJobAction).fn (s4Status 1))).RetryCount = 2 := by
  decide

/-- C35: in the Inqueue state Restart kills the job with pod retention None, sets the
phase to Restarting and raises RetryCount by one (in int32); Abort, Complete and
Terminate kill with retention Soft and set the phase to Aborting, Completing and
Terminating; any other action kills nothing and sets the phase to Running exactly when
Spec.MinAvailable <= Running + Succeeded + Failed (in int32), leaving the status as it is
otherwise. -/
theorem inqueue_state_responses (minAvailable : Int) (status : JobStatus) (name : String) :
    (inqueueState.Execute minAvailable Action.RestartJobAction).kills = true ∧
    (inqueueState.Execute minAvailable Action.RestartJobAction).retain
      = some PodRetainPhase.PodRetainPhaseNone ∧
    (inqueueState.Execute minAvailable Action.RestartJobAction).fn status
      = { status with Phase := JobPhase.Restarting,
                      RetryCount := int32 (status.RetryCount + 1) } ∧
    (inqueueState.Execute minAvailable Action.AbortJobAction).kills = true ∧
    (inqueueState.Execute minAvailable Action.AbortJobAction).retain
      = some PodRetainPhase.PodRetainPhaseSoft ∧
    (inqueueState.Execute minAvailable Action.AbortJobAction).fn status
      = { status with Phase := JobPhase.Aborting } ∧
    (inqueueState.Execute minAvailable Action.CompleteJobAction).kills = true ∧
    (inqueueState.Execute minAvailable Action.CompleteJobAction).retain
      = some PodRetainPhase.PodRetainPhaseSoft ∧
    (inqueueState.Execute minAvailable Action.CompleteJobAction).fn status
      = { status with Phase := JobPhase.Completing } ∧
    (inqueueState.Execute minAvailable Action.TerminateJobAction).kills = true ∧
    (inqueueState.Execute minAvailable Action.TerminateJobAction).retain
      = some PodRetainPhase.PodRetainPhaseSoft ∧
    (inqueueState.Execute minAvailable Action.TerminateJobAction).fn status
      = { status with Phase := JobPhase.Terminating } ∧
    (inqueueState.Execute minAvailable Action.SyncJobAction).kills = false ∧
    (inqueueState.Execute minAvailable (Action.other name)).kills = false ∧
    (inqueueState.Execute minAvailable Action.SyncJobAction).fn status
      = (if minAvailable ≤ int32 (int32 (status.Running + status.Succeeded) + status.Failed)
         then { status with Phase := JobPhase.Running } else status) ∧
    (inqueueState.Execute minAvailable (Action.other name)).fn status
      = (inqueueState.Execute minAvailable Action.SyncJobAction).fn status ∧
    (0 ≤ status.Running → 0 ≤ status.Succeeded → 0 ≤ status.Failed →
      status.Running + status.Succeeded + status.Failed < 2147483648 →
      int32 (int32 (status.Running + status.Succeeded) + status.Failed)
        = status.Running + status.Succeeded + status.Failed) := by
  refine ⟨rfl, rfl, rfl, rfl, rfl, rfl, rfl, rfl, rfl, rfl, rfl, rfl, rfl, rfl, rfl, rfl, ?_⟩
  intro h1 h2 h3 h4
  rw [int32_add_int32]
  exact int32_eq_self _ (by omega) h4

/-- C36: in the Completing state every action kills the job with pod retention Soft, and
the status mutation sets the phase to Completed when Terminating, Pending and Running are
all 0 and leaves the status as it is when one of them is not 0. -/
theorem completing_state_response (action : Action) (status : JobStatus) :
    (completingState.Execute action).kills = true ∧
    (completingState.Execute action).retain = some PodRetainPhase.PodRetainPhaseSoft ∧
    (status.Terminating = 0 ∧ status.Pending = 0 ∧ status.Running = 0 →
      (completingState.Execute action).fn status = { status with Phase := JobPhase.Completed }) ∧
    (status.Terminating ≠ 0 ∨ status.Pending ≠ 0 ∨ status.Running ≠ 0 →
      (completingState.Execute action).fn status = status) := by
  refine ⟨rfl, rfl, ?_, ?_⟩
  · rintro ⟨h1, h2, h3⟩
    simp [completingState.Execute, Call.fn, UpdateJobPhase, h1, h2, h3]
  · intro h
    simp only [completingState.Execute, Call.fn]
    rw [if_pos h]

end state

namespace proportion

open api api.Resource framework util

/-! ## ReclaimableFn and the queues that are not overused -/

theorem reclaimStep_inv (pp : proportionPlugin) (ssn : Session) (st st' : reclaimState)
    (t : TaskInfo) (h : reclaimStep pp ssn st t = some st') (hi : reclaimInv pp ssn st) :
    reclaimInv pp ssn st' := by
  unfold reclaimStep at h
  cases hj : mapGet ssn.Jobs t.Job with
  | none => simp [hj] at h
  | some job =>
    cases ha : mapGet (pp.queueOpts.getD []) job.Queue with
    | none => simp [hj, ha] at h
    | some attr =>
      simp only [hj, Option.some_bind, ha, Option.map_some', Option.some.injEq] at h
      obtain ⟨hv, hal⟩ := hi
      have hrun : attr.allocated.LessEqualInAllDimension attr.deserved
          DimensionDefaultValue.Zero = true → runningAllocation st job.Queue attr = attr.allocated := by
        intro hle
        unfold runningAllocation
        cases hg : mapGet st.allocations job.Queue with
        | none => rfl
        | some a => exact hal _ _ _ ha hle hg
      have keep : ∀ (x : Resource),
          (attr.allocated.LessEqualInAllDimension attr.deserved DimensionDefaultValue.Zero = true →
            x = attr.allocated) →
          ∀ q attr' a, mapGet (pp.queueOpts.getD []) q = some attr' →
            attr'.allocated.LessEqualInAllDimension attr'.deserved DimensionDefaultValue.Zero = true →
            mapGet (mapSet st.allocations job.Queue x) q = some a → a = attr'.allocated := by
        intro x hx q attr' a hq hle hg
        rw [mapGet_mapSet] at hg
        by_cases hqq : q = job.Queue
        · rw [if_pos hqq] at hg
          rw [hqq, ha] at hq
          cases hq
          cases hg
          exact hx hle
        · rw [if_neg hqq] at hg
          exact hal q attr' a hq hle hg
      by_cases h1 : (runningAllocation st job.Queue attr).LessInAllDimension t.Resreq
          DimensionDefaultValue.Zero = true
      · rw [if_pos h1] at h
        rw [← h]
        exact ⟨hv, keep _ hrun⟩
      · rw [if_neg h1] at h
        by_cases h2 : (runningAllocation st job.Queue attr).LessEqualInAllDimension attr.deserved
            DimensionDefaultValue.Zero = true
        · simp only [h2, Bool.not_true, Bool.false_eq_true, if_false] at h
          rw [← h]
          exact ⟨hv, keep _ hrun⟩
        · simp only [h2, Bool.not_false, if_true] at h
          have hover : attr.allocated.LessEqualInAllDimension attr.deserved
              DimensionDefaultValue.Zero = false := by
            by_contra hc
            have hle : attr.allocated.LessEqualInAllDimension attr.deserved
                DimensionDefaultValue.Zero = true := by simpa using hc
            rw [hrun hle] at h2
            exact h2 hle
          rw [← h]
          constructor
          · intro v hvm
            simp only [List.mem_append, List.mem_singleton] at hvm
            rcases hvm with hvm | hvm
            · exact hv v hvm
            · rw [hvm]; exact ⟨job, attr, hj, ha, hover⟩
          · intro q attr' a hq hle hg
            rw [mapSet_mapSet] at hg
            refine keep ((runningAllocation st job.Queue attr).Sub t.Resreq) ?_ q attr' a hq hle hg
            intro hc
            rw [hover] at hc
            cases hc

theorem reclaimLoop_inv (pp : proportionPlugin) (ssn : Session) (l : List TaskInfo) :
    ∀ st st', reclaimLoop pp ssn l st = some st' → reclaimInv pp ssn st →
      reclaimInv pp ssn st' := by
  induction l with
  | nil =>
    intro st st' h hi
    simp only [reclaimLoop, Option.some.injEq] at h
    rw [← h]; exact hi
  | cons t l ih =>
    intro st st' h hi
    simp only [reclaimLoop] at h
    cases hs : reclaimStep pp ssn st t with
    | none => simp [hs] at h
    | some st2 =>
      simp only [hs, Option.some_bind] at h
      exact ih st2 st' h (reclaimStep_inv pp ssn st st2 t hs hi)

/-- C37: every task the proportion ReclaimableFn returns as a victim belongs to a job of
the session whose queue has attributes with allocated not <= deserved in all dimensions,
a queue OverusedFn reports as overused, whatever the reclaimer and the reclaimees are. -/
theorem reclaim_spares_queues_within_deserved (pp : proportionPlugin) (ssn : Session)
    (reclaimer : TaskInfo) (reclaimees victims : List TaskInfo) (vote : Vote)
    (h : ReclaimableFn pp ssn reclaimer reclaimees = some (victims, vote)) :
    ∀ v ∈ victims, ∃ job attr, mapGet ssn.Jobs v.Job = some job ∧
      mapGet (pp.queueOpts.getD []) job.Queue = some attr ∧
      attr.allocated.LessEqualInAllDimension attr.deserved DimensionDefaultValue.Zero = false ∧
      ∀ queue : QueueInfo, queue.UID = job.Queue → OverusedFn pp queue = some true := by
  unfold ReclaimableFn at h
  cases hl : reclaimLoop pp ssn reclaimees { victims := [], allocations := [] } with
  | none => simp [hl] at h
  | some st' =>
    simp only [hl, Option.map_some', Option.some.injEq, Prod.mk.injEq] at h
    have hinv := reclaimLoop_inv pp ssn reclaimees _ st' hl
      ⟨by simp, by intro q attr a _ _ hg; simp [mapGet] at hg⟩
    intro v hv
    rw [← h.1] at hv
    obtain ⟨job, attr, hj, ha, hover⟩ := hinv.1 v hv
    refine ⟨job, attr, hj, ha, hover, ?_⟩
    intro queue hq
    unfold OverusedFn
    rw [hq, ha]
    simp [hover]

/-- Witness of C37: the queue holds {1000m, 1000} and deserves {900m, 900}; its task is
the victim. -/
theorem reclaim_spares_queues_within_deserved_witness :
    ReclaimableFn reclaimPlugin reclaimSession reclaimTask [reclaimTask] =
        some ([reclaimTask], Vote.Permit) ∧
      ∃ job attr, mapGet reclaimSession.Jobs reclaimTask.Job = some job ∧
        mapGet (reclaimPlugin.queueOpts.getD []) job.Queue = some attr ∧
        attr.allocated.LessEqualInAllDimension attr.deserved DimensionDefaultValue.Zero
          = false ∧
        ∀ queue : QueueInfo, queue.UID = job.Queue →
          OverusedFn reclaimPlugin queue = some true :=
  ⟨by decide!,
    reclaim_spares_queues_within_deserved reclaimPlugin reclaimSession reclaimTask
      [reclaimTask] [reclaimTask] Vote.Permit (by decide!) reclaimTask
      (List.mem_singleton.2 rfl)⟩

end proportion

